import Mathlib

/-!
APEX five-stage pipeline simulator: a shallow embedding of `cpu.c`

Two variants of the same simulator are embedded, each from its own source file:

* `PartA` : `Project 1/partA/cpu.c`, data hazards resolved by a register-valid
  table (a reader waits in Decode until its sources are valid);
* `PartB` : `Project 1/partB/cpu.c`, data hazards resolved by forwarding from the
  later latches (`get_source_values`).

Modelling conventions.

* The opcode strings compared with `strcmp` are the constructors of `Opcode`;
  `Opcode.EMPTY` is the empty string (a zero-filled latch, or the slot of a
  retired HALT).
* C `int` data values are `Int`; every data-path addition, subtraction and
  multiplication is followed by `wrap32` (two's-complement wrap-around).  The
  counters `clock`, `pc += 4`, `ins_completed` and the cycle budget are kept as
  mathematical integers.
* The register file, the valid table and the data memory are total functions
  on `Int`; an index outside the C array simply names a cell outside it.
* `exit(1)` inside `exception_handler` is the value `none` of
  `Option APEX_CPU`.
* Printing (`printf`, `print_stage_content`, `display`) is not modelled, so the
  flags `ENABLE_DEBUG_MESSAGES` and `ENABLE_DISPLAY` are dropped; the global
  `ENABLE_COUNTING` is a field of the simulator record.
* A read of `code_memory` outside the loaded program returns `outside i`, an
  arbitrary instruction record carried by the simulator state.
-/

namespace APEX

/-- The opcode strings of the instruction set, plus `BUBBLE` and the empty string. -/
inductive Opcode where
  | EMPTY
  | MOVC
  | ADD
  | SUB
  | MUL
  | AND
  | OR
  | EXOR
  | LOAD
  | STORE
  | BZ
  | BNZ
  | JUMP
  | HALT
  | BUBBLE
  deriving DecidableEq, Repr

/-- Modelled from the spec: `cpu.h` is not among the sources; an instruction record
carries the fields `cpu.c` reads from `code_memory[i]`. -/
structure APEX_Instruction where
  opcode : Opcode
  rd : Int
  rs1 : Int
  rs2 : Int
  imm : Int
  deriving DecidableEq, Repr

/-- Two's-complement wrap-around of a 32-bit signed `int`. -/
def wrap32 (x : Int) : Int := (x + 2147483648) % 4294967296 - 2147483648

/-- Transcription of `get_code_index`: the difference is taken in `int` (32-bit
wrap-around) and C integer division truncates toward zero. -/
def get_code_index (pc : Int) : Int := Int.tdiv (wrap32 (pc - 4000)) 4

/-- Modelled from the spec: `cpu.h`, which declares the array `data_memory`, is not among
the sources; the data memory has 4096 words, with indices `0..4095`. -/
def DATA_MEMORY_SIZE : Int := 4096

/-- Array store `a[i] = v` on a total function. -/
def write {α : Type} (a : Int → α) (i : Int) (v : α) : Int → α :=
  fun j => if j = i then v else a j

/-- Transcription of `exception_handler`: keys 0 and 1 call `exit(1)`, any other key returns 0. -/
def exception_handler (code : Int) : Option Int :=
  if code = 0 then none else if code = 1 then none else some 0

/-- Values of the storage that `APEX_cpu_init` leaves as `malloc` returned it:
`z_flag` (partA only), `ins_completed`, the data-memory words from 4000 on, and
whatever lies around the `code_memory` array. -/
structure Uninit where
  z_flag : Bool
  ins_completed : Int
  data_tail : Int → Int
  outside : Int → APEX_Instruction

/-- The register-writing opcodes (those for which Writeback stores `buffer` into `regs[rd]`). -/
def Opcode.writes_rd (o : Opcode) : Bool :=
  o = .MOVC || o = .SUB || o = .ADD || o = .AND || o = .OR || o = .EXOR || o = .LOAD || o = .MUL

/-- The opcodes that update the Z flag. -/
def Opcode.sets_z (o : Opcode) : Bool :=
  o = .SUB || o = .ADD || o = .MUL

/-- Modelled from the spec: `cpu.h` is not among the sources; a stage latch carries the
fields `cpu.c` uses.  The field `z_flag` (the Z snapshot of a latch) exists in partB only;
partA never reads or writes it. -/
structure CPU_Stage where
  pc : Int
  opcode : Opcode
  rs1 : Int
  rs2 : Int
  rd : Int
  imm : Int
  rs1_value : Int
  rs2_value : Int
  buffer : Int
  mem_address : Int
  busy : Bool
  stalled : Bool
  z_flag : Bool

/-- Modelled from the spec: `cpu.h` is not among the sources; the simulator record carries
the fields `cpu.c` uses, the five latches `stage[F..WB]` as five fields, the global
`ENABLE_COUNTING`, and `outside` for reads around `code_memory`.  The fields `regs_valid` and
`z_flag_valid` exist in partA only; partB never reads or writes them. -/
structure APEX_CPU where
  clock : Int
  pc : Int
  regs : Int → Int
  regs_valid : Int → Bool
  F : CPU_Stage
  DRF : CPU_Stage
  EX : CPU_Stage
  MEM : CPU_Stage
  WB : CPU_Stage
  code_memory : List APEX_Instruction
  code_memory_size : Int
  data_memory : Int → Int
  ins_completed : Int
  z_flag : Bool
  z_flag_valid : Bool
  ENABLE_COUNTING : Bool
  outside : Int → APEX_Instruction

/-- A latch after `memset(.., 0, ..)`. -/
def zero_stage : CPU_Stage :=
  { pc := 0, opcode := .EMPTY, rs1 := 0, rs2 := 0, rd := 0, imm := 0, rs1_value := 0,
    rs2_value := 0, buffer := 0, mem_address := 0, busy := false, stalled := false,
    z_flag := false }

/-- The read `cpu->code_memory[i]`. -/
def code_at (cpu : APEX_CPU) (i : Int) : APEX_Instruction :=
  if 0 ≤ i ∧ i < cpu.code_memory.length then cpu.code_memory.getD i.toNat (cpu.outside i)
  else cpu.outside i

/-- Outcome of `APEX_cpu_init`: the `NULL` return, a `strcmp` on a null `function` pointer
(no defined outcome in C), or the simulator it built. -/
inductive InitResult where
  | null
  | undefined
  | simulator (cpu : APEX_CPU)

/-- How a call of `APEX_cpu_run` ends: it returns with a final simulator state, the process
exits with status 1 inside `exception_handler`, the Memory stage indexes `data_memory`
outside the array (no defined outcome in C), or the model ran out of fuel. -/
inductive RunResult where
  | returned (cpu : APEX_CPU)
  | exited
  | undefined
  | out_of_fuel

end APEX

namespace PartA
open APEX

/-- The simulator record built by `APEX_cpu_init` (its lines after the null checks) for the
parsed program `code` and the command-line value `cycles`. -/
def initial (code : List APEX_Instruction) (cycles : Int) (u : Uninit) : APEX_CPU :=
  { clock := 1
    pc := 4000
    regs := fun _ => 0
    regs_valid := fun _ => true
    F := zero_stage
    DRF := { zero_stage with busy := true }
    EX := { zero_stage with busy := true }
    MEM := { zero_stage with busy := true }
    WB := { zero_stage with busy := true }
    code_memory := code
    code_memory_size := cycles
    data_memory := fun a => if 0 ≤ a ∧ a < 4000 then 0 else u.data_tail a
    ins_completed := u.ins_completed
    z_flag := u.z_flag
    z_flag_valid := true
    ENABLE_COUNTING := false
    outside := u.outside }

/-- Transcription of `APEX_cpu_init`; `create_code_memory` (the parser, not among the
sources) is a parameter returning `none` for `NULL`; `malloc` is taken to succeed.  After
the guard the function calls `strcmp(function, "simulate")`, whose only effect on the
simulator is the choice of the display flags: with a null `function` the call has no
defined outcome. -/
def APEX_cpu_init (filename function : Option String) (cycles : Int)
    (create_code_memory : Option String → Option (List APEX_Instruction)) (u : Uninit) :
    InitResult :=
  if filename.isNone && function.isNone && cycles == 0 then .null
  else
    match function with
    | none => .undefined
    | some _ =>
      match create_code_memory filename with
      | none => .null
      | some code => .simulator (initial code cycles u)

/-- Transcription of `control_flow`. -/
def control_flow (cpu : APEX_CPU) : APEX_CPU :=
  let stage := cpu.EX
  let difference := wrap32 (stage.buffer - stage.pc)
  let cpu := { cpu with DRF := { cpu.DRF with opcode := .BUBBLE } }
  let cpu := { cpu with DRF := { cpu.DRF with pc := 0 } }
  let cpu := { cpu with F := { cpu.F with opcode := .BUBBLE } }
  let cpu := { cpu with F := { cpu.F with pc := 0 } }
  let cpu := { cpu with F := { cpu.F with stalled := true } }
  let cpu := { cpu with pc := stage.buffer }
  if cpu.ENABLE_COUNTING then
    let cpu :=
      if difference = 4 then { cpu with code_memory_size := cpu.code_memory_size + 2 } else cpu
    let cpu :=
      if difference = 8 then { cpu with code_memory_size := cpu.code_memory_size + 1 } else cpu
    let cpu :=
      if difference > 12 then
        { cpu with code_memory_size := cpu.code_memory_size - Int.tdiv (difference - 12) 4 }
      else cpu
    if stage.imm < 0 then
      { cpu with code_memory_size := cpu.code_memory_size + Int.tdiv (wrap32 |difference|) 4 + 3 }
    else cpu
  else cpu

/-- Transcription of `fetch`. -/
def fetch (cpu : APEX_CPU) : APEX_CPU :=
  if !cpu.F.busy && !cpu.F.stalled then
    let cpu := { cpu with F := { cpu.F with pc := cpu.pc } }
    let current_ins := code_at cpu (get_code_index cpu.pc)
    let cpu := { cpu with F := { cpu.F with opcode := current_ins.opcode } }
    let cpu := { cpu with F := { cpu.F with rd := current_ins.rd } }
    let cpu := { cpu with F := { cpu.F with rs1 := current_ins.rs1 } }
    let cpu := { cpu with F := { cpu.F with rs2 := current_ins.rs2 } }
    let cpu := { cpu with F := { cpu.F with imm := current_ins.imm } }
    let cpu := { cpu with pc := cpu.pc + 4 }
    if !cpu.DRF.stalled then { cpu with DRF := cpu.F }
    else { cpu with F := { cpu.F with stalled := true } }
  else
    let cpu :=
      if cpu.WB.opcode = .HALT then { cpu with code_memory_size := cpu.clock + 1 } else cpu
    let cpu :=
      if cpu.F.opcode = .BUBBLE then { cpu with F := { cpu.F with stalled := false } } else cpu
    if !cpu.DRF.stalled && cpu.DRF.opcode ≠ .BUBBLE then
      let cpu := { cpu with F := { cpu.F with stalled := false } }
      { cpu with DRF := cpu.F }
    else cpu

/-- The two source reads of Decode: `rs1_value = regs[rs1]; rs2_value = regs[rs2]`. -/
def read_rs1_rs2 (cpu : APEX_CPU) : APEX_CPU :=
  let cpu := { cpu with DRF := { cpu.DRF with rs1_value := cpu.regs cpu.DRF.rs1 } }
  { cpu with DRF := { cpu.DRF with rs2_value := cpu.regs cpu.DRF.rs2 } }

/-- The single source read of Decode: `rs1_value = regs[rs1]`. -/
def read_rs1 (cpu : APEX_CPU) : APEX_CPU :=
  { cpu with DRF := { cpu.DRF with rs1_value := cpu.regs cpu.DRF.rs1 } }

/-- The statement `stage->stalled = 1` of Decode. -/
def stall_DRF (cpu : APEX_CPU) : APEX_CPU :=
  { cpu with DRF := { cpu.DRF with stalled := true } }

/-- The statement `cpu->regs_valid[stage->rd] = 0` of Decode. -/
def invalidate_rd (cpu : APEX_CPU) : APEX_CPU :=
  { cpu with regs_valid := write cpu.regs_valid cpu.DRF.rd false }

/-- The statements `stage->stalled = 0; cpu->stage[EX] = cpu->stage[DRF]` of a retried Decode. -/
def promote (cpu : APEX_CPU) : APEX_CPU :=
  let cpu := { cpu with DRF := { cpu.DRF with stalled := false } }
  { cpu with EX := cpu.DRF }

/-- Block of `decode`: "Read data from register file for store". -/
def decode_STORE (cpu : APEX_CPU) : APEX_CPU :=
  if cpu.DRF.opcode = .STORE then
    if cpu.regs_valid cpu.DRF.rs1 && cpu.regs_valid cpu.DRF.rs2 then read_rs1_rs2 cpu
    else stall_DRF cpu
  else cpu

/-- Block of `decode`: "Read data from register file for LOAD". -/
def decode_LOAD (cpu : APEX_CPU) : APEX_CPU :=
  if cpu.DRF.opcode = .LOAD then
    if cpu.regs_valid cpu.DRF.rs1 then invalidate_rd (read_rs1 cpu)
    else stall_DRF cpu
  else cpu

/-- Block of `decode`: "No Register file read needed for MOVC". -/
def decode_MOVC (cpu : APEX_CPU) : APEX_CPU :=
  if cpu.DRF.opcode = .MOVC then invalidate_rd cpu else cpu

/-- Block of `decode`: "Read data from register file for ADD, SUB, AND, OR, EX-OR" (and MUL). -/
def decode_ALU (cpu : APEX_CPU) : APEX_CPU :=
  if cpu.DRF.opcode = .ADD ∨ cpu.DRF.opcode = .SUB ∨ cpu.DRF.opcode = .AND ∨
      cpu.DRF.opcode = .OR ∨ cpu.DRF.opcode = .EXOR ∨ cpu.DRF.opcode = .MUL then
    if cpu.regs_valid cpu.DRF.rs1 && cpu.regs_valid cpu.DRF.rs2 then
      read_rs1_rs2 (invalidate_rd cpu)
    else stall_DRF cpu
  else cpu

/-- Block of `decode`: "Make Z_flag invalid when arithmetic operation comes in". -/
def decode_Z_invalid (cpu : APEX_CPU) : APEX_CPU :=
  if cpu.DRF.opcode = .ADD ∨ cpu.DRF.opcode = .SUB ∨ cpu.DRF.opcode = .MUL then
    { cpu with z_flag_valid := false }
  else cpu

/-- Block of `decode`: "Check whether Z_flag is valid for BZ and BNZ". -/
def decode_BZ_BNZ (cpu : APEX_CPU) : APEX_CPU :=
  if cpu.DRF.opcode = .BZ ∨ cpu.DRF.opcode = .BNZ then
    if !cpu.z_flag_valid then stall_DRF cpu else cpu
  else cpu

/-- Block of `decode`: "Read data from register file for JUMP". -/
def decode_JUMP (cpu : APEX_CPU) : APEX_CPU :=
  if cpu.DRF.opcode = .JUMP then
    if cpu.regs_valid cpu.DRF.rs1 then read_rs1 cpu else stall_DRF cpu
  else cpu

/-- Block of `decode`: "Copy data from decode latch to execute latch if decode stage is not
stalled else transfer bubble". -/
def decode_to_EX (cpu : APEX_CPU) : APEX_CPU :=
  if !cpu.DRF.stalled then { cpu with EX := cpu.DRF }
  else { cpu with EX := { cpu.EX with opcode := .BUBBLE, pc := 0 } }

/-- Block of `decode`: the HALT test that closes the non-stalled branch. -/
def decode_HALT (cpu : APEX_CPU) : APEX_CPU :=
  if cpu.DRF.opcode = .HALT then stall_DRF { cpu with F := { cpu.F with stalled := true } }
  else cpu

/-- Block of the retry branch of `decode`: `if (ENABLE_COUNTING) cpu->code_memory_size++`. -/
def decode_retry_count (cpu : APEX_CPU) : APEX_CPU :=
  if cpu.ENABLE_COUNTING then { cpu with code_memory_size := cpu.code_memory_size + 1 } else cpu

/-- Block of the retry branch of `decode`: ADD, SUB, AND, OR, EX-OR, MUL, STORE. -/
def decode_retry_ALU (cpu : APEX_CPU) : APEX_CPU :=
  if cpu.DRF.opcode = .ADD ∨ cpu.DRF.opcode = .SUB ∨ cpu.DRF.opcode = .AND ∨
      cpu.DRF.opcode = .OR ∨ cpu.DRF.opcode = .EXOR ∨ cpu.DRF.opcode = .MUL ∨
      cpu.DRF.opcode = .STORE then
    if cpu.regs_valid cpu.DRF.rs1 && cpu.regs_valid cpu.DRF.rs2 then
      promote (read_rs1_rs2 (if cpu.DRF.opcode ≠ .STORE then invalidate_rd cpu else cpu))
    else cpu
  else cpu

/-- Block of the retry branch of `decode`: LOAD. -/
def decode_retry_LOAD (cpu : APEX_CPU) : APEX_CPU :=
  if cpu.DRF.opcode = .LOAD then
    if cpu.regs_valid cpu.DRF.rs1 then promote (read_rs1 (invalidate_rd cpu)) else cpu
  else cpu

/-- Block of the retry branch of `decode`: JUMP. -/
def decode_retry_JUMP (cpu : APEX_CPU) : APEX_CPU :=
  if cpu.DRF.opcode = .JUMP then
    if cpu.regs_valid cpu.DRF.rs1 then promote (read_rs1 cpu) else cpu
  else cpu

/-- Block of the retry branch of `decode`: BZ, BNZ. -/
def decode_retry_BZ_BNZ (cpu : APEX_CPU) : APEX_CPU :=
  if cpu.DRF.opcode = .BZ ∨ cpu.DRF.opcode = .BNZ then
    if cpu.z_flag_valid then promote cpu else cpu
  else cpu

/-- Transcription of `decode`: its `if` blocks, in source order. -/
def decode (cpu : APEX_CPU) : APEX_CPU :=
  if !cpu.DRF.busy && !cpu.DRF.stalled then
    decode_HALT (decode_to_EX (decode_JUMP (decode_BZ_BNZ (decode_Z_invalid (decode_ALU
      (decode_MOVC (decode_LOAD (decode_STORE cpu))))))))
  else
    if cpu.DRF.stalled && cpu.DRF.opcode ≠ .HALT && !cpu.EX.stalled then
      decode_retry_BZ_BNZ (decode_retry_JUMP (decode_retry_LOAD (decode_retry_ALU
        (decode_retry_count cpu))))
    else cpu

/-- Block of `execute`: STORE, with the address-range test and its fatal exception. -/
def execute_STORE (cpu : APEX_CPU) : Option APEX_CPU :=
  if cpu.EX.opcode = .STORE then
    let cpu :=
      { cpu with EX := { cpu.EX with mem_address := wrap32 (cpu.EX.rs2_value + cpu.EX.imm) } }
    if cpu.EX.mem_address > 4096 ∨ cpu.EX.mem_address < 0 then
      (exception_handler 0).map (fun _ => cpu)
    else some cpu
  else some cpu

/-- Block of `execute`: LOAD, with the address-range test and its fatal exception. -/
def execute_LOAD (cpu : APEX_CPU) : Option APEX_CPU :=
  if cpu.EX.opcode = .LOAD then
    let cpu :=
      { cpu with EX := { cpu.EX with mem_address := wrap32 (cpu.EX.rs1_value + cpu.EX.imm) } }
    if cpu.EX.mem_address > 4096 ∨ cpu.EX.mem_address < 0 then
      (exception_handler 0).map (fun _ => cpu)
    else some cpu
  else some cpu

/-- The statement `stage->buffer = v` of Execute. -/
def set_buffer (cpu : APEX_CPU) (v : Int) : APEX_CPU :=
  { cpu with EX := { cpu.EX with buffer := v } }

/-- Block of `execute`: MOVC. -/
def execute_MOVC (cpu : APEX_CPU) : APEX_CPU :=
  if cpu.EX.opcode = .MOVC then set_buffer cpu (cpu.EX.imm + 0) else cpu

/-- Block of `execute`: ADD. -/
def execute_ADD (cpu : APEX_CPU) : APEX_CPU :=
  if cpu.EX.opcode = .ADD then set_buffer cpu (wrap32 (cpu.EX.rs1_value + cpu.EX.rs2_value))
  else cpu

/-- Block of `execute`: SUB. -/
def execute_SUB (cpu : APEX_CPU) : APEX_CPU :=
  if cpu.EX.opcode = .SUB then set_buffer cpu (wrap32 (cpu.EX.rs1_value - cpu.EX.rs2_value))
  else cpu

/-- Block of `execute`: "MUL - stall the stage for one cycle". -/
def execute_MUL (cpu : APEX_CPU) : APEX_CPU :=
  if cpu.EX.opcode = .MUL then
    let cpu := set_buffer cpu (wrap32 (cpu.EX.rs1_value * cpu.EX.rs2_value))
    { cpu with EX := { cpu.EX with stalled := true } }
  else cpu

/-- Block of `execute`: AND. -/
def execute_AND (cpu : APEX_CPU) : APEX_CPU :=
  if cpu.EX.opcode = .AND then set_buffer cpu (Int.land cpu.EX.rs1_value cpu.EX.rs2_value)
  else cpu

/-- Block of `execute`: OR. -/
def execute_OR (cpu : APEX_CPU) : APEX_CPU :=
  if cpu.EX.opcode = .OR then set_buffer cpu (Int.lor cpu.EX.rs1_value cpu.EX.rs2_value)
  else cpu

/-- Block of `execute`: EX-OR. -/
def execute_EXOR (cpu : APEX_CPU) : APEX_CPU :=
  if cpu.EX.opcode = .EXOR then set_buffer cpu (Int.xor cpu.EX.rs1_value cpu.EX.rs2_value)
  else cpu

/-- Block of `execute`: JUMP. -/
def execute_JUMP (cpu : APEX_CPU) : APEX_CPU :=
  if cpu.EX.opcode = .JUMP then
    control_flow (set_buffer cpu (wrap32 (cpu.EX.rs1_value + cpu.EX.imm)))
  else cpu

/-- Block of `execute`: BNZ, tested on the architectural `cpu->z_flag`. -/
def execute_BNZ (cpu : APEX_CPU) : APEX_CPU :=
  if cpu.EX.opcode = .BNZ then
    if !cpu.z_flag then control_flow (set_buffer cpu (wrap32 (cpu.EX.pc + cpu.EX.imm)))
    else cpu
  else cpu

/-- Block of `execute`: BZ, tested on the architectural `cpu->z_flag`. -/
def execute_BZ (cpu : APEX_CPU) : APEX_CPU :=
  if cpu.EX.opcode = .BZ then
    if cpu.z_flag then control_flow (set_buffer cpu (wrap32 (cpu.EX.pc + cpu.EX.imm)))
    else cpu
  else cpu

/-- Block of `execute`: "Copy data from Execute latch to Memory latch" or, when stalled,
stall DRF and put a BUBBLE in MEM. -/
def execute_to_MEM (cpu : APEX_CPU) : APEX_CPU :=
  if !cpu.EX.stalled then { cpu with MEM := cpu.EX }
  else
    { cpu with DRF := { cpu.DRF with stalled := true },
               MEM := { cpu.MEM with opcode := .BUBBLE, pc := 0 } }

/-- Block of `execute`: the HALT test that closes the non-stalled branch. -/
def execute_HALT (cpu : APEX_CPU) : APEX_CPU :=
  if cpu.EX.opcode = .HALT then { cpu with EX := { cpu.EX with stalled := true } } else cpu

/-- Block of `execute`: the second cycle of a MUL (the stalled branch). -/
def execute_MUL_resume (cpu : APEX_CPU) : APEX_CPU :=
  if cpu.EX.stalled && cpu.EX.opcode = .MUL then
    let cpu :=
      if cpu.ENABLE_COUNTING then { cpu with code_memory_size := cpu.code_memory_size + 1 }
      else cpu
    let cpu := { cpu with EX := { cpu.EX with stalled := false } }
    let cpu := { cpu with DRF := { cpu.DRF with stalled := false } }
    { cpu with MEM := cpu.EX }
  else cpu

/-- The `if` blocks of the non-stalled branch of `execute` from MOVC on, in source order. -/
def execute_from_MOVC (cpu : APEX_CPU) : APEX_CPU :=
  execute_HALT (execute_to_MEM (execute_BZ (execute_BNZ (execute_JUMP (execute_EXOR
    (execute_OR (execute_AND (execute_MUL (execute_SUB (execute_ADD (execute_MOVC cpu)))))))))))

/-- Transcription of `execute`: the STORE and LOAD blocks, which may `exit(1)` (`none`), then
the remaining blocks; in the stalled branch, the second cycle of a MUL. -/
def execute (cpu : APEX_CPU) : Option APEX_CPU :=
  if !cpu.EX.busy && !cpu.EX.stalled then
    ((execute_STORE cpu).bind execute_LOAD).map execute_from_MOVC
  else some (execute_MUL_resume cpu)

/-- Block of `memory`: STORE.  The array access `cpu->data_memory[stage->mem_address]` has a
defined outcome only for an index inside the array; `none` otherwise. -/
def memory_STORE (cpu : APEX_CPU) : Option APEX_CPU :=
  if cpu.MEM.opcode = .STORE then
    if 0 ≤ cpu.MEM.mem_address ∧ cpu.MEM.mem_address < DATA_MEMORY_SIZE then
      some { cpu with
             data_memory := write cpu.data_memory cpu.MEM.mem_address cpu.MEM.rs1_value }
    else none
  else some cpu

/-- Block of `memory`: LOAD.  The array access has a defined outcome only for an index
inside the array; `none` otherwise. -/
def memory_LOAD (cpu : APEX_CPU) : Option APEX_CPU :=
  if cpu.MEM.opcode = .LOAD then
    if 0 ≤ cpu.MEM.mem_address ∧ cpu.MEM.mem_address < DATA_MEMORY_SIZE then
      some { cpu with MEM := { cpu.MEM with buffer := cpu.data_memory cpu.MEM.mem_address } }
    else none
  else some cpu

/-- Block of `memory`: the HALT test that closes the stage. -/
def memory_HALT (cpu : APEX_CPU) : APEX_CPU :=
  if cpu.MEM.opcode = .HALT then { cpu with MEM := { cpu.MEM with stalled := true } } else cpu

/-- Transcription of `memory`; `none` when the STORE or LOAD block indexes `data_memory`
outside the array (no defined outcome in C). -/
def memory (cpu : APEX_CPU) : Option APEX_CPU :=
  if !cpu.MEM.busy && !cpu.MEM.stalled then
    ((memory_STORE cpu).bind memory_LOAD).map fun cpu =>
      memory_HALT { cpu with WB := cpu.MEM }
  else some cpu

/-- The no-shadowing test of `writeback` against one later latch: the latch has another `rd`,
or its opcode is STORE, BZ, BNZ, JUMP or BUBBLE. -/
def no_shadow (rd : Int) (later : CPU_Stage) : Bool :=
  rd ≠ later.rd || later.opcode = .STORE || later.opcode = .BZ || later.opcode = .BNZ ||
    later.opcode = .JUMP || later.opcode = .BUBBLE

/-- Block of `writeback`: "Update register file", with the valid-bit test. -/
def writeback_regs (cpu : APEX_CPU) : APEX_CPU :=
  if cpu.WB.opcode = .MOVC ∨ cpu.WB.opcode = .SUB ∨ cpu.WB.opcode = .ADD ∨
      cpu.WB.opcode = .AND ∨ cpu.WB.opcode = .OR ∨ cpu.WB.opcode = .EXOR ∨
      cpu.WB.opcode = .LOAD ∨ cpu.WB.opcode = .MUL then
    let cpu := { cpu with regs := write cpu.regs cpu.WB.rd cpu.WB.buffer }
    if no_shadow cpu.WB.rd cpu.MEM && no_shadow cpu.WB.rd cpu.EX then
      { cpu with regs_valid := write cpu.regs_valid cpu.WB.rd true }
    else cpu
  else cpu

/-- Block of `writeback`: "Update Z-flag". -/
def writeback_Z (cpu : APEX_CPU) : APEX_CPU :=
  if cpu.WB.opcode = .SUB ∨ cpu.WB.opcode = .ADD ∨ cpu.WB.opcode = .MUL then
    if cpu.MEM.opcode ≠ .ADD ∧ cpu.MEM.opcode ≠ .SUB ∧ cpu.MEM.opcode ≠ .MUL ∧
        cpu.EX.opcode ≠ .ADD ∧ cpu.EX.opcode ≠ .SUB ∧ cpu.EX.opcode ≠ .MUL then
      let cpu := { cpu with z_flag_valid := true }
      if cpu.WB.buffer = 0 then { cpu with z_flag := true } else { cpu with z_flag := false }
    else cpu
  else cpu

/-- Block of `writeback`: the HALT test that clears the opcode slot. -/
def writeback_HALT (cpu : APEX_CPU) : APEX_CPU :=
  if cpu.WB.opcode = .HALT then { cpu with WB := { cpu.WB with opcode := .EMPTY } } else cpu

/-- Transcription of `writeback`. -/
def writeback (cpu : APEX_CPU) : APEX_CPU :=
  if !cpu.WB.busy && !cpu.WB.stalled then
    let cpu := writeback_Z (writeback_regs cpu)
    writeback_HALT { cpu with ins_completed := cpu.ins_completed + 1 }
  else cpu

/-- One iteration of the loop of `APEX_cpu_run`: the five stages in reverse order, then
`cpu->clock++`; `none` when the Memory stage indexes `data_memory` outside the array or
Execute calls `exit(1)`. -/
def cycle (cpu : APEX_CPU) : Option APEX_CPU :=
  ((memory (writeback cpu)).bind execute).map fun cpu =>
    let cpu := fetch (decode cpu)
    { cpu with clock := cpu.clock + 1 }

/-- Transcription of `APEX_cpu_run`: the `while` loop, bounded by `fuel` iterations. -/
def APEX_cpu_run : Nat → APEX_CPU → RunResult
  | 0, cpu =>
    if cpu.clock ≤ cpu.code_memory_size then
      if cpu.ENABLE_COUNTING && cpu.ins_completed == cpu.code_memory_size then .returned cpu
      else .out_of_fuel
    else .returned cpu
  | fuel + 1, cpu =>
    if cpu.clock ≤ cpu.code_memory_size then
      if cpu.ENABLE_COUNTING && cpu.ins_completed == cpu.code_memory_size then .returned cpu
      else
        match cycle cpu with
        | none => if (memory (writeback cpu)).isNone then .undefined else .exited
        | some cpu => APEX_cpu_run fuel cpu
    else .returned cpu

end PartA

namespace PartB
open APEX

/-- The simulator record built by `APEX_cpu_init` (its lines after the null checks) for the
parsed program `code` and the command-line value `cycles`. -/
def initial (code : List APEX_Instruction) (cycles : Int) (u : Uninit) : APEX_CPU :=
  { clock := 1
    pc := 4000
    regs := fun _ => 0
    regs_valid := fun _ => true
    F := zero_stage
    DRF := { zero_stage with busy := true }
    EX := { zero_stage with busy := true }
    MEM := { zero_stage with busy := true }
    WB := { zero_stage with busy := true }
    code_memory := code
    code_memory_size := cycles
    data_memory := fun a => if 0 ≤ a ∧ a < 4000 then 0 else u.data_tail a
    ins_completed := u.ins_completed
    z_flag := false
    z_flag_valid := true
    ENABLE_COUNTING := false
    outside := u.outside }

/-- Transcription of `APEX_cpu_init`; `create_code_memory` (the parser, not among the
sources) is a parameter returning `none` for `NULL`; `malloc` is taken to succeed.  After
the guard the function calls `strcmp(function, "simulate")`, whose only effect on the
simulator is the choice of the display flags: with a null `function` the call has no
defined outcome. -/
def APEX_cpu_init (filename function : Option String) (cycles : Int)
    (create_code_memory : Option String → Option (List APEX_Instruction)) (u : Uninit) :
    InitResult :=
  if filename.isNone && function.isNone && cycles == 0 then .null
  else
    match function with
    | none => .undefined
    | some _ =>
      match create_code_memory filename with
      | none => .null
      | some code => .simulator (initial code cycles u)

/-- Transcription of `control_flow`. -/
def control_flow (cpu : APEX_CPU) : APEX_CPU :=
  let stage := cpu.EX
  let difference := wrap32 (stage.buffer - stage.pc)
  let cpu := { cpu with DRF := { cpu.DRF with opcode := .BUBBLE } }
  let cpu := { cpu with DRF := { cpu.DRF with pc := 0 } }
  let cpu := { cpu with F := { cpu.F with opcode := .BUBBLE } }
  let cpu := { cpu with F := { cpu.F with pc := 0 } }
  let cpu := { cpu with F := { cpu.F with stalled := true } }
  let cpu := { cpu with pc := stage.buffer }
  if cpu.ENABLE_COUNTING then
    let cpu :=
      if difference = 4 then { cpu with code_memory_size := cpu.code_memory_size + 2 } else cpu
    let cpu :=
      if difference = 8 then { cpu with code_memory_size := cpu.code_memory_size + 1 } else cpu
    let cpu :=
      if difference > 12 then
        { cpu with code_memory_size := cpu.code_memory_size - Int.tdiv (difference - 12) 4 }
      else cpu
    if stage.imm < 0 then
      { cpu with code_memory_size := cpu.code_memory_size + Int.tdiv (wrap32 |difference|) 4 + 3 }
    else cpu
  else cpu

/-- Transcription of `fetch`. -/
def fetch (cpu : APEX_CPU) : APEX_CPU :=
  if !cpu.F.busy && !cpu.F.stalled then
    let cpu := { cpu with F := { cpu.F with pc := cpu.pc } }
    let current_ins := code_at cpu (get_code_index cpu.pc)
    let cpu := { cpu with F := { cpu.F with opcode := current_ins.opcode } }
    let cpu := { cpu with F := { cpu.F with rd := current_ins.rd } }
    let cpu := { cpu with F := { cpu.F with rs1 := current_ins.rs1 } }
    let cpu := { cpu with F := { cpu.F with rs2 := current_ins.rs2 } }
    let cpu := { cpu with F := { cpu.F with imm := current_ins.imm } }
    let cpu := { cpu with F := { cpu.F with z_flag := cpu.z_flag } }
    let cpu := { cpu with pc := cpu.pc + 4 }
    if !cpu.DRF.stalled then { cpu with DRF := cpu.F }
    else { cpu with F := { cpu.F with stalled := true } }
  else
    let cpu :=
      if cpu.WB.opcode = .HALT then { cpu with code_memory_size := cpu.clock + 1 } else cpu
    let cpu :=
      if cpu.F.opcode = .BUBBLE then { cpu with F := { cpu.F with stalled := false } } else cpu
    if !cpu.DRF.stalled && cpu.DRF.opcode ≠ .BUBBLE then
      let cpu := { cpu with F := { cpu.F with stalled := false } }
      { cpu with DRF := cpu.F }
    else cpu

/-- The writer test of `get_source_values` on one later latch: `src` is that latch's `rd`
and its opcode is none of BUBBLE, STORE, BZ, BNZ, JUMP. -/
def src_in (src : Int) (later : CPU_Stage) : Bool :=
  src = later.rd && later.opcode ≠ .BUBBLE && later.opcode ≠ .STORE && later.opcode ≠ .BZ &&
    later.opcode ≠ .BNZ && later.opcode ≠ .JUMP

/-- Block of `get_source_values`: is rs1 the `rd` of the EX latch?  The second component is
the local `rs1_found`. -/
def rs1_from_EX (cpu : APEX_CPU) : APEX_CPU × Bool :=
  if src_in cpu.DRF.rs1 cpu.EX then
    if cpu.EX.opcode ≠ .LOAD then
      ({ cpu with DRF := { cpu.DRF with rs1_value := cpu.EX.buffer } }, true)
    else ({ cpu with DRF := { cpu.DRF with stalled := true } }, true)
  else (cpu, false)

/-- Block of `get_source_values`: is rs1 the `rd` of the WB latch? -/
def rs1_from_WB (p : APEX_CPU × Bool) : APEX_CPU × Bool :=
  if !p.2 && src_in p.1.DRF.rs1 p.1.WB then
    ({ p.1 with DRF := { p.1.DRF with rs1_value := p.1.WB.buffer } }, true)
  else p

/-- Block of `get_source_values`: otherwise rs1 is read from the register file. -/
def rs1_from_RF (p : APEX_CPU × Bool) : APEX_CPU :=
  if !p.2 then { p.1 with DRF := { p.1.DRF with rs1_value := p.1.regs p.1.DRF.rs1 } }
  else p.1

/-- Block of `get_source_values`: is rs2 the `rd` of the EX latch?  The second component is
the local `rs2_found`. -/
def rs2_from_EX (cpu : APEX_CPU) : APEX_CPU × Bool :=
  if src_in cpu.DRF.rs2 cpu.EX then
    if cpu.EX.opcode ≠ .LOAD then
      ({ cpu with DRF := { cpu.DRF with rs2_value := cpu.EX.buffer } }, true)
    else ({ cpu with DRF := { cpu.DRF with stalled := true } }, true)
  else (cpu, false)

/-- Block of `get_source_values`: is rs2 the `rd` of the WB latch? -/
def rs2_from_WB (p : APEX_CPU × Bool) : APEX_CPU × Bool :=
  if !p.2 && src_in p.1.DRF.rs2 p.1.WB then
    ({ p.1 with DRF := { p.1.DRF with rs2_value := p.1.WB.buffer } }, true)
  else p

/-- Block of `get_source_values`: otherwise rs2 is read from the register file. -/
def rs2_from_RF (p : APEX_CPU × Bool) : APEX_CPU :=
  if !p.2 then { p.1 with DRF := { p.1.DRF with rs2_value := p.1.regs p.1.DRF.rs2 } }
  else p.1

/-- Transcription of `get_source_values`. -/
def get_source_values (cpu : APEX_CPU) (rs2_exist : Bool) : APEX_CPU :=
  let cpu := rs1_from_RF (rs1_from_WB (rs1_from_EX cpu))
  if rs2_exist then rs2_from_RF (rs2_from_WB (rs2_from_EX cpu)) else cpu

/-- The statements `stage->stalled = 0; cpu->stage[EX] = cpu->stage[DRF]` of a retried Decode. -/
def promote (cpu : APEX_CPU) : APEX_CPU :=
  let cpu := { cpu with DRF := { cpu.DRF with stalled := false } }
  { cpu with EX := cpu.DRF }

/-- Block of `decode`: "Read data from register file for store". -/
def decode_STORE (cpu : APEX_CPU) : APEX_CPU :=
  if cpu.DRF.opcode = .STORE then get_source_values cpu true else cpu

/-- Block of `decode`: "Read data from register file for LOAD". -/
def decode_LOAD (cpu : APEX_CPU) : APEX_CPU :=
  if cpu.DRF.opcode = .LOAD then get_source_values cpu false else cpu

/-- Block of `decode`: "Read data from register file for ADD, SUB, AND, OR, EX-OR, MUL". -/
def decode_ALU (cpu : APEX_CPU) : APEX_CPU :=
  if cpu.DRF.opcode = .ADD ∨ cpu.DRF.opcode = .SUB ∨ cpu.DRF.opcode = .AND ∨
      cpu.DRF.opcode = .OR ∨ cpu.DRF.opcode = .EXOR ∨ cpu.DRF.opcode = .MUL then
    get_source_values cpu true
  else cpu

/-- Block of `decode`: BZ and BNZ take their Z snapshot from EX, else from WB (else keep the
one taken at Fetch). -/
def decode_BZ_BNZ (cpu : APEX_CPU) : APEX_CPU :=
  if cpu.DRF.opcode = .BZ ∨ cpu.DRF.opcode = .BNZ then
    if cpu.EX.opcode = .ADD ∨ cpu.EX.opcode = .SUB ∨ cpu.EX.opcode = .MUL then
      if cpu.EX.buffer = 0 then { cpu with DRF := { cpu.DRF with z_flag := true } }
      else { cpu with DRF := { cpu.DRF with z_flag := false } }
    else if cpu.WB.opcode = .ADD ∨ cpu.WB.opcode = .SUB ∨ cpu.WB.opcode = .MUL then
      if cpu.WB.buffer = 0 then { cpu with DRF := { cpu.DRF with z_flag := true } }
      else { cpu with DRF := { cpu.DRF with z_flag := false } }
    else cpu
  else cpu

/-- Block of `decode`: "Read data from register file for JUMP". -/
def decode_JUMP (cpu : APEX_CPU) : APEX_CPU :=
  if cpu.DRF.opcode = .JUMP then get_source_values cpu false else cpu

/-- Block of `decode`: "Copy data from decode latch to execute latch if decode stage is not
stalled else transfer bubble". -/
def decode_to_EX (cpu : APEX_CPU) : APEX_CPU :=
  if !cpu.DRF.stalled then { cpu with EX := cpu.DRF }
  else { cpu with EX := { cpu.EX with opcode := .BUBBLE, pc := 0 } }

/-- Block of `decode`: a HALT stalls Fetch and Decode. -/
def decode_HALT (cpu : APEX_CPU) : APEX_CPU :=
  if cpu.DRF.opcode = .HALT then
    { cpu with F := { cpu.F with stalled := true }, DRF := { cpu.DRF with stalled := true } }
  else cpu

/-- Block of the retry branch of `decode`: `if (ENABLE_COUNTING) cpu->code_memory_size++`. -/
def decode_retry_count (cpu : APEX_CPU) : APEX_CPU :=
  if cpu.ENABLE_COUNTING then { cpu with code_memory_size := cpu.code_memory_size + 1 } else cpu

/-- Block of the retry branch of `decode`: ADD, SUB, AND, OR, EX-OR, MUL. -/
def decode_retry_ALU (cpu : APEX_CPU) : APEX_CPU :=
  if cpu.DRF.opcode = .ADD ∨ cpu.DRF.opcode = .SUB ∨ cpu.DRF.opcode = .AND ∨
      cpu.DRF.opcode = .OR ∨ cpu.DRF.opcode = .EXOR ∨ cpu.DRF.opcode = .MUL then
    promote (get_source_values cpu true)
  else cpu

/-- Block of the retry branch of `decode`: LOAD. -/
def decode_retry_LOAD (cpu : APEX_CPU) : APEX_CPU :=
  if cpu.DRF.opcode = .LOAD then promote (get_source_values cpu false) else cpu

/-- Block of the retry branch of `decode`: JUMP. -/
def decode_retry_JUMP (cpu : APEX_CPU) : APEX_CPU :=
  if cpu.DRF.opcode = .JUMP then promote (get_source_values cpu false) else cpu

/-- Block of the retry branch of `decode`: STORE. -/
def decode_retry_STORE (cpu : APEX_CPU) : APEX_CPU :=
  if cpu.DRF.opcode = .STORE then promote (get_source_values cpu true) else cpu

/-- Transcription of `decode`: its `if` blocks, in source order (the MOVC block is empty). -/
def decode (cpu : APEX_CPU) : APEX_CPU :=
  if !cpu.DRF.busy && !cpu.DRF.stalled then
    decode_HALT (decode_to_EX (decode_JUMP (decode_BZ_BNZ (decode_ALU (decode_LOAD
      (decode_STORE cpu))))))
  else
    if cpu.DRF.stalled && cpu.DRF.opcode ≠ .HALT && !cpu.EX.stalled then
      decode_retry_STORE (decode_retry_JUMP (decode_retry_LOAD (decode_retry_ALU
        (decode_retry_count cpu))))
    else cpu

/-- Block of `execute`: STORE, with the address-range test and its fatal exception. -/
def execute_STORE (cpu : APEX_CPU) : Option APEX_CPU :=
  if cpu.EX.opcode = .STORE then
    let cpu :=
      { cpu with EX := { cpu.EX with mem_address := wrap32 (cpu.EX.rs2_value + cpu.EX.imm) } }
    if cpu.EX.mem_address > 4096 ∨ cpu.EX.mem_address < 0 then
      (exception_handler 0).map (fun _ => cpu)
    else some cpu
  else some cpu

/-- Block of `execute`: LOAD, with the address-range test and its fatal exception. -/
def execute_LOAD (cpu : APEX_CPU) : Option APEX_CPU :=
  if cpu.EX.opcode = .LOAD then
    let cpu :=
      { cpu with EX := { cpu.EX with mem_address := wrap32 (cpu.EX.rs1_value + cpu.EX.imm) } }
    if cpu.EX.mem_address > 4096 ∨ cpu.EX.mem_address < 0 then
      (exception_handler 0).map (fun _ => cpu)
    else some cpu
  else some cpu

/-- The statement `stage->buffer = v` of Execute. -/
def set_buffer (cpu : APEX_CPU) (v : Int) : APEX_CPU :=
  { cpu with EX := { cpu.EX with buffer := v } }

/-- Block of `execute`: MOVC. -/
def execute_MOVC (cpu : APEX_CPU) : APEX_CPU :=
  if cpu.EX.opcode = .MOVC then set_buffer cpu (cpu.EX.imm + 0) else cpu

/-- Block of `execute`: ADD. -/
def execute_ADD (cpu : APEX_CPU) : APEX_CPU :=
  if cpu.EX.opcode = .ADD then set_buffer cpu (wrap32 (cpu.EX.rs1_value + cpu.EX.rs2_value))
  else cpu

/-- Block of `execute`: SUB. -/
def execute_SUB (cpu : APEX_CPU) : APEX_CPU :=
  if cpu.EX.opcode = .SUB then set_buffer cpu (wrap32 (cpu.EX.rs1_value - cpu.EX.rs2_value))
  else cpu

/-- Block of `execute`: "MUL - stall the stage for one cycle". -/
def execute_MUL (cpu : APEX_CPU) : APEX_CPU :=
  if cpu.EX.opcode = .MUL then
    let cpu := set_buffer cpu (wrap32 (cpu.EX.rs1_value * cpu.EX.rs2_value))
    { cpu with EX := { cpu.EX with stalled := true } }
  else cpu

/-- Block of `execute`: AND. -/
def execute_AND (cpu : APEX_CPU) : APEX_CPU :=
  if cpu.EX.opcode = .AND then set_buffer cpu (Int.land cpu.EX.rs1_value cpu.EX.rs2_value)
  else cpu

/-- Block of `execute`: OR. -/
def execute_OR (cpu : APEX_CPU) : APEX_CPU :=
  if cpu.EX.opcode = .OR then set_buffer cpu (Int.lor cpu.EX.rs1_value cpu.EX.rs2_value)
  else cpu

/-- Block of `execute`: EX-OR. -/
def execute_EXOR (cpu : APEX_CPU) : APEX_CPU :=
  if cpu.EX.opcode = .EXOR then set_buffer cpu (Int.xor cpu.EX.rs1_value cpu.EX.rs2_value)
  else cpu

/-- Block of `execute`: JUMP. -/
def execute_JUMP (cpu : APEX_CPU) : APEX_CPU :=
  if cpu.EX.opcode = .JUMP then
    control_flow (set_buffer cpu (wrap32 (cpu.EX.rs1_value + cpu.EX.imm)))
  else cpu

/-- Block of `execute`: BNZ, tested on the latch's own `stage->z_flag`. -/
def execute_BNZ (cpu : APEX_CPU) : APEX_CPU :=
  if cpu.EX.opcode = .BNZ then
    if !cpu.EX.z_flag then control_flow (set_buffer cpu (wrap32 (cpu.EX.pc + cpu.EX.imm)))
    else cpu
  else cpu

/-- Block of `execute`: BZ, tested on the latch's own `stage->z_flag`. -/
def execute_BZ (cpu : APEX_CPU) : APEX_CPU :=
  if cpu.EX.opcode = .BZ then
    if cpu.EX.z_flag then control_flow (set_buffer cpu (wrap32 (cpu.EX.pc + cpu.EX.imm)))
    else cpu
  else cpu

/-- Block of `execute`: "Copy data from Execute latch to Memory latch" or, when stalled,
stall DRF and put a BUBBLE in MEM. -/
def execute_to_MEM (cpu : APEX_CPU) : APEX_CPU :=
  if !cpu.EX.stalled then { cpu with MEM := cpu.EX }
  else
    { cpu with DRF := { cpu.DRF with stalled := true },
               MEM := { cpu.MEM with opcode := .BUBBLE, pc := 0 } }

/-- Block of `execute`: the HALT test that closes the non-stalled branch. -/
def execute_HALT (cpu : APEX_CPU) : APEX_CPU :=
  if cpu.EX.opcode = .HALT then { cpu with EX := { cpu.EX with stalled := true } } else cpu

/-- Block of `execute`: the second cycle of a MUL (the stalled branch). -/
def execute_MUL_resume (cpu : APEX_CPU) : APEX_CPU :=
  if cpu.EX.stalled && cpu.EX.opcode = .MUL then
    let cpu :=
      if cpu.ENABLE_COUNTING then { cpu with code_memory_size := cpu.code_memory_size + 1 }
      else cpu
    let cpu := { cpu with EX := { cpu.EX with stalled := false } }
    let cpu := { cpu with DRF := { cpu.DRF with stalled := false } }
    { cpu with MEM := cpu.EX }
  else cpu

/-- The `if` blocks of the non-stalled branch of `execute` from MOVC on, in source order. -/
def execute_from_MOVC (cpu : APEX_CPU) : APEX_CPU :=
  execute_HALT (execute_to_MEM (execute_BZ (execute_BNZ (execute_JUMP (execute_EXOR
    (execute_OR (execute_AND (execute_MUL (execute_SUB (execute_ADD (execute_MOVC cpu)))))))))))

/-- Transcription of `execute`: the STORE and LOAD blocks, which may `exit(1)` (`none`), then
the remaining blocks; in the stalled branch, the second cycle of a MUL. -/
def execute (cpu : APEX_CPU) : Option APEX_CPU :=
  if !cpu.EX.busy && !cpu.EX.stalled then
    ((execute_STORE cpu).bind execute_LOAD).map execute_from_MOVC
  else some (execute_MUL_resume cpu)

/-- Block of `memory`: STORE.  The array access `cpu->data_memory[stage->mem_address]` has a
defined outcome only for an index inside the array; `none` otherwise. -/
def memory_STORE (cpu : APEX_CPU) : Option APEX_CPU :=
  if cpu.MEM.opcode = .STORE then
    if 0 ≤ cpu.MEM.mem_address ∧ cpu.MEM.mem_address < DATA_MEMORY_SIZE then
      some { cpu with
             data_memory := write cpu.data_memory cpu.MEM.mem_address cpu.MEM.rs1_value }
    else none
  else some cpu

/-- Block of `memory`: LOAD.  The array access has a defined outcome only for an index
inside the array; `none` otherwise. -/
def memory_LOAD (cpu : APEX_CPU) : Option APEX_CPU :=
  if cpu.MEM.opcode = .LOAD then
    if 0 ≤ cpu.MEM.mem_address ∧ cpu.MEM.mem_address < DATA_MEMORY_SIZE then
      some { cpu with MEM := { cpu.MEM with buffer := cpu.data_memory cpu.MEM.mem_address } }
    else none
  else some cpu

/-- Block of `memory`: the HALT test that closes the stage. -/
def memory_HALT (cpu : APEX_CPU) : APEX_CPU :=
  if cpu.MEM.opcode = .HALT then { cpu with MEM := { cpu.MEM with stalled := true } } else cpu

/-- Transcription of `memory`; `none` when the STORE or LOAD block indexes `data_memory`
outside the array (no defined outcome in C). -/
def memory (cpu : APEX_CPU) : Option APEX_CPU :=
  if !cpu.MEM.busy && !cpu.MEM.stalled then
    ((memory_STORE cpu).bind memory_LOAD).map fun cpu =>
      memory_HALT { cpu with WB := cpu.MEM }
  else some cpu

/-- Block of `writeback`: "Update register file". -/
def writeback_regs (cpu : APEX_CPU) : APEX_CPU :=
  if cpu.WB.opcode = .MOVC ∨ cpu.WB.opcode = .SUB ∨ cpu.WB.opcode = .ADD ∨
      cpu.WB.opcode = .AND ∨ cpu.WB.opcode = .OR ∨ cpu.WB.opcode = .EXOR ∨
      cpu.WB.opcode = .LOAD ∨ cpu.WB.opcode = .MUL then
    { cpu with regs := write cpu.regs cpu.WB.rd cpu.WB.buffer }
  else cpu

/-- Block of `writeback`: "Update Z-flag". -/
def writeback_Z (cpu : APEX_CPU) : APEX_CPU :=
  if cpu.WB.opcode = .SUB ∨ cpu.WB.opcode = .ADD ∨ cpu.WB.opcode = .MUL then
    if cpu.WB.buffer = 0 then { cpu with z_flag := true } else { cpu with z_flag := false }
  else cpu

/-- Block of `writeback`: the HALT test that clears the opcode slot. -/
def writeback_HALT (cpu : APEX_CPU) : APEX_CPU :=
  if cpu.WB.opcode = .HALT then { cpu with WB := { cpu.WB with opcode := .EMPTY } } else cpu

/-- Transcription of `writeback`. -/
def writeback (cpu : APEX_CPU) : APEX_CPU :=
  if !cpu.WB.busy && !cpu.WB.stalled then
    let cpu := writeback_Z (writeback_regs cpu)
    writeback_HALT { cpu with ins_completed := cpu.ins_completed + 1 }
  else cpu

/-- One iteration of the loop of `APEX_cpu_run`: the five stages in reverse order, then
`cpu->clock++`; `none` when the Memory stage indexes `data_memory` outside the array or
Execute calls `exit(1)`. -/
def cycle (cpu : APEX_CPU) : Option APEX_CPU :=
  ((memory (writeback cpu)).bind execute).map fun cpu =>
    let cpu := fetch (decode cpu)
    { cpu with clock := cpu.clock + 1 }

/-- Transcription of `APEX_cpu_run`: the `while` loop, bounded by `fuel` iterations. -/
def APEX_cpu_run : Nat → APEX_CPU → RunResult
  | 0, cpu =>
    if cpu.clock ≤ cpu.code_memory_size then
      if cpu.ENABLE_COUNTING && cpu.ins_completed == cpu.code_memory_size then .returned cpu
      else .out_of_fuel
    else .returned cpu
  | fuel + 1, cpu =>
    if cpu.clock ≤ cpu.code_memory_size then
      if cpu.ENABLE_COUNTING && cpu.ins_completed == cpu.code_memory_size then .returned cpu
      else
        match cycle cpu with
        | none => if (memory (writeback cpu)).isNone then .undefined else .exited
        | some cpu => APEX_cpu_run fuel cpu
    else .returned cpu

end PartB


/-!
Derived descriptions of the stages

Each stage of `cpu.c` is a sequence of `if` blocks.  The definitions below name the
quantities those blocks compute, so that the effect of a whole stage can be stated as one
record update (theorems `*_live`, `*_idle`, `*_retry` further down).
-/

namespace APEX

/-- Opcodes whose Decode reads `rs1`. -/
def Opcode.reads_rs1 (o : Opcode) : Bool :=
  o = .STORE || o = .LOAD || o = .ADD || o = .SUB || o = .AND || o = .OR || o = .EXOR ||
    o = .MUL || o = .JUMP

/-- Opcodes whose Decode reads `rs2`. -/
def Opcode.reads_rs2 (o : Opcode) : Bool :=
  o = .STORE || o = .ADD || o = .SUB || o = .AND || o = .OR || o = .EXOR || o = .MUL

/-- The conditional branches BZ and BNZ. -/
def Opcode.is_cond_branch (o : Opcode) : Bool := o = .BZ || o = .BNZ

/-- The effective address Execute computes for a latch (unchanged unless STORE or LOAD). -/
def ex_addr (st : CPU_Stage) : Int :=
  if st.opcode = .STORE then wrap32 (st.rs2_value + st.imm)
  else if st.opcode = .LOAD then wrap32 (st.rs1_value + st.imm)
  else st.mem_address

/-- Execute raises the address exception for this latch. -/
def ex_fault (st : CPU_Stage) : Bool :=
  (st.opcode = .STORE || st.opcode = .LOAD) && (decide (ex_addr st > 4096) || decide (ex_addr st < 0))

/-- The branch in this latch is taken when the Z value it tests is `z`. -/
def ex_taken (st : CPU_Stage) (z : Bool) : Bool :=
  st.opcode = .JUMP || (st.opcode = .BNZ && !z) || (st.opcode = .BZ && z)

/-- The value Execute leaves in `buffer` for a latch, `z` being the Z value a BZ/BNZ tests. -/
def ex_buffer (st : CPU_Stage) (z : Bool) : Int :=
  match st.opcode with
  | .MOVC => st.imm + 0
  | .ADD => wrap32 (st.rs1_value + st.rs2_value)
  | .SUB => wrap32 (st.rs1_value - st.rs2_value)
  | .MUL => wrap32 (st.rs1_value * st.rs2_value)
  | .AND => Int.land st.rs1_value st.rs2_value
  | .OR => Int.lor st.rs1_value st.rs2_value
  | .EXOR => Int.xor st.rs1_value st.rs2_value
  | .JUMP => wrap32 (st.rs1_value + st.imm)
  | .BNZ => if z then st.buffer else wrap32 (st.pc + st.imm)
  | .BZ => if z then wrap32 (st.pc + st.imm) else st.buffer
  | _ => st.buffer

/-- The latch Execute hands on: address and result filled in. -/
def ex_done (st : CPU_Stage) (z : Bool) : CPU_Stage :=
  { st with mem_address := ex_addr st, buffer := ex_buffer st z }

/-- The latch Memory hands on: a LOAD has its word in `buffer`. -/
def mem_done (st : CPU_Stage) (dm : Int → Int) : CPU_Stage :=
  { st with buffer := if st.opcode = .LOAD then dm st.mem_address else st.buffer }

/-- The Memory stage is about to index `data_memory` outside the array: its latch is live,
holds a STORE or a LOAD, and `mem_address` is not in `0..4095`. -/
def mem_oob (cpu : APEX_CPU) : Bool :=
  !cpu.MEM.busy && !cpu.MEM.stalled &&
    (decide (cpu.MEM.opcode = .STORE) || decide (cpu.MEM.opcode = .LOAD)) &&
    !(decide (0 ≤ cpu.MEM.mem_address) && decide (cpu.MEM.mem_address < DATA_MEMORY_SIZE))

/-- A latch that, if it holds a STORE or a LOAD, has its `mem_address` inside the array
`data_memory`. -/
def mem_in_bounds (st : CPU_Stage) : Prop :=
  (st.opcode = .STORE ∨ st.opcode = .LOAD) →
    0 ≤ st.mem_address ∧ st.mem_address < DATA_MEMORY_SIZE

/-- The state the Memory stage leaves when its access is inside the array. -/
def mem_step (cpu : APEX_CPU) : APEX_CPU :=
  if !cpu.MEM.busy && !cpu.MEM.stalled then
    { cpu with
      data_memory := if cpu.MEM.opcode = .STORE
                     then write cpu.data_memory cpu.MEM.mem_address cpu.MEM.rs1_value
                     else cpu.data_memory
      MEM := { mem_done cpu.MEM cpu.data_memory with stalled := decide (cpu.MEM.opcode = .HALT) }
      WB := mem_done cpu.MEM cpu.data_memory }
  else cpu

/-- The latch Fetch fills from `code_memory` at the current `pc`. -/
def fetched (cpu : APEX_CPU) (z : Bool) : CPU_Stage :=
  { cpu.F with pc := cpu.pc
               opcode := (code_at cpu (get_code_index cpu.pc)).opcode
               rd := (code_at cpu (get_code_index cpu.pc)).rd
               rs1 := (code_at cpu (get_code_index cpu.pc)).rs1
               rs2 := (code_at cpu (get_code_index cpu.pc)).rs2
               imm := (code_at cpu (get_code_index cpu.pc)).imm
               z_flag := z }

end APEX

namespace PartA
open APEX

/-- Decode may promote the DRF instruction: every source it reads is valid. -/
def ready (cpu : APEX_CPU) : Bool :=
  (!cpu.DRF.opcode.reads_rs1 || cpu.regs_valid cpu.DRF.rs1) &&
  (!cpu.DRF.opcode.reads_rs2 || cpu.regs_valid cpu.DRF.rs2) &&
  (!cpu.DRF.opcode.is_cond_branch || cpu.z_flag_valid)

/-- The DRF latch with its source values read from the register file. -/
def DRF_read (cpu : APEX_CPU) : CPU_Stage :=
  { cpu.DRF with
    rs1_value := if cpu.DRF.opcode.reads_rs1 then cpu.regs cpu.DRF.rs1 else cpu.DRF.rs1_value
    rs2_value := if cpu.DRF.opcode.reads_rs2 then cpu.regs cpu.DRF.rs2 else cpu.DRF.rs2_value }

/-- No ADD, SUB or MUL in the MEM and EX latches (the Z test of Writeback). -/
def no_later_arith (cpu : APEX_CPU) : Bool :=
  !cpu.MEM.opcode.sets_z && !cpu.EX.opcode.sets_z

end PartA

namespace PartB
open APEX

/-- The value `get_source_values` forwards for source register `src`. -/
def fwd (cpu : APEX_CPU) (src : Int) : Int :=
  if src_in src cpu.EX then cpu.EX.buffer
  else if src_in src cpu.WB then cpu.WB.buffer
  else cpu.regs src

/-- Source register `src` is the destination of a LOAD in the EX latch. -/
def load_use (cpu : APEX_CPU) (src : Int) : Bool :=
  src_in src cpu.EX && decide (cpu.EX.opcode = .LOAD)

/-- Decode must hold the DRF instruction: a source it reads is being loaded. -/
def stall (cpu : APEX_CPU) : Bool :=
  (cpu.DRF.opcode.reads_rs1 && load_use cpu cpu.DRF.rs1) ||
  (cpu.DRF.opcode.reads_rs2 && load_use cpu cpu.DRF.rs2)

/-- The Z value a BZ/BNZ takes in Decode: from EX, else from WB, else the one it holds. -/
def z_snapshot (cpu : APEX_CPU) : Bool :=
  if cpu.EX.opcode.sets_z then decide (cpu.EX.buffer = 0)
  else if cpu.WB.opcode.sets_z then decide (cpu.WB.buffer = 0)
  else cpu.DRF.z_flag

/-- The DRF latch with its source values resolved by `get_source_values`. -/
def DRF_read (cpu : APEX_CPU) : CPU_Stage :=
  { cpu.DRF with
    rs1_value := if cpu.DRF.opcode.reads_rs1 ∧ load_use cpu cpu.DRF.rs1 = false
                 then fwd cpu cpu.DRF.rs1 else cpu.DRF.rs1_value
    rs2_value := if cpu.DRF.opcode.reads_rs2 ∧ load_use cpu cpu.DRF.rs2 = false
                 then fwd cpu cpu.DRF.rs2 else cpu.DRF.rs2_value
    z_flag := if cpu.DRF.opcode.is_cond_branch then z_snapshot cpu else cpu.DRF.z_flag }

end PartB

/-!
The control skeleton of the pipeline

The `busy`/`stalled` bits and the opcode of each latch evolve in the same way in both
variants, once the data-dependent decisions of a cycle (is the branch taken, does Decode
promote, which opcode does Fetch read) are given.  `Ctl` is that skeleton.
-/

namespace APEX

/-- The control part of one latch. -/
structure CtlStage where
  opcode : Opcode
  busy : Bool
  stalled : Bool
  deriving DecidableEq

/-- The control part of the simulator: the five latches. -/
structure Ctl where
  F : CtlStage
  DRF : CtlStage
  EX : CtlStage
  MEM : CtlStage
  WB : CtlStage
  deriving DecidableEq

/-- Control part of a latch. -/
def CPU_Stage.ctl (st : CPU_Stage) : CtlStage :=
  { opcode := st.opcode, busy := st.busy, stalled := st.stalled }

/-- Control part of a simulator state. -/
def APEX_CPU.ctl (cpu : APEX_CPU) : Ctl :=
  { F := cpu.F.ctl, DRF := cpu.DRF.ctl, EX := cpu.EX.ctl, MEM := cpu.MEM.ctl, WB := cpu.WB.ctl }

/-- A latch the stage will process: neither busy nor stalled. -/
def CtlStage.live (st : CtlStage) : Bool := !st.busy && !st.stalled

/-- Writeback on the control skeleton. -/
def Ctl.writeback (c : Ctl) : Ctl :=
  { c with
    WB := { c.WB with
            opcode := if c.WB.live ∧ c.WB.opcode = .HALT then .EMPTY else c.WB.opcode } }

/-- Memory on the control skeleton. -/
def Ctl.memory (c : Ctl) : Ctl :=
  { c with
    MEM := { c.MEM with
             stalled := if c.MEM.live then decide (c.MEM.opcode = .HALT) else c.MEM.stalled }
    WB := if c.MEM.live then c.MEM else c.WB }

/-- Execute takes a branch; `t` tells whether a BZ/BNZ finds its condition true. -/
def Ctl.taken (t : Bool) (c : Ctl) : Bool :=
  c.EX.live && (c.EX.opcode = .JUMP || ((c.EX.opcode = .BZ || c.EX.opcode = .BNZ) && t))

/-- Execute runs the second cycle of a MUL. -/
def Ctl.resume (c : Ctl) : Bool :=
  !c.EX.live && c.EX.stalled && decide (c.EX.opcode = .MUL)

/-- Execute on the control skeleton. -/
def Ctl.execute (t : Bool) (c : Ctl) : Ctl :=
  { c with
    F := { c.F with opcode := if c.taken t then .BUBBLE else c.F.opcode
                    stalled := c.F.stalled || c.taken t }
    DRF := { c.DRF with
             opcode := if c.taken t then .BUBBLE else c.DRF.opcode
             stalled := if c.resume then false
                        else c.DRF.stalled || (c.EX.live && decide (c.EX.opcode = .MUL)) }
    EX := { c.EX with
            stalled := if c.EX.live then
                         decide (c.EX.opcode = .MUL) || decide (c.EX.opcode = .HALT)
                       else if c.resume then false else c.EX.stalled }
    MEM := if c.EX.live then
             (if c.EX.opcode = .MUL then { c.MEM with opcode := .BUBBLE } else c.EX)
           else if c.resume then { c.EX with stalled := false } else c.MEM }

/-- Decode promotes a stalled instruction; `p` tells whether its sources are available. -/
def Ctl.retry (p : Bool) (c : Ctl) : Bool :=
  !c.DRF.live && c.DRF.stalled && decide (c.DRF.opcode ≠ .HALT) && !c.EX.stalled && p

/-- Decode on the control skeleton; `p` tells whether the sources of the DRF instruction are
available. -/
def Ctl.decode (p : Bool) (c : Ctl) : Ctl :=
  { c with
    F := { c.F with
           stalled := c.F.stalled || (c.DRF.live && p && decide (c.DRF.opcode = .HALT)) }
    DRF := { c.DRF with
             stalled := if c.DRF.live then (if p then decide (c.DRF.opcode = .HALT) else true)
                        else if c.retry p then false else c.DRF.stalled }
    EX := if c.DRF.live then (if p then c.DRF else { c.EX with opcode := .BUBBLE })
          else if c.retry p then { c.DRF with stalled := false } else c.EX }

/-- Fetch hands a held instruction on to Decode. -/
def Ctl.deliver (c : Ctl) : Bool :=
  !c.DRF.stalled && decide (c.DRF.opcode ≠ .BUBBLE)

/-- Fetch on the control skeleton; `o` is the opcode found in `code_memory`. -/
def Ctl.fetch (o : Opcode) (c : Ctl) : Ctl :=
  { c with
    F := { c.F with
           opcode := if c.F.live then o else c.F.opcode
           stalled := if c.F.live then c.DRF.stalled
                      else if c.F.opcode = .BUBBLE ∨ c.deliver then false else c.F.stalled }
    DRF := if c.F.live then (if c.DRF.stalled then c.DRF else { c.F with opcode := o })
           else if c.deliver then { c.F with stalled := false } else c.DRF }

/-- One cycle on the control skeleton. -/
def Ctl.cycle (t p : Bool) (o : Opcode) (c : Ctl) : Ctl :=
  Ctl.fetch o (Ctl.decode p (Ctl.execute t (Ctl.memory (Ctl.writeback c))))

end APEX

namespace PartA
open APEX

/-- The decision Decode takes in a cycle: promote the DRF instruction or not. -/
def promotes (cpu : APEX_CPU) : Bool :=
  if !cpu.DRF.busy && !cpu.DRF.stalled then ready cpu
  else ready cpu && (cpu.DRF.opcode.reads_rs1 || cpu.DRF.opcode.is_cond_branch)

/-- Iterating the cycle `k` times; `none` when Execute exits. -/
def cycles : Nat → APEX_CPU → Option APEX_CPU
  | 0, cpu => some cpu
  | k + 1, cpu => (cycle cpu).bind (cycles k)

/-- Number of loop iterations `APEX_cpu_run` starts within `fuel`. -/
def iterations : Nat → APEX_CPU → Nat
  | 0, _ => 0
  | fuel + 1, cpu =>
    if cpu.clock ≤ cpu.code_memory_size then
      if cpu.ENABLE_COUNTING && cpu.ins_completed == cpu.code_memory_size then 0
      else
        match cycle cpu with
        | none => 1
        | some cpu => 1 + iterations fuel cpu
    else 0

end PartA

namespace PartB
open APEX

/-- The decision Decode takes in a cycle: promote the DRF instruction or not. -/
def promotes (cpu : APEX_CPU) : Bool :=
  if !cpu.DRF.busy && !cpu.DRF.stalled then !stall cpu
  else cpu.DRF.opcode.reads_rs1

/-- Iterating the cycle `k` times; `none` when Execute exits. -/
def cycles : Nat → APEX_CPU → Option APEX_CPU
  | 0, cpu => some cpu
  | k + 1, cpu => (cycle cpu).bind (cycles k)

/-- Number of loop iterations `APEX_cpu_run` starts within `fuel`. -/
def iterations : Nat → APEX_CPU → Nat
  | 0, _ => 0
  | fuel + 1, cpu =>
    if cpu.clock ≤ cpu.code_memory_size then
      if cpu.ENABLE_COUNTING && cpu.ins_completed == cpu.code_memory_size then 0
      else
        match cycle cpu with
        | none => 1
        | some cpu => 1 + iterations fuel cpu
    else 0

end PartB

namespace APEX

/-- The relations between the latches' control parts that every cycle keeps:
Fetch is never busy; a HALT ready for Memory has frozen Fetch, Decode and Execute; a HALT ready
for Execute has frozen Decode; a HALT in WB is ready to retire; behind a branch ready for
Execute, Decode is ready too. -/
def Ctl.ok (c : Ctl) : Prop :=
  c.F.busy = false ∧
  (c.MEM.live = true → c.MEM.opcode = .HALT →
    c.F.stalled = true ∧ c.DRF.stalled = true ∧ c.DRF.opcode = .HALT ∧
    c.EX.stalled = true ∧ c.EX.opcode = .HALT) ∧
  (c.EX.live = true → c.EX.opcode = .HALT →
    c.DRF.stalled = true ∧ c.DRF.opcode = .HALT ∧ (c.F.stalled = false ∨ c.F.opcode ≠ .BUBBLE)) ∧
  (c.WB.opcode = .HALT → c.WB.live = true) ∧
  (c.EX.live = true → (c.EX.opcode = .BZ ∨ c.EX.opcode = .BNZ ∨ c.EX.opcode = .JUMP) →
    c.DRF.live = true)

end APEX


namespace APEX

/-- An all-zero choice for the storage the initialiser leaves untouched. -/
def blank : Uninit :=
  { z_flag := false
    ins_completed := 0
    data_tail := fun _ => 0
    outside := fun _ => ⟨.EMPTY, 0, 0, 0, 0⟩ }

/-- The one-instruction program `HALT`. -/
def prog_HALT : List APEX_Instruction := [⟨.HALT, 0, 0, 0, 0⟩]

/-- The program `MUL R1,R0,R0; HALT`. -/
def prog_MUL : List APEX_Instruction := [⟨.MUL, 1, 0, 0, 0⟩, ⟨.HALT, 0, 0, 0, 0⟩]

/-- The program `MOVC R1,#3; HALT`. -/
def prog_MOVC : List APEX_Instruction := [⟨.MOVC, 1, 0, 0, 3⟩, ⟨.HALT, 0, 0, 0, 0⟩]

/-- The program `LOAD R1,R0,#0; ADD R2,R1,R1; HALT`. -/
def prog_LOAD_ADD : List APEX_Instruction :=
  [⟨.LOAD, 1, 0, 0, 0⟩, ⟨.ADD, 2, 1, 1, 0⟩, ⟨.HALT, 0, 0, 0, 0⟩]

/-- The program `MOVC R1,#3; ADD R2,R1,R1; HALT`. -/
def prog_MOVC_ADD : List APEX_Instruction :=
  [⟨.MOVC, 1, 0, 0, 3⟩, ⟨.ADD, 2, 1, 1, 0⟩, ⟨.HALT, 0, 0, 0, 0⟩]

/-- The program `MOVC R1,#5; LOAD R2,R0,#0; ADD R3,R1,R2; HALT`. -/
def prog_MOVC_LOAD_ADD : List APEX_Instruction :=
  [⟨.MOVC, 1, 0, 0, 5⟩, ⟨.LOAD, 2, 0, 0, 0⟩, ⟨.ADD, 3, 1, 2, 0⟩, ⟨.HALT, 0, 0, 0, 0⟩]

/-- The program
`MOVC R1,#0; ADD R2,R1,R1; MOVC R3,#1; ADD R4,R3,R3; BZ #8; MOVC R5,#1; HALT`. -/
def prog_stale_Z : List APEX_Instruction :=
  [⟨.MOVC, 1, 0, 0, 0⟩, ⟨.ADD, 2, 1, 1, 0⟩, ⟨.MOVC, 3, 0, 0, 1⟩, ⟨.ADD, 4, 3, 3, 0⟩,
   ⟨.BZ, 0, 0, 0, 8⟩, ⟨.MOVC, 5, 0, 0, 1⟩, ⟨.HALT, 0, 0, 0, 0⟩]

/-- The program `JUMP R0,#4008; MOVC R1,#1; HALT`. -/
def prog_JUMP : List APEX_Instruction :=
  [⟨.JUMP, 0, 0, 0, 4008⟩, ⟨.MOVC, 1, 0, 0, 1⟩, ⟨.HALT, 0, 0, 0, 0⟩]

/-- The program `MOVC R1,#1; MOVC R2,#2; ADD R1,R2,R2; HALT`. -/
def prog_two_writers : List APEX_Instruction :=
  [⟨.MOVC, 1, 0, 0, 1⟩, ⟨.MOVC, 2, 0, 0, 2⟩, ⟨.ADD, 1, 2, 2, 0⟩, ⟨.HALT, 0, 0, 0, 0⟩]

/-- The final simulator state of a run that returned. -/
def RunResult.final : RunResult → Option APEX_CPU
  | .returned cpu => some cpu
  | _ => none

end APEX

namespace PartA
open APEX

/-- State of `prog_MUL` after two cycles: the MUL sits in the EX latch. -/
def mul_state : APEX_CPU :=
  (cycles 2 (initial prog_MUL 10 blank)).getD (initial prog_MUL 10 blank)

/-- The valid table shows as invalid the destination of every register-writing instruction
held in the EX or MEM latch. -/
def pending_invalid (cpu : APEX_CPU) : Prop :=
  (cpu.EX.opcode.writes_rd = true → cpu.regs_valid cpu.EX.rd = false) ∧
  (cpu.MEM.opcode.writes_rd = true → cpu.regs_valid cpu.MEM.rd = false)

/-- State of `prog_JUMP` after two cycles: the JUMP sits in the EX latch. -/
def jump_state : APEX_CPU :=
  (cycles 2 (initial prog_JUMP 10 blank)).getD (initial prog_JUMP 10 blank)

/-- State of `prog_MOVC` after two cycles: the MOVC sits in the EX latch. -/
def movc_state : APEX_CPU :=
  (cycles 2 (initial prog_MOVC 10 blank)).getD (initial prog_MOVC 10 blank)

/-- State of the `HALT` program after three cycles (budget 10): HALT sits in the MEM latch. -/
def halt_state : APEX_CPU :=
  (cycles 3 (initial prog_HALT 10 blank)).getD (initial prog_HALT 10 blank)

end PartA

namespace PartB
open APEX

/-- State of the `HALT` program after three cycles (budget 10): HALT sits in the MEM latch. -/
def halt_state : APEX_CPU :=
  (cycles 3 (initial prog_HALT 10 blank)).getD (initial prog_HALT 10 blank)

/-- State of `prog_JUMP` after two cycles: the JUMP sits in the EX latch. -/
def jump_state : APEX_CPU :=
  (cycles 2 (initial prog_JUMP 10 blank)).getD (initial prog_JUMP 10 blank)

/-- State of `prog_LOAD_ADD` after two cycles: the LOAD in EX, the ADD in DRF. -/
def load_state : APEX_CPU :=
  (cycles 2 (initial prog_LOAD_ADD 10 blank)).getD (initial prog_LOAD_ADD 10 blank)

/-- State of `prog_MOVC_ADD` in its third cycle at the moment Decode runs: the MOVC has
just been executed, the ADD is in DRF. -/
def fwd_state : APEX_CPU :=
  ((cycles 2 (initial prog_MOVC_ADD 10 blank)).bind
    fun s => (memory (writeback s)).bind execute).getD (initial prog_MOVC_ADD 10 blank)

end PartB


/-!
Program-order semantics (the reference of the refinement claims)

The second, spec-side definition: the architectural state and the effect of executing the
instructions one at a time in program order, written from the words of the specification.
-/

namespace APEX

/-- Architectural state of the one-instruction-at-a-time reference: register file, data
memory, and the Z flag (`none` until an ADD, SUB or MUL has been executed). -/
structure Arch where
  regs : Int → Int
  mem : Int → Int
  z : Option Bool

/-- Reference semantics of one instruction, from the specification's words:
`MOVC rd <- imm`; `ADD/SUB/MUL/AND/OR/EX-OR rd <- rs1 op rs2` with 32-bit wrap-around, Z set
from the result of ADD, SUB and MUL; `LOAD rd <- mem[rs1 + imm]`;
`STORE mem[rs2 + imm] <- rs1`; anything else changes nothing. -/
def Arch.exec (a : Arch) (i : APEX_Instruction) : Arch :=
  match i.opcode with
  | .MOVC => { a with regs := write a.regs i.rd i.imm }
  | .ADD => { a with regs := write a.regs i.rd (wrap32 (a.regs i.rs1 + a.regs i.rs2))
                     z := some (decide (wrap32 (a.regs i.rs1 + a.regs i.rs2) = 0)) }
  | .SUB => { a with regs := write a.regs i.rd (wrap32 (a.regs i.rs1 - a.regs i.rs2))
                     z := some (decide (wrap32 (a.regs i.rs1 - a.regs i.rs2) = 0)) }
  | .MUL => { a with regs := write a.regs i.rd (wrap32 (a.regs i.rs1 * a.regs i.rs2))
                     z := some (decide (wrap32 (a.regs i.rs1 * a.regs i.rs2) = 0)) }
  | .AND =>
    { a with regs := write a.regs i.rd (wrap32 (Int.land (a.regs i.rs1) (a.regs i.rs2))) }
  | .OR =>
    { a with regs := write a.regs i.rd (wrap32 (Int.lor (a.regs i.rs1) (a.regs i.rs2))) }
  | .EXOR =>
    { a with regs := write a.regs i.rd (wrap32 (Int.xor (a.regs i.rs1) (a.regs i.rs2))) }
  | .LOAD => { a with regs := write a.regs i.rd (a.mem (a.regs i.rs1 + i.imm)) }
  | .STORE => { a with mem := write a.mem (a.regs i.rs2 + i.imm) (a.regs i.rs1) }
  | _ => a

/-- One instruction on the architectural state as the simulator computes it: as `Arch.exec`,
the address of a LOAD or STORE being the 32-bit sum Execute forms. -/
def Arch.step (a : Arch) (i : APEX_Instruction) : Arch :=
  match i.opcode with
  | .LOAD => { a with regs := write a.regs i.rd (a.mem (wrap32 (a.regs i.rs1 + i.imm))) }
  | .STORE => { a with mem := write a.mem (wrap32 (a.regs i.rs2 + i.imm)) (a.regs i.rs1) }
  | _ => a.exec i

/-- A list of instructions on the architectural state, in program order. -/
def Arch.run (a : Arch) (code : List APEX_Instruction) : Arch :=
  code.foldl Arch.step a

/-- The value fits the C type `int` (32 bits, two's complement). -/
def in32 (x : Int) : Prop := -2147483648 ≤ x ∧ x < 2147483648

/-- Every register and every memory word of the state holds a C `int`. -/
def Arch.ranged (a : Arch) : Prop := (∀ r, in32 (a.regs r)) ∧ ∀ x, in32 (a.mem x)

/-- The memory address an instruction computes in state `a` lies in `0..4095`. -/
def Arch.addr_ok (a : Arch) (i : APEX_Instruction) : Prop :=
  (i.opcode = .LOAD → 0 ≤ a.regs i.rs1 + i.imm ∧ a.regs i.rs1 + i.imm ≤ 4095) ∧
  (i.opcode = .STORE → 0 ≤ a.regs i.rs2 + i.imm ∧ a.regs i.rs2 + i.imm ≤ 4095)

/-- The memory address an instruction computes in state `a`, as a C `int`, passes the range
test of Execute and lies inside the data memory (`0..4095`). -/
def Arch.addr_fine (a : Arch) (i : APEX_Instruction) : Prop :=
  (i.opcode = .LOAD →
    0 ≤ wrap32 (a.regs i.rs1 + i.imm) ∧ wrap32 (a.regs i.rs1 + i.imm) ≤ 4095) ∧
  (i.opcode = .STORE →
    0 ≤ wrap32 (a.regs i.rs2 + i.imm) ∧ wrap32 (a.regs i.rs2 + i.imm) ≤ 4095)

/-- Every address computed while executing the program `code` from `a`, up to its first
HALT, lies in `0..4095`. -/
def Arch.addrs_ok : Arch → List APEX_Instruction → Prop
  | _, [] => True
  | a, i :: rest => i.opcode ≠ .HALT → a.addr_ok i ∧ (a.exec i).addrs_ok rest

/-- Executing a program one instruction at a time in program order: a HALT ends it. -/
def Arch.program : Arch → List APEX_Instruction → Arch
  | a, [] => a
  | a, i :: rest => if i.opcode = .HALT then a else (a.exec i).program rest

/-- The register numbers the instruction uses are in `0..15`. -/
def regs_ok (i : APEX_Instruction) : Prop :=
  (i.opcode.writes_rd = true → 0 ≤ i.rd ∧ i.rd ≤ 15) ∧
  (i.opcode.reads_rs1 = true → 0 ≤ i.rs1 ∧ i.rs1 ≤ 15) ∧
  (i.opcode.reads_rs2 = true → 0 ≤ i.rs2 ∧ i.rs2 ≤ 15)

/-- The opcodes of straight-line code: no BZ, BNZ, JUMP, and no HALT. -/
def Opcode.straight (o : Opcode) : Bool :=
  o = .MOVC || o = .ADD || o = .SUB || o = .MUL || o = .AND || o = .OR || o = .EXOR ||
    o = .LOAD || o = .STORE

/-- The architectural state the simulator starts from. -/
def Arch.init (u : Uninit) : Arch :=
  { regs := fun _ => 0
    mem := fun a => if 0 ≤ a ∧ a < 4000 then 0 else u.data_tail a
    z := none }

/-!
Bookkeeping for the refinement proof

Instruction `i` of the program, the reference state before it, and the abstract description
of which instruction each latch holds.
-/

/-- Instruction number `i` of the program. -/
def ins (code : List APEX_Instruction) (i : Nat) : APEX_Instruction :=
  code.getD i ⟨.EMPTY, 0, 0, 0, 0⟩

/-- Reference state before instruction `i`. -/
def S (code : List APEX_Instruction) (a0 : Arch) (i : Nat) : Arch :=
  a0.run (code.take i)

/-- The value instruction `i` writes to its destination register. -/
def res (code : List APEX_Instruction) (a0 : Arch) (i : Nat) : Int :=
  (S code a0 (i + 1)).regs (ins code i).rd

/-- The address instruction `i` (a LOAD or a STORE) accesses. -/
def addr (code : List APEX_Instruction) (a0 : Arch) (i : Nat) : Int :=
  if (ins code i).opcode = .STORE then
    wrap32 ((S code a0 i).regs (ins code i).rs2 + (ins code i).imm)
  else wrap32 ((S code a0 i).regs (ins code i).rs1 + (ins code i).imm)

/-- Instruction `i` writes register `r`. -/
def writes (code : List APEX_Instruction) (i : Nat) (r : Int) : Bool :=
  (ins code i).opcode.writes_rd && decide ((ins code i).rd = r)

/-- Mode of the front of the pipeline at a cycle boundary. -/
inductive Mode where
  | run
  | wait
  | mul
  deriving DecidableEq

/-- Which instructions are in flight at a cycle boundary: `w` instructions have retired, and
the WB, MEM and EX latches hold the next ones in program order where their flag is set. -/
structure Abs where
  w : Nat
  ow : Bool
  om : Bool
  oe : Bool
  mode : Mode

/-- Index of the instruction in (or next for) the MEM latch. -/
def Abs.im (a : Abs) : Nat := a.w + a.ow.toNat

/-- Index of the instruction in (or next for) the EX latch. -/
def Abs.ie (a : Abs) : Nat := a.w + a.ow.toNat + a.om.toNat

/-- Index of the instruction in the DRF latch. -/
def Abs.d (a : Abs) : Nat := a.w + a.ow.toNat + a.om.toNat + a.oe.toNat

/-- Progress measure: it grows in every cycle. -/
def Abs.pot (a : Abs) : Nat :=
  5 * a.w + 4 * a.ow.toNat + 3 * a.om.toNat + a.oe.toNat + (if a.mode = .mul then 1 else 0)

/-- The static fields of a latch are those of instruction `I`, and the latch is not busy. -/
def is_ins (st : CPU_Stage) (I : APEX_Instruction) : Prop :=
  st.opcode = I.opcode ∧ st.rd = I.rd ∧ st.rs1 = I.rs1 ∧ st.rs2 = I.rs2 ∧ st.imm = I.imm ∧
  st.busy = false

/-- The latch holds instruction `i` as Decode hands it to Execute. -/
def InEX (code : List APEX_Instruction) (a0 : Arch) (i : Nat) (st : CPU_Stage) : Prop :=
  is_ins st (ins code i) ∧
  ((ins code i).opcode.reads_rs1 = true → st.rs1_value = (S code a0 i).regs (ins code i).rs1) ∧
  ((ins code i).opcode.reads_rs2 = true → st.rs2_value = (S code a0 i).regs (ins code i).rs2)

/-- The latch holds instruction `i` as Execute hands it to Memory. -/
def InMEM (code : List APEX_Instruction) (a0 : Arch) (i : Nat) (st : CPU_Stage) : Prop :=
  is_ins st (ins code i) ∧ st.stalled = false ∧
  ((ins code i).opcode.writes_rd = true → (ins code i).opcode ≠ .LOAD →
    st.buffer = res code a0 i) ∧
  ((ins code i).opcode = .LOAD ∨ (ins code i).opcode = .STORE →
    st.mem_address = addr code a0 i) ∧
  ((ins code i).opcode = .STORE → st.rs1_value = (S code a0 i).regs (ins code i).rs1) ∧
  mem_in_bounds st

/-- The latch holds instruction `i` as Memory hands it to Writeback. -/
def InWB (code : List APEX_Instruction) (a0 : Arch) (i : Nat) (st : CPU_Stage) : Prop :=
  is_ins st (ins code i) ∧ st.stalled = false ∧
  ((ins code i).opcode.writes_rd = true → st.buffer = res code a0 i)

/-- Two latches hold the same instruction: equal static fields and busy bit. -/
def same_ins (st st' : CPU_Stage) : Prop :=
  st'.opcode = st.opcode ∧ st'.rd = st.rd ∧ st'.rs1 = st.rs1 ∧ st'.rs2 = st.rs2 ∧
  st'.imm = st.imm ∧ st'.busy = st.busy

/-- The WB latch as the initialiser left it. -/
def WB_init (st : CPU_Stage) : Prop :=
  st.opcode = .EMPTY ∧ st.busy = true ∧ st.rd = 0 ∧ st.buffer = 0

/-- The WB latch holds no instruction. -/
def NoWB (a : Abs) (st : CPU_Stage) : Prop :=
  st.opcode = .BUBBLE ∨ (WB_init st ∧ a.w = 0)

/-- The MEM latch holds no instruction. -/
def NoMEM (a : Abs) (mem wb : CPU_Stage) : Prop :=
  mem.stalled = false ∧ (mem.opcode = .BUBBLE ∨ mem.opcode = .EMPTY) ∧
  (mem.opcode = .EMPTY → mem.busy = true) ∧
  (mem.busy = true → WB_init wb ∧ a.w = 0 ∧ a.ow = false)

/-- The EX latch holds no instruction. -/
def NoEX (a : Abs) (ex mem : CPU_Stage) : Prop :=
  ex.stalled = false ∧
  ((ex.opcode = .BUBBLE ∧ ex.busy = false) ∨
   (ex.opcode = .EMPTY ∧ ex.busy = true ∧ ex.rd = 0 ∧ ex.buffer = 0 ∧ a.w = 0 ∧
     a.ow = false ∧ a.om = false ∧ mem.opcode = .EMPTY))

/-- A source register of instruction `i` is `r`. -/
def needs (code : List APEX_Instruction) (i : Nat) (r : Int) : Prop :=
  ((ins code i).opcode.reads_rs1 = true ∧ (ins code i).rs1 = r) ∨
  ((ins code i).opcode.reads_rs2 = true ∧ (ins code i).rs2 = r)

/-- A source of instruction `j` is written by instruction `i`. -/
def feeds (code : List APEX_Instruction) (i j : Nat) : Bool :=
  (ins code i).opcode.writes_rd &&
  (((ins code j).opcode.reads_rs1 && decide ((ins code j).rs1 = (ins code i).rd)) ||
   ((ins code j).opcode.reads_rs2 && decide ((ins code j).rs2 = (ins code i).rd)))

/-- This cycle is the first of the two Execute cycles of a MUL. -/
def Abs.phase1 (code : List APEX_Instruction) (a : Abs) : Bool :=
  a.oe && decide ((ins code a.ie).opcode = .MUL) && decide (a.mode ≠ .mul)

/-- The program starts with `N` straight-line instructions followed by a HALT, the addresses
`4000 + 4 i` of its code memory are C `int`s, and so are the literals of the instructions
and the words of the start state. -/
def Prog (code : List APEX_Instruction) (a0 : Arch) (N : Nat) : Prop :=
  (N + 1 ≤ code.length ∧ 4000 + 4 * (code.length : Int) < 2147483648) ∧
  (∀ i, i < N → (ins code i).opcode.straight = true) ∧
  (ins code N).opcode = .HALT ∧ (∀ i, i < N + 1 → in32 (ins code i).imm) ∧ a0.ranged

/-- The addresses the first `M` instructions compute in program order pass the range test of
Execute. -/
def Fine (code : List APEX_Instruction) (a0 : Arch) (M : Nat) : Prop :=
  ∀ i, i < M → (S code a0 i).addr_fine (ins code i)

/-- An un-retired ADD, SUB or MUL is in the WB, MEM or EX latch. -/
def arith_in_flight (code : List APEX_Instruction) (a : Abs) : Prop :=
  (a.ow = true ∧ (ins code a.w).opcode.sets_z = true) ∨
  (a.om = true ∧ (ins code a.im).opcode.sets_z = true) ∨
  (a.oe = true ∧ (ins code a.ie).opcode.sets_z = true)

/-- An un-retired writer of register `r` is in the WB, MEM or EX latch. -/
def writer_in_flight (code : List APEX_Instruction) (a : Abs) (r : Int) : Prop :=
  (a.ow = true ∧ writes code a.w r = true) ∨
  (a.om = true ∧ writes code a.im r = true) ∨
  (a.oe = true ∧ writes code a.ie r = true)

/-- The part of the refinement relation common to both variants: the simulator state `s` at a
cycle boundary against the in-flight description `a`, for the program `code` started in
`a0` with cycle budget `n`. -/
structure Core (code : List APEX_Instruction) (a0 : Arch) (n : Int) (N : Nat) (a : Abs)
    (s : APEX_CPU) : Prop where
  counting : s.ENABLE_COUNTING = false
  code_eq : s.code_memory = code
  budget : s.code_memory_size = n
  clock : s.clock ≤ (a.pot : Int) + 2
  regs : s.regs = (S code a0 a.w).regs
  mem : s.data_memory = (S code a0 a.im).mem
  bound : a.ie ≤ N
  wb : if a.ow = true then InWB code a0 a.w s.WB else NoWB a s.WB
  mm : if a.om = true then InMEM code a0 a.im s.MEM else NoMEM a s.MEM s.WB
  ex : if a.oe = true then
         InEX code a0 a.ie s.EX ∧ s.EX.stalled = decide (a.mode = .mul) ∧
         (a.mode = .mul → (ins code a.ie).opcode = .MUL ∧ s.EX.buffer = res code a0 a.ie ∧
           a.om = false)
       else NoEX a s.EX s.MEM ∧ a.mode ≠ .mul
  drf : a.d ≤ N → is_ins s.DRF (ins code a.d) ∧ s.DRF.stalled = decide (a.mode ≠ .run)
  halted : a.d = N + 1 → s.DRF.stalled = true ∧ s.DRF.opcode = .HALT
  fb : s.F.busy = false
  fetch : a.d < N →
    (s.DRF.stalled = false → s.F.stalled = false ∧ s.pc = 4000 + 4 * ((a.d : Int) + 1)) ∧
    (s.DRF.stalled = true → s.F.stalled = true ∧ s.pc = 4000 + 4 * ((a.d : Int) + 2) ∧
      is_ins s.F (ins code (a.d + 1)))
  waiting : a.mode = .wait → a.oe = false ∧ (ins code a.d).opcode.reads_rs1 = true ∧ a.d < N

/-- What Execute leaves behind, in a cycle that starts in the boundary state `s`: `c3` is the
state after Execute. -/
structure AfterEX (code : List APEX_Instruction) (a0 : Arch) (a : Abs) (s c3 : APEX_CPU) :
    Prop where
  mem_slot : if a.oe = true ∧ a.phase1 code = false then InMEM code a0 a.ie c3.MEM
    else c3.MEM.stalled = false ∧ (c3.MEM.opcode = .BUBBLE ∨ c3.MEM.opcode = .EMPTY) ∧
      (c3.MEM.opcode = .EMPTY → c3.MEM.busy = true) ∧ (c3.MEM.busy = true → s.MEM.busy = true)
  ex_ins : same_ins s.EX c3.EX
  ex_stalled : c3.EX.stalled = a.phase1 code
  ex_vals : c3.EX.rs1_value = s.EX.rs1_value ∧ c3.EX.rs2_value = s.EX.rs2_value
  ex_buf : a.oe = true → (ins code a.ie).opcode.writes_rd = true →
    (ins code a.ie).opcode ≠ .LOAD → c3.EX.buffer = res code a0 a.ie
  ex_buf0 : a.oe = false → c3.EX.buffer = s.EX.buffer
  drf_ins : same_ins s.DRF c3.DRF
  drf_stalled : c3.DRF.stalled = (a.phase1 code || decide (a.mode = .wait))
  f_eq : c3.F = s.F
  pc_eq : c3.pc = s.pc

/-- What Decode leaves behind, in a cycle that starts in the boundary state `s` and leads to
the in-flight description `a'`: `c3` is the state after Execute, `c4` the state after
Decode. -/
structure AfterDE (code : List APEX_Instruction) (a0 : Arch) (N : Nat) (a' : Abs)
    (s c3 c4 : APEX_CPU) : Prop where
  ex : if a'.oe = true then
         InEX code a0 a'.ie c4.EX ∧ c4.EX.stalled = decide (a'.mode = .mul) ∧
         (a'.mode = .mul → (ins code a'.ie).opcode = .MUL ∧ c4.EX.buffer = res code a0 a'.ie ∧
           a'.om = false)
       else (c4.EX.stalled = false ∧ c4.EX.opcode = .BUBBLE ∧ c4.EX.busy = false) ∧
         a'.mode ≠ .mul
  drf_ins : same_ins s.DRF c4.DRF
  drf_stalled : c4.DRF.stalled = (decide (a'.mode ≠ .run) || decide (a'.d = N + 1))
  f_ins : same_ins s.F c4.F
  f_stalled : c4.F.stalled = (s.F.stalled || decide (a'.d = N + 1))
  regs_eq : c4.regs = c3.regs
  mem_eq : c4.data_memory = c3.data_memory
  z_eq : c4.z_flag = c3.z_flag
  MEM_eq : c4.MEM = c3.MEM
  WB_eq : c4.WB = c3.WB
  pc_eq : c4.pc = c3.pc
  code_eq : c4.code_memory = c3.code_memory
  out_eq : c4.outside = c3.outside

end APEX

namespace PartA
open APEX

/-- The refinement relation of variant A: the common part, the valid table marks exactly the
destinations of the un-retired writers, and the Z flag is that of the reference unless an
un-retired ADD, SUB or MUL is still to set it. -/
structure Rel (code : List APEX_Instruction) (a0 : Arch) (n : Int) (N : Nat) (a : Abs)
    (s : APEX_CPU) : Prop where
  core : Core code a0 n N a s
  valid : a.d ≤ N → ∀ r, s.regs_valid r = true ↔ ¬ writer_in_flight code a r
  zf : ∀ b, (S code a0 a.w).z = some b → s.z_flag = b ∨ arith_in_flight code a

/-- Decode has to hold the DRF instruction: one of its sources is the destination of an
instruction that will not have retired when Decode runs. -/
def blocked (code : List APEX_Instruction) (a : Abs) : Bool :=
  (a.om && feeds code a.im a.d) || (a.oe && feeds code a.ie a.d)

/-- The in-flight description after one more cycle. -/
def next (code : List APEX_Instruction) (a : Abs) : Abs :=
  if a.phase1 code then
    { w := a.w + a.ow.toNat, ow := a.om, om := false, oe := true, mode := .mul }
  else if blocked code a then
    { w := a.w + a.ow.toNat, ow := a.om, om := a.oe, oe := false, mode := .wait }
  else
    { w := a.w + a.ow.toNat, ow := a.om, om := a.oe, oe := true, mode := .run }

end PartA

namespace PartB
open APEX

/-- The refinement relation of variant B: the common part, the Z flag is that of the
reference once an ADD, SUB or MUL has retired, and register 0 starts as 0 (the value the
zero-filled latches forward for it). -/
structure Rel (code : List APEX_Instruction) (a0 : Arch) (n : Int) (N : Nat) (a : Abs)
    (s : APEX_CPU) : Prop where
  core : Core code a0 n N a s
  zf : ∀ b, (S code a0 a.w).z = some b → s.z_flag = b
  r0 : a0.regs 0 = 0

/-- Decode has to hold the DRF instruction: one of its sources is the destination of the
LOAD that Execute processes in this cycle. -/
def blocked (code : List APEX_Instruction) (a : Abs) : Bool :=
  a.oe && decide ((ins code a.ie).opcode = .LOAD) && feeds code a.ie a.d

/-- The in-flight description after one more cycle. -/
def next (code : List APEX_Instruction) (a : Abs) : Abs :=
  if a.phase1 code then
    { w := a.w + a.ow.toNat, ow := a.om, om := false, oe := true, mode := .mul }
  else if blocked code a then
    { w := a.w + a.ow.toNat, ow := a.om, om := a.oe, oe := false, mode := .wait }
  else
    { w := a.w + a.ow.toNat, ow := a.om, om := a.oe, oe := true, mode := .run }

/-- What the EX latch contributes to forwarding, when Decode runs. -/
def EXview (code : List APEX_Instruction) (a0 : Arch) (a : Abs) (ex : CPU_Stage) : Prop :=
  if a.oe = true then
    is_ins ex (ins code a.ie) ∧
    ((ins code a.ie).opcode.writes_rd = true → (ins code a.ie).opcode ≠ .LOAD →
      ex.buffer = res code a0 a.ie)
  else ex.opcode = .BUBBLE ∨
    (ex.opcode = .EMPTY ∧ ex.rd = 0 ∧ ex.buffer = 0 ∧ a.w = 0 ∧ a.ow = false ∧ a.om = false)

/-- What the WB latch contributes to forwarding, when Decode runs. -/
def WBview (code : List APEX_Instruction) (a0 : Arch) (a : Abs) (wb : CPU_Stage) : Prop :=
  if a.om = true then InWB code a0 a.im wb
  else wb.opcode = .BUBBLE ∨ (WB_init wb ∧ a.w = 0 ∧ a.ow = false)

end PartB


/-!
Observations on runs, and the scenario programs of the specification
-/

namespace APEX

/-- The in-flight description after the first cycle: nothing beyond Decode. -/
def Abs.start : Abs := ⟨0, false, false, false, .run⟩

/-- The pc is word-aligned and lies between the first instruction and the end of the
program. -/
def pc_ok (code : List APEX_Instruction) (s : APEX_CPU) : Prop :=
  4000 ≤ s.pc ∧ s.pc ≤ 4000 + 4 * (code.length : Int) ∧ (s.pc - 4000) % 4 = 0

/-- The front of the pipeline once the HALT has been issued to Execute: Fetch and Decode are
stalled for good. -/
structure Frozen (s : APEX_CPU) : Prop where
  counting : s.ENABLE_COUNTING = false
  f_busy : s.F.busy = false
  f_stalled : s.F.stalled = true
  f_op : s.F.opcode ≠ .BUBBLE
  d_stalled : s.DRF.stalled = true
  d_op : s.DRF.opcode = .HALT
  e_busy : s.EX.busy = false
  e_op : s.EX.opcode = .HALT

/-- The F latch and the pc of a straight-line run, in particular while the HALT (instruction
`N`) waits in Decode. -/
structure Front (code : List APEX_Instruction) (N : Nat) (a : Abs) (s : APEX_CPU) : Prop where
  fop : s.F.opcode ≠ .BUBBLE
  pc : pc_ok code s
  live : a.d = N → s.DRF.stalled = false →
    s.F.stalled = false ∧ s.pc = 4000 + 4 * ((N : Int) + 1)
  held : a.d = N → s.DRF.stalled = true →
    s.F.stalled = true ∧ s.pc = 4000 + 4 * ((N : Int) + 2) ∧ N + 1 < code.length

/-- The state without the parts a program that neither loads nor fetches outside its code
depends on: the budget, the data memory, the retirement counter and the storage around the
`code_memory` array are erased. -/
def APEX_CPU.erase (s : APEX_CPU) : APEX_CPU :=
  { s with code_memory_size := 0, data_memory := fun _ => 0, ins_completed := 0,
           outside := fun _ => ⟨.EMPTY, 0, 0, 0, 0⟩ }

/-- The program `MOVC R0,#1; HALT`. -/
def prog_MOVC_R0 : List APEX_Instruction := [⟨.MOVC, 0, 0, 0, 1⟩, ⟨.HALT, 0, 0, 0, 0⟩]

/-- Scenario S1 of the specification: `MOVC R1,#a; MOVC R2,#b; ADD R3,R1,R2; HALT`. -/
def prog_S1 (a b : Int) : List APEX_Instruction :=
  [⟨.MOVC, 1, 0, 0, a⟩, ⟨.MOVC, 2, 0, 0, b⟩, ⟨.ADD, 3, 1, 2, 0⟩, ⟨.HALT, 0, 0, 0, 0⟩]

/-- Scenario S2 of the specification: `MOVC R1,#a; ADD R2,R1,R1; SUB R3,R2,R1; HALT`. -/
def prog_S2 (a : Int) : List APEX_Instruction :=
  [⟨.MOVC, 1, 0, 0, a⟩, ⟨.ADD, 2, 1, 1, 0⟩, ⟨.SUB, 3, 2, 1, 0⟩, ⟨.HALT, 0, 0, 0, 0⟩]

/-- Scenario S3 of the specification:
`MOVC R1,#v; STORE R1,R1,#40; LOAD R2,R1,#40; ADD R3,R2,R2; HALT`. -/
def prog_S3 (v : Int) : List APEX_Instruction :=
  [⟨.MOVC, 1, 0, 0, v⟩, ⟨.STORE, 0, 1, 1, 40⟩, ⟨.LOAD, 2, 1, 0, 40⟩, ⟨.ADD, 3, 2, 2, 0⟩,
   ⟨.HALT, 0, 0, 0, 0⟩]

/-- Scenario S4 of the specification:
`MOVC R1,#0; MOVC R2,#1; SUB R3,R1,R1; BZ #12; MOVC R4,#99; MOVC R5,#7; HALT`. -/
def prog_S4 : List APEX_Instruction :=
  [⟨.MOVC, 1, 0, 0, 0⟩, ⟨.MOVC, 2, 0, 0, 1⟩, ⟨.SUB, 3, 1, 1, 0⟩, ⟨.BZ, 0, 0, 0, 12⟩,
   ⟨.MOVC, 4, 0, 0, 99⟩, ⟨.MOVC, 5, 0, 0, 7⟩, ⟨.HALT, 0, 0, 0, 0⟩]

/-- Scenario S6 of the specification:
`MOVC R1,#a; MOVC R2,#b; MUL R3,R1,R2; ADD R4,R3,R3; HALT`. -/
def prog_S6 (a b : Int) : List APEX_Instruction :=
  [⟨.MOVC, 1, 0, 0, a⟩, ⟨.MOVC, 2, 0, 0, b⟩, ⟨.MUL, 3, 1, 2, 0⟩, ⟨.ADD, 4, 3, 3, 0⟩,
   ⟨.HALT, 0, 0, 0, 0⟩]

end APEX

namespace PartA
open APEX

/-- State in which the run of scenario S1 with `a = 5`, `b = 7` returns: after 10 cycles. -/
def S1_final : APEX_CPU :=
  (cycles 10 (initial (prog_S1 5 7) 100 blank)).getD (initial (prog_S1 5 7) 100 blank)

/-- The in-flight description after `j + 1` cycles of a straight-line program. -/
def trace (code : List APEX_Instruction) : Nat → Abs
  | 0 => Abs.start
  | j + 1 => next code (trace code j)

/-- The index of `code_memory` that Fetch reads in the cycle that starts in state `s`, if it
reads one: Fetch runs after Decode, on a latch that is neither busy nor stalled. -/
def fetch_reads (s : APEX_CPU) : Option Int :=
  match (memory (writeback s)).bind execute with
  | none => none
  | some c =>
    if (decode c).F.busy = false ∧ (decode c).F.stalled = false
    then some (get_code_index (decode c).pc) else none

/-- In the cycle that starts in `s` the MEM latch does not process a LOAD, and Fetch reads
inside the program if it reads. -/
def quiet (s : APEX_CPU) : Bool :=
  !(decide (s.MEM.opcode = .LOAD) && !s.MEM.busy && !s.MEM.stalled) &&
  (match (memory (writeback s)).bind execute with
   | none => true
   | some c =>
     (decode c).F.busy || (decode c).F.stalled ||
       (decide (0 ≤ get_code_index (decode c).pc) &&
        decide (get_code_index (decode c).pc < ((decode c).code_memory.length : Int))))

/-- The next `k` cycles from `s` are quiet, none of them exits, and none of them ends with a
HALT in the WB latch. -/
def quiet_for : Nat → APEX_CPU → Bool
  | 0, _ => true
  | k + 1, s =>
    quiet s && (match cycle s with
                | none => false
                | some s' => decide (s'.WB.opcode ≠ .HALT) && quiet_for k s')

/-- Number of the first `k` cycles from `s` in which Writeback processes a latch whose opcode
satisfies `p`. -/
def retired (p : Opcode → Bool) : Nat → APEX_CPU → Nat
  | 0, _ => 0
  | k + 1, s =>
    (if s.WB.busy = false ∧ s.WB.stalled = false ∧ p s.WB.opcode = true then 1 else 0) +
      match cycle s with
      | none => 0
      | some s' => retired p k s'

/-- Number of the first `k` cycles from `s` at whose end the DRF latch holds an instruction
with opcode `op`, stalled. -/
def held (op : Opcode) : Nat → APEX_CPU → Nat
  | 0, _ => 0
  | k + 1, s =>
    match cycle s with
    | none => 0
    | some s' =>
      (if s'.DRF.opcode = op ∧ s'.DRF.stalled = true then 1 else 0) + held op k s'

/-- The count `held` on the in-flight descriptions: the next `m` descriptions after `a` in
which the DRF instruction has opcode `op` and is not promoted. -/
def held_abs (code : List APEX_Instruction) (op : Opcode) : Nat → Abs → Nat
  | 0, _ => 0
  | m + 1, a =>
    (if (ins code (next code a).d).opcode = op ∧ (next code a).mode ≠ .run then 1 else 0) +
      held_abs code op m (next code a)

end PartA

namespace PartB
open APEX

/-- State in which the run of scenario S3 with `v = 0` returns: after 10 cycles. -/
def S3_final : APEX_CPU :=
  (cycles 10 (initial (prog_S3 0) 100 blank)).getD (initial (prog_S3 0) 100 blank)

/-- The in-flight description after `j + 1` cycles of a straight-line program. -/
def trace (code : List APEX_Instruction) : Nat → Abs
  | 0 => Abs.start
  | j + 1 => next code (trace code j)

/-- The index of `code_memory` that Fetch reads in the cycle that starts in state `s`, if it
reads one: Fetch runs after Decode, on a latch that is neither busy nor stalled. -/
def fetch_reads (s : APEX_CPU) : Option Int :=
  match (memory (writeback s)).bind execute with
  | none => none
  | some c =>
    if (decode c).F.busy = false ∧ (decode c).F.stalled = false
    then some (get_code_index (decode c).pc) else none

/-- In the cycle that starts in `s` the MEM latch does not process a LOAD, and Fetch reads
inside the program if it reads. -/
def quiet (s : APEX_CPU) : Bool :=
  !(decide (s.MEM.opcode = .LOAD) && !s.MEM.busy && !s.MEM.stalled) &&
  (match (memory (writeback s)).bind execute with
   | none => true
   | some c =>
     (decode c).F.busy || (decode c).F.stalled ||
       (decide (0 ≤ get_code_index (decode c).pc) &&
        decide (get_code_index (decode c).pc < ((decode c).code_memory.length : Int))))

/-- The next `k` cycles from `s` are quiet, none of them exits, and none of them ends with a
HALT in the WB latch. -/
def quiet_for : Nat → APEX_CPU → Bool
  | 0, _ => true
  | k + 1, s =>
    quiet s && (match cycle s with
                | none => false
                | some s' => decide (s'.WB.opcode ≠ .HALT) && quiet_for k s')

/-- Number of the first `k` cycles from `s` in which Writeback processes a latch whose opcode
satisfies `p`. -/
def retired (p : Opcode → Bool) : Nat → APEX_CPU → Nat
  | 0, _ => 0
  | k + 1, s =>
    (if s.WB.busy = false ∧ s.WB.stalled = false ∧ p s.WB.opcode = true then 1 else 0) +
      match cycle s with
      | none => 0
      | some s' => retired p k s'

/-- Number of the first `k` cycles from `s` at whose end the DRF latch holds an instruction
with opcode `op`, stalled. -/
def held (op : Opcode) : Nat → APEX_CPU → Nat
  | 0, _ => 0
  | k + 1, s =>
    match cycle s with
    | none => 0
    | some s' =>
      (if s'.DRF.opcode = op ∧ s'.DRF.stalled = true then 1 else 0) + held op k s'

/-- The count `held` on the in-flight descriptions: the next `m` descriptions after `a` in
which the DRF instruction has opcode `op` and is not promoted. -/
def held_abs (code : List APEX_Instruction) (op : Opcode) : Nat → Abs → Nat
  | 0, _ => 0
  | m + 1, a =>
    (if (ins code (next code a).d).opcode = op ∧ (next code a).mode ≠ .run then 1 else 0) +
      held_abs code op m (next code a)

end PartB


/-!
Stage by stage: reference descriptions and concrete states

The definitions below serve the theorems on the single stages (initialiser, Decode, the
source resolver of variant B, Writeback, the control-flow unit, Execute): the reference
descriptions the stages are compared with, and the programs and states the statements are
evaluated on.
-/

namespace APEX

/-- The program
`MOVC R1,#0; SUB R3,R1,R1; MOVC R4,#1; MOVC R5,#1; BZ #8; MOVC R6,#1; HALT`:
the BZ follows the SUB at a distance of three instructions. -/
def prog_late_Z : List APEX_Instruction :=
  [⟨.MOVC, 1, 0, 0, 0⟩, ⟨.SUB, 3, 1, 1, 0⟩, ⟨.MOVC, 4, 0, 0, 1⟩, ⟨.MOVC, 5, 0, 0, 1⟩,
   ⟨.BZ, 0, 0, 0, 8⟩, ⟨.MOVC, 6, 0, 0, 1⟩, ⟨.HALT, 0, 0, 0, 0⟩]

/-- The program `MOVC R1,#0; MOVC R2,#1; ADD R3,R1,R1; ADD R4,R2,R2; HALT`. -/
def prog_two_ADD : List APEX_Instruction :=
  [⟨.MOVC, 1, 0, 0, 0⟩, ⟨.MOVC, 2, 0, 0, 1⟩, ⟨.ADD, 3, 1, 1, 0⟩, ⟨.ADD, 4, 2, 2, 0⟩,
   ⟨.HALT, 0, 0, 0, 0⟩]

/-- The program `MOVC R1,#7; STORE R1,R0,#4096; HALT`: the STORE writes `R1` to the
address `R0 + 4096 = 4096`. -/
def prog_STORE_4096 : List APEX_Instruction :=
  [⟨.MOVC, 1, 0, 0, 7⟩, ⟨.STORE, 0, 1, 0, 4096⟩, ⟨.HALT, 0, 0, 0, 0⟩]

/-- The program `MOVC R1,#7; STORE R1,R0,#8; HALT`: the STORE writes `R1` to the address
`R0 + 8 = 8`. -/
def prog_STORE_8 : List APEX_Instruction :=
  [⟨.MOVC, 1, 0, 0, 7⟩, ⟨.STORE, 0, 1, 0, 8⟩, ⟨.HALT, 0, 0, 0, 0⟩]

/-- A parser that yields the program `code` whatever the file name. -/
def parser_of (code : List APEX_Instruction) : Option String → Option (List APEX_Instruction) :=
  fun _ => some code

/-- The specification's list of writer opcodes: MOVC, ADD, SUB, MUL, AND, OR, EX-OR, LOAD. -/
def Opcode.spec_writer (o : Opcode) : Bool :=
  match o with
  | .MOVC | .ADD | .SUB | .MUL | .AND | .OR | .EXOR | .LOAD => true
  | _ => false

/-- What the specification says Execute leaves behind for a live EX latch, `c` being the
state after the stage ran on `cpu`: the result in `buffer` (C `int` arithmetic, that is with
32-bit wrap-around, and the bitwise operations), the address of a LOAD or STORE in
`mem_address`, the register file, the Z flag and data memory untouched, and, for every
opcode but MUL, the resulting EX latch copied into MEM. -/
def execute_post (cpu c : APEX_CPU) : Prop :=
  (cpu.EX.opcode = .MOVC → c.EX.buffer = cpu.EX.imm) ∧
  (cpu.EX.opcode = .ADD → c.EX.buffer = wrap32 (cpu.EX.rs1_value + cpu.EX.rs2_value)) ∧
  (cpu.EX.opcode = .SUB → c.EX.buffer = wrap32 (cpu.EX.rs1_value - cpu.EX.rs2_value)) ∧
  (cpu.EX.opcode = .MUL → c.EX.buffer = wrap32 (cpu.EX.rs1_value * cpu.EX.rs2_value)) ∧
  (cpu.EX.opcode = .AND → c.EX.buffer = Int.land cpu.EX.rs1_value cpu.EX.rs2_value) ∧
  (cpu.EX.opcode = .OR → c.EX.buffer = Int.lor cpu.EX.rs1_value cpu.EX.rs2_value) ∧
  (cpu.EX.opcode = .EXOR → c.EX.buffer = Int.xor cpu.EX.rs1_value cpu.EX.rs2_value) ∧
  (cpu.EX.opcode = .LOAD → c.EX.mem_address = wrap32 (cpu.EX.rs1_value + cpu.EX.imm)) ∧
  (cpu.EX.opcode = .STORE → c.EX.mem_address = wrap32 (cpu.EX.rs2_value + cpu.EX.imm)) ∧
  c.regs = cpu.regs ∧ c.z_flag = cpu.z_flag ∧ c.data_memory = cpu.data_memory ∧
  (cpu.EX.opcode ≠ .MUL → c.MEM = { c.EX with stalled := false })

end APEX

namespace PartA
open APEX

/-- The stall condition of the specification for Decode: a source the opcode requires is
not valid (both register sources for ADD, SUB, MUL, AND, OR, EX-OR and STORE, `rs1` for LOAD
and JUMP, the Z flag for BZ and BNZ; no source for any other opcode). -/
def source_invalid (cpu : APEX_CPU) : Bool :=
  match cpu.DRF.opcode with
  | .ADD | .SUB | .MUL | .AND | .OR | .EXOR | .STORE =>
      !cpu.regs_valid cpu.DRF.rs1 || !cpu.regs_valid cpu.DRF.rs2
  | .LOAD | .JUMP => !cpu.regs_valid cpu.DRF.rs1
  | .BZ | .BNZ => !cpu.z_flag_valid
  | _ => false

/-- State of `prog_MOVC_ADD` after two cycles: the MOVC in EX, the ADD that reads its
destination in a live DRF latch. -/
def add_waits_state : APEX_CPU :=
  (cycles 2 (initial prog_MOVC_ADD 10 blank)).getD (initial prog_MOVC_ADD 10 blank)

/-- State of `prog_MOVC_R0` after four cycles: the MOVC in a live WB latch, the HALT behind
it in MEM and EX. -/
def movc_retires_state : APEX_CPU :=
  (cycles 4 (initial prog_MOVC_R0 10 blank)).getD (initial prog_MOVC_R0 10 blank)

/-- State of `prog_MOVC_ADD` after seven cycles: the ADD in a live WB latch. -/
def add_retires_state : APEX_CPU :=
  (cycles 7 (initial prog_MOVC_ADD 10 blank)).getD (initial prog_MOVC_ADD 10 blank)

/-- The state Execute leaves when it takes a branch to `target`: `buffer` is set to the
target, `control_flow` is invoked, and the EX latch is copied into MEM. -/
def branch_to (cpu : APEX_CPU) (target : Int) : APEX_CPU :=
  { control_flow (set_buffer cpu target) with MEM := { cpu.EX with buffer := target } }

/-- The cycle that starts in `t` keeps to the program `code`: if Execute changes the pc (a
taken branch), the new pc is word-aligned and lies in `4000 .. 4000 + 4 * code.length`, and
if Fetch reads, it reads an index below `code.length`. -/
def steady (code : List APEX_Instruction) (t : APEX_CPU) : Bool :=
  (match (memory (writeback t)).bind execute with
   | none => true
   | some c =>
     decide (c.pc = t.pc) ||
       (decide (4000 ≤ c.pc) && decide (c.pc ≤ 4000 + 4 * (code.length : Int)) &&
         decide ((c.pc - 4000) % 4 = 0))) &&
  (match fetch_reads t with
   | none => true
   | some i => decide (i < (code.length : Int)))

/-- The first `k` cycles from `s` keep to the program `code`. -/
def steady_for (code : List APEX_Instruction) : Nat → APEX_CPU → Bool
  | 0, _ => true
  | k + 1, s =>
    steady code s &&
      (match cycle s with
       | none => true
       | some s1 => steady_for code k s1)

/-- State of `prog_STORE_8` after six cycles: the STORE in a live MEM latch. -/
def store_8_state : APEX_CPU :=
  (cycles 6 (initial prog_STORE_8 100 blank)).getD (initial prog_STORE_8 100 blank)

/-- State of `prog_STORE_4096` after six cycles: the STORE in a live MEM latch. -/
def store_4096_state : APEX_CPU :=
  (cycles 6 (initial prog_STORE_4096 100 blank)).getD (initial prog_STORE_4096 100 blank)

end PartA

namespace PartB
open APEX

/-- The writer test `W(L)` of the specification for source register `s` and latch `L`:
the latch has `rd = s` and an opcode not in BUBBLE, STORE, BZ, BNZ, JUMP. -/
def reference_writer (s : Int) (L : CPU_Stage) : Bool :=
  decide (L.rd = s) &&
    !(L.opcode = .BUBBLE || L.opcode = .STORE || L.opcode = .BZ || L.opcode = .BNZ ||
      L.opcode = .JUMP)

/-- The reference resolver of the specification for one source register `s`: the value the
source takes, or `none` when the producer is a LOAD still in EX (the latch is then marked
stalled and the value left as it is). -/
def reference_source (cpu : APEX_CPU) (s : Int) : Option Int :=
  if reference_writer s cpu.EX then
    if cpu.EX.opcode = .LOAD then none else some cpu.EX.buffer
  else if reference_writer s cpu.WB then some cpu.WB.buffer
  else some (cpu.regs s)

/-- The reference resolver of the specification applied to the DRF latch: `rs1` always,
`rs2` when `rs2_exist`; nothing but the two source values and the stalled mark of the DRF
latch changes. -/
def reference_resolver (cpu : APEX_CPU) (rs2_exist : Bool) : APEX_CPU :=
  { cpu with
    DRF := { cpu.DRF with
             rs1_value := (reference_source cpu cpu.DRF.rs1).getD cpu.DRF.rs1_value
             rs2_value := if rs2_exist
                          then (reference_source cpu cpu.DRF.rs2).getD cpu.DRF.rs2_value
                          else cpu.DRF.rs2_value
             stalled := cpu.DRF.stalled || (reference_source cpu cpu.DRF.rs1).isNone ||
                        (rs2_exist && (reference_source cpu cpu.DRF.rs2).isNone) } }

/-- State of `prog_late_Z` in its sixth cycle at the moment Decode runs: Writeback has
retired the SUB, the BZ is in DRF. -/
def late_Z_state : APEX_CPU :=
  ((cycles 5 (initial prog_late_Z 100 blank)).bind
    fun s => (memory (writeback s)).bind execute).getD (initial prog_late_Z 100 blank)

/-- State of `prog_two_ADD` after six cycles: `ADD R3` in a live WB latch, `ADD R4` in MEM. -/
def two_ADD_state : APEX_CPU :=
  (cycles 6 (initial prog_two_ADD 100 blank)).getD (initial prog_two_ADD 100 blank)

/-- The state Execute leaves when it takes a branch to `target`: `buffer` is set to the
target, `control_flow` is invoked, and the EX latch is copied into MEM. -/
def branch_to (cpu : APEX_CPU) (target : Int) : APEX_CPU :=
  { control_flow (set_buffer cpu target) with MEM := { cpu.EX with buffer := target } }

/-- State of `prog_MUL` after two cycles: the MUL sits in the EX latch. -/
def mul_state : APEX_CPU :=
  (cycles 2 (initial prog_MUL 10 blank)).getD (initial prog_MUL 10 blank)

/-- State of `prog_MOVC` after two cycles: the MOVC sits in the EX latch. -/
def movc_state : APEX_CPU :=
  (cycles 2 (initial prog_MOVC 10 blank)).getD (initial prog_MOVC 10 blank)

/-- The cycle that starts in `t` keeps to the program `code`: if Execute changes the pc (a
taken branch), the new pc is word-aligned and lies in `4000 .. 4000 + 4 * code.length`, and
if Fetch reads, it reads an index below `code.length`. -/
def steady (code : List APEX_Instruction) (t : APEX_CPU) : Bool :=
  (match (memory (writeback t)).bind execute with
   | none => true
   | some c =>
     decide (c.pc = t.pc) ||
       (decide (4000 ≤ c.pc) && decide (c.pc ≤ 4000 + 4 * (code.length : Int)) &&
         decide ((c.pc - 4000) % 4 = 0))) &&
  (match fetch_reads t with
   | none => true
   | some i => decide (i < (code.length : Int)))

/-- The first `k` cycles from `s` keep to the program `code`. -/
def steady_for (code : List APEX_Instruction) : Nat → APEX_CPU → Bool
  | 0, _ => true
  | k + 1, s =>
    steady code s &&
      (match cycle s with
       | none => true
       | some s1 => steady_for code k s1)

/-- State of `prog_STORE_8` after four cycles: the STORE in a live MEM latch. -/
def store_8_state : APEX_CPU :=
  (cycles 4 (initial prog_STORE_8 100 blank)).getD (initial prog_STORE_8 100 blank)

/-- State of `prog_STORE_4096` after four cycles: the STORE in a live MEM latch. -/
def store_4096_state : APEX_CPU :=
  (cycles 4 (initial prog_STORE_4096 100 blank)).getD (initial prog_STORE_4096 100 blank)

end PartB


namespace PartA
open APEX

theorem no_later_arith_iff (cpu : APEX_CPU) :
    (cpu.MEM.opcode ≠ .ADD ∧ cpu.MEM.opcode ≠ .SUB ∧ cpu.MEM.opcode ≠ .MUL ∧
      cpu.EX.opcode ≠ .ADD ∧ cpu.EX.opcode ≠ .SUB ∧ cpu.EX.opcode ≠ .MUL) ↔
    no_later_arith cpu = true := by
  unfold no_later_arith
  cases cpu.MEM.opcode <;> cases cpu.EX.opcode <;> simp [Opcode.sets_z]

theorem writeback_regs_eq (cpu : APEX_CPU) : writeback_regs cpu =
    { cpu with
      regs := if cpu.WB.opcode.writes_rd then write cpu.regs cpu.WB.rd cpu.WB.buffer else cpu.regs
      regs_valid :=
        if cpu.WB.opcode.writes_rd ∧ no_shadow cpu.WB.rd cpu.MEM ∧ no_shadow cpu.WB.rd cpu.EX
        then write cpu.regs_valid cpu.WB.rd true else cpu.regs_valid } := by
  unfold writeback_regs
  cases h : cpu.WB.opcode <;> cases h3 : no_shadow cpu.WB.rd cpu.MEM <;>
    cases h4 : no_shadow cpu.WB.rd cpu.EX <;> simp [Opcode.writes_rd, h3, h4]

theorem writeback_Z_eq (cpu : APEX_CPU) : writeback_Z cpu =
    { cpu with
      z_flag := if cpu.WB.opcode.sets_z ∧ no_later_arith cpu then decide (cpu.WB.buffer = 0)
                else cpu.z_flag
      z_flag_valid := if cpu.WB.opcode.sets_z ∧ no_later_arith cpu then true
                      else cpu.z_flag_valid } := by
  unfold writeback_Z
  simp only [no_later_arith_iff]
  cases h : cpu.WB.opcode <;> cases h1 : no_later_arith cpu <;> by_cases h5 : cpu.WB.buffer = 0 <;>
    simp [Opcode.sets_z, h5, h1]

theorem writeback_HALT_eq (cpu : APEX_CPU) : writeback_HALT cpu =
    { cpu with
      WB := { cpu.WB with opcode := if cpu.WB.opcode = .HALT then .EMPTY else cpu.WB.opcode } } := by
  unfold writeback_HALT
  by_cases h : cpu.WB.opcode = .HALT <;> simp [h]

theorem writeback_live (cpu : APEX_CPU) (hb : cpu.WB.busy = false) (hs : cpu.WB.stalled = false) :
    writeback cpu =
      { cpu with
        regs := if cpu.WB.opcode.writes_rd then write cpu.regs cpu.WB.rd cpu.WB.buffer
                else cpu.regs
        regs_valid :=
          if cpu.WB.opcode.writes_rd ∧ no_shadow cpu.WB.rd cpu.MEM ∧ no_shadow cpu.WB.rd cpu.EX
          then write cpu.regs_valid cpu.WB.rd true else cpu.regs_valid
        z_flag := if cpu.WB.opcode.sets_z ∧ no_later_arith cpu then decide (cpu.WB.buffer = 0)
                  else cpu.z_flag
        z_flag_valid := if cpu.WB.opcode.sets_z ∧ no_later_arith cpu then true
                        else cpu.z_flag_valid
        ins_completed := cpu.ins_completed + 1
        WB := { cpu.WB with opcode := if cpu.WB.opcode = .HALT then .EMPTY else cpu.WB.opcode } } := by
  unfold writeback
  simp only [writeback_HALT_eq, writeback_Z_eq, writeback_regs_eq, no_later_arith]
  simp [hb, hs]

theorem writeback_idle (cpu : APEX_CPU) (h : cpu.WB.busy = true ∨ cpu.WB.stalled = true) :
    writeback cpu = cpu := by
  unfold writeback
  rcases h with h | h <;> simp [h]

theorem memory_live (cpu : APEX_CPU) (hb : cpu.MEM.busy = false) (hs : cpu.MEM.stalled = false) :
    mem_step cpu =
      { cpu with
        data_memory := if cpu.MEM.opcode = .STORE
                       then write cpu.data_memory cpu.MEM.mem_address cpu.MEM.rs1_value
                       else cpu.data_memory
        MEM := { mem_done cpu.MEM cpu.data_memory with stalled := decide (cpu.MEM.opcode = .HALT) }
        WB := mem_done cpu.MEM cpu.data_memory } := by
  simp [mem_step, hb, hs]

theorem memory_idle (cpu : APEX_CPU) (h : cpu.MEM.busy = true ∨ cpu.MEM.stalled = true) :
    mem_step cpu = cpu := by
  unfold mem_step
  rcases h with h | h <;> simp [h]

theorem memory_eq (cpu : APEX_CPU) :
    memory cpu = if mem_oob cpu then none else some (mem_step cpu) := by
  rcases cpu with ⟨clock, pc, regs, rv, F, DRF, EX, MEM, WB, cm, cms, dm, ic, z, zv, ec, out⟩
  rcases MEM with ⟨wpc, wop, wrs1, wrs2, wrd, wimm, wv1, wv2, wbuf, wma, wbusy, wst, wz⟩
  by_cases h1 : 0 ≤ wma <;> by_cases h2 : wma < 4096 <;>
    cases wbusy <;> cases wst <;> cases wop <;>
    simp [memory, memory_HALT, memory_LOAD, memory_STORE, mem_done, mem_oob, mem_step,
      DATA_MEMORY_SIZE, h1, h2]

theorem memory_some (cpu : APEX_CPU) (h : mem_oob cpu = false) :
    memory cpu = some (mem_step cpu) := by
  rw [memory_eq, h]
  rfl

theorem oob_of_bounds (cpu : APEX_CPU) (h : mem_in_bounds cpu.MEM) : mem_oob cpu = false := by
  unfold mem_oob
  unfold mem_in_bounds at h
  by_cases h1 : cpu.MEM.opcode = .STORE ∨ cpu.MEM.opcode = .LOAD
  · have := h h1
    simp [this.1, this.2]
  · push_neg at h1
    simp [h1.1, h1.2]

theorem oob_congr (a b : APEX_CPU) (h : a.MEM = b.MEM) : mem_oob a = mem_oob b := by
  unfold mem_oob
  rw [h]

theorem oob_mem_step (cpu : APEX_CPU) (h : mem_oob cpu = false) :
    mem_oob (mem_step cpu) = false := by
  rcases cpu with ⟨clock, pc, regs, rv, F, DRF, EX, MEM, WB, cm, cms, dm, ic, z, zv, ec, out⟩
  rcases MEM with ⟨wpc, wop, wrs1, wrs2, wrd, wimm, wv1, wv2, wbuf, wma, wbusy, wst, wz⟩
  cases wbusy <;> cases wst <;> cases wop <;>
    simp_all [mem_oob, mem_step, mem_done]

theorem oob_of_idle (cpu : APEX_CPU) (h : cpu.MEM.busy = true ∨ cpu.MEM.stalled = true) :
    mem_oob cpu = false := by
  unfold mem_oob
  rcases h with h | h <;> simp [h]

theorem oob_of_opcode (cpu : APEX_CPU) (h1 : cpu.MEM.opcode ≠ .STORE) (h2 : cpu.MEM.opcode ≠ .LOAD) :
    mem_oob cpu = false := by
  unfold mem_oob
  simp [h1, h2]

theorem oob_writeback (cpu : APEX_CPU) : mem_oob (writeback cpu) = mem_oob cpu := by
  by_cases hl : cpu.WB.busy = false ∧ cpu.WB.stalled = false
  · rw [writeback_live cpu hl.1 hl.2]
    rfl
  · rw [writeback_idle cpu]
    by_contra hc
    exact hl ⟨by simpa using fun e => hc (Or.inl e), by simpa using fun e => hc (Or.inr e)⟩

theorem control_flow_eq (cpu : APEX_CPU) (hc : cpu.ENABLE_COUNTING = false) :
    control_flow cpu =
      { cpu with
        pc := cpu.EX.buffer
        F := { cpu.F with opcode := .BUBBLE, pc := 0, stalled := true }
        DRF := { cpu.DRF with opcode := .BUBBLE, pc := 0 } } := by
  simp [control_flow, hc]

theorem execute_live (cpu : APEX_CPU) (hb : cpu.EX.busy = false) (hs : cpu.EX.stalled = false)
    (hc : cpu.ENABLE_COUNTING = false) :
    execute cpu =
      if ex_fault cpu.EX then none
      else some
        { cpu with
          pc := if ex_taken cpu.EX cpu.z_flag then ex_buffer cpu.EX cpu.z_flag else cpu.pc
          F := { cpu.F with
                 opcode := if ex_taken cpu.EX cpu.z_flag then .BUBBLE else cpu.F.opcode
                 pc := if ex_taken cpu.EX cpu.z_flag then 0 else cpu.F.pc
                 stalled := cpu.F.stalled || ex_taken cpu.EX cpu.z_flag }
          DRF := { cpu.DRF with
                   opcode := if ex_taken cpu.EX cpu.z_flag then .BUBBLE else cpu.DRF.opcode
                   pc := if ex_taken cpu.EX cpu.z_flag then 0 else cpu.DRF.pc
                   stalled := cpu.DRF.stalled || decide (cpu.EX.opcode = .MUL) }
          EX := { ex_done cpu.EX cpu.z_flag with
                  stalled := decide (cpu.EX.opcode = .MUL) || decide (cpu.EX.opcode = .HALT) }
          MEM := if cpu.EX.opcode = .MUL then { cpu.MEM with opcode := .BUBBLE, pc := 0 }
                 else ex_done cpu.EX cpu.z_flag } := by
  rcases cpu with ⟨clock, pc, regs, rv, F, DRF, EX, MEM, WB, cm, cms, dm, ic, z, zv, ec, out⟩
  rcases EX with ⟨wpc, wop, wrs1, wrs2, wrd, wimm, wv1, wv2, wbuf, wma, wbusy, wst, wz⟩
  simp only at hb hs hc
  subst hb hs hc
  cases wop <;> cases z <;>
    simp [execute, execute_from_MOVC, execute_HALT, execute_to_MEM, execute_BZ, execute_BNZ, execute_JUMP,
      execute_EXOR, execute_OR, execute_AND, execute_MUL, execute_SUB, execute_ADD, execute_MOVC,
      execute_LOAD, execute_STORE, set_buffer, control_flow, ex_fault, ex_addr, ex_taken, ex_buffer,
      ex_done, exception_handler]
  all_goals
    split_ifs <;>
    simp [execute_from_MOVC, execute_HALT, execute_to_MEM, execute_BZ, execute_BNZ, execute_JUMP,
      execute_EXOR, execute_OR, execute_AND, execute_MUL, execute_SUB, execute_ADD, execute_MOVC]

theorem execute_resume (cpu : APEX_CPU) (hs : cpu.EX.stalled = true) (ho : cpu.EX.opcode = .MUL)
    (hc : cpu.ENABLE_COUNTING = false) :
    execute cpu = some
      { cpu with
        DRF := { cpu.DRF with stalled := false }
        EX := { cpu.EX with stalled := false }
        MEM := { cpu.EX with stalled := false } } := by
  simp [execute, execute_MUL_resume, hs, ho, hc]

theorem execute_idle (cpu : APEX_CPU) (h : cpu.EX.busy = true ∨ cpu.EX.stalled = true)
    (h2 : cpu.EX.stalled = false ∨ cpu.EX.opcode ≠ .MUL) :
    execute cpu = some cpu := by
  unfold execute execute_MUL_resume
  rcases h with h | h <;> rcases h2 with h2 | h2 <;> simp_all

theorem decode_live (cpu : APEX_CPU) (hb : cpu.DRF.busy = false) (hs : cpu.DRF.stalled = false) :
    decode cpu =
      if ready cpu then
        { cpu with
          regs_valid := if cpu.DRF.opcode.writes_rd then write cpu.regs_valid cpu.DRF.rd false
                        else cpu.regs_valid
          z_flag_valid := if cpu.DRF.opcode.sets_z then false else cpu.z_flag_valid
          DRF := { DRF_read cpu with stalled := decide (cpu.DRF.opcode = .HALT) }
          EX := DRF_read cpu
          F := { cpu.F with stalled := cpu.F.stalled || decide (cpu.DRF.opcode = .HALT) } }
      else
        { cpu with
          z_flag_valid := if cpu.DRF.opcode.sets_z then false else cpu.z_flag_valid
          DRF := { cpu.DRF with stalled := true }
          EX := { cpu.EX with opcode := .BUBBLE, pc := 0 } } := by
  rcases cpu with ⟨clock, pc, regs, rv, F, DRF, EX, MEM, WB, cm, cms, dm, ic, z, zv, ec, out⟩
  rcases DRF with ⟨dpc, dop, drs1, drs2, drd, dimm, dv1, dv2, dbuf, dma, dbusy, dst, dz⟩
  simp only at hb hs
  subst hb hs
  cases dop <;> cases h1 : rv drs1 <;> cases h2 : rv drs2 <;> cases zv <;>
    simp [decode, decode_HALT, decode_to_EX, decode_JUMP, decode_BZ_BNZ, decode_Z_invalid,
      decode_ALU, decode_MOVC, decode_LOAD, decode_STORE, read_rs1_rs2, read_rs1, stall_DRF,
      invalidate_rd, ready, DRF_read, Opcode.reads_rs1, Opcode.reads_rs2, Opcode.is_cond_branch,
      Opcode.writes_rd, Opcode.sets_z, h1, h2]

theorem decode_retry (cpu : APEX_CPU) (hs : cpu.DRF.stalled = true) (ho : cpu.DRF.opcode ≠ .HALT)
    (he : cpu.EX.stalled = false) (hc : cpu.ENABLE_COUNTING = false) :
    decode cpu =
      if ready cpu ∧ (cpu.DRF.opcode.reads_rs1 ∨ cpu.DRF.opcode.is_cond_branch) then
        { cpu with
          regs_valid := if cpu.DRF.opcode.writes_rd then write cpu.regs_valid cpu.DRF.rd false
                        else cpu.regs_valid
          DRF := { DRF_read cpu with stalled := false }
          EX := { DRF_read cpu with stalled := false } }
      else cpu := by
  rcases cpu with ⟨clock, pc, regs, rv, F, DRF, EX, MEM, WB, cm, cms, dm, ic, z, zv, ec, out⟩
  rcases DRF with ⟨dpc, dop, drs1, drs2, drd, dimm, dv1, dv2, dbuf, dma, dbusy, dst, dz⟩
  simp only at hs ho he hc
  subst hs hc
  cases dop <;> cases h1 : rv drs1 <;> cases h2 : rv drs2 <;> cases zv <;>
    simp [decode, decode_retry_BZ_BNZ, decode_retry_JUMP, decode_retry_LOAD, decode_retry_ALU,
      decode_retry_count, read_rs1_rs2, read_rs1, promote,
      invalidate_rd, ready, DRF_read, Opcode.reads_rs1, Opcode.reads_rs2, Opcode.is_cond_branch,
      Opcode.writes_rd, Opcode.sets_z, h1, h2, he] at ho ⊢

theorem decode_idle (cpu : APEX_CPU) (h : cpu.DRF.busy = true ∨ cpu.DRF.stalled = true)
    (h2 : cpu.DRF.stalled = false ∨ cpu.DRF.opcode = .HALT ∨ cpu.EX.stalled = true) :
    decode cpu = cpu := by
  unfold decode
  rcases h with h | h <;> rcases h2 with h2 | h2 | h2 <;> simp_all

theorem fetch_live (cpu : APEX_CPU) (hb : cpu.F.busy = false) (hs : cpu.F.stalled = false) :
    fetch cpu =
      { cpu with
        pc := cpu.pc + 4
        F := { fetched cpu cpu.F.z_flag with stalled := cpu.DRF.stalled }
        DRF := if cpu.DRF.stalled then cpu.DRF else fetched cpu cpu.F.z_flag } := by
  rcases cpu with ⟨clock, pc, regs, rv, F, DRF, EX, MEM, WB, cm, cms, dm, ic, z, zv, ec, out⟩
  rcases F with ⟨dpc, dop, drs1, drs2, drd, dimm, dv1, dv2, dbuf, dma, dbusy, dst, dz⟩
  simp only at hb hs
  subst hb hs
  cases h : DRF.stalled <;> simp [fetch, fetched, code_at, h]

theorem fetch_stalled (cpu : APEX_CPU) (h : cpu.F.busy = true ∨ cpu.F.stalled = true) :
    fetch cpu =
      { cpu with
        code_memory_size := if cpu.WB.opcode = .HALT then cpu.clock + 1 else cpu.code_memory_size
        F := { cpu.F with
               stalled := if cpu.F.opcode = .BUBBLE ∨
                             (cpu.DRF.stalled = false ∧ cpu.DRF.opcode ≠ .BUBBLE)
                          then false else cpu.F.stalled }
        DRF := if cpu.DRF.stalled = false ∧ cpu.DRF.opcode ≠ .BUBBLE
               then { cpu.F with stalled := false } else cpu.DRF } := by
  rcases cpu with ⟨clock, pc, regs, rv, F, DRF, EX, MEM, WB, cm, cms, dm, ic, z, zv, ec, out⟩
  have h' : (!F.busy && !F.stalled) = false := by
    rcases h with h | h <;> simp at h <;> simp [h]
  by_cases h1 : WB.opcode = .HALT <;> by_cases h2 : F.opcode = .BUBBLE <;>
    by_cases h3 : DRF.stalled = false <;> by_cases h4 : DRF.opcode = .BUBBLE <;>
    simp [fetch, h', h1, h2, h3, h4]

end PartA


namespace APEX
theorem sets_z_iff' (o : Opcode) : (o = .ADD ∨ o = .SUB ∨ o = .MUL) ↔ o.sets_z = true := by
  cases o <;> simp [Opcode.sets_z]
end APEX

namespace PartB
open APEX

theorem writeback_live_B (cpu : APEX_CPU) (hb : cpu.WB.busy = false) (hs : cpu.WB.stalled = false) :
    writeback cpu =
      { cpu with
        regs := if cpu.WB.opcode.writes_rd then write cpu.regs cpu.WB.rd cpu.WB.buffer
                else cpu.regs
        z_flag := if cpu.WB.opcode.sets_z then decide (cpu.WB.buffer = 0) else cpu.z_flag
        ins_completed := cpu.ins_completed + 1
        WB := { cpu.WB with opcode := if cpu.WB.opcode = .HALT then .EMPTY else cpu.WB.opcode } } := by
  rcases cpu with ⟨clock, pc, regs, rv, F, DRF, EX, MEM, WB, cm, cms, dm, ic, z, zv, ec, out⟩
  rcases WB with ⟨wpc, wop, wrs1, wrs2, wrd, wimm, wv1, wv2, wbuf, wma, wbusy, wst, wz⟩
  simp only at hb hs
  subst hb hs
  cases wop <;> by_cases h5 : wbuf = 0 <;>
    simp [writeback, writeback_HALT, writeback_Z, writeback_regs, Opcode.writes_rd, Opcode.sets_z, h5]

theorem writeback_idle_B (cpu : APEX_CPU) (h : cpu.WB.busy = true ∨ cpu.WB.stalled = true) :
    writeback cpu = cpu := by
  unfold writeback
  rcases h with h | h <;> simp [h]

theorem memory_live_B (cpu : APEX_CPU) (hb : cpu.MEM.busy = false) (hs : cpu.MEM.stalled = false) :
    mem_step cpu =
      { cpu with
        data_memory := if cpu.MEM.opcode = .STORE
                       then write cpu.data_memory cpu.MEM.mem_address cpu.MEM.rs1_value
                       else cpu.data_memory
        MEM := { mem_done cpu.MEM cpu.data_memory with stalled := decide (cpu.MEM.opcode = .HALT) }
        WB := mem_done cpu.MEM cpu.data_memory } := by
  simp [mem_step, hb, hs]

theorem memory_idle_B (cpu : APEX_CPU) (h : cpu.MEM.busy = true ∨ cpu.MEM.stalled = true) :
    mem_step cpu = cpu := by
  unfold mem_step
  rcases h with h | h <;> simp [h]

theorem memory_eq_B (cpu : APEX_CPU) :
    memory cpu = if mem_oob cpu then none else some (mem_step cpu) := by
  rcases cpu with ⟨clock, pc, regs, rv, F, DRF, EX, MEM, WB, cm, cms, dm, ic, z, zv, ec, out⟩
  rcases MEM with ⟨wpc, wop, wrs1, wrs2, wrd, wimm, wv1, wv2, wbuf, wma, wbusy, wst, wz⟩
  by_cases h1 : 0 ≤ wma <;> by_cases h2 : wma < 4096 <;>
    cases wbusy <;> cases wst <;> cases wop <;>
    simp [memory, memory_HALT, memory_LOAD, memory_STORE, mem_done, mem_oob, mem_step,
      DATA_MEMORY_SIZE, h1, h2]

theorem memory_some_B (cpu : APEX_CPU) (h : mem_oob cpu = false) :
    memory cpu = some (mem_step cpu) := by
  rw [memory_eq_B, h]
  rfl

theorem oob_writeback_B (cpu : APEX_CPU) : mem_oob (writeback cpu) = mem_oob cpu := by
  by_cases hl : cpu.WB.busy = false ∧ cpu.WB.stalled = false
  · rw [writeback_live_B cpu hl.1 hl.2]
    rfl
  · rw [writeback_idle_B cpu]
    by_contra hc
    exact hl ⟨by simpa using fun e => hc (Or.inl e), by simpa using fun e => hc (Or.inr e)⟩

theorem control_flow_eq_B (cpu : APEX_CPU) (hc : cpu.ENABLE_COUNTING = false) :
    control_flow cpu =
      { cpu with
        pc := cpu.EX.buffer
        F := { cpu.F with opcode := .BUBBLE, pc := 0, stalled := true }
        DRF := { cpu.DRF with opcode := .BUBBLE, pc := 0 } } := by
  simp [control_flow, hc]

theorem execute_live_B (cpu : APEX_CPU) (hb : cpu.EX.busy = false) (hs : cpu.EX.stalled = false)
    (hc : cpu.ENABLE_COUNTING = false) :
    execute cpu =
      if ex_fault cpu.EX then none
      else some
        { cpu with
          pc := if ex_taken cpu.EX cpu.EX.z_flag then ex_buffer cpu.EX cpu.EX.z_flag else cpu.pc
          F := { cpu.F with
                 opcode := if ex_taken cpu.EX cpu.EX.z_flag then .BUBBLE else cpu.F.opcode
                 pc := if ex_taken cpu.EX cpu.EX.z_flag then 0 else cpu.F.pc
                 stalled := cpu.F.stalled || ex_taken cpu.EX cpu.EX.z_flag }
          DRF := { cpu.DRF with
                   opcode := if ex_taken cpu.EX cpu.EX.z_flag then .BUBBLE else cpu.DRF.opcode
                   pc := if ex_taken cpu.EX cpu.EX.z_flag then 0 else cpu.DRF.pc
                   stalled := cpu.DRF.stalled || decide (cpu.EX.opcode = .MUL) }
          EX := { ex_done cpu.EX cpu.EX.z_flag with
                  stalled := decide (cpu.EX.opcode = .MUL) || decide (cpu.EX.opcode = .HALT) }
          MEM := if cpu.EX.opcode = .MUL then { cpu.MEM with opcode := .BUBBLE, pc := 0 }
                 else ex_done cpu.EX cpu.EX.z_flag } := by
  rcases cpu with ⟨clock, pc, regs, rv, F, DRF, EX, MEM, WB, cm, cms, dm, ic, z, zv, ec, out⟩
  rcases EX with ⟨wpc, wop, wrs1, wrs2, wrd, wimm, wv1, wv2, wbuf, wma, wbusy, wst, wz⟩
  simp only at hb hs hc
  subst hb hs hc
  cases wop <;> cases wz <;>
    simp [execute, execute_from_MOVC, execute_HALT, execute_to_MEM, execute_BZ, execute_BNZ, execute_JUMP,
      execute_EXOR, execute_OR, execute_AND, execute_MUL, execute_SUB, execute_ADD, execute_MOVC,
      execute_LOAD, execute_STORE, set_buffer, control_flow, ex_fault, ex_addr, ex_taken, ex_buffer,
      ex_done, exception_handler]
  all_goals
    split_ifs <;>
    simp [execute_from_MOVC, execute_HALT, execute_to_MEM, execute_BZ, execute_BNZ, execute_JUMP,
      execute_EXOR, execute_OR, execute_AND, execute_MUL, execute_SUB, execute_ADD, execute_MOVC]

theorem execute_resume_B (cpu : APEX_CPU) (hs : cpu.EX.stalled = true) (ho : cpu.EX.opcode = .MUL)
    (hc : cpu.ENABLE_COUNTING = false) :
    execute cpu = some
      { cpu with
        DRF := { cpu.DRF with stalled := false }
        EX := { cpu.EX with stalled := false }
        MEM := { cpu.EX with stalled := false } } := by
  simp [execute, execute_MUL_resume, hs, ho, hc]

theorem execute_idle_B (cpu : APEX_CPU) (h : cpu.EX.busy = true ∨ cpu.EX.stalled = true)
    (h2 : cpu.EX.stalled = false ∨ cpu.EX.opcode ≠ .MUL) :
    execute cpu = some cpu := by
  unfold execute execute_MUL_resume
  rcases h with h | h <;> rcases h2 with h2 | h2 <;> simp_all

theorem rs1_resolved_B (cpu : APEX_CPU) :
    rs1_from_RF (rs1_from_WB (rs1_from_EX cpu)) =
      { cpu with
        DRF := { cpu.DRF with
                 rs1_value := if load_use cpu cpu.DRF.rs1 = false then fwd cpu cpu.DRF.rs1
                              else cpu.DRF.rs1_value
                 stalled := cpu.DRF.stalled || load_use cpu cpu.DRF.rs1 } } := by
  rcases cpu with ⟨clock, pc, regs, rv, F, DRF, EX, MEM, WB, cm, cms, dm, ic, z, zv, ec, out⟩
  rcases DRF with ⟨dpc, dop, drs1, drs2, drd, dimm, dv1, dv2, dbuf, dma, dbusy, dst, dz⟩
  cases h1 : src_in drs1 EX <;> cases h3 : src_in drs1 WB <;> by_cases h5 : EX.opcode = .LOAD <;>
    simp [rs1_from_EX, rs1_from_WB, rs1_from_RF, fwd, load_use, h1, h3, h5]

theorem rs2_resolved_B (cpu : APEX_CPU) :
    rs2_from_RF (rs2_from_WB (rs2_from_EX cpu)) =
      { cpu with
        DRF := { cpu.DRF with
                 rs2_value := if load_use cpu cpu.DRF.rs2 = false then fwd cpu cpu.DRF.rs2
                              else cpu.DRF.rs2_value
                 stalled := cpu.DRF.stalled || load_use cpu cpu.DRF.rs2 } } := by
  rcases cpu with ⟨clock, pc, regs, rv, F, DRF, EX, MEM, WB, cm, cms, dm, ic, z, zv, ec, out⟩
  rcases DRF with ⟨dpc, dop, drs1, drs2, drd, dimm, dv1, dv2, dbuf, dma, dbusy, dst, dz⟩
  cases h1 : src_in drs2 EX <;> cases h3 : src_in drs2 WB <;> by_cases h5 : EX.opcode = .LOAD <;>
    simp [rs2_from_EX, rs2_from_WB, rs2_from_RF, fwd, load_use, h1, h3, h5]

theorem get_source_values_eq_B (cpu : APEX_CPU) (b : Bool) :
    get_source_values cpu b =
      { cpu with
        DRF := { cpu.DRF with
                 rs1_value := if load_use cpu cpu.DRF.rs1 = false then fwd cpu cpu.DRF.rs1
                              else cpu.DRF.rs1_value
                 rs2_value := if b = true ∧ load_use cpu cpu.DRF.rs2 = false then fwd cpu cpu.DRF.rs2
                              else cpu.DRF.rs2_value
                 stalled := cpu.DRF.stalled || load_use cpu cpu.DRF.rs1 ||
                            (b && load_use cpu cpu.DRF.rs2) } } := by
  unfold get_source_values
  simp only [rs1_resolved_B, rs2_resolved_B]
  cases b <;> simp [fwd, load_use]

theorem decode_gsv_block_B (cpu : APEX_CPU) (c : Prop) [Decidable c] (b : Bool) :
    (if c then get_source_values cpu b else cpu) =
      { cpu with
        DRF := { cpu.DRF with
                 rs1_value := if c ∧ load_use cpu cpu.DRF.rs1 = false then fwd cpu cpu.DRF.rs1
                              else cpu.DRF.rs1_value
                 rs2_value := if c ∧ b = true ∧ load_use cpu cpu.DRF.rs2 = false
                              then fwd cpu cpu.DRF.rs2 else cpu.DRF.rs2_value
                 stalled := cpu.DRF.stalled ||
                            (decide c && (load_use cpu cpu.DRF.rs1 || (b && load_use cpu cpu.DRF.rs2))) } } := by
  rw [get_source_values_eq_B]
  by_cases h : c <;> simp [h, Bool.or_assoc]

theorem decode_BZ_BNZ_eq_B (cpu : APEX_CPU) :
    decode_BZ_BNZ cpu =
      { cpu with
        DRF := { cpu.DRF with
                 z_flag := if cpu.DRF.opcode.is_cond_branch then z_snapshot cpu
                           else cpu.DRF.z_flag } } := by
  unfold decode_BZ_BNZ z_snapshot
  simp only [sets_z_iff']
  rcases cpu with ⟨clock, pc, regs, rv, F, DRF, EX, MEM, WB, cm, cms, dm, ic, z, zv, ec, out⟩
  rcases DRF with ⟨dpc, dop, drs1, drs2, drd, dimm, dv1, dv2, dbuf, dma, dbusy, dst, dz⟩
  cases dop <;> cases h3 : EX.opcode.sets_z <;>
    cases h4 : WB.opcode.sets_z <;> by_cases h5 : EX.buffer = 0 <;>
    by_cases h6 : WB.buffer = 0 <;>
    simp [Opcode.is_cond_branch, h3, h4, h5, h6]

theorem decode_to_EX_eq_B (cpu : APEX_CPU) :
    decode_to_EX cpu =
      { cpu with
        EX := if cpu.DRF.stalled then { cpu.EX with opcode := .BUBBLE, pc := 0 } else cpu.DRF } := by
  unfold decode_to_EX
  cases h : cpu.DRF.stalled <;> simp

theorem decode_HALT_eq_B (cpu : APEX_CPU) :
    decode_HALT cpu =
      { cpu with
        F := { cpu.F with stalled := cpu.F.stalled || decide (cpu.DRF.opcode = .HALT) }
        DRF := { cpu.DRF with stalled := cpu.DRF.stalled || decide (cpu.DRF.opcode = .HALT) } } := by
  unfold decode_HALT
  by_cases h : cpu.DRF.opcode = .HALT <;> simp [h]

theorem decode_live_B (cpu : APEX_CPU) (hb : cpu.DRF.busy = false) (hs : cpu.DRF.stalled = false) :
    decode cpu =
      { cpu with
        DRF := { DRF_read cpu with stalled := stall cpu || decide (cpu.DRF.opcode = .HALT) }
        EX := if stall cpu then { cpu.EX with opcode := .BUBBLE, pc := 0 } else DRF_read cpu
        F := { cpu.F with stalled := cpu.F.stalled || decide (cpu.DRF.opcode = .HALT) } } := by
  unfold decode decode_JUMP decode_ALU decode_LOAD decode_STORE
  simp only [decode_gsv_block_B, decode_BZ_BNZ_eq_B, decode_to_EX_eq_B, decode_HALT_eq_B]
  rcases cpu with ⟨clock, pc, regs, rv, F, DRF, EX, MEM, WB, cm, cms, dm, ic, z, zv, ec, out⟩
  rcases DRF with ⟨dpc, dop, drs1, drs2, drd, dimm, dv1, dv2, dbuf, dma, dbusy, dst, dz⟩
  simp only at hb hs
  subst hb hs
  cases dop <;>
    simp [stall, DRF_read, z_snapshot, fwd, load_use, Opcode.reads_rs1, Opcode.reads_rs2,
      Opcode.is_cond_branch]
  all_goals
    by_cases h1 : src_in drs1 EX = true ∧ EX.opcode = Opcode.LOAD <;>
    by_cases h2 : src_in drs2 EX = true ∧ EX.opcode = Opcode.LOAD <;>
    simp [h1, h2] <;> simp_all

theorem decode_retry_B (cpu : APEX_CPU) (hs : cpu.DRF.stalled = true) (ho : cpu.DRF.opcode ≠ .HALT)
    (he : cpu.EX.stalled = false) (hc : cpu.ENABLE_COUNTING = false) :
    decode cpu =
      if cpu.DRF.opcode.reads_rs1 then
        { cpu with
          DRF := { DRF_read cpu with stalled := false }
          EX := { DRF_read cpu with stalled := false } }
      else cpu := by
  rcases cpu with ⟨clock, pc, regs, rv, F, DRF, EX, MEM, WB, cm, cms, dm, ic, z, zv, ec, out⟩
  rcases DRF with ⟨dpc, dop, drs1, drs2, drd, dimm, dv1, dv2, dbuf, dma, dbusy, dst, dz⟩
  simp only at hs ho he hc
  subst hs hc
  cases dop <;>
    simp [decode, decode_retry_STORE, decode_retry_JUMP, decode_retry_LOAD, decode_retry_ALU,
      decode_retry_count, promote, get_source_values_eq_B, DRF_read, fwd, load_use,
      Opcode.reads_rs1, Opcode.reads_rs2, Opcode.is_cond_branch, he] at ho ⊢

theorem decode_idle_B (cpu : APEX_CPU) (h : cpu.DRF.busy = true ∨ cpu.DRF.stalled = true)
    (h2 : cpu.DRF.stalled = false ∨ cpu.DRF.opcode = .HALT ∨ cpu.EX.stalled = true) :
    decode cpu = cpu := by
  unfold decode
  rcases h with h | h <;> rcases h2 with h2 | h2 | h2 <;> simp_all

theorem fetch_live_B (cpu : APEX_CPU) (hb : cpu.F.busy = false) (hs : cpu.F.stalled = false) :
    fetch cpu =
      { cpu with
        pc := cpu.pc + 4
        F := { fetched cpu cpu.z_flag with stalled := cpu.DRF.stalled }
        DRF := if cpu.DRF.stalled then cpu.DRF else fetched cpu cpu.z_flag } := by
  rcases cpu with ⟨clock, pc, regs, rv, F, DRF, EX, MEM, WB, cm, cms, dm, ic, z, zv, ec, out⟩
  rcases F with ⟨dpc, dop, drs1, drs2, drd, dimm, dv1, dv2, dbuf, dma, dbusy, dst, dz⟩
  simp only at hb hs
  subst hb hs
  cases h : DRF.stalled <;> simp [fetch, fetched, code_at, h]

theorem fetch_stalled_B (cpu : APEX_CPU) (h : cpu.F.busy = true ∨ cpu.F.stalled = true) :
    fetch cpu =
      { cpu with
        code_memory_size := if cpu.WB.opcode = .HALT then cpu.clock + 1 else cpu.code_memory_size
        F := { cpu.F with
               stalled := if cpu.F.opcode = .BUBBLE ∨
                             (cpu.DRF.stalled = false ∧ cpu.DRF.opcode ≠ .BUBBLE)
                          then false else cpu.F.stalled }
        DRF := if cpu.DRF.stalled = false ∧ cpu.DRF.opcode ≠ .BUBBLE
               then { cpu.F with stalled := false } else cpu.DRF } := by
  rcases cpu with ⟨clock, pc, regs, rv, F, DRF, EX, MEM, WB, cm, cms, dm, ic, z, zv, ec, out⟩
  have h' : (!F.busy && !F.stalled) = false := by
    rcases h with h | h <;> simp at h <;> simp [h]
  by_cases h1 : WB.opcode = .HALT <;> by_cases h2 : F.opcode = .BUBBLE <;>
    by_cases h3 : DRF.stalled = false <;> by_cases h4 : DRF.opcode = .BUBBLE <;>
    simp [fetch, h', h1, h2, h3, h4]

end PartB


namespace APEX

theorem live_false_iff (st : CPU_Stage) :
    st.ctl.live = false ↔ (st.busy = true ∨ st.stalled = true) := by
  cases hb : st.busy <;> cases hs : st.stalled <;> simp [CtlStage.live, CPU_Stage.ctl, hb, hs]

theorem live_true_iff (st : CPU_Stage) :
    st.ctl.live = true ↔ (st.busy = false ∧ st.stalled = false) := by
  cases hb : st.busy <;> cases hs : st.stalled <;> simp [CtlStage.live, CPU_Stage.ctl, hb, hs]

theorem Ctl.decode_frozen (c : Ctl) (p : Bool) (hl : c.DRF.live = false)
    (hn : c.retry p = false) : c.decode p = c := by
  rcases c with ⟨F, DRF, EX, MEM, WB⟩
  simp only at hl
  simp [Ctl.decode, hl, hn]

end APEX

namespace PartA
open APEX

theorem ctl_writeback (cpu : APEX_CPU) : (writeback cpu).ctl = cpu.ctl.writeback := by
  cases h : cpu.WB.ctl.live
  · rw [writeback_idle cpu ((live_false_iff _).1 h)]
    simp [Ctl.writeback, APEX_CPU.ctl, h]
  · obtain ⟨hb, hs⟩ := (live_true_iff _).1 h
    rw [writeback_live cpu hb hs]
    simp [Ctl.writeback, APEX_CPU.ctl, CtlStage.live, CPU_Stage.ctl, hb, hs]

theorem ctl_memory (cpu : APEX_CPU) : (mem_step cpu).ctl = cpu.ctl.memory := by
  cases h : cpu.MEM.ctl.live
  · rw [memory_idle cpu ((live_false_iff _).1 h)]
    simp [Ctl.memory, APEX_CPU.ctl, h]
  · obtain ⟨hb, hs⟩ := (live_true_iff _).1 h
    rw [memory_live cpu hb hs]
    simp [Ctl.memory, APEX_CPU.ctl, CtlStage.live, CPU_Stage.ctl, mem_done, hb, hs]

theorem ctl_execute (cpu cpu' : APEX_CPU) (hc : cpu.ENABLE_COUNTING = false)
    (h : execute cpu = some cpu') :
    cpu'.ctl = cpu.ctl.execute (ex_taken cpu.EX cpu.z_flag) := by
  cases hl : cpu.EX.ctl.live
  · have hl' := (live_false_iff _).1 hl
    have hl2 : (!cpu.EX.busy && !cpu.EX.stalled) = false := hl
    by_cases hm : cpu.EX.stalled = true ∧ cpu.EX.opcode = .MUL
    · rw [execute_resume cpu hm.1 hm.2 hc] at h
      cases h
      simp [Ctl.execute, Ctl.taken, Ctl.resume, APEX_CPU.ctl, CtlStage.live, CPU_Stage.ctl,
        hm.1, hm.2]
    · have hm' : cpu.EX.stalled = false ∨ cpu.EX.opcode ≠ .MUL := by
        by_cases h1 : cpu.EX.stalled = true
        · right; exact fun h2 => hm ⟨h1, h2⟩
        · left; simpa using h1
      rw [execute_idle cpu hl' hm'] at h
      cases h
      have hr : (cpu.EX.stalled && decide (cpu.EX.opcode = .MUL)) = false := by
        rcases hm' with h1 | h1 <;> simp [h1]
      simp [Ctl.execute, Ctl.taken, Ctl.resume, APEX_CPU.ctl, CtlStage.live, CPU_Stage.ctl,
        hl2, hr, Bool.and_assoc]
  · obtain ⟨hb, hs⟩ := (live_true_iff _).1 hl
    rw [execute_live cpu hb hs hc] at h
    by_cases hf : ex_fault cpu.EX = true
    · simp [hf] at h
    · rw [if_neg hf] at h
      cases h
      cases hop : cpu.EX.opcode <;> cases hz : cpu.z_flag <;>
        simp [Ctl.execute, Ctl.taken, Ctl.resume, APEX_CPU.ctl, CtlStage.live, CPU_Stage.ctl,
          ex_taken, ex_done, hop, hs, hb]

theorem ctl_decode (cpu : APEX_CPU) (hc : cpu.ENABLE_COUNTING = false) :
    (decode cpu).ctl = cpu.ctl.decode (promotes cpu) := by
  cases hl : cpu.DRF.ctl.live
  · have hl' := (live_false_iff _).1 hl
    have hl2 : (!cpu.DRF.busy && !cpu.DRF.stalled) = false := hl
    have hp : promotes cpu =
        (ready cpu && (cpu.DRF.opcode.reads_rs1 || cpu.DRF.opcode.is_cond_branch)) := by
      unfold promotes
      rcases hl' with h | h <;> simp [h]
    by_cases hr : cpu.DRF.stalled = true ∧ cpu.DRF.opcode ≠ .HALT ∧ cpu.EX.stalled = false
    · rw [decode_retry cpu hr.1 hr.2.1 hr.2.2 hc]
      cases hq : promotes cpu
      · have hq' : ¬ (ready cpu = true ∧
            (cpu.DRF.opcode.reads_rs1 = true ∨ cpu.DRF.opcode.is_cond_branch = true)) := by
          rw [hp] at hq
          simpa using hq
        rw [if_neg hq']
        simp [Ctl.decode, Ctl.retry, APEX_CPU.ctl, CtlStage.live, CPU_Stage.ctl, hl2]
      · have hq' : ready cpu = true ∧
            (cpu.DRF.opcode.reads_rs1 = true ∨ cpu.DRF.opcode.is_cond_branch = true) := by
          rw [hp] at hq
          simpa using hq
        rw [if_pos hq']
        simp [Ctl.decode, Ctl.retry, APEX_CPU.ctl, CtlStage.live, CPU_Stage.ctl, hl2,
          hr.1, hr.2.1, hr.2.2, DRF_read]
    · have hi : cpu.DRF.stalled = false ∨ cpu.DRF.opcode = .HALT ∨ cpu.EX.stalled = true := by
        by_cases h1 : cpu.DRF.stalled = true
        · by_cases h2 : cpu.DRF.opcode = .HALT
          · exact Or.inr (Or.inl h2)
          · by_cases h3 : cpu.EX.stalled = true
            · exact Or.inr (Or.inr h3)
            · exact absurd ⟨h1, h2, by simpa using h3⟩ hr
        · left; simpa using h1
      rw [decode_idle cpu hl' hi]
      have hn : cpu.ctl.retry (promotes cpu) = false := by
        rcases hi with h1 | h1 | h1 <;>
          simp [Ctl.retry, APEX_CPU.ctl, CtlStage.live, CPU_Stage.ctl, h1]
      rw [Ctl.decode_frozen _ _ hl hn]
  · obtain ⟨hb, hs⟩ := (live_true_iff _).1 hl
    have hp : promotes cpu = ready cpu := by
      unfold promotes; simp [hb, hs]
    rw [decode_live cpu hb hs, hp]
    cases hr : ready cpu <;>
      simp [Ctl.decode, Ctl.retry, APEX_CPU.ctl, CtlStage.live, CPU_Stage.ctl, DRF_read, hs, hb]

theorem ctl_fetch (cpu : APEX_CPU) :
    (fetch cpu).ctl = cpu.ctl.fetch (code_at cpu (get_code_index cpu.pc)).opcode := by
  cases hl : cpu.F.ctl.live
  · have hl2 : (!cpu.F.busy && !cpu.F.stalled) = false := hl
    rw [fetch_stalled cpu ((live_false_iff _).1 hl)]
    by_cases h1 : cpu.DRF.stalled = false ∧ cpu.DRF.opcode ≠ .BUBBLE <;>
      by_cases h2 : cpu.F.opcode = .BUBBLE <;>
      simp [Ctl.fetch, Ctl.deliver, APEX_CPU.ctl, CtlStage.live, CPU_Stage.ctl, h1, h2, hl2]
  · obtain ⟨hb, hs⟩ := (live_true_iff _).1 hl
    rw [fetch_live cpu hb hs]
    cases h1 : cpu.DRF.stalled <;>
      simp [Ctl.fetch, Ctl.deliver, APEX_CPU.ctl, CtlStage.live, CPU_Stage.ctl, h1, fetched, hs, hb]

theorem writeback_frame (cpu : APEX_CPU) :
    (writeback cpu).ENABLE_COUNTING = cpu.ENABLE_COUNTING ∧
    (writeback cpu).clock = cpu.clock ∧
    (writeback cpu).code_memory_size = cpu.code_memory_size := by
  cases h : cpu.WB.ctl.live
  · rw [writeback_idle cpu ((live_false_iff _).1 h)]; simp
  · obtain ⟨hb, hs⟩ := (live_true_iff _).1 h
    rw [writeback_live cpu hb hs]; simp

theorem memory_frame (cpu : APEX_CPU) :
    (mem_step cpu).ENABLE_COUNTING = cpu.ENABLE_COUNTING ∧
    (mem_step cpu).clock = cpu.clock ∧
    (mem_step cpu).code_memory_size = cpu.code_memory_size := by
  cases h : cpu.MEM.ctl.live
  · rw [memory_idle cpu ((live_false_iff _).1 h)]; simp
  · obtain ⟨hb, hs⟩ := (live_true_iff _).1 h
    rw [memory_live cpu hb hs]; simp

theorem execute_frame (cpu cpu' : APEX_CPU) (hc : cpu.ENABLE_COUNTING = false)
    (h : execute cpu = some cpu') :
    cpu'.ENABLE_COUNTING = false ∧ cpu'.clock = cpu.clock ∧
    cpu'.code_memory_size = cpu.code_memory_size := by
  cases hl : cpu.EX.ctl.live
  · have hl' := (live_false_iff _).1 hl
    by_cases hm : cpu.EX.stalled = true ∧ cpu.EX.opcode = .MUL
    · rw [execute_resume cpu hm.1 hm.2 hc] at h
      cases h
      simp [hc]
    · have hm' : cpu.EX.stalled = false ∨ cpu.EX.opcode ≠ .MUL := by
        by_cases h1 : cpu.EX.stalled = true
        · right; exact fun h2 => hm ⟨h1, h2⟩
        · left; simpa using h1
      rw [execute_idle cpu hl' hm'] at h
      cases h
      simp [hc]
  · obtain ⟨hb, hs⟩ := (live_true_iff _).1 hl
    rw [execute_live cpu hb hs hc] at h
    by_cases hf : ex_fault cpu.EX = true
    · simp [hf] at h
    · rw [if_neg hf] at h
      cases h
      simp [hc]

theorem decode_frame (cpu : APEX_CPU) (hc : cpu.ENABLE_COUNTING = false) :
    (decode cpu).ENABLE_COUNTING = false ∧ (decode cpu).clock = cpu.clock ∧
    (decode cpu).code_memory_size = cpu.code_memory_size := by
  cases hl : cpu.DRF.ctl.live
  · have hl' := (live_false_iff _).1 hl
    by_cases hr : cpu.DRF.stalled = true ∧ cpu.DRF.opcode ≠ .HALT ∧ cpu.EX.stalled = false
    · rw [decode_retry cpu hr.1 hr.2.1 hr.2.2 hc]
      split_ifs <;> simp [hc]
    · have hi : cpu.DRF.stalled = false ∨ cpu.DRF.opcode = .HALT ∨ cpu.EX.stalled = true := by
        by_cases h1 : cpu.DRF.stalled = true
        · by_cases h2 : cpu.DRF.opcode = .HALT
          · exact Or.inr (Or.inl h2)
          · by_cases h3 : cpu.EX.stalled = true
            · exact Or.inr (Or.inr h3)
            · exact absurd ⟨h1, h2, by simpa using h3⟩ hr
        · left; simpa using h1
      rw [decode_idle cpu hl' hi]
      simp [hc]
  · obtain ⟨hb, hs⟩ := (live_true_iff _).1 hl
    rw [decode_live cpu hb hs]
    split_ifs <;> simp [hc]

theorem fetch_frame (cpu : APEX_CPU) :
    (fetch cpu).ENABLE_COUNTING = cpu.ENABLE_COUNTING ∧ (fetch cpu).clock = cpu.clock := by
  cases hl : cpu.F.ctl.live
  · rw [fetch_stalled cpu ((live_false_iff _).1 hl)]; simp
  · obtain ⟨hb, hs⟩ := (live_true_iff _).1 hl
    rw [fetch_live cpu hb hs]; simp

theorem cycle_eq (cpu : APEX_CPU) :
    cycle cpu =
      if mem_oob (writeback cpu) then none
      else (execute (mem_step (writeback cpu))).map fun c =>
        { fetch (decode c) with clock := (fetch (decode c)).clock + 1 } := by
  unfold cycle
  rw [memory_eq]
  cases mem_oob (writeback cpu) <;> rfl

theorem cycle_defined (cpu cpu' : APEX_CPU) (h : cycle cpu = some cpu') :
    mem_oob (writeback cpu) = false := by
  rw [cycle_eq] at h
  cases ho : mem_oob (writeback cpu)
  · rfl
  · rw [ho] at h
    cases h

/-- Unfolding of one cycle: the five stage results, with the facts that tie them. -/
theorem cycle_some (cpu cpu' : APEX_CPU) (h : cycle cpu = some cpu') :
    ∃ c3, execute (mem_step (writeback cpu)) = some c3 ∧
      cpu' = { fetch (decode c3) with clock := (fetch (decode c3)).clock + 1 } := by
  have ho := cycle_defined cpu cpu' h
  rw [cycle_eq, ho] at h
  cases he : execute (mem_step (writeback cpu)) with
  | none => simp [he] at h
  | some c =>
    simp only [he, Option.map_some', Option.some.injEq, Bool.false_eq_true, if_false] at h
    exact ⟨c, rfl, h.symm⟩

theorem ctl_cycle (cpu cpu' : APEX_CPU) (hc : cpu.ENABLE_COUNTING = false)
    (h : cycle cpu = some cpu') :
    ∃ t p o, cpu'.ctl = cpu.ctl.cycle t p o := by
  obtain ⟨c3, he, rfl⟩ := cycle_some cpu cpu' h
  have hc1 : (mem_step (writeback cpu)).ENABLE_COUNTING = false := by
    rw [(memory_frame _).1, (writeback_frame _).1, hc]
  have hc2 : c3.ENABLE_COUNTING = false := (execute_frame _ _ hc1 he).1
  have h1 := ctl_execute _ _ hc1 he
  refine ⟨ex_taken (mem_step (writeback cpu)).EX (mem_step (writeback cpu)).z_flag, promotes c3,
    (code_at (decode c3) (get_code_index (decode c3).pc)).opcode, ?_⟩
  have h2 : ∀ c : APEX_CPU, APEX_CPU.ctl { c with clock := c.clock + 1 } = c.ctl := fun _ => rfl
  rw [h2, ctl_fetch, ctl_decode _ hc2, h1, ctl_memory, ctl_writeback]
  rfl

theorem cycle_counting (cpu cpu' : APEX_CPU) (hc : cpu.ENABLE_COUNTING = false)
    (h : cycle cpu = some cpu') : cpu'.ENABLE_COUNTING = false := by
  obtain ⟨c3, he, rfl⟩ := cycle_some cpu cpu' h
  have hc1 : (mem_step (writeback cpu)).ENABLE_COUNTING = false := by
    rw [(memory_frame _).1, (writeback_frame _).1, hc]
  have hc2 : c3.ENABLE_COUNTING = false := (execute_frame _ _ hc1 he).1
  show (fetch (decode c3)).ENABLE_COUNTING = false
  rw [(fetch_frame _).1, (decode_frame _ hc2).1]

theorem cycle_clock (cpu cpu' : APEX_CPU) (hc : cpu.ENABLE_COUNTING = false)
    (h : cycle cpu = some cpu') : cpu'.clock = cpu.clock + 1 := by
  obtain ⟨c3, he, rfl⟩ := cycle_some cpu cpu' h
  have hc1 : (mem_step (writeback cpu)).ENABLE_COUNTING = false := by
    rw [(memory_frame _).1, (writeback_frame _).1, hc]
  have hc2 : c3.ENABLE_COUNTING = false := (execute_frame _ _ hc1 he).1
  show (fetch (decode c3)).clock + 1 = cpu.clock + 1
  rw [(fetch_frame _).2, (decode_frame _ hc2).2.1, (execute_frame _ _ hc1 he).2.1,
    (memory_frame _).2.1, (writeback_frame _).2.1]

end PartA

namespace PartB
open APEX

theorem ctl_writeback_B (cpu : APEX_CPU) : (writeback cpu).ctl = cpu.ctl.writeback := by
  cases h : cpu.WB.ctl.live
  · rw [writeback_idle_B cpu ((live_false_iff _).1 h)]
    simp [Ctl.writeback, APEX_CPU.ctl, h]
  · obtain ⟨hb, hs⟩ := (live_true_iff _).1 h
    rw [writeback_live_B cpu hb hs]
    simp [Ctl.writeback, APEX_CPU.ctl, CtlStage.live, CPU_Stage.ctl, hb, hs]

theorem ctl_memory_B (cpu : APEX_CPU) : (mem_step cpu).ctl = cpu.ctl.memory := by
  cases h : cpu.MEM.ctl.live
  · rw [memory_idle_B cpu ((live_false_iff _).1 h)]
    simp [Ctl.memory, APEX_CPU.ctl, h]
  · obtain ⟨hb, hs⟩ := (live_true_iff _).1 h
    rw [memory_live_B cpu hb hs]
    simp [Ctl.memory, APEX_CPU.ctl, CtlStage.live, CPU_Stage.ctl, mem_done, hb, hs]

theorem ctl_execute_B (cpu cpu' : APEX_CPU) (hc : cpu.ENABLE_COUNTING = false)
    (h : execute cpu = some cpu') :
    cpu'.ctl = cpu.ctl.execute (ex_taken cpu.EX cpu.EX.z_flag) := by
  cases hl : cpu.EX.ctl.live
  · have hl' := (live_false_iff _).1 hl
    have hl2 : (!cpu.EX.busy && !cpu.EX.stalled) = false := hl
    by_cases hm : cpu.EX.stalled = true ∧ cpu.EX.opcode = .MUL
    · rw [execute_resume_B cpu hm.1 hm.2 hc] at h
      cases h
      simp [Ctl.execute, Ctl.taken, Ctl.resume, APEX_CPU.ctl, CtlStage.live, CPU_Stage.ctl,
        hm.1, hm.2]
    · have hm' : cpu.EX.stalled = false ∨ cpu.EX.opcode ≠ .MUL := by
        by_cases h1 : cpu.EX.stalled = true
        · right; exact fun h2 => hm ⟨h1, h2⟩
        · left; simpa using h1
      rw [execute_idle_B cpu hl' hm'] at h
      cases h
      have hr : (cpu.EX.stalled && decide (cpu.EX.opcode = .MUL)) = false := by
        rcases hm' with h1 | h1 <;> simp [h1]
      simp [Ctl.execute, Ctl.taken, Ctl.resume, APEX_CPU.ctl, CtlStage.live, CPU_Stage.ctl,
        hl2, hr, Bool.and_assoc]
  · obtain ⟨hb, hs⟩ := (live_true_iff _).1 hl
    rw [execute_live_B cpu hb hs hc] at h
    by_cases hf : ex_fault cpu.EX = true
    · simp [hf] at h
    · rw [if_neg hf] at h
      cases h
      cases hop : cpu.EX.opcode <;> cases hz : cpu.EX.z_flag <;>
        simp [Ctl.execute, Ctl.taken, Ctl.resume, APEX_CPU.ctl, CtlStage.live, CPU_Stage.ctl,
          ex_taken, ex_done, hop, hs, hb]

theorem ctl_decode_B (cpu : APEX_CPU) (hc : cpu.ENABLE_COUNTING = false) :
    (decode cpu).ctl = cpu.ctl.decode (promotes cpu) := by
  cases hl : cpu.DRF.ctl.live
  · have hl' := (live_false_iff _).1 hl
    have hl2 : (!cpu.DRF.busy && !cpu.DRF.stalled) = false := hl
    have hp : promotes cpu = cpu.DRF.opcode.reads_rs1 := by
      unfold promotes
      rcases hl' with h | h <;> simp [h]
    by_cases hr : cpu.DRF.stalled = true ∧ cpu.DRF.opcode ≠ .HALT ∧ cpu.EX.stalled = false
    · rw [decode_retry_B cpu hr.1 hr.2.1 hr.2.2 hc, hp]
      cases hq : cpu.DRF.opcode.reads_rs1 <;>
        simp [Ctl.decode, Ctl.retry, APEX_CPU.ctl, CtlStage.live, CPU_Stage.ctl, hl2,
          hr.1, hr.2.1, hr.2.2, DRF_read]
    · have hi : cpu.DRF.stalled = false ∨ cpu.DRF.opcode = .HALT ∨ cpu.EX.stalled = true := by
        by_cases h1 : cpu.DRF.stalled = true
        · by_cases h2 : cpu.DRF.opcode = .HALT
          · exact Or.inr (Or.inl h2)
          · by_cases h3 : cpu.EX.stalled = true
            · exact Or.inr (Or.inr h3)
            · exact absurd ⟨h1, h2, by simpa using h3⟩ hr
        · left; simpa using h1
      rw [decode_idle_B cpu hl' hi]
      have hn : cpu.ctl.retry (promotes cpu) = false := by
        rcases hi with h1 | h1 | h1 <;>
          simp [Ctl.retry, APEX_CPU.ctl, CtlStage.live, CPU_Stage.ctl, h1]
      rw [Ctl.decode_frozen _ _ hl hn]
  · obtain ⟨hb, hs⟩ := (live_true_iff _).1 hl
    have hp : promotes cpu = !stall cpu := by
      unfold promotes; simp [hb, hs]
    rw [decode_live_B cpu hb hs, hp]
    cases hr : stall cpu
    · simp [Ctl.decode, Ctl.retry, APEX_CPU.ctl, CtlStage.live, CPU_Stage.ctl, DRF_read, hs, hb]
    · have hne : cpu.DRF.opcode ≠ .HALT := by
        intro h
        simp [stall, h, Opcode.reads_rs1, Opcode.reads_rs2] at hr
      simp [Ctl.decode, Ctl.retry, APEX_CPU.ctl, CtlStage.live, CPU_Stage.ctl, DRF_read, hs, hb,
        hne]

theorem ctl_fetch_B (cpu : APEX_CPU) :
    (fetch cpu).ctl = cpu.ctl.fetch (code_at cpu (get_code_index cpu.pc)).opcode := by
  cases hl : cpu.F.ctl.live
  · have hl2 : (!cpu.F.busy && !cpu.F.stalled) = false := hl
    rw [fetch_stalled_B cpu ((live_false_iff _).1 hl)]
    by_cases h1 : cpu.DRF.stalled = false ∧ cpu.DRF.opcode ≠ .BUBBLE <;>
      by_cases h2 : cpu.F.opcode = .BUBBLE <;>
      simp [Ctl.fetch, Ctl.deliver, APEX_CPU.ctl, CtlStage.live, CPU_Stage.ctl, h1, h2, hl2]
  · obtain ⟨hb, hs⟩ := (live_true_iff _).1 hl
    rw [fetch_live_B cpu hb hs]
    cases h1 : cpu.DRF.stalled <;>
      simp [Ctl.fetch, Ctl.deliver, APEX_CPU.ctl, CtlStage.live, CPU_Stage.ctl, h1, fetched, hs, hb]

theorem writeback_frame_B (cpu : APEX_CPU) :
    (writeback cpu).ENABLE_COUNTING = cpu.ENABLE_COUNTING ∧
    (writeback cpu).clock = cpu.clock ∧
    (writeback cpu).code_memory_size = cpu.code_memory_size := by
  cases h : cpu.WB.ctl.live
  · rw [writeback_idle_B cpu ((live_false_iff _).1 h)]; simp
  · obtain ⟨hb, hs⟩ := (live_true_iff _).1 h
    rw [writeback_live_B cpu hb hs]; simp

theorem memory_frame_B (cpu : APEX_CPU) :
    (mem_step cpu).ENABLE_COUNTING = cpu.ENABLE_COUNTING ∧
    (mem_step cpu).clock = cpu.clock ∧
    (mem_step cpu).code_memory_size = cpu.code_memory_size := by
  cases h : cpu.MEM.ctl.live
  · rw [memory_idle_B cpu ((live_false_iff _).1 h)]; simp
  · obtain ⟨hb, hs⟩ := (live_true_iff _).1 h
    rw [memory_live_B cpu hb hs]; simp

theorem execute_frame_B (cpu cpu' : APEX_CPU) (hc : cpu.ENABLE_COUNTING = false)
    (h : execute cpu = some cpu') :
    cpu'.ENABLE_COUNTING = false ∧ cpu'.clock = cpu.clock ∧
    cpu'.code_memory_size = cpu.code_memory_size := by
  cases hl : cpu.EX.ctl.live
  · have hl' := (live_false_iff _).1 hl
    by_cases hm : cpu.EX.stalled = true ∧ cpu.EX.opcode = .MUL
    · rw [execute_resume_B cpu hm.1 hm.2 hc] at h
      cases h
      simp [hc]
    · have hm' : cpu.EX.stalled = false ∨ cpu.EX.opcode ≠ .MUL := by
        by_cases h1 : cpu.EX.stalled = true
        · right; exact fun h2 => hm ⟨h1, h2⟩
        · left; simpa using h1
      rw [execute_idle_B cpu hl' hm'] at h
      cases h
      simp [hc]
  · obtain ⟨hb, hs⟩ := (live_true_iff _).1 hl
    rw [execute_live_B cpu hb hs hc] at h
    by_cases hf : ex_fault cpu.EX = true
    · simp [hf] at h
    · rw [if_neg hf] at h
      cases h
      simp [hc]

theorem decode_frame_B (cpu : APEX_CPU) (hc : cpu.ENABLE_COUNTING = false) :
    (decode cpu).ENABLE_COUNTING = false ∧ (decode cpu).clock = cpu.clock ∧
    (decode cpu).code_memory_size = cpu.code_memory_size := by
  cases hl : cpu.DRF.ctl.live
  · have hl' := (live_false_iff _).1 hl
    by_cases hr : cpu.DRF.stalled = true ∧ cpu.DRF.opcode ≠ .HALT ∧ cpu.EX.stalled = false
    · rw [decode_retry_B cpu hr.1 hr.2.1 hr.2.2 hc]
      split_ifs <;> simp [hc]
    · have hi : cpu.DRF.stalled = false ∨ cpu.DRF.opcode = .HALT ∨ cpu.EX.stalled = true := by
        by_cases h1 : cpu.DRF.stalled = true
        · by_cases h2 : cpu.DRF.opcode = .HALT
          · exact Or.inr (Or.inl h2)
          · by_cases h3 : cpu.EX.stalled = true
            · exact Or.inr (Or.inr h3)
            · exact absurd ⟨h1, h2, by simpa using h3⟩ hr
        · left; simpa using h1
      rw [decode_idle_B cpu hl' hi]
      simp [hc]
  · obtain ⟨hb, hs⟩ := (live_true_iff _).1 hl
    rw [decode_live_B cpu hb hs]
    simp [hc]

theorem fetch_frame_B (cpu : APEX_CPU) :
    (fetch cpu).ENABLE_COUNTING = cpu.ENABLE_COUNTING ∧ (fetch cpu).clock = cpu.clock := by
  cases hl : cpu.F.ctl.live
  · rw [fetch_stalled_B cpu ((live_false_iff _).1 hl)]; simp
  · obtain ⟨hb, hs⟩ := (live_true_iff _).1 hl
    rw [fetch_live_B cpu hb hs]; simp

theorem cycle_eq_B (cpu : APEX_CPU) :
    cycle cpu =
      if mem_oob (writeback cpu) then none
      else (execute (mem_step (writeback cpu))).map fun c =>
        { fetch (decode c) with clock := (fetch (decode c)).clock + 1 } := by
  unfold cycle
  rw [memory_eq_B]
  cases mem_oob (writeback cpu) <;> rfl

theorem cycle_defined_B (cpu cpu' : APEX_CPU) (h : cycle cpu = some cpu') :
    mem_oob (writeback cpu) = false := by
  rw [cycle_eq_B] at h
  cases ho : mem_oob (writeback cpu)
  · rfl
  · rw [ho] at h
    cases h

/-- Unfolding of one cycle: the five stage results, with the facts that tie them. -/
theorem cycle_some_B (cpu cpu' : APEX_CPU) (h : cycle cpu = some cpu') :
    ∃ c3, execute (mem_step (writeback cpu)) = some c3 ∧
      cpu' = { fetch (decode c3) with clock := (fetch (decode c3)).clock + 1 } := by
  have ho := cycle_defined_B cpu cpu' h
  rw [cycle_eq_B, ho] at h
  cases he : execute (mem_step (writeback cpu)) with
  | none => simp [he] at h
  | some c =>
    simp only [he, Option.map_some', Option.some.injEq, Bool.false_eq_true, if_false] at h
    exact ⟨c, rfl, h.symm⟩

theorem ctl_cycle_B (cpu cpu' : APEX_CPU) (hc : cpu.ENABLE_COUNTING = false)
    (h : cycle cpu = some cpu') :
    ∃ t p o, cpu'.ctl = cpu.ctl.cycle t p o := by
  obtain ⟨c3, he, rfl⟩ := cycle_some_B cpu cpu' h
  have hc1 : (mem_step (writeback cpu)).ENABLE_COUNTING = false := by
    rw [(memory_frame_B _).1, (writeback_frame_B _).1, hc]
  have hc2 : c3.ENABLE_COUNTING = false := (execute_frame_B _ _ hc1 he).1
  have h1 := ctl_execute_B _ _ hc1 he
  refine ⟨ex_taken (mem_step (writeback cpu)).EX (mem_step (writeback cpu)).EX.z_flag, promotes c3,
    (code_at (decode c3) (get_code_index (decode c3).pc)).opcode, ?_⟩
  have h2 : ∀ c : APEX_CPU, APEX_CPU.ctl { c with clock := c.clock + 1 } = c.ctl := fun _ => rfl
  rw [h2, ctl_fetch_B, ctl_decode_B _ hc2, h1, ctl_memory_B, ctl_writeback_B]
  rfl

theorem cycle_counting_B (cpu cpu' : APEX_CPU) (hc : cpu.ENABLE_COUNTING = false)
    (h : cycle cpu = some cpu') : cpu'.ENABLE_COUNTING = false := by
  obtain ⟨c3, he, rfl⟩ := cycle_some_B cpu cpu' h
  have hc1 : (mem_step (writeback cpu)).ENABLE_COUNTING = false := by
    rw [(memory_frame_B _).1, (writeback_frame_B _).1, hc]
  have hc2 : c3.ENABLE_COUNTING = false := (execute_frame_B _ _ hc1 he).1
  show (fetch (decode c3)).ENABLE_COUNTING = false
  rw [(fetch_frame_B _).1, (decode_frame_B _ hc2).1]

theorem cycle_clock_B (cpu cpu' : APEX_CPU) (hc : cpu.ENABLE_COUNTING = false)
    (h : cycle cpu = some cpu') : cpu'.clock = cpu.clock + 1 := by
  obtain ⟨c3, he, rfl⟩ := cycle_some_B cpu cpu' h
  have hc1 : (mem_step (writeback cpu)).ENABLE_COUNTING = false := by
    rw [(memory_frame_B _).1, (writeback_frame_B _).1, hc]
  have hc2 : c3.ENABLE_COUNTING = false := (execute_frame_B _ _ hc1 he).1
  show (fetch (decode c3)).clock + 1 = cpu.clock + 1
  rw [(fetch_frame_B _).2, (decode_frame_B _ hc2).2.1, (execute_frame_B _ _ hc1 he).2.1,
    (memory_frame_B _).2.1, (writeback_frame_B _).2.1]

end PartB

namespace PartA
open APEX

theorem bind_of_execute (cpu c : APEX_CPU) (ho : mem_oob cpu = false)
    (h : execute (mem_step (writeback cpu)) = some c) :
    (memory (writeback cpu)).bind execute = some c := by
  rw [memory_some _ (by rw [oob_writeback]; exact ho)]
  exact h

end PartA

namespace PartB
open APEX

theorem bind_of_execute_B (cpu c : APEX_CPU) (ho : mem_oob cpu = false)
    (h : execute (mem_step (writeback cpu)) = some c) :
    (memory (writeback cpu)).bind execute = some c := by
  rw [memory_some_B _ (by rw [oob_writeback_B]; exact ho)]
  exact h

end PartB


namespace APEX

theorem Ctl.cycle_MEM_live (c : Ctl) (t p : Bool) (o : Opcode)
    (h : (c.cycle t p o).MEM.live = true) (ho : (c.cycle t p o).MEM.opcode = .HALT) :
    c.EX.live = true ∧ c.EX.opcode = .HALT := by
  rcases c with ⟨⟨fo, fb, fs⟩, ⟨dO, db, ds⟩, ⟨eo, eb, es⟩, ⟨mo, mb, ms⟩, ⟨wo, wb, ws⟩⟩
  simp only [Ctl.cycle, Ctl.fetch, Ctl.decode, Ctl.execute, Ctl.memory, Ctl.writeback,
    CtlStage.live, Ctl.taken, Ctl.resume, Ctl.retry, Ctl.deliver] at h ho ⊢
  cases eb <;> cases es <;> cases mb <;> cases ms <;> simp at h ho ⊢
  all_goals
    by_cases h1 : eo = .MUL <;> by_cases h2 : mo = .HALT <;> simp_all

theorem Ctl.cycle_of_HALT (c : Ctl) (t p : Bool) (o : Opcode) (hf : c.F.busy = false)
    (h1 : c.EX.live = true) (h2 : c.EX.opcode = .HALT) (h3 : c.DRF.stalled = true)
    (h4 : c.DRF.opcode = .HALT) (h5 : c.F.stalled = false ∨ c.F.opcode ≠ .BUBBLE) :
    (c.cycle t p o).F.stalled = true ∧ (c.cycle t p o).DRF.stalled = true ∧
    (c.cycle t p o).DRF.opcode = .HALT ∧ (c.cycle t p o).EX.stalled = true ∧
    (c.cycle t p o).EX.opcode = .HALT := by
  rcases c with ⟨⟨fo, fb, fs⟩, ⟨dO, db, ds⟩, ⟨eo, eb, es⟩, ⟨mo, mb, ms⟩, ⟨wo, wb, ws⟩⟩
  simp only [CtlStage.live] at h1 h2 h3 h4 h5 hf
  subst h2 h3 h4 hf
  cases eb <;> cases es <;> simp at h1
  cases fs <;> cases db <;>
    simp_all [Ctl.cycle, Ctl.fetch, Ctl.decode, Ctl.execute, Ctl.memory, Ctl.writeback,
      CtlStage.live, Ctl.taken, Ctl.resume, Ctl.retry, Ctl.deliver]

theorem Ctl.fetch_after_HALT (c : Ctl) (o : Opcode) (h1 : c.DRF.stalled = true)
    (h2 : c.F.stalled = true) :
    (c.fetch o).DRF = c.DRF ∧ (c.fetch o).EX = c.EX ∧
    ((c.fetch o).F.stalled = false ∨ (c.fetch o).F.opcode ≠ .BUBBLE) := by
  rcases c with ⟨⟨fo, fb, fs⟩, ⟨dO, db, ds⟩, ⟨eo, eb, es⟩, ⟨mo, mb, ms⟩, ⟨wo, wb, ws⟩⟩
  simp only at h1 h2
  subst h1 h2
  by_cases h : fo = .BUBBLE <;> simp [Ctl.fetch, CtlStage.live, Ctl.deliver, h]

theorem Ctl.decode_EX_HALT (c : Ctl) (p : Bool) (h : (c.decode p).EX.live = true)
    (ho : (c.decode p).EX.opcode = .HALT) :
    ((c.decode p).DRF.stalled = true ∧ (c.decode p).DRF.opcode = .HALT ∧
      (c.decode p).F.stalled = true) ∨ (c.EX.live = true ∧ c.EX.opcode = .HALT) := by
  rcases c with ⟨⟨fo, fb, fs⟩, ⟨dO, db, ds⟩, ⟨eo, eb, es⟩, ⟨mo, mb, ms⟩, ⟨wo, wb, ws⟩⟩
  simp only [Ctl.decode, CtlStage.live, Ctl.retry] at h ho ⊢
  by_cases hd : dO = .HALT <;>
    cases db <;> cases ds <;> cases p <;> cases es <;> cases eb <;> simp [hd] at h ho ⊢ <;>
    try simp_all

theorem Ctl.execute_EX_HALT (c : Ctl) (t : Bool) (h : (c.execute t).EX.live = true) :
    (c.execute t).EX.opcode ≠ .HALT := by
  rcases c with ⟨⟨fo, fb, fs⟩, ⟨dO, db, ds⟩, ⟨eo, eb, es⟩, ⟨mo, mb, ms⟩, ⟨wo, wb, ws⟩⟩
  simp only [Ctl.execute, CtlStage.live, Ctl.resume] at h ⊢
  by_cases hd : eo = .HALT <;> by_cases hm : eo = .MUL <;>
    cases eb <;> cases es <;> simp [hd, hm] at h ⊢ <;> try simp_all

theorem Ctl.cycle_EX_HALT (c : Ctl) (t p : Bool) (o : Opcode)
    (h : (c.cycle t p o).EX.live = true) (ho : (c.cycle t p o).EX.opcode = .HALT) :
    (c.cycle t p o).DRF.stalled = true ∧ (c.cycle t p o).DRF.opcode = .HALT ∧
    ((c.cycle t p o).F.stalled = false ∨ (c.cycle t p o).F.opcode ≠ .BUBBLE) := by
  unfold Ctl.cycle at h ho ⊢
  set c3 := Ctl.execute t (Ctl.memory (Ctl.writeback c)) with hc3
  have hEX : (Ctl.fetch o (Ctl.decode p c3)).EX = (Ctl.decode p c3).EX := rfl
  rw [hEX] at h ho
  rcases Ctl.decode_EX_HALT c3 p h ho with ⟨a, b, c'⟩ | ⟨a, b⟩
  · obtain ⟨f1, _, f3⟩ := Ctl.fetch_after_HALT (Ctl.decode p c3) o a c'
    rw [f1]
    exact ⟨a, b, f3⟩
  · exact absurd b (Ctl.execute_EX_HALT _ t a)

theorem Ctl.fetch_delivers (c : Ctl) (o : Opcode) (hf : c.F.busy = false)
    (h1 : c.DRF.stalled = false) (h2 : c.DRF.opcode ≠ .BUBBLE) :
    (c.fetch o).DRF.live = true := by
  rcases c with ⟨⟨fo, fb, fs⟩, ⟨dO, db, ds⟩, ⟨eo, eb, es⟩, ⟨mo, mb, ms⟩, ⟨wo, wb, ws⟩⟩
  simp only at h1 h2 hf
  subst h1 hf
  cases fs <;> simp [Ctl.fetch, CtlStage.live, Ctl.deliver, h2]

/-- The opcodes BZ, BNZ and JUMP. -/
theorem Ctl.decode_EX_branch (c : Ctl) (p : Bool) (h : (c.decode p).EX.live = true)
    (ho : (c.decode p).EX.opcode = .BZ ∨ (c.decode p).EX.opcode = .BNZ ∨
      (c.decode p).EX.opcode = .JUMP) :
    ((c.decode p).DRF.stalled = false ∧ (c.decode p).DRF.opcode ≠ .BUBBLE) ∨
    (c.EX.live = true ∧ (c.EX.opcode = .BZ ∨ c.EX.opcode = .BNZ ∨ c.EX.opcode = .JUMP) ∧
      c.DRF.live = false) := by
  rcases c with ⟨⟨fo, fb, fs⟩, ⟨dO, db, ds⟩, ⟨eo, eb, es⟩, ⟨mo, mb, ms⟩, ⟨wo, wb, ws⟩⟩
  simp only [Ctl.decode, CtlStage.live, Ctl.retry] at h ho ⊢
  by_cases hd : dO = .HALT <;>
    cases db <;> cases ds <;> cases p <;> cases es <;> cases eb <;> simp [hd] at h ho ⊢ <;>
    try (rcases ho with ho | ho | ho <;> simp_all)

theorem Ctl.execute_EX_branch (c : Ctl) (t : Bool) (h : (c.execute t).EX.live = true)
    (ho : (c.execute t).EX.opcode = .BZ ∨ (c.execute t).EX.opcode = .BNZ ∨
      (c.execute t).EX.opcode = .JUMP) :
    c.EX.live = true ∧ (c.EX.opcode = .BZ ∨ c.EX.opcode = .BNZ ∨ c.EX.opcode = .JUMP) ∧
    (c.execute t).DRF.live = c.DRF.live := by
  rcases c with ⟨⟨fo, fb, fs⟩, ⟨dO, db, ds⟩, ⟨eo, eb, es⟩, ⟨mo, mb, ms⟩, ⟨wo, wb, ws⟩⟩
  simp only [Ctl.execute, CtlStage.live, Ctl.resume, Ctl.taken] at h ho ⊢
  by_cases hd : eo = .HALT <;> by_cases hm : eo = .MUL <;>
    cases eb <;> cases es <;> simp [hd, hm] at h ho ⊢ <;>
    try (rcases ho with ho | ho | ho <;> simp_all)

theorem Ctl.cycle_EX_branch (c : Ctl) (t p : Bool) (o : Opcode) (hf : c.F.busy = false)
    (hc : c.EX.live = true → (c.EX.opcode = .BZ ∨ c.EX.opcode = .BNZ ∨ c.EX.opcode = .JUMP) →
      c.DRF.live = true)
    (h : (c.cycle t p o).EX.live = true)
    (ho : (c.cycle t p o).EX.opcode = .BZ ∨ (c.cycle t p o).EX.opcode = .BNZ ∨
      (c.cycle t p o).EX.opcode = .JUMP) :
    (c.cycle t p o).DRF.live = true := by
  unfold Ctl.cycle at h ho ⊢
  set c2 := Ctl.memory (Ctl.writeback c) with hc2
  have e2 : c2.EX = c.EX := rfl
  have d2 : c2.DRF = c.DRF := rfl
  have hEX : (Ctl.fetch o (Ctl.decode p (Ctl.execute t c2))).EX =
      (Ctl.decode p (Ctl.execute t c2)).EX := rfl
  rw [hEX] at h ho
  have hfb : (Ctl.decode p (Ctl.execute t c2)).F.busy = false := hf
  rcases Ctl.decode_EX_branch _ p h ho with ⟨a, b⟩ | ⟨a, b, c'⟩
  · exact Ctl.fetch_delivers _ o hfb a b
  · obtain ⟨x, y, z⟩ := Ctl.execute_EX_branch c2 t a b
    rw [e2] at x y
    rw [z, d2, hc x y] at c'
    exact absurd c' (by simp)

theorem Ctl.ok_cycle (c : Ctl) (t p : Bool) (o : Opcode) (h : c.ok) : (c.cycle t p o).ok := by
  obtain ⟨h1, h2, h3, h4, h5⟩ := h
  refine ⟨h1, ?_, Ctl.cycle_EX_HALT c t p o, ?_, Ctl.cycle_EX_branch c t p o h1 h5⟩
  · intro a b
    obtain ⟨x, y⟩ := Ctl.cycle_MEM_live c t p o a b
    obtain ⟨z1, z2, z3⟩ := h3 x y
    exact Ctl.cycle_of_HALT c t p o h1 x y z1 z2 z3
  · rcases c with ⟨⟨fo, fb, fs⟩, ⟨dO, db, ds⟩, ⟨eo, eb, es⟩, ⟨mo, mb, ms⟩, ⟨wo, wb, ws⟩⟩
    simp only [Ctl.cycle, Ctl.fetch, Ctl.decode, Ctl.execute, Ctl.memory, Ctl.writeback,
      CtlStage.live] at h4 ⊢
    cases mb <;> cases ms <;> cases wb <;> cases ws <;> simp_all

end APEX


namespace PartA
open APEX

theorem writeback_latches (cpu : APEX_CPU) :
    (writeback cpu).F = cpu.F ∧ (writeback cpu).DRF = cpu.DRF ∧ (writeback cpu).EX = cpu.EX ∧
    (writeback cpu).MEM = cpu.MEM ∧ (writeback cpu).pc = cpu.pc ∧
    (writeback cpu).data_memory = cpu.data_memory ∧
    (writeback cpu).code_memory = cpu.code_memory ∧ (writeback cpu).outside = cpu.outside := by
  cases h : cpu.WB.ctl.live
  · rw [writeback_idle cpu ((live_false_iff _).1 h)]; simp
  · obtain ⟨hb, hs⟩ := (live_true_iff _).1 h
    rw [writeback_live cpu hb hs]; simp

theorem memory_latches (cpu : APEX_CPU) :
    (mem_step cpu).F = cpu.F ∧ (mem_step cpu).DRF = cpu.DRF ∧ (mem_step cpu).EX = cpu.EX ∧
    (mem_step cpu).pc = cpu.pc ∧ (mem_step cpu).regs = cpu.regs ∧
    (mem_step cpu).regs_valid = cpu.regs_valid ∧ (mem_step cpu).z_flag = cpu.z_flag ∧
    (mem_step cpu).z_flag_valid = cpu.z_flag_valid ∧
    (mem_step cpu).ins_completed = cpu.ins_completed ∧
    (mem_step cpu).code_memory = cpu.code_memory ∧ (mem_step cpu).outside = cpu.outside := by
  cases h : cpu.MEM.ctl.live
  · rw [memory_idle cpu ((live_false_iff _).1 h)]; simp
  · obtain ⟨hb, hs⟩ := (live_true_iff _).1 h
    rw [memory_live cpu hb hs]; simp

theorem cycle_of_execute (cpu c : APEX_CPU) (ho : mem_oob cpu = false)
    (h : execute (mem_step (writeback cpu)) = some c) :
    cycle cpu = some { fetch (decode c) with clock := (fetch (decode c)).clock + 1 } := by
  rw [cycle_eq, oob_writeback, ho, h]
  rfl

theorem initial_ok (code : List APEX_Instruction) (n : Int) (u : Uninit) :
    (initial code n u).ctl.ok ∧ (initial code n u).ENABLE_COUNTING = false := by
  simp [initial, Ctl.ok, APEX_CPU.ctl, CPU_Stage.ctl, CtlStage.live, zero_stage]

theorem cycle_ok (cpu cpu' : APEX_CPU) (h : cpu.ctl.ok ∧ cpu.ENABLE_COUNTING = false)
    (hc : cycle cpu = some cpu') : cpu'.ctl.ok ∧ cpu'.ENABLE_COUNTING = false := by
  obtain ⟨t, p, o, e⟩ := ctl_cycle cpu cpu' h.2 hc
  exact ⟨e ▸ Ctl.ok_cycle _ t p o h.1, cycle_counting cpu cpu' h.2 hc⟩

theorem cycles_ok (k : Nat) (cpu cpu' : APEX_CPU) (h : cpu.ctl.ok ∧ cpu.ENABLE_COUNTING = false)
    (hc : cycles k cpu = some cpu') : cpu'.ctl.ok ∧ cpu'.ENABLE_COUNTING = false := by
  induction k generalizing cpu with
  | zero =>
    simp only [cycles, Option.some.injEq] at hc
    exact hc ▸ h
  | succ k ih =>
    simp only [cycles] at hc
    cases h1 : cycle cpu with
    | none => simp [h1] at hc
    | some c =>
      rw [h1] at hc
      exact ih c (cycle_ok cpu c h h1) hc

theorem reachable_ok (code : List APEX_Instruction) (n : Int) (u : Uninit) (k : Nat)
    (cpu : APEX_CPU) (hc : cycles k (initial code n u) = some cpu) :
    cpu.ctl.ok ∧ cpu.ENABLE_COUNTING = false :=
  cycles_ok k _ _ (initial_ok code n u) hc

/-- The cycle in which Memory hands a HALT to WB, from a state where the pipeline behind
the HALT is frozen. -/
theorem cycle_HALT_to_WB (s : APEX_CPU) (hc : s.ENABLE_COUNTING = false)
    (hmb : s.MEM.busy = false) (hms : s.MEM.stalled = false) (hmo : s.MEM.opcode = .HALT)
    (hf : s.F.stalled = true) (hds : s.DRF.stalled = true) (hdo : s.DRF.opcode = .HALT)
    (hes : s.EX.stalled = true) (heo : s.EX.opcode = .HALT) :
    ∃ s1, cycle s = some s1 ∧ s1.clock = s.clock + 1 ∧ s1.code_memory_size = s.clock + 1 ∧
      s1.WB.opcode = .HALT ∧ s1.WB.busy = false ∧ s1.WB.stalled = false ∧
      s1.MEM.stalled = true ∧ s1.EX.stalled = true ∧ s1.EX.opcode = .HALT ∧
      s1.DRF.stalled = true ∧ s1.DRF.opcode = .HALT ∧ s1.ENABLE_COUNTING = false ∧
      s1.regs = (writeback s).regs ∧ s1.data_memory = s.data_memory ∧
      s1.z_flag = (writeback s).z_flag ∧ s1.ins_completed = (writeback s).ins_completed := by
  obtain ⟨w1, w2, w3, w4, w5, w6, w7, w8⟩ := writeback_latches s
  obtain ⟨wc, wk, wz⟩ := writeback_frame s
  have m := memory_live (writeback s) (by rw [w4]; exact hmb) (by rw [w4]; exact hms)
  have e := execute_idle (mem_step (writeback s)) (Or.inr (by rw [m]; simp [w3, hes]))
    (Or.inr (by rw [m]; simp [w3, heo]))
  have d := decode_idle (mem_step (writeback s)) (Or.inr (by rw [m]; simp [w2, hds]))
    (Or.inr (Or.inl (by rw [m]; simp [w2, hdo])))
  have f := fetch_stalled (mem_step (writeback s)) (Or.inr (by rw [m]; simp [w1, hf]))
  refine ⟨_, cycle_of_execute s _ (PartA.oob_of_opcode s (by simp [hmo]) (by simp [hmo])) e, ?_⟩
  · simp only [d, f]
    rw [m]
    simp [w1, w2, w3, w4, w6, wc, wk, wz, hmo, hmb, hms, hes, heo, hds, hdo, hc, mem_done]

/-- The cycle after: the HALT retires, nothing else moves and the budget stays. -/
theorem cycle_HALT_retires (s : APEX_CPU)
    (hwo : s.WB.opcode = .HALT) (hwb : s.WB.busy = false) (hws : s.WB.stalled = false)
    (hms : s.MEM.stalled = true) (hes : s.EX.stalled = true) (heo : s.EX.opcode = .HALT)
    (hds : s.DRF.stalled = true) (hdo : s.DRF.opcode = .HALT) (hfb : s.F.busy = false) :
    ∃ s2, cycle s = some s2 ∧ s2.clock = s.clock + 1 ∧
      s2.code_memory_size = s.code_memory_size ∧ s2.WB.opcode = .EMPTY ∧
      s2.ins_completed = s.ins_completed + 1 ∧ s2.regs = s.regs ∧
      s2.data_memory = s.data_memory ∧ s2.z_flag = s.z_flag := by
  have w := writeback_live s hwb hws
  have m := memory_idle (writeback s) (Or.inr (by rw [w]; simp [hms]))
  have e := execute_idle (mem_step (writeback s)) (Or.inr (by rw [m, w]; simp [hes]))
    (Or.inr (by rw [m, w]; simp [heo]))
  have d := decode_idle (mem_step (writeback s)) (Or.inr (by rw [m, w]; simp [hds]))
    (Or.inr (Or.inl (by rw [m, w]; simp [hdo])))
  refine ⟨_, cycle_of_execute s _ (PartA.oob_of_idle s (Or.inr hms)) e, ?_⟩
  · rw [d, m]
    cases hfs : s.F.stalled
    · have f := fetch_live (writeback s) (by rw [w]; simp [hfb]) (by rw [w]; simp [hfs])
      rw [f, w]
      simp [hwo, Opcode.writes_rd, Opcode.sets_z, hds]
    · have f := fetch_stalled (writeback s) (Or.inr (by rw [w]; simp [hfs]))
      rw [f, w]
      simp [hwo, Opcode.writes_rd, Opcode.sets_z, hds]

theorem run_done (fuel : Nat) (cpu : APEX_CPU) (h : ¬ cpu.clock ≤ cpu.code_memory_size) :
    APEX_cpu_run fuel cpu = .returned cpu := by
  cases fuel <;> simp [APEX_cpu_run, h]

theorem run_step (fuel : Nat) (cpu c : APEX_CPU) (h : cpu.clock ≤ cpu.code_memory_size)
    (hc : cpu.ENABLE_COUNTING = false) (hcy : cycle cpu = some c) :
    APEX_cpu_run (fuel + 1) cpu = APEX_cpu_run fuel c := by
  simp [APEX_cpu_run, h, hc, hcy]

/-- From a reachable state whose Memory stage is about to hand a HALT to WB: the budget
becomes `clock + 1`, the HALT retires in the next cycle, and the loop returns. -/
theorem halt_in_MEM (code : List APEX_Instruction) (n : Int) (u : Uninit) (k : Nat)
    (s : APEX_CPU) (hr : cycles k (initial code n u) = some s)
    (hmb : s.MEM.busy = false) (hms : s.MEM.stalled = false) (hmo : s.MEM.opcode = .HALT) :
    ∃ s1 s2, cycle s = some s1 ∧ s1.WB.opcode = .HALT ∧ s1.code_memory_size = s.clock + 1 ∧
      s1.clock = s.clock + 1 ∧ cycle s1 = some s2 ∧ s2.WB.opcode = .EMPTY ∧
      s2.ins_completed = s1.ins_completed + 1 ∧ s2.clock = s.clock + 2 ∧
      s2.code_memory_size = s.clock + 1 ∧
      (s.clock ≤ s.code_memory_size → ∀ fuel, APEX_cpu_run (fuel + 2) s = .returned s2) := by
  obtain ⟨hok, hc⟩ := reachable_ok code n u k s hr
  have hok' := hok
  obtain ⟨hfb, h2, -, -, -⟩ := hok'
  obtain ⟨a1, a2, a3, a4, a5⟩ := h2 (by simp [APEX_CPU.ctl, CPU_Stage.ctl, CtlStage.live, hmb, hms])
    hmo
  obtain ⟨s1, c1, k1, b1, wo, wb, ws, ms, es, eo, ds, d0, cc, -⟩ :=
    cycle_HALT_to_WB s hc hmb hms hmo a1 a2 a3 a4 a5
  have hfb1 : s1.F.busy = false := (cycle_ok s s1 ⟨hok, hc⟩ c1).1.1
  obtain ⟨s2, c2, k2, b2, wo2, ic2, -⟩ := cycle_HALT_retires s1 wo wb ws ms es eo ds d0 hfb1
  refine ⟨s1, s2, c1, wo, b1, k1, c2, wo2, ic2, by rw [k2, k1]; ring, by rw [b2, b1], ?_⟩
  intro hle fuel
  rw [run_step _ s s1 hle hc c1, run_step _ s1 s2 (by rw [k1, b1]) cc c2]
  exact run_done _ _ (by rw [k2, k1, b2, b1]; omega)

theorem cycle_budget (s s' : APEX_CPU) (hc : s.ENABLE_COUNTING = false)
    (h : cycle s = some s') :
    s'.code_memory_size = s.code_memory_size ∨
    (s'.code_memory_size = s.clock + 1 ∧ s'.WB.opcode = .HALT) := by
  obtain ⟨c3, he, rfl⟩ := cycle_some s s' h
  have hc1 : (mem_step (writeback s)).ENABLE_COUNTING = false := by
    rw [(memory_frame _).1, (writeback_frame _).1, hc]
  have hc2 : c3.ENABLE_COUNTING = false := (execute_frame _ _ hc1 he).1
  have e1 : (decode c3).code_memory_size = s.code_memory_size := by
    rw [(decode_frame _ hc2).2.2, (execute_frame _ _ hc1 he).2.2, (memory_frame _).2.2,
      (writeback_frame _).2.2]
  have e2 : (decode c3).clock = s.clock := by
    rw [(decode_frame _ hc2).2.1, (execute_frame _ _ hc1 he).2.1, (memory_frame _).2.1,
      (writeback_frame _).2.1]
  show (fetch (decode c3)).code_memory_size = _ ∨
    ((fetch (decode c3)).code_memory_size = _ ∧ (fetch (decode c3)).WB.opcode = _)
  cases hl : (decode c3).F.ctl.live
  · rw [fetch_stalled _ ((live_false_iff _).1 hl)]
    by_cases hw : (decode c3).WB.opcode = .HALT
    · right; simp [hw, e2]
    · left; simp [hw, e1]
  · obtain ⟨hb, hs⟩ := (live_true_iff _).1 hl
    rw [fetch_live _ hb hs]
    left; simp [e1]

theorem iterations_done (fuel : Nat) (cpu : APEX_CPU)
    (h : ¬ cpu.clock ≤ cpu.code_memory_size) : iterations fuel cpu = 0 := by
  cases fuel <;> simp [iterations, h]

end PartA


namespace PartB
open APEX

theorem writeback_latches_B (cpu : APEX_CPU) :
    (writeback cpu).F = cpu.F ∧ (writeback cpu).DRF = cpu.DRF ∧ (writeback cpu).EX = cpu.EX ∧
    (writeback cpu).MEM = cpu.MEM ∧ (writeback cpu).pc = cpu.pc ∧
    (writeback cpu).data_memory = cpu.data_memory ∧
    (writeback cpu).code_memory = cpu.code_memory ∧ (writeback cpu).outside = cpu.outside := by
  cases h : cpu.WB.ctl.live
  · rw [writeback_idle_B cpu ((live_false_iff _).1 h)]; simp
  · obtain ⟨hb, hs⟩ := (live_true_iff _).1 h
    rw [writeback_live_B cpu hb hs]; simp

theorem memory_latches_B (cpu : APEX_CPU) :
    (mem_step cpu).F = cpu.F ∧ (mem_step cpu).DRF = cpu.DRF ∧ (mem_step cpu).EX = cpu.EX ∧
    (mem_step cpu).pc = cpu.pc ∧ (mem_step cpu).regs = cpu.regs ∧
    (mem_step cpu).regs_valid = cpu.regs_valid ∧ (mem_step cpu).z_flag = cpu.z_flag ∧
    (mem_step cpu).z_flag_valid = cpu.z_flag_valid ∧
    (mem_step cpu).ins_completed = cpu.ins_completed ∧
    (mem_step cpu).code_memory = cpu.code_memory ∧ (mem_step cpu).outside = cpu.outside := by
  cases h : cpu.MEM.ctl.live
  · rw [memory_idle_B cpu ((live_false_iff _).1 h)]; simp
  · obtain ⟨hb, hs⟩ := (live_true_iff _).1 h
    rw [memory_live_B cpu hb hs]; simp

theorem cycle_of_execute_B (cpu c : APEX_CPU) (ho : mem_oob cpu = false)
    (h : execute (mem_step (writeback cpu)) = some c) :
    cycle cpu = some { fetch (decode c) with clock := (fetch (decode c)).clock + 1 } := by
  rw [cycle_eq_B, oob_writeback_B, ho, h]
  rfl

theorem initial_ok_B (code : List APEX_Instruction) (n : Int) (u : Uninit) :
    (initial code n u).ctl.ok ∧ (initial code n u).ENABLE_COUNTING = false := by
  simp [initial, Ctl.ok, APEX_CPU.ctl, CPU_Stage.ctl, CtlStage.live, zero_stage]

theorem cycle_ok_B (cpu cpu' : APEX_CPU) (h : cpu.ctl.ok ∧ cpu.ENABLE_COUNTING = false)
    (hc : cycle cpu = some cpu') : cpu'.ctl.ok ∧ cpu'.ENABLE_COUNTING = false := by
  obtain ⟨t, p, o, e⟩ := ctl_cycle_B cpu cpu' h.2 hc
  exact ⟨e ▸ Ctl.ok_cycle _ t p o h.1, cycle_counting_B cpu cpu' h.2 hc⟩

theorem cycles_ok_B (k : Nat) (cpu cpu' : APEX_CPU) (h : cpu.ctl.ok ∧ cpu.ENABLE_COUNTING = false)
    (hc : cycles k cpu = some cpu') : cpu'.ctl.ok ∧ cpu'.ENABLE_COUNTING = false := by
  induction k generalizing cpu with
  | zero =>
    simp only [cycles, Option.some.injEq] at hc
    exact hc ▸ h
  | succ k ih =>
    simp only [cycles] at hc
    cases h1 : cycle cpu with
    | none => simp [h1] at hc
    | some c =>
      rw [h1] at hc
      exact ih c (cycle_ok_B cpu c h h1) hc

theorem reachable_ok_B (code : List APEX_Instruction) (n : Int) (u : Uninit) (k : Nat)
    (cpu : APEX_CPU) (hc : cycles k (initial code n u) = some cpu) :
    cpu.ctl.ok ∧ cpu.ENABLE_COUNTING = false :=
  cycles_ok_B k _ _ (initial_ok_B code n u) hc

/-- The cycle in which Memory hands a HALT to WB, from a state where the pipeline behind
the HALT is frozen. -/
theorem cycle_HALT_to_WB_B (s : APEX_CPU) (hc : s.ENABLE_COUNTING = false)
    (hmb : s.MEM.busy = false) (hms : s.MEM.stalled = false) (hmo : s.MEM.opcode = .HALT)
    (hf : s.F.stalled = true) (hds : s.DRF.stalled = true) (hdo : s.DRF.opcode = .HALT)
    (hes : s.EX.stalled = true) (heo : s.EX.opcode = .HALT) :
    ∃ s1, cycle s = some s1 ∧ s1.clock = s.clock + 1 ∧ s1.code_memory_size = s.clock + 1 ∧
      s1.WB.opcode = .HALT ∧ s1.WB.busy = false ∧ s1.WB.stalled = false ∧
      s1.MEM.stalled = true ∧ s1.EX.stalled = true ∧ s1.EX.opcode = .HALT ∧
      s1.DRF.stalled = true ∧ s1.DRF.opcode = .HALT ∧ s1.ENABLE_COUNTING = false ∧
      s1.regs = (writeback s).regs ∧ s1.data_memory = s.data_memory ∧
      s1.z_flag = (writeback s).z_flag ∧ s1.ins_completed = (writeback s).ins_completed := by
  obtain ⟨w1, w2, w3, w4, w5, w6, w7, w8⟩ := writeback_latches_B s
  obtain ⟨wc, wk, wz⟩ := writeback_frame_B s
  have m := memory_live_B (writeback s) (by rw [w4]; exact hmb) (by rw [w4]; exact hms)
  have e := execute_idle_B (mem_step (writeback s)) (Or.inr (by rw [m]; simp [w3, hes]))
    (Or.inr (by rw [m]; simp [w3, heo]))
  have d := decode_idle_B (mem_step (writeback s)) (Or.inr (by rw [m]; simp [w2, hds]))
    (Or.inr (Or.inl (by rw [m]; simp [w2, hdo])))
  have f := fetch_stalled_B (mem_step (writeback s)) (Or.inr (by rw [m]; simp [w1, hf]))
  refine ⟨_, cycle_of_execute_B s _ (PartA.oob_of_opcode s (by simp [hmo]) (by simp [hmo])) e, ?_⟩
  · simp only [d, f]
    rw [m]
    simp [w1, w2, w3, w4, w6, wc, wk, wz, hmo, hmb, hms, hes, heo, hds, hdo, hc, mem_done]

/-- The cycle after: the HALT retires, nothing else moves and the budget stays. -/
theorem cycle_HALT_retires_B (s : APEX_CPU)
    (hwo : s.WB.opcode = .HALT) (hwb : s.WB.busy = false) (hws : s.WB.stalled = false)
    (hms : s.MEM.stalled = true) (hes : s.EX.stalled = true) (heo : s.EX.opcode = .HALT)
    (hds : s.DRF.stalled = true) (hdo : s.DRF.opcode = .HALT) (hfb : s.F.busy = false) :
    ∃ s2, cycle s = some s2 ∧ s2.clock = s.clock + 1 ∧
      s2.code_memory_size = s.code_memory_size ∧ s2.WB.opcode = .EMPTY ∧
      s2.ins_completed = s.ins_completed + 1 ∧ s2.regs = s.regs ∧
      s2.data_memory = s.data_memory ∧ s2.z_flag = s.z_flag := by
  have w := writeback_live_B s hwb hws
  have m := memory_idle_B (writeback s) (Or.inr (by rw [w]; simp [hms]))
  have e := execute_idle_B (mem_step (writeback s)) (Or.inr (by rw [m, w]; simp [hes]))
    (Or.inr (by rw [m, w]; simp [heo]))
  have d := decode_idle_B (mem_step (writeback s)) (Or.inr (by rw [m, w]; simp [hds]))
    (Or.inr (Or.inl (by rw [m, w]; simp [hdo])))
  refine ⟨_, cycle_of_execute_B s _ (PartA.oob_of_idle s (Or.inr hms)) e, ?_⟩
  · rw [d, m]
    cases hfs : s.F.stalled
    · have f := fetch_live_B (writeback s) (by rw [w]; simp [hfb]) (by rw [w]; simp [hfs])
      rw [f, w]
      simp [hwo, Opcode.writes_rd, Opcode.sets_z, hds]
    · have f := fetch_stalled_B (writeback s) (Or.inr (by rw [w]; simp [hfs]))
      rw [f, w]
      simp [hwo, Opcode.writes_rd, Opcode.sets_z, hds]

theorem run_done_B (fuel : Nat) (cpu : APEX_CPU) (h : ¬ cpu.clock ≤ cpu.code_memory_size) :
    APEX_cpu_run fuel cpu = .returned cpu := by
  cases fuel <;> simp [APEX_cpu_run, h]

theorem run_step_B (fuel : Nat) (cpu c : APEX_CPU) (h : cpu.clock ≤ cpu.code_memory_size)
    (hc : cpu.ENABLE_COUNTING = false) (hcy : cycle cpu = some c) :
    APEX_cpu_run (fuel + 1) cpu = APEX_cpu_run fuel c := by
  simp [APEX_cpu_run, h, hc, hcy]

/-- From a reachable state whose Memory stage is about to hand a HALT to WB: the budget
becomes `clock + 1`, the HALT retires in the next cycle, and the loop returns. -/
theorem halt_in_MEM_B (code : List APEX_Instruction) (n : Int) (u : Uninit) (k : Nat)
    (s : APEX_CPU) (hr : cycles k (initial code n u) = some s)
    (hmb : s.MEM.busy = false) (hms : s.MEM.stalled = false) (hmo : s.MEM.opcode = .HALT) :
    ∃ s1 s2, cycle s = some s1 ∧ s1.WB.opcode = .HALT ∧ s1.code_memory_size = s.clock + 1 ∧
      s1.clock = s.clock + 1 ∧ cycle s1 = some s2 ∧ s2.WB.opcode = .EMPTY ∧
      s2.ins_completed = s1.ins_completed + 1 ∧ s2.clock = s.clock + 2 ∧
      s2.code_memory_size = s.clock + 1 ∧
      (s.clock ≤ s.code_memory_size → ∀ fuel, APEX_cpu_run (fuel + 2) s = .returned s2) := by
  obtain ⟨hok, hc⟩ := reachable_ok_B code n u k s hr
  have hok' := hok
  obtain ⟨hfb, h2, -, -, -⟩ := hok'
  obtain ⟨a1, a2, a3, a4, a5⟩ := h2 (by simp [APEX_CPU.ctl, CPU_Stage.ctl, CtlStage.live, hmb, hms])
    hmo
  obtain ⟨s1, c1, k1, b1, wo, wb, ws, ms, es, eo, ds, d0, cc, -⟩ :=
    cycle_HALT_to_WB_B s hc hmb hms hmo a1 a2 a3 a4 a5
  have hfb1 : s1.F.busy = false := (cycle_ok_B s s1 ⟨hok, hc⟩ c1).1.1
  obtain ⟨s2, c2, k2, b2, wo2, ic2, -⟩ := cycle_HALT_retires_B s1 wo wb ws ms es eo ds d0 hfb1
  refine ⟨s1, s2, c1, wo, b1, k1, c2, wo2, ic2, by rw [k2, k1]; ring, by rw [b2, b1], ?_⟩
  intro hle fuel
  rw [run_step_B _ s s1 hle hc c1, run_step_B _ s1 s2 (by rw [k1, b1]) cc c2]
  exact run_done_B _ _ (by rw [k2, k1, b2, b1]; omega)

theorem cycle_budget_B (s s' : APEX_CPU) (hc : s.ENABLE_COUNTING = false)
    (h : cycle s = some s') :
    s'.code_memory_size = s.code_memory_size ∨
    (s'.code_memory_size = s.clock + 1 ∧ s'.WB.opcode = .HALT) := by
  obtain ⟨c3, he, rfl⟩ := cycle_some_B s s' h
  have hc1 : (mem_step (writeback s)).ENABLE_COUNTING = false := by
    rw [(memory_frame_B _).1, (writeback_frame_B _).1, hc]
  have hc2 : c3.ENABLE_COUNTING = false := (execute_frame_B _ _ hc1 he).1
  have e1 : (decode c3).code_memory_size = s.code_memory_size := by
    rw [(decode_frame_B _ hc2).2.2, (execute_frame_B _ _ hc1 he).2.2, (memory_frame_B _).2.2,
      (writeback_frame_B _).2.2]
  have e2 : (decode c3).clock = s.clock := by
    rw [(decode_frame_B _ hc2).2.1, (execute_frame_B _ _ hc1 he).2.1, (memory_frame_B _).2.1,
      (writeback_frame_B _).2.1]
  show (fetch (decode c3)).code_memory_size = _ ∨
    ((fetch (decode c3)).code_memory_size = _ ∧ (fetch (decode c3)).WB.opcode = _)
  cases hl : (decode c3).F.ctl.live
  · rw [fetch_stalled_B _ ((live_false_iff _).1 hl)]
    by_cases hw : (decode c3).WB.opcode = .HALT
    · right; simp [hw, e2]
    · left; simp [hw, e1]
  · obtain ⟨hb, hs⟩ := (live_true_iff _).1 hl
    rw [fetch_live_B _ hb hs]
    left; simp [e1]

theorem iterations_done_B (fuel : Nat) (cpu : APEX_CPU)
    (h : ¬ cpu.clock ≤ cpu.code_memory_size) : iterations fuel cpu = 0 := by
  cases fuel <;> simp [iterations, h]

end PartB


namespace PartA
open APEX

theorem fetch_latches (cpu : APEX_CPU) :
    (fetch cpu).EX = cpu.EX ∧ (fetch cpu).MEM = cpu.MEM ∧ (fetch cpu).WB = cpu.WB ∧
    (fetch cpu).regs = cpu.regs ∧ (fetch cpu).regs_valid = cpu.regs_valid ∧
    (fetch cpu).data_memory = cpu.data_memory ∧ (fetch cpu).z_flag = cpu.z_flag ∧
    (fetch cpu).z_flag_valid = cpu.z_flag_valid ∧
    (cpu.DRF.stalled = true → (fetch cpu).DRF = cpu.DRF) := by
  cases h : cpu.F.ctl.live
  · rw [fetch_stalled cpu ((live_false_iff _).1 h)]
    refine ⟨rfl, rfl, rfl, rfl, rfl, rfl, rfl, rfl, fun hd => ?_⟩
    simp [hd]
  · obtain ⟨hb, hs⟩ := (live_true_iff _).1 h
    rw [fetch_live cpu hb hs]
    refine ⟨rfl, rfl, rfl, rfl, rfl, rfl, rfl, rfl, fun hd => ?_⟩
    simp [hd]

/-- The two cycles a MUL spends in EX. -/
theorem MUL_two_cycles (s : APEX_CPU) (hc : s.ENABLE_COUNTING = false)
    (hm : mem_oob s = false) (hb : s.EX.busy = false) (hs : s.EX.stalled = false) (ho : s.EX.opcode = .MUL) :
    ∃ c1 s1 c2, execute (mem_step (writeback s)) = some c1 ∧
      c1.EX.opcode = .MUL ∧ c1.EX.buffer = wrap32 (s.EX.rs1_value * s.EX.rs2_value) ∧
      c1.EX.stalled = true ∧ c1.DRF = { s.DRF with stalled := true } ∧
      c1.MEM.opcode = .BUBBLE ∧ decode c1 = c1 ∧
      cycle s = some s1 ∧ s1.EX = c1.EX ∧ s1.DRF = c1.DRF ∧
      execute (mem_step (writeback s1)) = some c2 ∧
      c2.EX.stalled = false ∧ c2.DRF = { s.DRF with stalled := false } ∧
      c2.MEM = { c1.EX with stalled := false } ∧ s1.MEM.opcode = .BUBBLE := by
  obtain ⟨-, w2, w3, -⟩ := writeback_latches s
  obtain ⟨-, m2, m3, -⟩ := memory_latches (writeback s)
  have e3 : (mem_step (writeback s)).EX = s.EX := by rw [m3, w3]
  have e2 : (mem_step (writeback s)).DRF = s.DRF := by rw [m2, w2]
  have hc0 : (mem_step (writeback s)).ENABLE_COUNTING = false := by
    rw [(memory_frame _).1, (writeback_frame _).1, hc]
  have hx := execute_live (mem_step (writeback s)) (by rw [e3, hb]) (by rw [e3, hs]) hc0
  have hf : ex_fault (mem_step (writeback s)).EX = false := by simp [e3, ex_fault, ho]
  simp only [hf, Bool.false_eq_true, if_false] at hx
  simp only [e3, e2, ho, ex_taken, ex_done, ex_buffer, ex_addr] at hx
  simp at hx
  have step1 : ∃ c1, execute (mem_step (writeback s)) = some c1 ∧
      c1.EX = { s.EX with buffer := wrap32 (s.EX.rs1_value * s.EX.rs2_value), stalled := true } ∧
      c1.DRF = { s.DRF with stalled := true } ∧ c1.MEM.opcode = .BUBBLE ∧
      c1.ENABLE_COUNTING = false := ⟨_, hx, by simp [ho], rfl, rfl, hc0⟩
  clear hx
  obtain ⟨c1, x1, x2, x3, x4, x5⟩ := step1
  have hd : decode c1 = c1 :=
    decode_idle c1 (Or.inr (by rw [x3])) (Or.inr (Or.inr (by rw [x2])))
  have hcy := cycle_of_execute s c1 hm x1
  rw [hd] at hcy
  obtain ⟨f1, -, -, -, -, -, -, -, f9⟩ := fetch_latches c1
  have hc1 := cycle_counting s _ hc hcy
  obtain ⟨-, v2, v3, -⟩ := writeback_latches { fetch c1 with clock := (fetch c1).clock + 1 }
  obtain ⟨-, n2, n3, -⟩ := memory_latches
    (writeback { fetch c1 with clock := (fetch c1).clock + 1 })
  have g3 : (mem_step (writeback { fetch c1 with clock := (fetch c1).clock + 1 })).EX = c1.EX := by
    rw [n3, v3]; exact f1
  have g2 : (mem_step (writeback { fetch c1 with clock := (fetch c1).clock + 1 })).DRF
      = c1.DRF := by
    rw [n2, v2]; exact f9 (by rw [x3])
  have hc2 : (mem_step (writeback { fetch c1 with clock := (fetch c1).clock + 1 })).ENABLE_COUNTING
      = false := by
    rw [(memory_frame _).1, (writeback_frame _).1, hc1]
  have hr := execute_resume _ (by rw [g3, x2]) (by rw [g3, x2]; exact ho) hc2
  refine ⟨c1, _, _, x1, by rw [x2]; exact ho, by rw [x2], by rw [x2], x3, x4, hd, hcy, f1,
    f9 (by rw [x3]), hr, rfl, ?_, ?_, ?_⟩
  · show ({ (mem_step (writeback { fetch c1 with clock := (fetch c1).clock + 1 })).DRF with
      stalled := false } : CPU_Stage) = _
    rw [g2, x3]
  · show ({ (mem_step (writeback { fetch c1 with clock := (fetch c1).clock + 1 })).EX with
      stalled := false } : CPU_Stage) = _
    rw [g3]
  · show (fetch c1).MEM.opcode = _
    rw [(fetch_latches c1).2.1]
    exact x4


/-- Behind an instruction that leaves EX after one cycle, Execute leaves the DRF latch as it
found it, so Decode processes it in that same cycle. -/
theorem single_cycle_execute (s : APEX_CPU) (hc : s.ENABLE_COUNTING = false)
    (hb : s.EX.busy = false) (hs : s.EX.stalled = false) (ho : s.EX.opcode ≠ .MUL)
    (h1 : s.EX.opcode ≠ .BZ) (h2 : s.EX.opcode ≠ .BNZ) (h3 : s.EX.opcode ≠ .JUMP)
    (hf : ex_fault s.EX = false) :
    ∃ c1, execute (mem_step (writeback s)) = some c1 ∧ c1.DRF = s.DRF := by
  obtain ⟨-, w2, w3, -⟩ := writeback_latches s
  obtain ⟨-, m2, m3, -⟩ := memory_latches (writeback s)
  have e3 : (mem_step (writeback s)).EX = s.EX := by rw [m3, w3]
  have e2 : (mem_step (writeback s)).DRF = s.DRF := by rw [m2, w2]
  have hc0 : (mem_step (writeback s)).ENABLE_COUNTING = false := by
    rw [(memory_frame _).1, (writeback_frame _).1, hc]
  have hx := execute_live (mem_step (writeback s)) (by rw [e3, hb]) (by rw [e3, hs]) hc0
  rw [e3, hf] at hx
  simp only [Bool.false_eq_true, if_false] at hx
  refine ⟨_, hx, ?_⟩
  simp [e2, ex_taken, ho, h1, h2, h3]

end PartA

namespace PartA
open APEX

/-- The two cycles a MUL spends in EX, and what Decode makes of the DRF latch in the second
one. -/
theorem MUL_behind (s : APEX_CPU) (hc : s.ENABLE_COUNTING = false)
    (hm : mem_oob s = false) (hb : s.EX.busy = false) (hs : s.EX.stalled = false)
    (ho : s.EX.opcode = .MUL) :
    ∃ c1 s1 c2 s2, (memory (writeback s)).bind execute = some c1 ∧
      c1.EX.opcode = .MUL ∧ c1.EX.buffer = wrap32 (s.EX.rs1_value * s.EX.rs2_value) ∧
      c1.EX.stalled = true ∧ c1.DRF = { s.DRF with stalled := true } ∧
      c1.MEM.opcode = .BUBBLE ∧ decode c1 = c1 ∧
      cycle s = some s1 ∧ s1.EX = c1.EX ∧ s1.DRF = c1.DRF ∧
      (memory (writeback s1)).bind execute = some c2 ∧
      c2.EX.stalled = false ∧ c2.DRF = { s.DRF with stalled := false } ∧
      c2.MEM = { c1.EX with stalled := false } ∧
      cycle s1 = some s2 ∧ s2.EX = (decode c2).EX ∧
      (s.DRF.busy = false → (decode c2).EX = if ready c2 then DRF_read c2 else { c2.EX with opcode := .BUBBLE, pc := 0 }) := by
  obtain ⟨c1, s1, c2, a1, a2, a3, a4, a5, a6, a7, a8, a9, a10, a11, a12, a13, a14, a15⟩ :=
    MUL_two_cycles s hc hm hb hs ho
  have hm1 : mem_oob s1 = false :=
    PartA.oob_of_opcode s1 (by rw [a15]; decide) (by rw [a15]; decide)
  have hcy := cycle_of_execute s1 c2 hm1 a11
  refine ⟨c1, s1, c2, _, bind_of_execute s c1 hm a1, a2, a3, a4, a5, a6, a7, a8, a9, a10,
    bind_of_execute s1 c2 hm1 a11, a12, a13, a14, hcy, ?_, fun hd => ?_⟩
  · show (fetch (decode c2)).EX = _
    exact (fetch_latches _).1
  · rw [decode_live c2 (by rw [a13]; exact hd) (by rw [a13])]
    split_ifs <;> rfl

/-- Behind an instruction that leaves EX after one cycle, Decode processes the DRF latch in
that same cycle. -/
theorem single_cycle_behind (s : APEX_CPU) (hc : s.ENABLE_COUNTING = false)
    (hm : mem_oob s = false)
    (hb : s.EX.busy = false) (hs : s.EX.stalled = false) (ho : s.EX.opcode ≠ .MUL)
    (h1 : s.EX.opcode ≠ .BZ) (h2 : s.EX.opcode ≠ .BNZ) (h3 : s.EX.opcode ≠ .JUMP)
    (hf : ex_fault s.EX = false) :
    ∃ c1 s1, (memory (writeback s)).bind execute = some c1 ∧ c1.DRF = s.DRF ∧
      cycle s = some s1 ∧ s1.EX = (decode c1).EX ∧
      (s.DRF.busy = false → s.DRF.stalled = false → (decode c1).EX = if ready c1 then DRF_read c1 else { c1.EX with opcode := .BUBBLE, pc := 0 }) := by
  obtain ⟨c1, a1, a2⟩ := single_cycle_execute s hc hb hs ho h1 h2 h3 hf
  refine ⟨c1, _, bind_of_execute s c1 hm a1, a2, cycle_of_execute s c1 hm a1, ?_,
    fun hd hst => ?_⟩
  · show (fetch (decode c1)).EX = _
    exact (fetch_latches _).1
  · rw [decode_live c1 (by rw [a2]; exact hd) (by rw [a2]; exact hst)]
    split_ifs <;> rfl

end PartA


namespace PartB
open APEX

theorem fetch_latches_B (cpu : APEX_CPU) :
    (fetch cpu).EX = cpu.EX ∧ (fetch cpu).MEM = cpu.MEM ∧ (fetch cpu).WB = cpu.WB ∧
    (fetch cpu).regs = cpu.regs ∧ (fetch cpu).regs_valid = cpu.regs_valid ∧
    (fetch cpu).data_memory = cpu.data_memory ∧ (fetch cpu).z_flag = cpu.z_flag ∧
    (fetch cpu).z_flag_valid = cpu.z_flag_valid ∧
    (cpu.DRF.stalled = true → (fetch cpu).DRF = cpu.DRF) := by
  cases h : cpu.F.ctl.live
  · rw [fetch_stalled_B cpu ((live_false_iff _).1 h)]
    refine ⟨rfl, rfl, rfl, rfl, rfl, rfl, rfl, rfl, fun hd => ?_⟩
    simp [hd]
  · obtain ⟨hb, hs⟩ := (live_true_iff _).1 h
    rw [fetch_live_B cpu hb hs]
    refine ⟨rfl, rfl, rfl, rfl, rfl, rfl, rfl, rfl, fun hd => ?_⟩
    simp [hd]

/-- The two cycles a MUL spends in EX. -/
theorem MUL_two_cycles_B (s : APEX_CPU) (hc : s.ENABLE_COUNTING = false)
    (hm : mem_oob s = false) (hb : s.EX.busy = false) (hs : s.EX.stalled = false) (ho : s.EX.opcode = .MUL) :
    ∃ c1 s1 c2, execute (mem_step (writeback s)) = some c1 ∧
      c1.EX.opcode = .MUL ∧ c1.EX.buffer = wrap32 (s.EX.rs1_value * s.EX.rs2_value) ∧
      c1.EX.stalled = true ∧ c1.DRF = { s.DRF with stalled := true } ∧
      c1.MEM.opcode = .BUBBLE ∧ decode c1 = c1 ∧
      cycle s = some s1 ∧ s1.EX = c1.EX ∧ s1.DRF = c1.DRF ∧
      execute (mem_step (writeback s1)) = some c2 ∧
      c2.EX.stalled = false ∧ c2.DRF = { s.DRF with stalled := false } ∧
      c2.MEM = { c1.EX with stalled := false } ∧ s1.MEM.opcode = .BUBBLE := by
  obtain ⟨-, w2, w3, -⟩ := writeback_latches_B s
  obtain ⟨-, m2, m3, -⟩ := memory_latches_B (writeback s)
  have e3 : (mem_step (writeback s)).EX = s.EX := by rw [m3, w3]
  have e2 : (mem_step (writeback s)).DRF = s.DRF := by rw [m2, w2]
  have hc0 : (mem_step (writeback s)).ENABLE_COUNTING = false := by
    rw [(memory_frame_B _).1, (writeback_frame_B _).1, hc]
  have hx := execute_live_B (mem_step (writeback s)) (by rw [e3, hb]) (by rw [e3, hs]) hc0
  have hf : ex_fault (mem_step (writeback s)).EX = false := by simp [e3, ex_fault, ho]
  simp only [hf, Bool.false_eq_true, if_false] at hx
  simp only [e3, e2, ho, ex_taken, ex_done, ex_buffer, ex_addr] at hx
  simp at hx
  have step1 : ∃ c1, execute (mem_step (writeback s)) = some c1 ∧
      c1.EX = { s.EX with buffer := wrap32 (s.EX.rs1_value * s.EX.rs2_value), stalled := true } ∧
      c1.DRF = { s.DRF with stalled := true } ∧ c1.MEM.opcode = .BUBBLE ∧
      c1.ENABLE_COUNTING = false := ⟨_, hx, by simp [ho], rfl, rfl, hc0⟩
  clear hx
  obtain ⟨c1, x1, x2, x3, x4, x5⟩ := step1
  have hd : decode c1 = c1 :=
    decode_idle_B c1 (Or.inr (by rw [x3])) (Or.inr (Or.inr (by rw [x2])))
  have hcy := cycle_of_execute_B s c1 hm x1
  rw [hd] at hcy
  obtain ⟨f1, -, -, -, -, -, -, -, f9⟩ := fetch_latches_B c1
  have hc1 := cycle_counting_B s _ hc hcy
  obtain ⟨-, v2, v3, -⟩ := writeback_latches_B { fetch c1 with clock := (fetch c1).clock + 1 }
  obtain ⟨-, n2, n3, -⟩ := memory_latches_B
    (writeback { fetch c1 with clock := (fetch c1).clock + 1 })
  have g3 : (mem_step (writeback { fetch c1 with clock := (fetch c1).clock + 1 })).EX = c1.EX := by
    rw [n3, v3]; exact f1
  have g2 : (mem_step (writeback { fetch c1 with clock := (fetch c1).clock + 1 })).DRF
      = c1.DRF := by
    rw [n2, v2]; exact f9 (by rw [x3])
  have hc2 : (mem_step (writeback { fetch c1 with clock := (fetch c1).clock + 1 })).ENABLE_COUNTING
      = false := by
    rw [(memory_frame_B _).1, (writeback_frame_B _).1, hc1]
  have hr := execute_resume_B _ (by rw [g3, x2]) (by rw [g3, x2]; exact ho) hc2
  refine ⟨c1, _, _, x1, by rw [x2]; exact ho, by rw [x2], by rw [x2], x3, x4, hd, hcy, f1,
    f9 (by rw [x3]), hr, rfl, ?_, ?_, ?_⟩
  · show ({ (mem_step (writeback { fetch c1 with clock := (fetch c1).clock + 1 })).DRF with
      stalled := false } : CPU_Stage) = _
    rw [g2, x3]
  · show ({ (mem_step (writeback { fetch c1 with clock := (fetch c1).clock + 1 })).EX with
      stalled := false } : CPU_Stage) = _
    rw [g3]
  · show (fetch c1).MEM.opcode = _
    rw [(fetch_latches_B c1).2.1]
    exact x4


/-- Behind an instruction that leaves EX after one cycle, Execute leaves the DRF latch as it
found it, so Decode processes it in that same cycle. -/
theorem single_cycle_execute_B (s : APEX_CPU) (hc : s.ENABLE_COUNTING = false)
    (hb : s.EX.busy = false) (hs : s.EX.stalled = false) (ho : s.EX.opcode ≠ .MUL)
    (h1 : s.EX.opcode ≠ .BZ) (h2 : s.EX.opcode ≠ .BNZ) (h3 : s.EX.opcode ≠ .JUMP)
    (hf : ex_fault s.EX = false) :
    ∃ c1, execute (mem_step (writeback s)) = some c1 ∧ c1.DRF = s.DRF := by
  obtain ⟨-, w2, w3, -⟩ := writeback_latches_B s
  obtain ⟨-, m2, m3, -⟩ := memory_latches_B (writeback s)
  have e3 : (mem_step (writeback s)).EX = s.EX := by rw [m3, w3]
  have e2 : (mem_step (writeback s)).DRF = s.DRF := by rw [m2, w2]
  have hc0 : (mem_step (writeback s)).ENABLE_COUNTING = false := by
    rw [(memory_frame_B _).1, (writeback_frame_B _).1, hc]
  have hx := execute_live_B (mem_step (writeback s)) (by rw [e3, hb]) (by rw [e3, hs]) hc0
  rw [e3, hf] at hx
  simp only [Bool.false_eq_true, if_false] at hx
  refine ⟨_, hx, ?_⟩
  simp [e2, ex_taken, ho, h1, h2, h3]

end PartB

namespace PartB
open APEX

/-- The two cycles a MUL spends in EX, and what Decode makes of the DRF latch in the second
one. -/
theorem MUL_behind_B (s : APEX_CPU) (hc : s.ENABLE_COUNTING = false)
    (hm : mem_oob s = false) (hb : s.EX.busy = false) (hs : s.EX.stalled = false)
    (ho : s.EX.opcode = .MUL) :
    ∃ c1 s1 c2 s2, (memory (writeback s)).bind execute = some c1 ∧
      c1.EX.opcode = .MUL ∧ c1.EX.buffer = wrap32 (s.EX.rs1_value * s.EX.rs2_value) ∧
      c1.EX.stalled = true ∧ c1.DRF = { s.DRF with stalled := true } ∧
      c1.MEM.opcode = .BUBBLE ∧ decode c1 = c1 ∧
      cycle s = some s1 ∧ s1.EX = c1.EX ∧ s1.DRF = c1.DRF ∧
      (memory (writeback s1)).bind execute = some c2 ∧
      c2.EX.stalled = false ∧ c2.DRF = { s.DRF with stalled := false } ∧
      c2.MEM = { c1.EX with stalled := false } ∧
      cycle s1 = some s2 ∧ s2.EX = (decode c2).EX ∧
      (s.DRF.busy = false → (decode c2).EX = if stall c2 then { c2.EX with opcode := .BUBBLE, pc := 0 } else DRF_read c2) := by
  obtain ⟨c1, s1, c2, a1, a2, a3, a4, a5, a6, a7, a8, a9, a10, a11, a12, a13, a14, a15⟩ :=
    MUL_two_cycles_B s hc hm hb hs ho
  have hm1 : mem_oob s1 = false :=
    PartA.oob_of_opcode s1 (by rw [a15]; decide) (by rw [a15]; decide)
  have hcy := cycle_of_execute_B s1 c2 hm1 a11
  refine ⟨c1, s1, c2, _, bind_of_execute_B s c1 hm a1, a2, a3, a4, a5, a6, a7, a8, a9, a10,
    bind_of_execute_B s1 c2 hm1 a11, a12, a13, a14, hcy, ?_, fun hd => ?_⟩
  · show (fetch (decode c2)).EX = _
    exact (fetch_latches_B _).1
  · rw [decode_live_B c2 (by rw [a13]; exact hd) (by rw [a13])]

/-- Behind an instruction that leaves EX after one cycle, Decode processes the DRF latch in
that same cycle. -/
theorem single_cycle_behind_B (s : APEX_CPU) (hc : s.ENABLE_COUNTING = false)
    (hm : mem_oob s = false)
    (hb : s.EX.busy = false) (hs : s.EX.stalled = false) (ho : s.EX.opcode ≠ .MUL)
    (h1 : s.EX.opcode ≠ .BZ) (h2 : s.EX.opcode ≠ .BNZ) (h3 : s.EX.opcode ≠ .JUMP)
    (hf : ex_fault s.EX = false) :
    ∃ c1 s1, (memory (writeback s)).bind execute = some c1 ∧ c1.DRF = s.DRF ∧
      cycle s = some s1 ∧ s1.EX = (decode c1).EX ∧
      (s.DRF.busy = false → s.DRF.stalled = false → (decode c1).EX = if stall c1 then { c1.EX with opcode := .BUBBLE, pc := 0 } else DRF_read c1) := by
  obtain ⟨c1, a1, a2⟩ := single_cycle_execute_B s hc hb hs ho h1 h2 h3 hf
  refine ⟨c1, _, bind_of_execute_B s c1 hm a1, a2, cycle_of_execute_B s c1 hm a1, ?_,
    fun hd hst => ?_⟩
  · show (fetch (decode c1)).EX = _
    exact (fetch_latches_B _).1
  · rw [decode_live_B c1 (by rw [a2]; exact hd) (by rw [a2]; exact hst)]

end PartB


namespace PartB
open APEX

theorem load_use_of_LOAD (cpu : APEX_CPU) (src : Int) (ho : cpu.EX.opcode = .LOAD)
    (hr : src = cpu.EX.rd) : load_use cpu src = true := by
  simp [load_use, src_in, ho, hr]

theorem load_use_of_BUBBLE (cpu : APEX_CPU) (src : Int) (ho : cpu.EX.opcode = .BUBBLE) :
    load_use cpu src = false := by
  simp [load_use, src_in, ho]

theorem fwd_of_WB (cpu : APEX_CPU) (src : Int) (ho : cpu.EX.opcode = .BUBBLE)
    (hw : cpu.WB.opcode = .LOAD) (hr : src = cpu.WB.rd) : fwd cpu src = cpu.WB.buffer := by
  simp [fwd, src_in, ho, hw, hr]

/-- First cycle of a LOAD-use pair: the LOAD leaves EX, the consumer stays in DRF. -/
theorem load_use_first_cycle (s : APEX_CPU) (hm : mem_oob s = false) (hc : s.ENABLE_COUNTING = false)
    (hb : s.EX.busy = false) (hs : s.EX.stalled = false) (ho : s.EX.opcode = .LOAD)
    (hf : ex_fault s.EX = false) (db : s.DRF.busy = false) (ds : s.DRF.stalled = false)
    (hsrc : (s.DRF.opcode.reads_rs1 = true ∧ s.DRF.rs1 = s.EX.rd) ∨
            (s.DRF.opcode.reads_rs2 = true ∧ s.DRF.rs2 = s.EX.rd)) :
    ∃ s1, cycle s = some s1 ∧ s1.ENABLE_COUNTING = false ∧
      s1.DRF.stalled = true ∧ s1.DRF.busy = false ∧ s1.DRF.opcode = s.DRF.opcode ∧
      s1.DRF.pc = s.DRF.pc ∧ s1.DRF.rs1 = s.DRF.rs1 ∧ s1.DRF.rs2 = s.DRF.rs2 ∧
      s1.DRF.rd = s.DRF.rd ∧ s1.DRF.imm = s.DRF.imm ∧
      s1.EX.opcode = .BUBBLE ∧ s1.EX.busy = false ∧ s1.EX.stalled = false ∧
      s1.MEM = { ex_done s.EX s.EX.z_flag with stalled := false } := by
  obtain ⟨-, w2, w3, -⟩ := writeback_latches_B s
  obtain ⟨-, m2, m3, -⟩ := memory_latches_B (writeback s)
  have e3 : (mem_step (writeback s)).EX = s.EX := by rw [m3, w3]
  have e2 : (mem_step (writeback s)).DRF = s.DRF := by rw [m2, w2]
  have hc0 : (mem_step (writeback s)).ENABLE_COUNTING = false := by
    rw [(memory_frame_B _).1, (writeback_frame_B _).1, hc]
  have hx := execute_live_B (mem_step (writeback s)) (by rw [e3, hb]) (by rw [e3, hs]) hc0
  rw [e3, hf] at hx
  simp only [Bool.false_eq_true, if_false] at hx
  have step1 : ∃ c1, execute (mem_step (writeback s)) = some c1 ∧
      c1.EX = { ex_done s.EX s.EX.z_flag with stalled := false } ∧
      c1.MEM = { ex_done s.EX s.EX.z_flag with stalled := false } ∧
      c1.DRF = s.DRF ∧ c1.ENABLE_COUNTING = false :=
    ⟨_, hx, by simp [ho], by simp [ho, hs, ex_done], by simp [e2, ex_taken, ho], hc0⟩
  clear hx
  obtain ⟨c1, x1, x2, x3, x4, x5⟩ := step1
  have eo : c1.EX.opcode = .LOAD := by rw [x2]; exact ho
  have st : stall c1 = true := by
    rcases hsrc with ⟨a, b⟩ | ⟨a, b⟩
    · simp [stall, x4, a, load_use_of_LOAD c1 s.DRF.rs1 eo (by rw [x2]; exact b)]
    · simp [stall, x4, a, load_use_of_LOAD c1 s.DRF.rs2 eo (by rw [x2]; exact b)]
  have hd := decode_live_B c1 (by rw [x4, db]) (by rw [x4, ds])
  simp only [st, if_true, Bool.true_or] at hd
  have hcy := cycle_of_execute_B s c1 hm x1
  obtain ⟨f1, f2, -, -, -, -, -, -, f9⟩ := fetch_latches_B (decode c1)
  refine ⟨_, hcy, cycle_counting_B s _ hc hcy, ?_⟩
  have dD : (decode c1).DRF = { DRF_read c1 with stalled := true } := by rw [hd]
  have dE : (decode c1).EX = { c1.EX with opcode := .BUBBLE, pc := 0 } := by rw [hd]
  have dM : (decode c1).MEM = c1.MEM := by rw [hd]
  have fD : (fetch (decode c1)).DRF = { DRF_read c1 with stalled := true } := by
    rw [f9 (by rw [dD]), dD]
  show (fetch (decode c1)).DRF.stalled = true ∧ (fetch (decode c1)).DRF.busy = false ∧
    (fetch (decode c1)).DRF.opcode = _ ∧ (fetch (decode c1)).DRF.pc = _ ∧
    (fetch (decode c1)).DRF.rs1 = _ ∧ (fetch (decode c1)).DRF.rs2 = _ ∧
    (fetch (decode c1)).DRF.rd = _ ∧ (fetch (decode c1)).DRF.imm = _ ∧
    (fetch (decode c1)).EX.opcode = _ ∧ (fetch (decode c1)).EX.busy = _ ∧
    (fetch (decode c1)).EX.stalled = _ ∧ (fetch (decode c1)).MEM = _
  rw [fD, f1, f2, dE, dM, x3, x2]
  simp [DRF_read, x4, db, hb, ex_done]

/-- Second cycle of a LOAD-use pair: Memory reads the word, Decode promotes the consumer
with the word forwarded from the WB latch. -/
theorem load_use_second_cycle (s1 : APEX_CPU) (hm : mem_oob s1 = false) (hc : s1.ENABLE_COUNTING = false)
    (ds : s1.DRF.stalled = true) (dr : s1.DRF.opcode.reads_rs1 = true)
    (eo : s1.EX.opcode = .BUBBLE) (eb : s1.EX.busy = false) (es : s1.EX.stalled = false)
    (mo : s1.MEM.opcode = .LOAD) (mb : s1.MEM.busy = false) (ms : s1.MEM.stalled = false) :
    ∃ s2, cycle s1 = some s2 ∧ s2.EX.opcode = s1.DRF.opcode ∧ s2.EX.pc = s1.DRF.pc ∧
      s2.EX.stalled = false ∧ s2.EX.busy = s1.DRF.busy ∧
      s2.WB.opcode = .LOAD ∧ s2.WB.buffer = s1.data_memory s1.MEM.mem_address ∧
      (s1.DRF.rs1 = s1.MEM.rd → s2.EX.rs1_value = s1.data_memory s1.MEM.mem_address) ∧
      (s1.DRF.opcode.reads_rs2 = true → s1.DRF.rs2 = s1.MEM.rd →
        s2.EX.rs2_value = s1.data_memory s1.MEM.mem_address) := by
  obtain ⟨-, w2, w3, w4, -, w6, -⟩ := writeback_latches_B s1
  obtain ⟨-, m2, m3, -⟩ := memory_latches_B (writeback s1)
  have e3 : (mem_step (writeback s1)).EX = s1.EX := by rw [m3, w3]
  have e2 : (mem_step (writeback s1)).DRF = s1.DRF := by rw [m2, w2]
  have e5 : (mem_step (writeback s1)).WB = mem_done s1.MEM s1.data_memory := by
    rw [memory_live_B _ (by rw [w4, mb]) (by rw [w4, ms]), w4, w6]
  have hc0 : (mem_step (writeback s1)).ENABLE_COUNTING = false := by
    rw [(memory_frame_B _).1, (writeback_frame_B _).1, hc]
  have hx := execute_live_B (mem_step (writeback s1)) (by rw [e3, eb]) (by rw [e3, es]) hc0
  have hf : ex_fault s1.EX = false := by simp [ex_fault, eo]
  rw [e3, hf] at hx
  simp only [Bool.false_eq_true, if_false] at hx
  have step1 : ∃ c1, execute (mem_step (writeback s1)) = some c1 ∧
      c1.EX.opcode = .BUBBLE ∧ c1.EX.stalled = false ∧ c1.DRF = s1.DRF ∧
      c1.WB = mem_done s1.MEM s1.data_memory ∧ c1.ENABLE_COUNTING = false :=
    ⟨_, hx, by simp [eo, ex_done], by simp [eo], by simp [e2, ex_taken, eo], e5, hc0⟩
  clear hx
  obtain ⟨c1, x1, x2, x3, x4, x5, x6⟩ := step1
  have hne : c1.DRF.opcode ≠ .HALT := by
    rw [x4]; intro h; rw [h] at dr; simp [Opcode.reads_rs1] at dr
  have hd := decode_retry_B c1 (by rw [x4, ds]) hne x3 x6
  rw [x4, dr] at hd
  simp only [if_true] at hd
  have hcy := cycle_of_execute_B s1 c1 hm x1
  obtain ⟨f1, -, f3, -⟩ := fetch_latches_B (decode c1)
  refine ⟨_, hcy, ?_⟩
  have dE : (decode c1).EX = { DRF_read c1 with stalled := false } := by rw [hd]
  have dW : (decode c1).WB = c1.WB := by rw [hd]
  have wo : c1.WB.opcode = .LOAD := by rw [x5]; exact mo
  have wr : c1.WB.rd = s1.MEM.rd := by rw [x5]; rfl
  have wbuf : c1.WB.buffer = s1.data_memory s1.MEM.mem_address := by
    rw [x5]; simp [mem_done, mo]
  show (fetch (decode c1)).EX.opcode = _ ∧ (fetch (decode c1)).EX.pc = _ ∧
    (fetch (decode c1)).EX.stalled = _ ∧ (fetch (decode c1)).EX.busy = _ ∧
    (fetch (decode c1)).WB.opcode = _ ∧ (fetch (decode c1)).WB.buffer = _ ∧
    (_ → (fetch (decode c1)).EX.rs1_value = _) ∧
    (_ → _ → (fetch (decode c1)).EX.rs2_value = _)
  rw [f1, f3, dE, dW]
  refine ⟨by simp [DRF_read, x4], by simp [DRF_read, x4], rfl, by simp [DRF_read, x4], wo,
    wbuf, fun h1 => ?_, fun h2 h3 => ?_⟩
  · simp [DRF_read, x4, dr, load_use_of_BUBBLE c1 _ x2,
      fwd_of_WB c1 s1.DRF.rs1 x2 wo (by rw [wr, h1]), wbuf]
  · simp [DRF_read, x4, h2, load_use_of_BUBBLE c1 _ x2,
      fwd_of_WB c1 s1.DRF.rs2 x2 wo (by rw [wr, h3]), wbuf]

/-- A register-writing latch passes the writer test of `get_source_values` for its `rd`. -/
theorem src_in_of_writes_rd (src : Int) (later : CPU_Stage) (hw : later.opcode.writes_rd = true)
    (hr : later.rd = src) : src_in src later = true := by
  revert hw
  cases h : later.opcode <;> simp [src_in, Opcode.writes_rd, h, hr]

/-- What Decode does with a live DRF latch none of whose needed sources is being loaded. -/
theorem decode_forwards (cpu : APEX_CPU) (db : cpu.DRF.busy = false)
    (ds : cpu.DRF.stalled = false) (hst : stall cpu = false) :
    (decode cpu).EX.opcode = cpu.DRF.opcode ∧ (decode cpu).EX.pc = cpu.DRF.pc ∧
    (decode cpu).EX.rd = cpu.DRF.rd ∧ (decode cpu).EX.stalled = false ∧
    (cpu.DRF.opcode.reads_rs1 = true → (decode cpu).DRF.stalled = false) ∧
    (cpu.DRF.opcode.reads_rs1 = true → (decode cpu).EX.rs1_value = fwd cpu cpu.DRF.rs1) ∧
    (cpu.DRF.opcode.reads_rs2 = true → (decode cpu).EX.rs2_value = fwd cpu cpu.DRF.rs2) := by
  rw [decode_live_B cpu db ds]
  simp only [hst, Bool.false_eq_true, if_false, Bool.false_or]
  simp only [stall, Bool.or_eq_false_iff, Bool.and_eq_false_iff] at hst
  refine ⟨rfl, rfl, rfl, ds, fun h => ?_, fun h => ?_, fun h => ?_⟩
  · revert h
    cases cpu.DRF.opcode <;> simp [Opcode.reads_rs1]
  · have := hst.1
    simp [h] at this
    simp [DRF_read, h, this]
  · have := hst.2
    simp [h] at this
    simp [DRF_read, h, this]

end PartB


namespace PartA
open APEX

end PartA


namespace PartB
open APEX

end PartB


namespace PartA
open APEX

theorem no_shadow_of_writes_rd (r : Int) (later : CPU_Stage)
    (hw : later.opcode.writes_rd = true) (hr : later.rd = r) : no_shadow r later = false := by
  revert hw
  cases h : later.opcode <;> simp [no_shadow, Opcode.writes_rd, h, hr]

/-- Writeback leaves the valid bit of a register that EX or MEM is going to write. -/
theorem writeback_valid (s : APEX_CPU) (r : Int)
    (h : (s.EX.opcode.writes_rd = true ∧ s.EX.rd = r) ∨
         (s.MEM.opcode.writes_rd = true ∧ s.MEM.rd = r)) :
    (writeback s).regs_valid r = s.regs_valid r := by
  cases hl : s.WB.ctl.live
  · rw [writeback_idle s ((live_false_iff _).1 hl)]
  · obtain ⟨hb, hs⟩ := (live_true_iff _).1 hl
    rw [writeback_live s hb hs]
    show (if _ then write s.regs_valid s.WB.rd true else s.regs_valid) r = _
    by_cases hr : s.WB.rd = r
    · have : ¬ (s.WB.opcode.writes_rd = true ∧ no_shadow s.WB.rd s.MEM = true ∧
          no_shadow s.WB.rd s.EX = true) := by
        rintro ⟨-, h2, h3⟩
        rcases h with ⟨a, b⟩ | ⟨a, b⟩
        · rw [hr, no_shadow_of_writes_rd r s.EX a b] at h3; simp at h3
        · rw [hr, no_shadow_of_writes_rd r s.MEM a b] at h2; simp at h2
      rw [if_neg this]
    · split_ifs
      · simp [write, Ne.symm hr]
      · rfl

theorem writeback_pending (s : APEX_CPU) (h : pending_invalid s) :
    pending_invalid (writeback s) := by
  obtain ⟨-, -, w3, w4, -⟩ := writeback_latches s
  constructor
  · intro a
    rw [w3] at a ⊢
    rw [writeback_valid s _ (Or.inl ⟨a, rfl⟩)]
    exact h.1 a
  · intro a
    rw [w4] at a ⊢
    rw [writeback_valid s _ (Or.inr ⟨a, rfl⟩)]
    exact h.2 a

theorem memory_pending (s : APEX_CPU) (h : pending_invalid s) :
    pending_invalid (mem_step s) := by
  obtain ⟨-, -, m3, -, -, m6, -⟩ := memory_latches s
  have hm : (mem_step s).MEM.opcode = s.MEM.opcode ∧ (mem_step s).MEM.rd = s.MEM.rd := by
    cases hl : s.MEM.ctl.live
    · rw [memory_idle s ((live_false_iff _).1 hl)]; exact ⟨rfl, rfl⟩
    · obtain ⟨hb, hs⟩ := (live_true_iff _).1 hl
      rw [memory_live s hb hs]; exact ⟨rfl, rfl⟩
  constructor
  · rw [m3, m6]; exact h.1
  · rw [hm.1, hm.2, m6]; exact h.2

theorem execute_pending (s c : APEX_CPU) (hc : s.ENABLE_COUNTING = false)
    (hx : execute s = some c) :
    c.regs_valid = s.regs_valid ∧ (pending_invalid s → pending_invalid c) := by
  cases hl : s.EX.ctl.live
  · have hl' := (live_false_iff _).1 hl
    by_cases hm : s.EX.stalled = true ∧ s.EX.opcode = .MUL
    · rw [execute_resume s hm.1 hm.2 hc] at hx
      cases hx
      exact ⟨rfl, fun h => ⟨h.1, h.1⟩⟩
    · have hm' : s.EX.stalled = false ∨ s.EX.opcode ≠ .MUL := by
        by_cases h1 : s.EX.stalled = true
        · right; exact fun h2 => hm ⟨h1, h2⟩
        · left; simpa using h1
      rw [execute_idle s hl' hm'] at hx
      cases hx
      exact ⟨rfl, fun h => h⟩
  · obtain ⟨hb, hs⟩ := (live_true_iff _).1 hl
    rw [execute_live s hb hs hc] at hx
    by_cases hf : ex_fault s.EX = true
    · simp [hf] at hx
    · rw [if_neg hf] at hx
      cases hx
      refine ⟨rfl, fun h => ⟨h.1, ?_⟩⟩
      by_cases hm : s.EX.opcode = .MUL
      · simp [hm, Opcode.writes_rd]
      · simp only [hm, if_false]
        exact h.1

/-- Decode only ever clears valid bits, leaves MEM alone, and marks the destination of what it
promotes to EX. -/
theorem decode_pending (s : APEX_CPU) (hc : s.ENABLE_COUNTING = false) :
    (∀ r, s.regs_valid r = false → (decode s).regs_valid r = false) ∧
    (decode s).MEM = s.MEM ∧
    ((s.EX.opcode.writes_rd = true → s.regs_valid s.EX.rd = false) →
      ((decode s).EX.opcode.writes_rd = true → (decode s).regs_valid (decode s).EX.rd = false))
    := by
  by_cases hl : s.DRF.busy = false ∧ s.DRF.stalled = false
  · rw [decode_live s hl.1 hl.2]
    by_cases hr : ready s = true
    · rw [if_pos hr]
      refine ⟨fun r h => ?_, rfl, fun _ hw => ?_⟩
      · show (if _ then write s.regs_valid s.DRF.rd false else s.regs_valid) r = false
        split_ifs
        · simp only [write]; split_ifs <;> simp [h]
        · exact h
      · have hw' : s.DRF.opcode.writes_rd = true := hw
        show (if _ then write s.regs_valid s.DRF.rd false else s.regs_valid) s.DRF.rd = false
        simp [hw', write]
    · rw [if_neg hr]
      refine ⟨fun r h => h, rfl, fun _ hw => ?_⟩
      simp [Opcode.writes_rd] at hw
  · by_cases ht : s.DRF.stalled = true ∧ s.DRF.opcode ≠ .HALT ∧ s.EX.stalled = false
    · rw [decode_retry s ht.1 ht.2.1 ht.2.2 hc]
      by_cases hr : ready s = true ∧ (s.DRF.opcode.reads_rs1 = true ∨
          s.DRF.opcode.is_cond_branch = true)
      · rw [if_pos hr]
        refine ⟨fun r h => ?_, rfl, fun _ hw => ?_⟩
        · show (if _ then write s.regs_valid s.DRF.rd false else s.regs_valid) r = false
          split_ifs
          · simp only [write]; split_ifs <;> simp [h]
          · exact h
        · have hw' : s.DRF.opcode.writes_rd = true := hw
          show (if _ then write s.regs_valid s.DRF.rd false else s.regs_valid) s.DRF.rd = false
          simp [hw', write]
      · rw [if_neg hr]
        exact ⟨fun r h => h, rfl, fun h => h⟩
    · have h1 : s.DRF.busy = true ∨ s.DRF.stalled = true := by
        by_cases hb : s.DRF.busy = true
        · exact Or.inl hb
        · right
          by_cases hs : s.DRF.stalled = true
          · exact hs
          · exact absurd ⟨by simpa using hb, by simpa using hs⟩ hl
      have h2 : s.DRF.stalled = false ∨ s.DRF.opcode = .HALT ∨ s.EX.stalled = true := by
        by_cases hs : s.DRF.stalled = true
        · by_cases ho : s.DRF.opcode = .HALT
          · exact Or.inr (Or.inl ho)
          · right; right
            by_cases he : s.EX.stalled = true
            · exact he
            · exact absurd ⟨hs, ho, by simpa using he⟩ ht
        · left; simpa using hs
      rw [decode_idle s h1 h2]
      exact ⟨fun r h => h, rfl, fun h => h⟩

/-- The invariant is kept by a whole cycle, and a valid bit that is clear for a register EX or
MEM is going to write is still clear after the cycle. -/
theorem cycle_pending (s s' : APEX_CPU) (hc : s.ENABLE_COUNTING = false)
    (h : pending_invalid s) (hcy : cycle s = some s') :
    pending_invalid s' ∧
    ∀ r, ((s.EX.opcode.writes_rd = true ∧ s.EX.rd = r) ∨
          (s.MEM.opcode.writes_rd = true ∧ s.MEM.rd = r)) → s'.regs_valid r = false := by
  obtain ⟨c, hx, rfl⟩ := cycle_some s s' hcy
  have hc0 : (mem_step (writeback s)).ENABLE_COUNTING = false := by
    rw [(memory_frame _).1, (writeback_frame _).1, hc]
  have hc1 : c.ENABLE_COUNTING = false := (execute_frame _ _ hc0 hx).1
  have p1 := memory_pending _ (writeback_pending s h)
  obtain ⟨v, p2⟩ := execute_pending _ c hc0 hx
  obtain ⟨d1, d2, d3⟩ := decode_pending c hc1
  obtain ⟨f1, f2, -, -, f5, -⟩ := fetch_latches (decode c)
  have p3 := p2 p1
  constructor
  · constructor
    · show (fetch (decode c)).EX.opcode.writes_rd = true →
        (fetch (decode c)).regs_valid (fetch (decode c)).EX.rd = false
      rw [f1, f5]
      exact d3 p3.1
    · show (fetch (decode c)).MEM.opcode.writes_rd = true →
        (fetch (decode c)).regs_valid (fetch (decode c)).MEM.rd = false
      rw [f2, f5, d2]
      exact fun a => d1 _ (p3.2 a)
  · intro r hr
    show (fetch (decode c)).regs_valid r = false
    rw [f5]
    apply d1
    rw [v, (memory_latches _).2.2.2.2.2.1, writeback_valid s r hr]
    rcases hr with ⟨a, b⟩ | ⟨a, b⟩
    · rw [← b]; exact h.1 a
    · rw [← b]; exact h.2 a

theorem cycles_pending (k : Nat) (s s' : APEX_CPU)
    (h : (s.ctl.ok ∧ s.ENABLE_COUNTING = false) ∧ pending_invalid s)
    (hc : cycles k s = some s') :
    (s'.ctl.ok ∧ s'.ENABLE_COUNTING = false) ∧ pending_invalid s' := by
  induction k generalizing s with
  | zero =>
    simp only [cycles, Option.some.injEq] at hc
    exact hc ▸ h
  | succ k ih =>
    simp only [cycles] at hc
    cases h1 : cycle s with
    | none => simp [h1] at hc
    | some c =>
      rw [h1] at hc
      exact ih c ⟨cycle_ok s c h.1 h1, (cycle_pending s c h.1.2 h.2 h1).1⟩ hc

theorem reachable_pending (code : List APEX_Instruction) (n : Int) (u : Uninit) (k : Nat)
    (s : APEX_CPU) (hc : cycles k (initial code n u) = some s) :
    s.ENABLE_COUNTING = false ∧ pending_invalid s := by
  have h0 : pending_invalid (initial code n u) := by
    simp [pending_invalid, initial, zero_stage, Opcode.writes_rd]
  have := cycles_pending k _ s ⟨initial_ok code n u, h0⟩ hc
  exact ⟨this.1.2, this.2⟩

end PartA


namespace APEX

theorem S_zero (code : List APEX_Instruction) (a0 : Arch) : S code a0 0 = a0 := by
  simp [S, Arch.run]

theorem S_succ (code : List APEX_Instruction) (a0 : Arch) (i : Nat) (h : i < code.length) :
    S code a0 (i + 1) = (S code a0 i).step (ins code i) := by
  unfold S Arch.run ins
  rw [List.take_succ, List.foldl_append]
  simp [List.getElem?_eq_getElem h, List.getD_eq_getElem _ _ h]

theorem regs_succ (code : List APEX_Instruction) (a0 : Arch) (i : Nat) (h : i < code.length)
    (r : Int) :
    (S code a0 (i + 1)).regs r =
      if writes code i r = true then res code a0 i else (S code a0 i).regs r := by
  unfold res writes
  rw [S_succ code a0 i h]
  cases ho : (ins code i).opcode <;>
    simp only [Arch.step, Arch.exec, ho, Opcode.writes_rd, write] <;>
    (by_cases hr : r = (ins code i).rd
     · simp [hr]
     · have hr' : ¬ (ins code i).rd = r := fun e => hr e.symm
       simp [hr, hr'])

theorem mem_succ (code : List APEX_Instruction) (a0 : Arch) (i : Nat) (h : i < code.length) :
    (S code a0 (i + 1)).mem =
      if (ins code i).opcode = .STORE
      then write (S code a0 i).mem (addr code a0 i) ((S code a0 i).regs (ins code i).rs1)
      else (S code a0 i).mem := by
  unfold addr
  rw [S_succ code a0 i h]
  cases ho : (ins code i).opcode <;> simp [Arch.step, Arch.exec, ho]

theorem z_succ (code : List APEX_Instruction) (a0 : Arch) (i : Nat) (h : i < code.length) :
    (S code a0 (i + 1)).z =
      if (ins code i).opcode.sets_z = true then some (decide (res code a0 i = 0))
      else (S code a0 i).z := by
  unfold res
  rw [S_succ code a0 i h]
  cases ho : (ins code i).opcode <;> simp [Arch.step, Arch.exec, ho, Opcode.sets_z, write]

/-- The result of a LOAD is the word the reference memory holds at its address. -/
theorem res_LOAD (code : List APEX_Instruction) (a0 : Arch) (i : Nat) (h : i < code.length)
    (ho : (ins code i).opcode = .LOAD) :
    res code a0 i = (S code a0 i).mem (addr code a0 i) := by
  unfold res addr
  rw [S_succ code a0 i h]
  simp [Arch.step, ho, write]

theorem wrap32_id (x : Int) (h0 : -2147483648 ≤ x) (h1 : x < 2147483648) : wrap32 x = x := by
  unfold wrap32
  rw [Int.emod_eq_of_lt (by omega) (by omega)]
  omega

theorem wrap32_in32 (x : Int) : in32 (wrap32 x) := by
  unfold in32 wrap32
  have h1 := Int.emod_nonneg (x + 2147483648) (by norm_num : (4294967296 : Int) ≠ 0)
  have h2 := Int.emod_lt_of_pos (x + 2147483648) (by norm_num : (0 : Int) < 4294967296)
  omega

theorem nat_and_lt (m n : Nat) (hn : n < 2147483648) : m &&& n < 2147483648 := by
  have : m &&& n < 2 ^ 31 := Nat.and_lt_two_pow m (by norm_num; exact hn)
  norm_num at this; exact this

theorem nat_or_lt (m n : Nat) (hm : m < 2147483648) (hn : n < 2147483648) :
    m ||| n < 2147483648 := by
  have : m ||| n < 2 ^ 31 := Nat.or_lt_two_pow (by norm_num; exact hm) (by norm_num; exact hn)
  norm_num at this; exact this

theorem nat_xor_lt (m n : Nat) (hm : m < 2147483648) (hn : n < 2147483648) :
    m ^^^ n < 2147483648 := by
  have : m ^^^ n < 2 ^ 31 := Nat.xor_lt_two_pow (by norm_num; exact hm) (by norm_num; exact hn)
  norm_num at this; exact this

theorem nat_ldiff_lt (m n : Nat) (hm : m < 2147483648) (hn : n < 2147483648) :
    Nat.ldiff m n < 2147483648 := by
  have : Nat.ldiff m n < 2 ^ 31 :=
    Nat.bitwise_lt_two_pow (by norm_num; exact hm) (by norm_num; exact hn)
  norm_num at this; exact this

theorem in32_ofNat (m : Nat) : in32 (Int.ofNat m) ↔ m < 2147483648 := by
  unfold in32; simp only [Int.ofNat_eq_coe]; omega

theorem in32_negSucc (m : Nat) : in32 (Int.negSucc m) ↔ m < 2147483648 := by
  unfold in32; simp only [Int.negSucc_eq]; omega

/-- Bitwise AND of two C `int`s is a C `int`. -/
theorem land_in32 (x y : Int) (hx : in32 x) (hy : in32 y) : in32 (Int.land x y) := by
  rcases x with m | m <;> rcases y with n | n <;>
    simp only [in32_ofNat, in32_negSucc] at hx hy
  · exact (in32_ofNat _).2 (nat_and_lt m n hy)
  · exact (in32_ofNat _).2 (nat_ldiff_lt m n hx hy)
  · exact (in32_ofNat _).2 (nat_ldiff_lt n m hy hx)
  · exact (in32_negSucc _).2 (nat_or_lt m n hx hy)

/-- Bitwise OR of two C `int`s is a C `int`. -/
theorem lor_in32 (x y : Int) (hx : in32 x) (hy : in32 y) : in32 (Int.lor x y) := by
  rcases x with m | m <;> rcases y with n | n <;>
    simp only [in32_ofNat, in32_negSucc] at hx hy
  · exact (in32_ofNat _).2 (nat_or_lt m n hx hy)
  · exact (in32_negSucc _).2 (nat_ldiff_lt n m hy hx)
  · exact (in32_negSucc _).2 (nat_ldiff_lt m n hx hy)
  · exact (in32_negSucc _).2 (nat_and_lt m n hy)

/-- Bitwise exclusive OR of two C `int`s is a C `int`. -/
theorem xor_in32 (x y : Int) (hx : in32 x) (hy : in32 y) : in32 (Int.xor x y) := by
  rcases x with m | m <;> rcases y with n | n <;>
    simp only [in32_ofNat, in32_negSucc] at hx hy
  · exact (in32_ofNat _).2 (nat_xor_lt m n hx hy)
  · exact (in32_negSucc _).2 (nat_xor_lt m n hx hy)
  · exact (in32_negSucc _).2 (nat_xor_lt m n hx hy)
  · exact (in32_ofNat _).2 (nat_xor_lt m n hx hy)

theorem in32_write (f : Int → Int) (k v : Int) (hf : ∀ r, in32 (f r)) (hv : in32 v) (r : Int) :
    in32 (write f k v r) := by
  unfold write
  by_cases h : r = k
  · simp [h, hv]
  · simpa [h] using hf r

/-- One reference step keeps every register and memory word a C `int`. -/
theorem step_ranged (a : Arch) (i : APEX_Instruction) (ha : a.ranged) (hi : in32 i.imm) :
    (a.step i).ranged := by
  obtain ⟨hr, hm⟩ := ha
  unfold Arch.step Arch.exec
  cases i.opcode
  case MOVC => exact ⟨in32_write _ _ _ hr hi, hm⟩
  case LOAD => exact ⟨in32_write _ _ _ hr (hm _), hm⟩
  case STORE => exact ⟨hr, in32_write _ _ _ hm (hr _)⟩
  all_goals first
    | exact ⟨hr, hm⟩
    | exact ⟨in32_write _ _ _ hr (wrap32_in32 _), hm⟩

/-- The reference states of a program hold C `int`s throughout. -/
theorem S_ranged (code : List APEX_Instruction) (a0 : Arch) (h0 : a0.ranged) (M : Nat)
    (hM : M ≤ code.length) (hi : ∀ i, i < M → in32 (ins code i).imm) :
    ∀ i, i ≤ M → (S code a0 i).ranged := by
  intro i
  induction i with
  | zero => intro _; rw [S_zero]; exact h0
  | succ j ih =>
    intro hj
    rw [S_succ code a0 j (by omega)]
    exact step_ranged _ _ (ih (by omega)) (hi j (by omega))

/-- Execute computes the reference result of every other register-writing instruction. -/
theorem res_ex_buffer (code : List APEX_Instruction) (a0 : Arch) (i : Nat)
    (h : i < code.length) (st : CPU_Stage) (z : Bool) (hi : InEX code a0 i st)
    (hw : (ins code i).opcode.writes_rd = true) (hl : (ins code i).opcode ≠ .LOAD)
    (hr : (S code a0 i).ranged) :
    ex_buffer st z = res code a0 i := by
  obtain ⟨⟨h1, h2, h3, h4, h5, h6⟩, v1, v2⟩ := hi
  have r1 := hr.1 (ins code i).rs1
  have r2 := hr.1 (ins code i).rs2
  have e1 := wrap32_id _ (land_in32 _ _ r1 r2).1 (land_in32 _ _ r1 r2).2
  have e2 := wrap32_id _ (lor_in32 _ _ r1 r2).1 (lor_in32 _ _ r1 r2).2
  have e3 := wrap32_id _ (xor_in32 _ _ r1 r2).1 (xor_in32 _ _ r1 r2).2
  unfold res
  rw [S_succ code a0 i h]
  revert hw hl v1 v2
  cases ho : (ins code i).opcode <;>
    simp [Arch.step, Arch.exec, ho, Opcode.writes_rd, write, ex_buffer, h1, h5,
      Opcode.reads_rs1,
      Opcode.reads_rs2, e1, e2, e3] <;>
    intro e1 e2 <;> rw [e1, e2]

/-- Execute computes the reference address and raises no exception. -/
theorem ex_addr_ok (code : List APEX_Instruction) (a0 : Arch) (i : Nat)
    (st : CPU_Stage) (hi : InEX code a0 i st) (hok : (S code a0 i).addr_fine (ins code i)) :
    ex_fault st = false ∧
    ((ins code i).opcode = .LOAD ∨ (ins code i).opcode = .STORE →
      ex_addr st = addr code a0 i) := by
  obtain ⟨⟨h1, h2, h3, h4, h5, h6⟩, v1, v2⟩ := hi
  obtain ⟨k1, k2⟩ := hok
  by_cases hl : (ins code i).opcode = .LOAD
  · have e := v1 (by simp [hl, Opcode.reads_rs1])
    have b := k1 hl
    have : ex_addr st = addr code a0 i := by
      simp [ex_addr, addr, h1, hl, h5, e]
    refine ⟨?_, fun _ => this⟩
    simp only [ex_fault, this]
    simp [addr, hl]
    omega
  · by_cases hs : (ins code i).opcode = .STORE
    · have e := v2 (by simp [hs, Opcode.reads_rs2])
      have b := k2 hs
      have : ex_addr st = addr code a0 i := by
        simp [ex_addr, addr, h1, hs, h5, e]
      refine ⟨?_, fun _ => this⟩
      simp only [ex_fault, this]
      simp [addr, hs]
      omega
    · refine ⟨by simp [ex_fault, h1, hl, hs], fun h => ?_⟩
      rcases h with h | h
      · exact absurd h hl
      · exact absurd h hs

theorem ex_addr_bounds (code : List APEX_Instruction) (a0 : Arch) (i : Nat)
    (st : CPU_Stage) (hi : InEX code a0 i st) (hok : (S code a0 i).addr_fine (ins code i))
    (z : Bool) : mem_in_bounds (ex_done st z) := by
  obtain ⟨-, hadr⟩ := ex_addr_ok code a0 i st hi hok
  intro hop
  have ho : (ex_done st z).opcode = (ins code i).opcode := hi.1.1
  rw [ho] at hop
  have e : (ex_done st z).mem_address = addr code a0 i := hadr (Or.symm hop)
  rw [e]
  unfold addr DATA_MEMORY_SIZE
  rcases hop with h | h
  · rw [if_pos h]
    have := hok.2 h
    omega
  · have hn : (ins code i).opcode ≠ .STORE := by rw [h]; decide
    rw [if_neg hn]
    have := hok.1 h
    omega

theorem core_no_oob {code : List APEX_Instruction} {a0 : Arch} {n : Int} {N : Nat} {a : Abs}
    {s : APEX_CPU} (h : Core code a0 n N a s) : mem_oob s = false := by
  have hm := h.mm
  by_cases hom : a.om = true
  · rw [if_pos hom] at hm
    exact PartA.oob_of_bounds s hm.2.2.2.2.2
  · rw [if_neg hom] at hm
    obtain ⟨-, ho, -⟩ := hm
    apply PartA.oob_of_opcode
    · rcases ho with ho | ho <;> rw [ho] <;> decide
    · rcases ho with ho | ho <;> rw [ho] <;> decide

theorem get_code_index_pc (k : Nat) (hk : 4 * (k : Int) < 2147483648) :
    get_code_index (4000 + 4 * (k : Int)) = k := by
  unfold get_code_index
  have : (4000 + 4 * (k : Int) - 4000) = 4 * k := by ring
  rw [this, wrap32_id _ (by omega) hk, Int.tdiv_eq_ediv (by omega) (by norm_num)]
  omega

theorem code_at_pc (cpu : APEX_CPU) (code : List APEX_Instruction) (k : Nat)
    (hc : cpu.code_memory = code) (hk : k < code.length)
    (hb : 4000 + 4 * (code.length : Int) < 2147483648) :
    code_at cpu (get_code_index (4000 + 4 * (k : Int))) = ins code k := by
  rw [get_code_index_pc k (by omega)]
  unfold code_at ins
  rw [hc]
  have : (0 : Int) ≤ k ∧ (k : Int) < code.length := ⟨by omega, by exact_mod_cast hk⟩
  rw [if_pos this]
  simp [List.getD_eq_getElem?_getD, List.getElem?_eq_getElem hk]

end APEX


namespace APEX

theorem Prog.lt_length {code : List APEX_Instruction} {a0 : Arch} {N : Nat}
    (hp : Prog code a0 N) {i : Nat} (h : i ≤ N) : i < code.length := by
  have := hp.1.1; omega

theorem Prog.ranged {code : List APEX_Instruction} {a0 : Arch} {N : Nat}
    (hp : Prog code a0 N) (i : Nat) (h : i ≤ N) : (S code a0 i).ranged :=
  S_ranged code a0 hp.2.2.2.2 (N + 1) hp.1.1 hp.2.2.2.1 i (by omega)

/-- Opcode facts about instruction `i ≤ N` of a program. -/
theorem Prog.opcode {code : List APEX_Instruction} {a0 : Arch} {N : Nat}
    (hp : Prog code a0 N) {i : Nat} (h : i ≤ N) :
    (ins code i).opcode ≠ .BUBBLE ∧ (ins code i).opcode ≠ .EMPTY ∧
    (ins code i).opcode ≠ .BZ ∧ (ins code i).opcode ≠ .BNZ ∧ (ins code i).opcode ≠ .JUMP ∧
    (i < N → (ins code i).opcode ≠ .HALT) := by
  rcases Nat.lt_or_ge i N with h1 | h1
  · have := hp.2.1 i h1
    revert this
    cases (ins code i).opcode <;> simp [Opcode.straight]
  · have : i = N := by omega
    subst this
    simp [hp.2.2.1]

end APEX

namespace PartA
open APEX

variable {code : List APEX_Instruction} {a0 : Arch} {n : Int} {N : Nat} {a : Abs}
  {s : APEX_CPU}

/-- Writeback under the refinement relation: the register file becomes that of the
reference after the retired instruction. -/
theorem rel_writeback_regs (hp : Prog code a0 N) (h : Core code a0 n N a s) :
    (writeback s).regs = (S code a0 a.im).regs ∧ (writeback s).WB = s.WB := by
  have hb := h.bound
  have hwb := h.wb
  by_cases hw : a.ow = true
  · rw [if_pos hw] at hwb
    obtain ⟨⟨i1, i2, -, -, -, i6⟩, i7, i8⟩ := hwb
    have hwN : a.w < N := by
      simp only [Abs.ie, hw, Bool.toNat_true] at hb; omega
    have hne := (hp.opcode (Nat.le_of_lt hwN)).2.2.2.2.2 hwN
    rw [writeback_live s i6 i7]
    constructor
    · funext r
      show (if _ then write s.regs s.WB.rd s.WB.buffer else s.regs) r = _
      have e : a.im = a.w + 1 := by simp [Abs.im, hw]
      rw [e, regs_succ code a0 a.w (hp.lt_length (Nat.le_of_lt hwN)) r, h.regs, i1]
      by_cases hwr : (ins code a.w).opcode.writes_rd = true
      · rw [if_pos hwr, i8 hwr, i2]
        simp only [write, writes, hwr, Bool.true_and, decide_eq_true_eq]
        by_cases hr : r = (ins code a.w).rd
        · simp [hr]
        · have hr' : ¬ (ins code a.w).rd = r := fun e => hr e.symm
          simp [hr, hr']
      · rw [if_neg hwr]
        simp [writes, hwr]
    · have : ¬ s.WB.opcode = .HALT := by rw [i1]; exact hne
      simp [this]
  · rw [if_neg hw] at hwb
    have e : a.im = a.w := by simp [Abs.im, hw]
    rw [e]
    cases hl : s.WB.ctl.live
    · rw [writeback_idle s ((live_false_iff _).1 hl)]
      exact ⟨h.regs, rfl⟩
    · obtain ⟨l1, l2⟩ := (live_true_iff _).1 hl
      rcases hwb with hb1 | ⟨⟨-, hb2, -⟩, -⟩
      · rw [writeback_live s l1 l2]
        have hne : ¬ s.WB.opcode = .HALT := by rw [hb1]; simp
        exact ⟨by simp [hb1, Opcode.writes_rd, h.regs], by simp [hne]⟩
      · rw [l1] at hb2; simp at hb2

theorem no_shadow_slot (I : APEX_Instruction) (st : CPU_Stage) (r : Int)
    (ho : st.opcode = I.opcode) (hr : st.rd = I.rd) (hs : I.opcode.straight = true) :
    no_shadow r st = true ↔ ¬ (I.opcode.writes_rd = true ∧ I.rd = r) := by
  have hc : r ≠ I.rd ↔ ¬ I.rd = r := ⟨fun h e => h e.symm, fun h e => h e.symm⟩
  revert hs
  simp only [no_shadow, ho, hr]
  cases I.opcode <;> simp [Opcode.straight, Opcode.writes_rd, hc]

/-- The shadow test of Writeback against the MEM latch, when WB holds an instruction. -/
theorem shadow_MEM (hp : Prog code a0 N) (h : Core code a0 n N a s) (hw : a.ow = true)
    (hd : a.d ≤ N) (r : Int) :
    no_shadow r s.MEM = true ↔ ¬ (a.om = true ∧ writes code a.im r = true) := by
  have hm := h.mm
  by_cases hom : a.om = true
  · rw [if_pos hom] at hm
    obtain ⟨⟨i1, i2, -⟩, -⟩ := hm
    have hlt : a.im < N := by
      simp only [Abs.d, Abs.im, hom, Bool.toNat_true] at hd ⊢; omega
    rw [no_shadow_slot _ _ r i1 i2 (hp.2.1 _ hlt)]
    simp [hom, writes]
  · rw [if_neg hom] at hm
    obtain ⟨-, h2, h3, h4⟩ := hm
    rcases h2 with h2 | h2
    · simp [no_shadow, h2, hom]
    · have := (h4 (h3 h2)).2.2
      rw [hw] at this; simp at this

/-- The shadow test of Writeback against the EX latch, when WB holds an instruction. -/
theorem shadow_EX (hp : Prog code a0 N) (h : Core code a0 n N a s) (hw : a.ow = true)
    (hd : a.d ≤ N) (r : Int) :
    no_shadow r s.EX = true ↔ ¬ (a.oe = true ∧ writes code a.ie r = true) := by
  have hm := h.ex
  by_cases hoe : a.oe = true
  · rw [if_pos hoe] at hm
    obtain ⟨⟨⟨i1, i2, -⟩, -⟩, -⟩ := hm
    have hlt : a.ie < N := by
      simp only [Abs.d, Abs.ie, hoe, Bool.toNat_true] at hd ⊢; omega
    rw [no_shadow_slot _ _ r i1 i2 (hp.2.1 _ hlt)]
    simp [hoe, writes]
  · rw [if_neg hoe] at hm
    obtain ⟨⟨-, h2⟩, -⟩ := hm
    rcases h2 with ⟨h2, -⟩ | ⟨-, -, -, -, -, h3, -⟩
    · simp [no_shadow, h2, hoe]
    · rw [hw] at h3; simp at h3

/-- Writeback under the refinement relation: afterwards a register is valid exactly when
neither the MEM nor the EX latch holds a writer of it. -/
theorem rel_writeback_valid (hp : Prog code a0 N) (h : Rel code a0 n N a s) (hd : a.d ≤ N)
    (r : Int) :
    (writeback s).regs_valid r = true ↔
      ¬ ((a.om = true ∧ writes code a.im r = true) ∨
         (a.oe = true ∧ writes code a.ie r = true)) := by
  have hv := h.valid hd r
  have hwb := h.core.wb
  by_cases hw : a.ow = true
  · rw [if_pos hw] at hwb
    obtain ⟨⟨i1, i2, -, -, -, i6⟩, i7, i8⟩ := hwb
    have ev : (writeback s).regs_valid =
        if s.WB.opcode.writes_rd = true ∧ no_shadow s.WB.rd s.MEM = true ∧
          no_shadow s.WB.rd s.EX = true then write s.regs_valid s.WB.rd true
        else s.regs_valid := by
      rw [writeback_live s i6 i7]
    rw [ev]
    have sm := shadow_MEM hp h.core hw hd s.WB.rd
    have se := shadow_EX hp h.core hw hd s.WB.rd
    simp only [writer_in_flight, hw, true_and] at hv
    by_cases hr : r = s.WB.rd
    · subst hr
      by_cases hwr : s.WB.opcode.writes_rd = true
      · have hwr' : writes code a.w s.WB.rd = true := by
          simp only [writes, ← i1, hwr, i2, Bool.true_and, decide_eq_true_eq]
        have hfalse : ¬ s.regs_valid s.WB.rd = true := by
          rw [hv]; exact fun x => x (Or.inl hwr')
        by_cases hc : no_shadow s.WB.rd s.MEM = true ∧ no_shadow s.WB.rd s.EX = true
        · rw [if_pos ⟨hwr, hc⟩]
          rw [sm, se] at hc
          simp only [write, if_true, true_iff]
          exact fun x => x.elim hc.1 hc.2
        · rw [if_neg (fun x => hc x.2)]
          rw [sm, se] at hc
          constructor
          · intro x; exact absurd x hfalse
          · intro x
            exact absurd ⟨fun p => x (Or.inl p), fun q => x (Or.inr q)⟩ hc
      · rw [if_neg (fun x => hwr x.1), hv]
        have : ¬ writes code a.w s.WB.rd = true := by
          simp only [writes, ← i1]
          simp [hwr]
        constructor
        · exact fun x y => x (Or.inr y)
        · intro x y
          rcases y with y | y
          · exact this y
          · exact x y
    · have hr' : ¬ (ins code a.w).rd = r := by rw [← i2]; exact fun e => hr e.symm
      have : ¬ writes code a.w r = true := by simp [writes, hr']
      have e : (if s.WB.opcode.writes_rd = true ∧ no_shadow s.WB.rd s.MEM = true ∧
          no_shadow s.WB.rd s.EX = true then write s.regs_valid s.WB.rd true
          else s.regs_valid) r = s.regs_valid r := by
        split_ifs
        · simp [write, hr]
        · rfl
      rw [e, hv]
      constructor
      · exact fun x y => x (Or.inr y)
      · intro x y
        rcases y with y | y
        · exact this y
        · exact x y
  · rw [if_neg hw] at hwb
    have e : (writeback s).regs_valid = s.regs_valid := by
      cases hl : s.WB.ctl.live
      · rw [writeback_idle s ((live_false_iff _).1 hl)]
      · obtain ⟨l1, l2⟩ := (live_true_iff _).1 hl
        rcases hwb with hb1 | ⟨⟨-, hb2, -⟩, -⟩
        · rw [writeback_live s l1 l2]
          simp [hb1, Opcode.writes_rd]
        · rw [l1] at hb2; simp at hb2
    rw [e, hv]
    simp only [writer_in_flight]
    constructor
    · exact fun x y => x (Or.inr y)
    · intro x y
      rcases y with y | y
      · exact hw y.1
      · exact x y

theorem MEM_sets_z (h : Core code a0 n N a s) :
    s.MEM.opcode.sets_z = true ↔ (a.om = true ∧ (ins code a.im).opcode.sets_z = true) := by
  have hm := h.mm
  by_cases hom : a.om = true
  · rw [if_pos hom] at hm
    rw [hm.1.1]
    simp [hom]
  · rw [if_neg hom] at hm
    rcases hm.2.1 with h2 | h2 <;> simp [h2, hom, Opcode.sets_z]

theorem EX_sets_z (h : Core code a0 n N a s) :
    s.EX.opcode.sets_z = true ↔ (a.oe = true ∧ (ins code a.ie).opcode.sets_z = true) := by
  have hm := h.ex
  by_cases hoe : a.oe = true
  · rw [if_pos hoe] at hm
    rw [hm.1.1.1]
    simp [hoe]
  · rw [if_neg hoe] at hm
    rcases hm.1.2 with ⟨h2, -⟩ | ⟨h2, -⟩ <;> simp [h2, hoe, Opcode.sets_z]

theorem sets_z_writes (o : Opcode) (h : o.sets_z = true) : o.writes_rd = true := by
  revert h
  cases o <;> simp [Opcode.sets_z, Opcode.writes_rd]

/-- Writeback under the refinement relation: afterwards the Z flag is that of the reference
unless an ADD, SUB or MUL in MEM or EX is still to set it. -/
theorem rel_writeback_z (hp : Prog code a0 N) (h : Rel code a0 n N a s) (b : Bool)
    (hb : (S code a0 a.im).z = some b) :
    (writeback s).z_flag = b ∨ (a.om = true ∧ (ins code a.im).opcode.sets_z = true) ∨
      (a.oe = true ∧ (ins code a.ie).opcode.sets_z = true) := by
  have hwb := h.core.wb
  have hbd := h.core.bound
  by_cases hw : a.ow = true
  · rw [if_pos hw] at hwb
    obtain ⟨⟨i1, i2, -, -, -, i6⟩, i7, i8⟩ := hwb
    have hwN : a.w < N := by
      simp only [Abs.ie, hw, Bool.toNat_true] at hbd; omega
    have ez : (writeback s).z_flag =
        if s.WB.opcode.sets_z = true ∧ no_later_arith s = true then decide (s.WB.buffer = 0)
        else s.z_flag := by
      rw [writeback_live s i6 i7]
    have e : a.im = a.w + 1 := by simp [Abs.im, hw]
    rw [e, z_succ code a0 a.w (hp.lt_length (Nat.le_of_lt hwN))] at hb
    rw [ez, i1]
    by_cases hz : (ins code a.w).opcode.sets_z = true
    · rw [if_pos hz] at hb
      by_cases hn : no_later_arith s = true
      · left
        rw [if_pos ⟨hz, hn⟩, i8 (sets_z_writes _ hz)]
        exact Option.some.inj hb
      · right
        simp only [no_later_arith, Bool.and_eq_true, Bool.not_eq_true', not_and,
          Bool.not_eq_false] at hn
        by_cases hmz : s.MEM.opcode.sets_z = true
        · exact Or.inl ((MEM_sets_z h.core).1 hmz)
        · exact Or.inr ((EX_sets_z h.core).1 (hn (by simpa using hmz)))
    · rw [if_neg hz] at hb
      rw [if_neg (fun x => hz x.1)]
      rcases h.zf b hb with h1 | h1
      · exact Or.inl h1
      · rcases h1 with h1 | h1
        · exact absurd h1.2 hz
        · exact Or.inr h1
  · rw [if_neg hw] at hwb
    have e : a.im = a.w := by simp [Abs.im, hw]
    rw [e] at hb
    have ez : (writeback s).z_flag = s.z_flag := by
      cases hl : s.WB.ctl.live
      · rw [writeback_idle s ((live_false_iff _).1 hl)]
      · obtain ⟨l1, l2⟩ := (live_true_iff _).1 hl
        rcases hwb with hb1 | ⟨⟨-, hb2, -⟩, -⟩
        · rw [writeback_live s l1 l2]
          simp [hb1, Opcode.sets_z]
        · rw [l1] at hb2; simp at hb2
    rw [ez]
    rcases h.zf b hb with h1 | h1
    · exact Or.inl h1
    · rcases h1 with h1 | h1
      · exact absurd h1.1 hw
      · exact Or.inr h1

end PartA


namespace PartB
open APEX

variable {code : List APEX_Instruction} {a0 : Arch} {n : Int} {N : Nat} {a : Abs}
  {s : APEX_CPU}

/-- Writeback under the refinement relation: the register file becomes that of the
reference after the retired instruction. -/
theorem rel_writeback_regs_B (hp : Prog code a0 N) (h : Core code a0 n N a s) :
    (writeback s).regs = (S code a0 a.im).regs ∧ (writeback s).WB = s.WB := by
  have hb := h.bound
  have hwb := h.wb
  by_cases hw : a.ow = true
  · rw [if_pos hw] at hwb
    obtain ⟨⟨i1, i2, -, -, -, i6⟩, i7, i8⟩ := hwb
    have hwN : a.w < N := by
      simp only [Abs.ie, hw, Bool.toNat_true] at hb; omega
    have hne := (hp.opcode (Nat.le_of_lt hwN)).2.2.2.2.2 hwN
    rw [writeback_live_B s i6 i7]
    constructor
    · funext r
      show (if _ then write s.regs s.WB.rd s.WB.buffer else s.regs) r = _
      have e : a.im = a.w + 1 := by simp [Abs.im, hw]
      rw [e, regs_succ code a0 a.w (hp.lt_length (Nat.le_of_lt hwN)) r, h.regs, i1]
      by_cases hwr : (ins code a.w).opcode.writes_rd = true
      · rw [if_pos hwr, i8 hwr, i2]
        simp only [write, writes, hwr, Bool.true_and, decide_eq_true_eq]
        by_cases hr : r = (ins code a.w).rd
        · simp [hr]
        · have hr' : ¬ (ins code a.w).rd = r := fun e => hr e.symm
          simp [hr, hr']
      · rw [if_neg hwr]
        simp [writes, hwr]
    · have : ¬ s.WB.opcode = .HALT := by rw [i1]; exact hne
      simp [this]
  · rw [if_neg hw] at hwb
    have e : a.im = a.w := by simp [Abs.im, hw]
    rw [e]
    cases hl : s.WB.ctl.live
    · rw [writeback_idle_B s ((live_false_iff _).1 hl)]
      exact ⟨h.regs, rfl⟩
    · obtain ⟨l1, l2⟩ := (live_true_iff _).1 hl
      rcases hwb with hb1 | ⟨⟨-, hb2, -⟩, -⟩
      · rw [writeback_live_B s l1 l2]
        have hne : ¬ s.WB.opcode = .HALT := by rw [hb1]; simp
        exact ⟨by simp [hb1, Opcode.writes_rd, h.regs], by simp [hne]⟩
      · rw [l1] at hb2; simp at hb2

theorem sets_z_writes_B (o : Opcode) (h : o.sets_z = true) : o.writes_rd = true := by
  revert h
  cases o <;> simp [Opcode.sets_z, Opcode.writes_rd]

/-- Writeback under the refinement relation: afterwards the Z flag is that of the reference
after the retired instruction. -/
theorem rel_writeback_z_B (hp : Prog code a0 N) (h : Rel code a0 n N a s) (b : Bool)
    (hb : (S code a0 a.im).z = some b) : (writeback s).z_flag = b := by
  have hwb := h.core.wb
  have hbd := h.core.bound
  by_cases hw : a.ow = true
  · rw [if_pos hw] at hwb
    obtain ⟨⟨i1, i2, -, -, -, i6⟩, i7, i8⟩ := hwb
    have hwN : a.w < N := by
      simp only [Abs.ie, hw, Bool.toNat_true] at hbd; omega
    have ez : (writeback s).z_flag =
        if s.WB.opcode.sets_z = true then decide (s.WB.buffer = 0) else s.z_flag := by
      rw [writeback_live_B s i6 i7]
    have e : a.im = a.w + 1 := by simp [Abs.im, hw]
    rw [e, z_succ code a0 a.w (hp.lt_length (Nat.le_of_lt hwN))] at hb
    rw [ez, i1]
    by_cases hz : (ins code a.w).opcode.sets_z = true
    · rw [if_pos hz] at hb
      rw [if_pos hz, i8 (sets_z_writes_B _ hz)]
      exact Option.some.inj hb
    · rw [if_neg hz] at hb
      rw [if_neg hz]
      exact h.zf b hb
  · rw [if_neg hw] at hwb
    have e : a.im = a.w := by simp [Abs.im, hw]
    rw [e] at hb
    have ez : (writeback s).z_flag = s.z_flag := by
      cases hl : s.WB.ctl.live
      · rw [writeback_idle_B s ((live_false_iff _).1 hl)]
      · obtain ⟨l1, l2⟩ := (live_true_iff _).1 hl
        rcases hwb with hb1 | ⟨⟨-, hb2, -⟩, -⟩
        · rw [writeback_live_B s l1 l2]
          simp [hb1, Opcode.sets_z]
        · rw [l1] at hb2; simp at hb2
    rw [ez]
    exact h.zf b hb

end PartB


namespace PartA
open APEX

variable {code : List APEX_Instruction} {a0 : Arch} {n : Int} {N : Nat} {a : Abs}
  {s : APEX_CPU}

/-- Memory under the refinement relation, on a state `c` that agrees with the boundary state
`s` on the MEM and WB latches and the data memory. -/
theorem rel_memory (hp : Prog code a0 N) (h : Core code a0 n N a s) (c : APEX_CPU)
    (hM : c.MEM = s.MEM) (hW : c.WB = s.WB) (hD : c.data_memory = s.data_memory) :
    (mem_step c).data_memory = (S code a0 a.ie).mem ∧
    (if a.om = true then InWB code a0 a.im (mem_step c).WB
     else (mem_step c).WB.opcode = .BUBBLE ∨
       (WB_init (mem_step c).WB ∧ a.w = 0 ∧ a.ow = false)) ∧
    (mem_step c).MEM.stalled = false ∧ (mem_step c).MEM.opcode = s.MEM.opcode ∧
    (mem_step c).MEM.busy = s.MEM.busy ∧
    (s.MEM.busy = true → (mem_step c).WB = s.WB) := by
  have hm := h.mm
  have hbd := h.bound
  by_cases hom : a.om = true
  · rw [if_pos hom] at hm ⊢
    obtain ⟨⟨i1, i2, i3, i4, i5, i6⟩, i7, i8, i9, i10, i11⟩ := hm
    have hlt : a.im < N := by
      simp only [Abs.ie, Abs.im, hom, Bool.toNat_true] at hbd ⊢; omega
    have hne := (hp.opcode (Nat.le_of_lt hlt)).2.2.2.2.2 hlt
    have e : a.ie = a.im + 1 := by simp [Abs.ie, Abs.im, hom]
    rw [memory_live c (by rw [hM, i6]) (by rw [hM, i7]), hM, hD]
    refine ⟨?_, ⟨⟨i1, i2, i3, i4, i5, i6⟩, i7, fun hw => ?_⟩, ?_, rfl, rfl, ?_⟩
    · show (if s.MEM.opcode = .STORE
        then write s.data_memory s.MEM.mem_address s.MEM.rs1_value else s.data_memory) = _
      rw [e, mem_succ code a0 a.im (hp.lt_length (Nat.le_of_lt hlt)), i1, h.mem]
      by_cases hst : (ins code a.im).opcode = .STORE
      · rw [if_pos hst, if_pos hst, i9 (Or.inr hst), i10 hst]
      · rw [if_neg hst, if_neg hst]
    · show (if s.MEM.opcode = .LOAD then s.data_memory s.MEM.mem_address else s.MEM.buffer) = _
      rw [i1]
      by_cases hl : (ins code a.im).opcode = .LOAD
      · rw [if_pos hl, i9 (Or.inl hl), h.mem,
          res_LOAD code a0 a.im (hp.lt_length (Nat.le_of_lt hlt)) hl]
      · rw [if_neg hl]
        exact i8 hw hl
    · show decide (s.MEM.opcode = .HALT) = false
      rw [i1]; simpa using hne
    · intro hb; rw [i6] at hb; simp at hb
  · rw [if_neg hom] at hm ⊢
    obtain ⟨j1, j2, j3, j4⟩ := hm
    have e : a.ie = a.im := by simp [Abs.ie, Abs.im, hom]
    rw [e]
    cases hl : s.MEM.busy
    · have ho : s.MEM.opcode = .BUBBLE := by
        rcases j2 with j2 | j2
        · exact j2
        · have := j3 j2; rw [hl] at this; simp at this
      rw [memory_live c (by rw [hM, hl]) (by rw [hM, j1]), hM, hD]
      refine ⟨?_, Or.inl ho, ?_, rfl, hl, ?_⟩
      · show (if s.MEM.opcode = .STORE
          then write s.data_memory s.MEM.mem_address s.MEM.rs1_value else s.data_memory) = _
        rw [ho, h.mem]; simp
      · show decide (s.MEM.opcode = .HALT) = false
        rw [ho]; simp
      · intro hb; simp at hb
    · rw [memory_idle c (Or.inl (by rw [hM, hl])), hM, hW, hD]
      obtain ⟨k1, k2, k3⟩ := j4 hl
      exact ⟨h.mem, Or.inr ⟨k1, k2, k3⟩, j1, rfl, hl, fun _ => rfl⟩

/-- Execute touches neither the architectural state nor the WB latch. -/
theorem execute_arch (c c3 : APEX_CPU) (hc : c.ENABLE_COUNTING = false)
    (hx : execute c = some c3) :
    c3.regs = c.regs ∧ c3.regs_valid = c.regs_valid ∧ c3.data_memory = c.data_memory ∧
    c3.z_flag = c.z_flag ∧ c3.WB = c.WB ∧ c3.code_memory = c.code_memory ∧
    c3.outside = c.outside := by
  cases hl : c.EX.ctl.live
  · have hl' := (live_false_iff _).1 hl
    by_cases hm : c.EX.stalled = true ∧ c.EX.opcode = .MUL
    · rw [execute_resume c hm.1 hm.2 hc] at hx
      cases hx
      exact ⟨rfl, rfl, rfl, rfl, rfl, rfl, rfl⟩
    · have hm' : c.EX.stalled = false ∨ c.EX.opcode ≠ .MUL := by
        by_cases h1 : c.EX.stalled = true
        · right; exact fun h2 => hm ⟨h1, h2⟩
        · left; simpa using h1
      rw [execute_idle c hl' hm'] at hx
      cases hx
      exact ⟨rfl, rfl, rfl, rfl, rfl, rfl, rfl⟩
  · obtain ⟨hb, hs⟩ := (live_true_iff _).1 hl
    rw [execute_live c hb hs hc] at hx
    by_cases hf : ex_fault c.EX = true
    · simp [hf] at hx
    · rw [if_neg hf] at hx
      cases hx
      exact ⟨rfl, rfl, rfl, rfl, rfl, rfl, rfl⟩

/-- Execute on a live latch that raises no exception and takes no branch. -/
theorem execute_not_taken (c : APEX_CPU) (hb : c.EX.busy = false) (hs : c.EX.stalled = false)
    (hC : c.ENABLE_COUNTING = false) (hf : ex_fault c.EX = false)
    (hnt : ∀ z, ex_taken c.EX z = false) :
    ∃ c3 z, execute c = some c3 ∧
      c3.MEM = (if c.EX.opcode = .MUL then { c.MEM with opcode := .BUBBLE, pc := 0 }
                else ex_done c.EX z) ∧
      c3.EX = { ex_done c.EX z with
                stalled := decide (c.EX.opcode = .MUL) || decide (c.EX.opcode = .HALT) } ∧
      c3.DRF = { c.DRF with stalled := c.DRF.stalled || decide (c.EX.opcode = .MUL) } ∧
      c3.F = c.F ∧ c3.pc = c.pc := by
  have hxl := execute_live c hb hs hC
  rw [hf] at hxl
  simp only [Bool.false_eq_true, if_false] at hxl
  exact ⟨_, _, hxl, rfl, rfl, by simp [hnt], by simp [hnt], by simp [hnt]⟩

/-- Execute under the refinement relation, on a mid-cycle state `c` that agrees with the
boundary state `s` on the front latches. -/
theorem rel_execute (hp : Prog code a0 N) (h : Core code a0 n N a s) (hd : a.d ≤ N)
    (hok : a.oe = true → (S code a0 a.ie).addr_fine (ins code a.ie))
    (c : APEX_CPU) (hE : c.EX = s.EX) (hDR : c.DRF = s.DRF) (hF : c.F = s.F)
    (hpc : c.pc = s.pc) (hMs : c.MEM.stalled = false) (hMo : c.MEM.opcode = s.MEM.opcode)
    (hMb : c.MEM.busy = s.MEM.busy) (hC : c.ENABLE_COUNTING = false) :
    ∃ c3, execute c = some c3 ∧ AfterEX code a0 a s c3 := by
  have hx := h.ex
  have hdr := (h.drf hd).2
  by_cases hoe : a.oe = true
  · rw [if_pos hoe] at hx
    obtain ⟨hin, hst, hmul⟩ := hx
    have hlt : a.ie < N := by
      simp only [Abs.d, Abs.ie, hoe, Bool.toNat_true] at hd ⊢; omega
    have hlen := hp.lt_length (Nat.le_of_lt hlt)
    have hop := hp.opcode (Nat.le_of_lt hlt)
    have hne := hop.2.2.2.2.2 hlt
    by_cases hmode : a.mode = .mul
    · -- second cycle of a MUL
      obtain ⟨m1, m2, m3⟩ := hmul hmode
      have hph : a.phase1 code = false := by simp [Abs.phase1, hmode]
      have hs1 : s.EX.stalled = true := by rw [hst]; simp [hmode]
      refine ⟨_, execute_resume c (by rw [hE, hs1]) (by rw [hE, hin.1.1, m1]) hC, ?_⟩
      refine
        { mem_slot := ?_, ex_ins := ?_, ex_stalled := ?_, ex_vals := ?_, ex_buf := ?_,
          ex_buf0 := ?_, drf_ins := ?_, drf_stalled := ?_, f_eq := hF, pc_eq := hpc }
      · rw [if_pos ⟨hoe, hph⟩]
        show InMEM code a0 a.ie { c.EX with stalled := false }
        rw [hE]
        refine ⟨hin.1, rfl, fun _ _ => m2, fun hls => ?_, fun hs => ?_, fun hls => ?_⟩
        · rw [m1] at hls; simp at hls
        · rw [m1] at hs; simp at hs
        · have ho : s.EX.opcode = .MUL := by rw [hin.1.1, m1]
          simp [ho] at hls
      · show same_ins s.EX { c.EX with stalled := false }
        rw [hE]; exact ⟨rfl, rfl, rfl, rfl, rfl, rfl⟩
      · rw [hph]
      · show ({ c.EX with stalled := false } : CPU_Stage).rs1_value = _ ∧
          ({ c.EX with stalled := false } : CPU_Stage).rs2_value = _
        rw [hE]; exact ⟨rfl, rfl⟩
      · intro _ _ _
        show ({ c.EX with stalled := false } : CPU_Stage).buffer = _
        rw [hE]; exact m2
      · intro x; rw [hoe] at x; simp at x
      · show same_ins s.DRF { c.DRF with stalled := false }
        rw [hDR]; exact ⟨rfl, rfl, rfl, rfl, rfl, rfl⟩
      · rw [hph]; simp [hmode]
    · have hs0 : s.EX.stalled = false := by rw [hst]; simp [hmode]
      have hb0 : s.EX.busy = false := hin.1.2.2.2.2.2
      obtain ⟨hflt, hadr⟩ := ex_addr_ok code a0 a.ie s.EX hin (hok hoe)
      have hnt : ∀ z, ex_taken s.EX z = false := by
        intro z
        simp [ex_taken, hin.1.1, hop.2.2.1, hop.2.2.2.1, hop.2.2.2.2.1]
      have hdst : s.DRF.stalled = decide (a.mode = .wait) := by
        rw [hdr]
        revert hmode
        cases a.mode <;> simp
      obtain ⟨c3, z, hx3, eM, eE, eD, eF, eP⟩ := execute_not_taken c (by rw [hE, hb0])
        (by rw [hE, hs0]) hC (by rw [hE, hflt]) (by rw [hE]; exact hnt)
      rw [hE] at eM eE
      rw [hE, hDR] at eD
      refine ⟨c3, hx3, ?_⟩
      by_cases hM : (ins code a.ie).opcode = .MUL
      · -- first cycle of a MUL
        have hph : a.phase1 code = true := by simp [Abs.phase1, hoe, hM, hmode]
        have hM' : s.EX.opcode = .MUL := by rw [hin.1.1, hM]
        rw [if_pos hM'] at eM
        refine
          { mem_slot := ?_, ex_ins := ?_, ex_stalled := ?_,
            ex_vals := ?_, ex_buf := ?_, ex_buf0 := ?_, drf_ins := ?_,
            drf_stalled := ?_, f_eq := by rw [eF, hF], pc_eq := by rw [eP, hpc] }
        · rw [if_neg (by simp [hph]), eM]
          refine ⟨hMs, Or.inl rfl, fun x => ?_, fun x => ?_⟩
          · cases x
          · rw [← hMb]; exact x
        · rw [eE]; exact ⟨rfl, rfl, rfl, rfl, rfl, rfl⟩
        · rw [hph, eE]; simp [hM']
        · rw [eE]; exact ⟨rfl, rfl⟩
        · intro _ hw hl
          rw [eE]
          exact res_ex_buffer code a0 a.ie hlen s.EX _ hin hw hl (hp.ranged _ (by omega))
        · intro x; rw [hoe] at x; simp at x
        · rw [eD]; exact ⟨rfl, rfl, rfl, rfl, rfl, rfl⟩
        · rw [hph, eD]; simp [hM']
      · have hph : a.phase1 code = false := by simp [Abs.phase1, hM]
        have hM' : ¬ s.EX.opcode = .MUL := by rw [hin.1.1]; exact hM
        have hH' : ¬ s.EX.opcode = .HALT := by rw [hin.1.1]; exact hne
        rw [if_neg hM'] at eM
        refine
          { mem_slot := ?_, ex_ins := ?_, ex_stalled := ?_,
            ex_vals := ?_, ex_buf := ?_, ex_buf0 := ?_, drf_ins := ?_,
            drf_stalled := ?_, f_eq := by rw [eF, hF], pc_eq := by rw [eP, hpc] }
        · rw [if_pos ⟨hoe, hph⟩, eM]
          refine ⟨hin.1, hs0, fun hw hl => ?_, fun hls => hadr hls, fun hs => ?_,
            ex_addr_bounds code a0 a.ie s.EX hin (hok hoe) _⟩
          · exact res_ex_buffer code a0 a.ie hlen s.EX _ hin hw hl (hp.ranged _ (by omega))
          · exact hin.2.1 (by simp [hs, Opcode.reads_rs1])
        · rw [eE]; exact ⟨rfl, rfl, rfl, rfl, rfl, rfl⟩
        · rw [hph, eE]; simp [hM', hH']
        · rw [eE]; exact ⟨rfl, rfl⟩
        · intro _ hw hl
          rw [eE]
          exact res_ex_buffer code a0 a.ie hlen s.EX _ hin hw hl (hp.ranged _ (by omega))
        · intro x; rw [hoe] at x; simp at x
        · rw [eD]; exact ⟨rfl, rfl, rfl, rfl, rfl, rfl⟩
        · rw [hph, eD]; simp [hM', hdst]
  · rw [if_neg hoe] at hx
    obtain ⟨⟨hs0, hsh⟩, hmode⟩ := hx
    have hph : a.phase1 code = false := by simp [Abs.phase1, hoe]
    have hdst : s.DRF.stalled = decide (a.mode = .wait) := by
      rw [hdr]
      revert hmode
      cases a.mode <;> simp
    rcases hsh with ⟨ho, hb0⟩ | ⟨ho, hb1, -, -, -, -, hom, hmo⟩
    · have hflt : ex_fault s.EX = false := by simp [ex_fault, ho]
      have hnt : ∀ z, ex_taken s.EX z = false := by
        intro z; simp [ex_taken, ho]
      have hM' : ¬ s.EX.opcode = .MUL := by rw [ho]; simp
      have hH' : ¬ s.EX.opcode = .HALT := by rw [ho]; simp
      obtain ⟨c3, z, hx3, eM, eE, eD, eF, eP⟩ := execute_not_taken c (by rw [hE, hb0])
        (by rw [hE, hs0]) hC (by rw [hE, hflt]) (by rw [hE]; exact hnt)
      rw [hE] at eM eE
      rw [hE, hDR] at eD
      rw [if_neg hM'] at eM
      refine ⟨c3, hx3, ?_⟩
      refine
        { mem_slot := ?_, ex_ins := ?_, ex_stalled := ?_,
          ex_vals := ?_, ex_buf := ?_, ex_buf0 := ?_, drf_ins := ?_,
          drf_stalled := ?_, f_eq := by rw [eF, hF], pc_eq := by rw [eP, hpc] }
      · rw [if_neg (fun x => hoe x.1), eM]
        refine ⟨hs0, Or.inl ho, fun x => ?_, fun x => ?_⟩
        · have : s.EX.opcode = .EMPTY := x
          rw [ho] at this; cases this
        · have : s.EX.busy = true := x
          rw [hb0] at this; cases this
      · rw [eE]; exact ⟨rfl, rfl, rfl, rfl, rfl, rfl⟩
      · rw [hph, eE]; simp [hM', hH']
      · rw [eE]; exact ⟨rfl, rfl⟩
      · intro x; exact absurd x hoe
      · intro _
        rw [eE]
        show ex_buffer s.EX _ = _
        simp [ex_buffer, ho]
      · rw [eD]; exact ⟨rfl, rfl, rfl, rfl, rfl, rfl⟩
      · rw [hph, eD]; simp [hM', hdst]
    · refine ⟨_, execute_idle c (Or.inl (by rw [hE, hb1])) (Or.inl (by rw [hE, hs0])), ?_⟩
      have hmm := h.mm
      rw [if_neg (by simp [hom])] at hmm
      refine
        { mem_slot := ?_, ex_ins := ?_, ex_stalled := ?_,
          ex_vals := ?_, ex_buf := ?_, ex_buf0 := ?_, drf_ins := ?_,
          drf_stalled := ?_, f_eq := hF, pc_eq := hpc }
      · rw [if_neg (fun x => hoe x.1)]
        refine ⟨hMs, Or.inr (by rw [hMo, hmo]), fun _ => ?_, fun x => ?_⟩
        · rw [hMb]; exact hmm.2.2.1 hmo
        · rw [← hMb]; exact x
      · rw [hE]; exact ⟨rfl, rfl, rfl, rfl, rfl, rfl⟩
      · rw [hph, hE, hs0]
      · rw [hE]; exact ⟨rfl, rfl⟩
      · intro x; exact absurd x hoe
      · intro _; rw [hE]
      · rw [hDR]; exact ⟨rfl, rfl, rfl, rfl, rfl, rfl⟩
      · rw [hph, hDR, hdst]; simp

end PartA


namespace PartB
open APEX

variable {code : List APEX_Instruction} {a0 : Arch} {n : Int} {N : Nat} {a : Abs}
  {s : APEX_CPU}

/-- Memory under the refinement relation, on a state `c` that agrees with the boundary state
`s` on the MEM and WB latches and the data memory. -/
theorem rel_memory_B (hp : Prog code a0 N) (h : Core code a0 n N a s) (c : APEX_CPU)
    (hM : c.MEM = s.MEM) (hW : c.WB = s.WB) (hD : c.data_memory = s.data_memory) :
    (mem_step c).data_memory = (S code a0 a.ie).mem ∧
    (if a.om = true then InWB code a0 a.im (mem_step c).WB
     else (mem_step c).WB.opcode = .BUBBLE ∨
       (WB_init (mem_step c).WB ∧ a.w = 0 ∧ a.ow = false)) ∧
    (mem_step c).MEM.stalled = false ∧ (mem_step c).MEM.opcode = s.MEM.opcode ∧
    (mem_step c).MEM.busy = s.MEM.busy ∧
    (s.MEM.busy = true → (mem_step c).WB = s.WB) := by
  have hm := h.mm
  have hbd := h.bound
  by_cases hom : a.om = true
  · rw [if_pos hom] at hm ⊢
    obtain ⟨⟨i1, i2, i3, i4, i5, i6⟩, i7, i8, i9, i10, i11⟩ := hm
    have hlt : a.im < N := by
      simp only [Abs.ie, Abs.im, hom, Bool.toNat_true] at hbd ⊢; omega
    have hne := (hp.opcode (Nat.le_of_lt hlt)).2.2.2.2.2 hlt
    have e : a.ie = a.im + 1 := by simp [Abs.ie, Abs.im, hom]
    rw [memory_live_B c (by rw [hM, i6]) (by rw [hM, i7]), hM, hD]
    refine ⟨?_, ⟨⟨i1, i2, i3, i4, i5, i6⟩, i7, fun hw => ?_⟩, ?_, rfl, rfl, ?_⟩
    · show (if s.MEM.opcode = .STORE
        then write s.data_memory s.MEM.mem_address s.MEM.rs1_value else s.data_memory) = _
      rw [e, mem_succ code a0 a.im (hp.lt_length (Nat.le_of_lt hlt)), i1, h.mem]
      by_cases hst : (ins code a.im).opcode = .STORE
      · rw [if_pos hst, if_pos hst, i9 (Or.inr hst), i10 hst]
      · rw [if_neg hst, if_neg hst]
    · show (if s.MEM.opcode = .LOAD then s.data_memory s.MEM.mem_address else s.MEM.buffer) = _
      rw [i1]
      by_cases hl : (ins code a.im).opcode = .LOAD
      · rw [if_pos hl, i9 (Or.inl hl), h.mem,
          res_LOAD code a0 a.im (hp.lt_length (Nat.le_of_lt hlt)) hl]
      · rw [if_neg hl]
        exact i8 hw hl
    · show decide (s.MEM.opcode = .HALT) = false
      rw [i1]; simpa using hne
    · intro hb; rw [i6] at hb; simp at hb
  · rw [if_neg hom] at hm ⊢
    obtain ⟨j1, j2, j3, j4⟩ := hm
    have e : a.ie = a.im := by simp [Abs.ie, Abs.im, hom]
    rw [e]
    cases hl : s.MEM.busy
    · have ho : s.MEM.opcode = .BUBBLE := by
        rcases j2 with j2 | j2
        · exact j2
        · have := j3 j2; rw [hl] at this; simp at this
      rw [memory_live_B c (by rw [hM, hl]) (by rw [hM, j1]), hM, hD]
      refine ⟨?_, Or.inl ho, ?_, rfl, hl, ?_⟩
      · show (if s.MEM.opcode = .STORE
          then write s.data_memory s.MEM.mem_address s.MEM.rs1_value else s.data_memory) = _
        rw [ho, h.mem]; simp
      · show decide (s.MEM.opcode = .HALT) = false
        rw [ho]; simp
      · intro hb; simp at hb
    · rw [memory_idle_B c (Or.inl (by rw [hM, hl])), hM, hW, hD]
      obtain ⟨k1, k2, k3⟩ := j4 hl
      exact ⟨h.mem, Or.inr ⟨k1, k2, k3⟩, j1, rfl, hl, fun _ => rfl⟩

/-- Execute touches neither the architectural state nor the WB latch. -/
theorem execute_arch_B (c c3 : APEX_CPU) (hc : c.ENABLE_COUNTING = false)
    (hx : execute c = some c3) :
    c3.regs = c.regs ∧ c3.regs_valid = c.regs_valid ∧ c3.data_memory = c.data_memory ∧
    c3.z_flag = c.z_flag ∧ c3.WB = c.WB ∧ c3.code_memory = c.code_memory ∧
    c3.outside = c.outside := by
  cases hl : c.EX.ctl.live
  · have hl' := (live_false_iff _).1 hl
    by_cases hm : c.EX.stalled = true ∧ c.EX.opcode = .MUL
    · rw [execute_resume_B c hm.1 hm.2 hc] at hx
      cases hx
      exact ⟨rfl, rfl, rfl, rfl, rfl, rfl, rfl⟩
    · have hm' : c.EX.stalled = false ∨ c.EX.opcode ≠ .MUL := by
        by_cases h1 : c.EX.stalled = true
        · right; exact fun h2 => hm ⟨h1, h2⟩
        · left; simpa using h1
      rw [execute_idle_B c hl' hm'] at hx
      cases hx
      exact ⟨rfl, rfl, rfl, rfl, rfl, rfl, rfl⟩
  · obtain ⟨hb, hs⟩ := (live_true_iff _).1 hl
    rw [execute_live_B c hb hs hc] at hx
    by_cases hf : ex_fault c.EX = true
    · simp [hf] at hx
    · rw [if_neg hf] at hx
      cases hx
      exact ⟨rfl, rfl, rfl, rfl, rfl, rfl, rfl⟩

/-- Execute on a live latch that raises no exception and takes no branch. -/
theorem execute_not_taken_B (c : APEX_CPU) (hb : c.EX.busy = false) (hs : c.EX.stalled = false)
    (hC : c.ENABLE_COUNTING = false) (hf : ex_fault c.EX = false)
    (hnt : ∀ z, ex_taken c.EX z = false) :
    ∃ c3 z, execute c = some c3 ∧
      c3.MEM = (if c.EX.opcode = .MUL then { c.MEM with opcode := .BUBBLE, pc := 0 }
                else ex_done c.EX z) ∧
      c3.EX = { ex_done c.EX z with
                stalled := decide (c.EX.opcode = .MUL) || decide (c.EX.opcode = .HALT) } ∧
      c3.DRF = { c.DRF with stalled := c.DRF.stalled || decide (c.EX.opcode = .MUL) } ∧
      c3.F = c.F ∧ c3.pc = c.pc := by
  have hxl := execute_live_B c hb hs hC
  rw [hf] at hxl
  simp only [Bool.false_eq_true, if_false] at hxl
  exact ⟨_, _, hxl, rfl, rfl, by simp [hnt], by simp [hnt], by simp [hnt]⟩

/-- Execute under the refinement relation, on a mid-cycle state `c` that agrees with the
boundary state `s` on the front latches. -/
theorem rel_execute_B (hp : Prog code a0 N) (h : Core code a0 n N a s) (hd : a.d ≤ N)
    (hok : a.oe = true → (S code a0 a.ie).addr_fine (ins code a.ie))
    (c : APEX_CPU) (hE : c.EX = s.EX) (hDR : c.DRF = s.DRF) (hF : c.F = s.F)
    (hpc : c.pc = s.pc) (hMs : c.MEM.stalled = false) (hMo : c.MEM.opcode = s.MEM.opcode)
    (hMb : c.MEM.busy = s.MEM.busy) (hC : c.ENABLE_COUNTING = false) :
    ∃ c3, execute c = some c3 ∧ AfterEX code a0 a s c3 := by
  have hx := h.ex
  have hdr := (h.drf hd).2
  by_cases hoe : a.oe = true
  · rw [if_pos hoe] at hx
    obtain ⟨hin, hst, hmul⟩ := hx
    have hlt : a.ie < N := by
      simp only [Abs.d, Abs.ie, hoe, Bool.toNat_true] at hd ⊢; omega
    have hlen := hp.lt_length (Nat.le_of_lt hlt)
    have hop := hp.opcode (Nat.le_of_lt hlt)
    have hne := hop.2.2.2.2.2 hlt
    by_cases hmode : a.mode = .mul
    · -- second cycle of a MUL
      obtain ⟨m1, m2, m3⟩ := hmul hmode
      have hph : a.phase1 code = false := by simp [Abs.phase1, hmode]
      have hs1 : s.EX.stalled = true := by rw [hst]; simp [hmode]
      refine ⟨_, execute_resume_B c (by rw [hE, hs1]) (by rw [hE, hin.1.1, m1]) hC, ?_⟩
      refine
        { mem_slot := ?_, ex_ins := ?_, ex_stalled := ?_, ex_vals := ?_, ex_buf := ?_,
          ex_buf0 := ?_, drf_ins := ?_, drf_stalled := ?_, f_eq := hF, pc_eq := hpc }
      · rw [if_pos ⟨hoe, hph⟩]
        show InMEM code a0 a.ie { c.EX with stalled := false }
        rw [hE]
        refine ⟨hin.1, rfl, fun _ _ => m2, fun hls => ?_, fun hs => ?_, fun hls => ?_⟩
        · rw [m1] at hls; simp at hls
        · rw [m1] at hs; simp at hs
        · have ho : s.EX.opcode = .MUL := by rw [hin.1.1, m1]
          simp [ho] at hls
      · show same_ins s.EX { c.EX with stalled := false }
        rw [hE]; exact ⟨rfl, rfl, rfl, rfl, rfl, rfl⟩
      · rw [hph]
      · show ({ c.EX with stalled := false } : CPU_Stage).rs1_value = _ ∧
          ({ c.EX with stalled := false } : CPU_Stage).rs2_value = _
        rw [hE]; exact ⟨rfl, rfl⟩
      · intro _ _ _
        show ({ c.EX with stalled := false } : CPU_Stage).buffer = _
        rw [hE]; exact m2
      · intro x; rw [hoe] at x; simp at x
      · show same_ins s.DRF { c.DRF with stalled := false }
        rw [hDR]; exact ⟨rfl, rfl, rfl, rfl, rfl, rfl⟩
      · rw [hph]; simp [hmode]
    · have hs0 : s.EX.stalled = false := by rw [hst]; simp [hmode]
      have hb0 : s.EX.busy = false := hin.1.2.2.2.2.2
      obtain ⟨hflt, hadr⟩ := ex_addr_ok code a0 a.ie s.EX hin (hok hoe)
      have hnt : ∀ z, ex_taken s.EX z = false := by
        intro z
        simp [ex_taken, hin.1.1, hop.2.2.1, hop.2.2.2.1, hop.2.2.2.2.1]
      have hdst : s.DRF.stalled = decide (a.mode = .wait) := by
        rw [hdr]
        revert hmode
        cases a.mode <;> simp
      obtain ⟨c3, z, hx3, eM, eE, eD, eF, eP⟩ := execute_not_taken_B c (by rw [hE, hb0])
        (by rw [hE, hs0]) hC (by rw [hE, hflt]) (by rw [hE]; exact hnt)
      rw [hE] at eM eE
      rw [hE, hDR] at eD
      refine ⟨c3, hx3, ?_⟩
      by_cases hM : (ins code a.ie).opcode = .MUL
      · -- first cycle of a MUL
        have hph : a.phase1 code = true := by simp [Abs.phase1, hoe, hM, hmode]
        have hM' : s.EX.opcode = .MUL := by rw [hin.1.1, hM]
        rw [if_pos hM'] at eM
        refine
          { mem_slot := ?_, ex_ins := ?_, ex_stalled := ?_,
            ex_vals := ?_, ex_buf := ?_, ex_buf0 := ?_, drf_ins := ?_,
            drf_stalled := ?_, f_eq := by rw [eF, hF], pc_eq := by rw [eP, hpc] }
        · rw [if_neg (by simp [hph]), eM]
          refine ⟨hMs, Or.inl rfl, fun x => ?_, fun x => ?_⟩
          · cases x
          · rw [← hMb]; exact x
        · rw [eE]; exact ⟨rfl, rfl, rfl, rfl, rfl, rfl⟩
        · rw [hph, eE]; simp [hM']
        · rw [eE]; exact ⟨rfl, rfl⟩
        · intro _ hw hl
          rw [eE]
          exact res_ex_buffer code a0 a.ie hlen s.EX _ hin hw hl (hp.ranged _ (by omega))
        · intro x; rw [hoe] at x; simp at x
        · rw [eD]; exact ⟨rfl, rfl, rfl, rfl, rfl, rfl⟩
        · rw [hph, eD]; simp [hM']
      · have hph : a.phase1 code = false := by simp [Abs.phase1, hM]
        have hM' : ¬ s.EX.opcode = .MUL := by rw [hin.1.1]; exact hM
        have hH' : ¬ s.EX.opcode = .HALT := by rw [hin.1.1]; exact hne
        rw [if_neg hM'] at eM
        refine
          { mem_slot := ?_, ex_ins := ?_, ex_stalled := ?_,
            ex_vals := ?_, ex_buf := ?_, ex_buf0 := ?_, drf_ins := ?_,
            drf_stalled := ?_, f_eq := by rw [eF, hF], pc_eq := by rw [eP, hpc] }
        · rw [if_pos ⟨hoe, hph⟩, eM]
          refine ⟨hin.1, hs0, fun hw hl => ?_, fun hls => hadr hls, fun hs => ?_,
            ex_addr_bounds code a0 a.ie s.EX hin (hok hoe) _⟩
          · exact res_ex_buffer code a0 a.ie hlen s.EX _ hin hw hl (hp.ranged _ (by omega))
          · exact hin.2.1 (by simp [hs, Opcode.reads_rs1])
        · rw [eE]; exact ⟨rfl, rfl, rfl, rfl, rfl, rfl⟩
        · rw [hph, eE]; simp [hM', hH']
        · rw [eE]; exact ⟨rfl, rfl⟩
        · intro _ hw hl
          rw [eE]
          exact res_ex_buffer code a0 a.ie hlen s.EX _ hin hw hl (hp.ranged _ (by omega))
        · intro x; rw [hoe] at x; simp at x
        · rw [eD]; exact ⟨rfl, rfl, rfl, rfl, rfl, rfl⟩
        · rw [hph, eD]; simp [hM', hdst]
  · rw [if_neg hoe] at hx
    obtain ⟨⟨hs0, hsh⟩, hmode⟩ := hx
    have hph : a.phase1 code = false := by simp [Abs.phase1, hoe]
    have hdst : s.DRF.stalled = decide (a.mode = .wait) := by
      rw [hdr]
      revert hmode
      cases a.mode <;> simp
    rcases hsh with ⟨ho, hb0⟩ | ⟨ho, hb1, -, -, -, -, hom, hmo⟩
    · have hflt : ex_fault s.EX = false := by simp [ex_fault, ho]
      have hnt : ∀ z, ex_taken s.EX z = false := by
        intro z; simp [ex_taken, ho]
      have hM' : ¬ s.EX.opcode = .MUL := by rw [ho]; simp
      have hH' : ¬ s.EX.opcode = .HALT := by rw [ho]; simp
      obtain ⟨c3, z, hx3, eM, eE, eD, eF, eP⟩ := execute_not_taken_B c (by rw [hE, hb0])
        (by rw [hE, hs0]) hC (by rw [hE, hflt]) (by rw [hE]; exact hnt)
      rw [hE] at eM eE
      rw [hE, hDR] at eD
      rw [if_neg hM'] at eM
      refine ⟨c3, hx3, ?_⟩
      refine
        { mem_slot := ?_, ex_ins := ?_, ex_stalled := ?_,
          ex_vals := ?_, ex_buf := ?_, ex_buf0 := ?_, drf_ins := ?_,
          drf_stalled := ?_, f_eq := by rw [eF, hF], pc_eq := by rw [eP, hpc] }
      · rw [if_neg (fun x => hoe x.1), eM]
        refine ⟨hs0, Or.inl ho, fun x => ?_, fun x => ?_⟩
        · have : s.EX.opcode = .EMPTY := x
          rw [ho] at this; cases this
        · have : s.EX.busy = true := x
          rw [hb0] at this; cases this
      · rw [eE]; exact ⟨rfl, rfl, rfl, rfl, rfl, rfl⟩
      · rw [hph, eE]; simp [hM', hH']
      · rw [eE]; exact ⟨rfl, rfl⟩
      · intro x; exact absurd x hoe
      · intro _
        rw [eE]
        show ex_buffer s.EX _ = _
        simp [ex_buffer, ho]
      · rw [eD]; exact ⟨rfl, rfl, rfl, rfl, rfl, rfl⟩
      · rw [hph, eD]; simp [hM', hdst]
    · refine ⟨_, execute_idle_B c (Or.inl (by rw [hE, hb1])) (Or.inl (by rw [hE, hs0])), ?_⟩
      have hmm := h.mm
      rw [if_neg (by simp [hom])] at hmm
      refine
        { mem_slot := ?_, ex_ins := ?_, ex_stalled := ?_,
          ex_vals := ?_, ex_buf := ?_, ex_buf0 := ?_, drf_ins := ?_,
          drf_stalled := ?_, f_eq := hF, pc_eq := hpc }
      · rw [if_neg (fun x => hoe x.1)]
        refine ⟨hMs, Or.inr (by rw [hMo, hmo]), fun _ => ?_, fun x => ?_⟩
        · rw [hMb]; exact hmm.2.2.1 hmo
        · rw [← hMb]; exact x
      · rw [hE]; exact ⟨rfl, rfl, rfl, rfl, rfl, rfl⟩
      · rw [hph, hE, hs0]
      · rw [hE]; exact ⟨rfl, rfl⟩
      · intro x; exact absurd x hoe
      · intro _; rw [hE]
      · rw [hDR]; exact ⟨rfl, rfl, rfl, rfl, rfl, rfl⟩
      · rw [hph, hDR, hdst]; simp

end PartB


namespace APEX

variable {code : List APEX_Instruction} {a0 : Arch} {N : Nat} {a : Abs}

/-- A register not written by the instructions in MEM and EX has, before the DRF
instruction, the value it has once WB has retired. -/
theorem regs_stable (hp : Prog code a0 N) (hb : a.ie ≤ N) (r : Int)
    (h1 : ¬ (a.om = true ∧ writes code a.im r = true))
    (h2 : ¬ (a.oe = true ∧ writes code a.ie r = true)) :
    (S code a0 a.d).regs r = (S code a0 a.im).regs r := by
  have e1 : (S code a0 a.ie).regs r = (S code a0 a.im).regs r := by
    by_cases hom : a.om = true
    · have e : a.ie = a.im + 1 := by simp [Abs.ie, Abs.im, hom]
      have hlt : a.im < code.length := by have := hp.1.1; omega
      rw [e, regs_succ code a0 a.im hlt r, if_neg (fun x => h1 ⟨hom, x⟩)]
    · have e : a.ie = a.im := by simp [Abs.ie, Abs.im, hom]
      rw [e]
  rw [← e1]
  by_cases hoe : a.oe = true
  · have e : a.d = a.ie + 1 := by simp [Abs.d, Abs.ie, hoe]
    have hlt : a.ie < code.length := by have := hp.1.1; omega
    rw [e, regs_succ code a0 a.ie hlt r, if_neg (fun x => h2 ⟨hoe, x⟩)]
  · have e : a.d = a.ie := by simp [Abs.d, Abs.ie, hoe]
    rw [e]

theorem feeds_iff (i j : Nat) :
    feeds code i j = true ↔
      (((ins code j).opcode.reads_rs1 = true ∧ writes code i (ins code j).rs1 = true) ∨
       ((ins code j).opcode.reads_rs2 = true ∧ writes code i (ins code j).rs2 = true)) := by
  simp only [feeds, writes, Bool.and_eq_true, Bool.or_eq_true, decide_eq_true_eq]
  constructor
  · rintro ⟨hw, ⟨h1, h2⟩ | ⟨h1, h2⟩⟩
    · exact Or.inl ⟨h1, hw, h2.symm⟩
    · exact Or.inr ⟨h1, hw, h2.symm⟩
  · rintro (⟨h1, hw, h2⟩ | ⟨h1, hw, h2⟩)
    · exact ⟨hw, Or.inl ⟨h1, h2.symm⟩⟩
    · exact ⟨hw, Or.inr ⟨h1, h2.symm⟩⟩

theorem reads_rs2_rs1 (o : Opcode) (h : o.reads_rs2 = true) : o.reads_rs1 = true := by
  revert h
  cases o <;> simp [Opcode.reads_rs1, Opcode.reads_rs2]

theorem is_ins_same {st st' : CPU_Stage} {I : APEX_Instruction} (h : is_ins st I)
    (hs : same_ins st st') : is_ins st' I := by
  obtain ⟨h1, h2, h3, h4, h5, h6⟩ := h
  obtain ⟨s1, s2, s3, s4, s5, s6⟩ := hs
  exact ⟨by rw [s1, h1], by rw [s2, h2], by rw [s3, h3], by rw [s4, h4], by rw [s5, h5],
    by rw [s6, h6]⟩

theorem InEX_same {i : Nat} {st st' : CPU_Stage} (h : InEX code a0 i st)
    (hs : same_ins st st') (h1 : st'.rs1_value = st.rs1_value)
    (h2 : st'.rs2_value = st.rs2_value) : InEX code a0 i st' :=
  ⟨is_ins_same h.1 hs, fun x => by rw [h1]; exact h.2.1 x, fun x => by rw [h2]; exact h.2.2 x⟩

theorem halt_iff (hp : Prog code a0 N) {d : Nat} (hd : d ≤ N) :
    (ins code d).opcode = .HALT ↔ d = N := by
  constructor
  · intro h
    by_contra hne
    exact (hp.opcode hd).2.2.2.2.2 (by omega) h
  · rintro rfl
    exact hp.2.2.1

theorem same_ins_refl (st : CPU_Stage) : same_ins st st := ⟨rfl, rfl, rfl, rfl, rfl, rfl⟩

end APEX

namespace PartA
open APEX

variable {code : List APEX_Instruction} {a0 : Arch} {n : Int} {N : Nat} {a : Abs}
  {s : APEX_CPU}

/-- Decode finds its sources valid exactly when no instruction in MEM or EX feeds the DRF
instruction. -/
theorem ready_iff (hp : Prog code a0 N) (hd : a.d ≤ N) (c3 : APEX_CPU)
    (hi : is_ins c3.DRF (ins code a.d))
    (hv : ∀ r, c3.regs_valid r = true ↔
      ¬ ((a.om = true ∧ writes code a.im r = true) ∨
         (a.oe = true ∧ writes code a.ie r = true))) :
    ready c3 = true ↔ blocked code a = false := by
  obtain ⟨i1, i2, i3, i4, i5, i6⟩ := hi
  have hcb : (ins code a.d).opcode.is_cond_branch = false := by
    have := hp.opcode hd
    revert this
    cases (ins code a.d).opcode <;> simp [Opcode.is_cond_branch]
  have hbl : blocked code a = false ↔
      ¬ ((a.om = true ∧ feeds code a.im a.d = true) ∨
         (a.oe = true ∧ feeds code a.ie a.d = true)) := by
    simp only [blocked, Bool.or_eq_false_iff, Bool.and_eq_false_iff, not_or, not_and]
    constructor
    · rintro ⟨h1, h2⟩
      refine ⟨fun x y => ?_, fun x y => ?_⟩
      · rcases h1 with h1 | h1
        · rw [x] at h1; cases h1
        · rw [y] at h1; cases h1
      · rcases h2 with h2 | h2
        · rw [x] at h2; cases h2
        · rw [y] at h2; cases h2
    · rintro ⟨h1, h2⟩
      constructor
      · by_cases x : a.om = true
        · right; simpa using h1 x
        · left; simpa using x
      · by_cases x : a.oe = true
        · right; simpa using h2 x
        · left; simpa using x
  rw [hbl]
  simp only [ready, i1, i3, i4, hcb, Bool.and_eq_true, Bool.or_eq_true, Bool.not_eq_true',
    Bool.not_false, true_or, and_true, feeds_iff]
  constructor
  · rintro ⟨h1, h2⟩ hx
    rcases hx with ⟨x, y | y⟩ | ⟨x, y | y⟩
    · rcases h1 with h1 | h1
      · rw [y.1] at h1; cases h1
      · exact (hv _).1 h1 (Or.inl ⟨x, y.2⟩)
    · rcases h2 with h2 | h2
      · rw [y.1] at h2; cases h2
      · exact (hv _).1 h2 (Or.inl ⟨x, y.2⟩)
    · rcases h1 with h1 | h1
      · rw [y.1] at h1; cases h1
      · exact (hv _).1 h1 (Or.inr ⟨x, y.2⟩)
    · rcases h2 with h2 | h2
      · rw [y.1] at h2; cases h2
      · exact (hv _).1 h2 (Or.inr ⟨x, y.2⟩)
  · intro hx
    constructor
    · by_cases r1 : (ins code a.d).opcode.reads_rs1 = true
      · right
        rw [hv]
        rintro (⟨x, y⟩ | ⟨x, y⟩)
        · exact hx (Or.inl ⟨x, Or.inl ⟨r1, y⟩⟩)
        · exact hx (Or.inr ⟨x, Or.inl ⟨r1, y⟩⟩)
      · left; simpa using r1
    · by_cases r2 : (ins code a.d).opcode.reads_rs2 = true
      · right
        rw [hv]
        rintro (⟨x, y⟩ | ⟨x, y⟩)
        · exact hx (Or.inl ⟨x, Or.inr ⟨r2, y⟩⟩)
        · exact hx (Or.inr ⟨x, Or.inr ⟨r2, y⟩⟩)
      · left; simpa using r2

theorem next_w : (next code a).w = a.im := by
  unfold next Abs.im; split_ifs <;> rfl

theorem next_ow : (next code a).ow = a.om := by
  unfold next; split_ifs <;> rfl

theorem next_im : (next code a).im = a.ie := by
  unfold next Abs.im Abs.ie; split_ifs <;> rfl

theorem next_phase1 (h : a.phase1 code = true) :
    (next code a).om = false ∧ (next code a).oe = true ∧ (next code a).mode = .mul ∧
    (next code a).ie = a.ie ∧ (next code a).d = a.d := by
  have hoe : a.oe = true := by
    simp only [Abs.phase1, Bool.and_eq_true] at h; exact h.1.1
  simp [next, h, Abs.ie, Abs.d, hoe]

theorem next_blocked (h : a.phase1 code = false) (hb : blocked code a = true) :
    (next code a).om = a.oe ∧ (next code a).oe = false ∧ (next code a).mode = .wait ∧
    (next code a).ie = a.d ∧ (next code a).d = a.d := by
  simp [next, h, hb, Abs.ie, Abs.d]

theorem next_promote (h : a.phase1 code = false) (hb : blocked code a = false) :
    (next code a).om = a.oe ∧ (next code a).oe = true ∧ (next code a).mode = .run ∧
    (next code a).ie = a.d ∧ (next code a).d = a.d + 1 := by
  simp [next, h, hb, Abs.ie, Abs.d]

/-- The source values Decode reads from the register file are those of the reference. -/
theorem DRF_read_InEX (hp : Prog code a0 N) (hb : a.ie ≤ N) (c : APEX_CPU)
    (hi : is_ins c.DRF (ins code a.d)) (hr : c.regs = (S code a0 a.im).regs)
    (hbl : blocked code a = false) (st : Bool) :
    InEX code a0 a.d { DRF_read c with stalled := st } := by
  obtain ⟨i1, i2, i3, i4, i5, i6⟩ := hi
  have hnb : ∀ i, (i = a.im ∧ a.om = true) ∨ (i = a.ie ∧ a.oe = true) →
      feeds code i a.d = false := by
    simp only [blocked, Bool.or_eq_false_iff, Bool.and_eq_false_iff] at hbl
    rintro i (⟨rfl, x⟩ | ⟨rfl, x⟩)
    · rcases hbl.1 with y | y
      · rw [x] at y; cases y
      · exact y
    · rcases hbl.2 with y | y
      · rw [x] at y; cases y
      · exact y
  have key : ∀ r, needs code a.d r → (S code a0 a.d).regs r = c.regs r := by
    intro r hn
    rw [hr]
    apply regs_stable hp hb
    · rintro ⟨x, y⟩
      have := hnb a.im (Or.inl ⟨rfl, x⟩)
      have f := (@feeds_iff code a.im a.d).2
        (by rcases hn with ⟨p, q⟩ | ⟨p, q⟩
            · exact Or.inl ⟨p, by rw [q]; exact y⟩
            · exact Or.inr ⟨p, by rw [q]; exact y⟩)
      rw [this] at f; cases f
    · rintro ⟨x, y⟩
      have := hnb a.ie (Or.inr ⟨rfl, x⟩)
      have f := (@feeds_iff code a.ie a.d).2
        (by rcases hn with ⟨p, q⟩ | ⟨p, q⟩
            · exact Or.inl ⟨p, by rw [q]; exact y⟩
            · exact Or.inr ⟨p, by rw [q]; exact y⟩)
      rw [this] at f; cases f
  refine ⟨⟨i1, i2, i3, i4, i5, i6⟩, fun x => ?_, fun x => ?_⟩
  · show (if c.DRF.opcode.reads_rs1 = true then c.regs c.DRF.rs1 else c.DRF.rs1_value) = _
    rw [i1, if_pos x, i3, key _ (Or.inl ⟨x, rfl⟩)]
  · show (if c.DRF.opcode.reads_rs2 = true then c.regs c.DRF.rs2 else c.DRF.rs2_value) = _
    rw [i1, if_pos x, i4, key _ (Or.inr ⟨x, rfl⟩)]

end PartA


namespace PartB
open APEX

variable {code : List APEX_Instruction} {a0 : Arch} {n : Int} {N : Nat} {a : Abs}
  {s : APEX_CPU}

theorem next_w_B : (next code a).w = a.im := by
  unfold next Abs.im; split_ifs <;> rfl

theorem next_ow_B : (next code a).ow = a.om := by
  unfold next; split_ifs <;> rfl

theorem next_im_B : (next code a).im = a.ie := by
  unfold next Abs.im Abs.ie; split_ifs <;> rfl

theorem next_phase1_B (h : a.phase1 code = true) :
    (next code a).om = false ∧ (next code a).oe = true ∧ (next code a).mode = .mul ∧
    (next code a).ie = a.ie ∧ (next code a).d = a.d := by
  have hoe : a.oe = true := by
    simp only [Abs.phase1, Bool.and_eq_true] at h; exact h.1.1
  simp [next, h, Abs.ie, Abs.d, hoe]

theorem next_blocked_B (h : a.phase1 code = false) (hb : blocked code a = true) :
    (next code a).om = a.oe ∧ (next code a).oe = false ∧ (next code a).mode = .wait ∧
    (next code a).ie = a.d ∧ (next code a).d = a.d := by
  simp [next, h, hb, Abs.ie, Abs.d]

theorem next_promote_B (h : a.phase1 code = false) (hb : blocked code a = false) :
    (next code a).om = a.oe ∧ (next code a).oe = true ∧ (next code a).mode = .run ∧
    (next code a).ie = a.d ∧ (next code a).d = a.d + 1 := by
  simp [next, h, hb, Abs.ie, Abs.d]

/-- The writer test of `get_source_values` on a latch holding a straight-line instruction. -/
theorem src_in_slot_B (I : APEX_Instruction) (st : CPU_Stage) (r : Int)
    (ho : st.opcode = I.opcode) (hr : st.rd = I.rd) (hs : I.opcode.straight = true) :
    src_in r st = true ↔ (I.opcode.writes_rd = true ∧ I.rd = r) := by
  have hc : r = I.rd ↔ I.rd = r := ⟨fun h => h.symm, fun h => h.symm⟩
  revert hs
  simp only [src_in, ho, hr]
  cases I.opcode <;> simp [Opcode.straight, Opcode.writes_rd, hc]

/-- Decode has to stall exactly when the LOAD in EX feeds the DRF instruction. -/
theorem stall_iff_B (hp : Prog code a0 N) (hd : a.d ≤ N) (c3 : APEX_CPU)
    (hi : is_ins c3.DRF (ins code a.d)) (hE : EXview code a0 a c3.EX) :
    stall c3 = blocked code a := by
  obtain ⟨i1, i2, i3, i4, i5, i6⟩ := hi
  unfold EXview at hE
  by_cases hoe : a.oe = true
  · rw [if_pos hoe] at hE
    obtain ⟨⟨e1, e2, -⟩, -⟩ := hE
    have hlt : a.ie < N := by
      simp only [Abs.d, Abs.ie, hoe, Bool.toNat_true] at hd ⊢; omega
    have hs := hp.2.1 _ hlt
    have k : ∀ r, src_in r c3.EX = (writes code a.ie r) := by
      intro r
      rw [Bool.eq_iff_iff, src_in_slot_B _ _ r e1 e2 hs]
      simp [writes]
    simp only [stall, load_use, k, i1, i3, i4, e1, blocked, hoe, feeds, writes, Bool.true_and]
    by_cases hL : (ins code a.ie).opcode = .LOAD
    · simp only [hL, decide_True, Bool.and_true, Opcode.writes_rd]
      simp
      by_cases x : (ins code a.d).opcode.reads_rs1 = true <;>
        by_cases y : (ins code a.d).opcode.reads_rs2 = true <;>
        simp [x, y, eq_comm]
    · simp [hL]
  · rw [if_neg hoe] at hE
    have hoe' : a.oe = false := by simpa using hoe
    have : ¬ c3.EX.opcode = .LOAD := by
      rcases hE with x | ⟨x, -⟩ <;> rw [x] <;> simp
    simp [stall, load_use, blocked, hoe', this]

/-- The value `get_source_values` forwards for a source of the DRF instruction is the value
the reference holds for it before that instruction. -/
theorem fwd_value_B (hp : Prog code a0 N) (hd : a.d ≤ N) (h0 : a0.regs 0 = 0) (c3 : APEX_CPU)
    (hr : c3.regs = (S code a0 a.im).regs)
    (hE : EXview code a0 a c3.EX) (hW : WBview code a0 a c3.WB)
    (hbl : blocked code a = false) (r : Int) (hn : needs code a.d r) :
    fwd c3 r = (S code a0 a.d).regs r := by
  unfold EXview at hE
  unfold WBview at hW
  have hie : a.ie ≤ a.d := by simp [Abs.d, Abs.ie]
  -- the WB latch
  have E2 : (S code a0 a.ie).regs r =
      if src_in r c3.WB = true then c3.WB.buffer else (S code a0 a.im).regs r := by
    by_cases hom : a.om = true
    · rw [if_pos hom] at hW
      obtain ⟨⟨e1, e2, -⟩, -, e3⟩ := hW
      have e : a.ie = a.im + 1 := by simp [Abs.ie, Abs.im, hom]
      have hlt : a.im < N := by omega
      rw [e, regs_succ code a0 a.im (hp.lt_length (Nat.le_of_lt hlt)) r]
      have k : src_in r c3.WB = true ↔ writes code a.im r = true := by
        rw [src_in_slot_B _ _ r e1 e2 (hp.2.1 _ hlt)]
        simp [writes]
      by_cases hw : writes code a.im r = true
      · rw [if_pos hw, if_pos (k.2 hw)]
        have : (ins code a.im).opcode.writes_rd = true := by
          simp only [writes, Bool.and_eq_true] at hw; exact hw.1
        exact (e3 this).symm
      · rw [if_neg hw, if_neg (fun x => hw (k.1 x))]
    · rw [if_neg hom] at hW
      have e : a.ie = a.im := by simp [Abs.ie, Abs.im, hom]
      rw [e]
      rcases hW with x | ⟨⟨x1, -, x3, x4⟩, x5, x6⟩
      · have : src_in r c3.WB = false := by simp [src_in, x]
        rw [this]; simp
      · by_cases hr0 : r = 0
        · have : src_in r c3.WB = true := by simp [src_in, x1, x3, hr0]
          rw [if_pos this, x4, hr0]
          have : a.im = 0 := by simp [Abs.im, x5, x6]
          rw [this, S_zero, h0]
        · have : src_in r c3.WB = false := by simp [src_in, x3, hr0]
          rw [this]; simp
  -- the EX latch
  have E1 : (S code a0 a.d).regs r =
      if src_in r c3.EX = true then c3.EX.buffer else (S code a0 a.ie).regs r := by
    by_cases hoe : a.oe = true
    · rw [if_pos hoe] at hE
      obtain ⟨⟨e1, e2, -⟩, e3⟩ := hE
      have e : a.d = a.ie + 1 := by simp [Abs.d, Abs.ie, hoe]
      have hlt : a.ie < N := by omega
      rw [e, regs_succ code a0 a.ie (hp.lt_length (Nat.le_of_lt hlt)) r]
      have k : src_in r c3.EX = true ↔ writes code a.ie r = true := by
        rw [src_in_slot_B _ _ r e1 e2 (hp.2.1 _ hlt)]
        simp [writes]
      by_cases hw : writes code a.ie r = true
      · rw [if_pos hw, if_pos (k.2 hw)]
        have hwr : (ins code a.ie).opcode.writes_rd = true := by
          simp only [writes, Bool.and_eq_true] at hw; exact hw.1
        have hf : feeds code a.ie a.d = true := by
          rw [feeds_iff]
          rcases hn with ⟨p, q⟩ | ⟨p, q⟩
          · exact Or.inl ⟨p, by rw [q]; exact hw⟩
          · exact Or.inr ⟨p, by rw [q]; exact hw⟩
        have hnl : (ins code a.ie).opcode ≠ .LOAD := by
          intro hL
          simp [blocked, hoe, hL, hf] at hbl
        exact (e3 hwr hnl).symm
      · rw [if_neg hw, if_neg (fun x => hw (k.1 x))]
    · rw [if_neg hoe] at hE
      have e : a.d = a.ie := by simp [Abs.d, Abs.ie, hoe]
      rw [e]
      rcases hE with x | ⟨x1, x3, x4, x5, x6, x7⟩
      · have : src_in r c3.EX = false := by simp [src_in, x]
        rw [this]; simp
      · by_cases hr0 : r = 0
        · have : src_in r c3.EX = true := by simp [src_in, x1, x3, hr0]
          rw [if_pos this, x4, hr0]
          have : a.ie = 0 := by simp [Abs.ie, x5, x6, x7]
          rw [this, S_zero, h0]
        · have : src_in r c3.EX = false := by simp [src_in, x3, hr0]
          rw [this]; simp
  rw [E1, E2, ← hr]
  rfl

/-- The source values Decode resolves by forwarding are those of the reference. -/
theorem DRF_read_InEX_B (hp : Prog code a0 N) (hd : a.d ≤ N) (h0 : a0.regs 0 = 0)
    (c3 : APEX_CPU) (hi : is_ins c3.DRF (ins code a.d)) (hr : c3.regs = (S code a0 a.im).regs)
    (hE : EXview code a0 a c3.EX) (hW : WBview code a0 a c3.WB)
    (hbl : blocked code a = false) (st : Bool) :
    InEX code a0 a.d { DRF_read c3 with stalled := st } := by
  have hst : stall c3 = false := by rw [stall_iff_B hp hd c3 hi hE, hbl]
  obtain ⟨i1, i2, i3, i4, i5, i6⟩ := hi
  have hlu : ∀ r, needs code a.d r → load_use c3 r = false := by
    intro r hn
    simp only [stall, Bool.or_eq_false_iff, Bool.and_eq_false_iff, i1, i3, i4] at hst
    rcases hn with ⟨p, q⟩ | ⟨p, q⟩
    · rcases hst.1 with x | x
      · rw [p] at x; cases x
      · rw [← q]; exact x
    · rcases hst.2 with x | x
      · rw [p] at x; cases x
      · rw [← q]; exact x
  refine ⟨⟨i1, i2, i3, i4, i5, i6⟩, fun x => ?_, fun x => ?_⟩
  · show (if c3.DRF.opcode.reads_rs1 = true ∧ load_use c3 c3.DRF.rs1 = false
      then fwd c3 c3.DRF.rs1 else c3.DRF.rs1_value) = _
    rw [i1, i3, if_pos ⟨x, hlu _ (Or.inl ⟨x, rfl⟩)⟩]
    exact fwd_value_B hp hd h0 c3 hr hE hW hbl _ (Or.inl ⟨x, rfl⟩)
  · show (if c3.DRF.opcode.reads_rs2 = true ∧ load_use c3 c3.DRF.rs2 = false
      then fwd c3 c3.DRF.rs2 else c3.DRF.rs2_value) = _
    rw [i1, i4, if_pos ⟨x, hlu _ (Or.inr ⟨x, rfl⟩)⟩]
    exact fwd_value_B hp hd h0 c3 hr hE hW hbl _ (Or.inr ⟨x, rfl⟩)

end PartB


namespace PartA
open APEX

variable {code : List APEX_Instruction} {a0 : Arch} {n : Int} {N : Nat} {a : Abs}
  {s : APEX_CPU}

/-- Decode in the first Execute cycle of a MUL: nothing happens. -/
theorem rel_decode_phase1 (h : Core code a0 n N a s) (hd : a.d ≤ N)
    (c3 : APEX_CPU) (hx : AfterEX code a0 a s c3)
    (hv : ∀ r, c3.regs_valid r = true ↔
      ¬ ((a.om = true ∧ writes code a.im r = true) ∨
         (a.oe = true ∧ writes code a.ie r = true)))
    (hph : a.phase1 code = true) :
    AfterDE code a0 N (next code a) s c3 (decode c3) ∧
    (∀ r, (decode c3).regs_valid r = true ↔ ¬ writer_in_flight code (next code a) r) := by
  have hoe : a.oe = true := by
    simp only [Abs.phase1, Bool.and_eq_true] at hph; exact hph.1.1
  have hM : (ins code a.ie).opcode = .MUL := by
    simp only [Abs.phase1, Bool.and_eq_true, decide_eq_true_eq] at hph; exact hph.1.2
  have hex := h.ex
  rw [if_pos hoe] at hex
  have es : c3.EX.stalled = true := by rw [hx.ex_stalled, hph]
  have ds : c3.DRF.stalled = true := by rw [hx.drf_stalled, hph]; rfl
  have hdec : decode c3 = c3 := decode_idle c3 (Or.inr ds) (Or.inr (Or.inr es))
  rw [hdec]
  obtain ⟨n1, n2, n3, n4, n5⟩ := next_phase1 hph
  constructor
  · refine
      { ex := ?_, drf_ins := hx.drf_ins, drf_stalled := ?_, f_ins := ?_, f_stalled := ?_,
        regs_eq := rfl, mem_eq := rfl, z_eq := rfl, MEM_eq := rfl, WB_eq := rfl, pc_eq := rfl,
        code_eq := rfl, out_eq := rfl }
    · rw [if_pos n2, n4]
      refine ⟨InEX_same hex.1 hx.ex_ins hx.ex_vals.1 hx.ex_vals.2, ?_, fun _ => ⟨hM, ?_, n1⟩⟩
      · rw [es, n3]; rfl
      · exact hx.ex_buf hoe (by simp [hM, Opcode.writes_rd]) (by simp [hM])
    · rw [ds, n3]; rfl
    · rw [hx.f_eq]; exact same_ins_refl _
    · rw [hx.f_eq, n5]
      have : ¬ a.d = N + 1 := by omega
      simp [this]
  · intro r
    rw [hv r]
    simp only [writer_in_flight, next_w, next_ow, next_im, n1, n2, n4, hoe, true_and,
      Bool.false_eq_true, false_and, false_or]

theorem blocked_reads (hp : Prog code a0 N) (hd : a.d ≤ N) (hbl : blocked code a = true) :
    (ins code a.d).opcode.reads_rs1 = true ∧ a.d < N ∧ (a.om = true ∨ a.oe = true) := by
  have hf : ∃ i, feeds code i a.d = true ∧ (a.om = true ∨ a.oe = true) := by
    simp only [blocked, Bool.or_eq_true, Bool.and_eq_true] at hbl
    rcases hbl with ⟨x, y⟩ | ⟨x, y⟩
    · exact ⟨_, y, Or.inl x⟩
    · exact ⟨_, y, Or.inr x⟩
  obtain ⟨i, hf, ho⟩ := hf
  have hr : (ins code a.d).opcode.reads_rs1 = true := by
    rcases (feeds_iff i a.d).1 hf with ⟨x, -⟩ | ⟨x, -⟩
    · exact x
    · exact reads_rs2_rs1 _ x
  refine ⟨hr, ?_, ho⟩
  rcases Nat.lt_or_ge a.d N with h1 | h1
  · exact h1
  · have : a.d = N := by omega
    rw [this, hp.2.2.1] at hr
    simp [Opcode.reads_rs1] at hr

/-- Decode when a source of the DRF instruction is not valid: the instruction stays. -/
theorem rel_decode_blocked (hp : Prog code a0 N) (h : Core code a0 n N a s) (hd : a.d ≤ N)
    (c3 : APEX_CPU) (hx : AfterEX code a0 a s c3)
    (hv : ∀ r, c3.regs_valid r = true ↔
      ¬ ((a.om = true ∧ writes code a.im r = true) ∨
         (a.oe = true ∧ writes code a.ie r = true)))
    (hC : c3.ENABLE_COUNTING = false)
    (hph : a.phase1 code = false) (hbl : blocked code a = true) :
    AfterDE code a0 N (next code a) s c3 (decode c3) ∧
    (∀ r, (decode c3).regs_valid r = true ↔ ¬ writer_in_flight code (next code a) r) := by
  obtain ⟨n1, n2, n3, n4, n5⟩ := next_blocked hph hbl
  obtain ⟨hr1, hdN, hocc⟩ := blocked_reads hp hd hbl
  have hdi : is_ins c3.DRF (ins code a.d) := is_ins_same (h.drf hd).1 hx.drf_ins
  have hnr : ¬ ready c3 = true := by
    rw [ready_iff hp hd c3 hdi hv, hbl]; simp
  have es : c3.EX.stalled = false := by rw [hx.ex_stalled, hph]
  have hneH : c3.DRF.opcode ≠ .HALT := by
    rw [hdi.1]; exact (hp.opcode hd).2.2.2.2.2 hdN
  have hnd : ¬ a.d = N + 1 := by omega
  -- the EX latch is not the one the initialiser left
  have hexb : s.EX.busy = false := by
    have hex := h.ex
    by_cases hoe : a.oe = true
    · rw [if_pos hoe] at hex; exact hex.1.1.2.2.2.2.2
    · rw [if_neg hoe] at hex
      rcases hex.1.2 with ⟨-, x⟩ | ⟨-, -, -, -, -, -, x, -⟩
      · exact x
      · rcases hocc with y | y
        · rw [x] at y; cases y
        · exact absurd y hoe
  have key : ∃ c4, decode c3 = c4 ∧ c4.regs_valid = c3.regs_valid ∧
      c4.EX.stalled = false ∧ c4.EX.opcode = .BUBBLE ∧ c4.EX.busy = false ∧
      same_ins c3.DRF c4.DRF ∧ c4.DRF.stalled = true ∧ c4.F = c3.F ∧
      c4.regs = c3.regs ∧ c4.data_memory = c3.data_memory ∧ c4.z_flag = c3.z_flag ∧
      c4.MEM = c3.MEM ∧ c4.WB = c3.WB ∧ c4.pc = c3.pc ∧ c4.code_memory = c3.code_memory ∧
      c4.outside = c3.outside := by
    by_cases hm : a.mode = .wait
    · have ds : c3.DRF.stalled = true := by rw [hx.drf_stalled, hph]; simp [hm]
      have hoe : a.oe = false := (h.waiting hm).1
      have hex := h.ex
      rw [if_neg (by simp [hoe])] at hex
      have hbub : s.EX.opcode = .BUBBLE := by
        rcases hex.1.2 with ⟨x, -⟩ | ⟨-, -, -, -, -, -, x, -⟩
        · exact x
        · rcases hocc with y | y
          · rw [x] at y; cases y
          · rw [hoe] at y; cases y
      refine ⟨_, decode_retry c3 ds hneH es hC, ?_⟩
      rw [if_neg (fun x => hnr x.1)]
      exact ⟨rfl, es, by rw [hx.ex_ins.1, hbub], by rw [hx.ex_ins.2.2.2.2.2, hexb],
        same_ins_refl _, ds, rfl, rfl, rfl, rfl, rfl, rfl, rfl, rfl, rfl⟩
    · have ds : c3.DRF.stalled = false := by rw [hx.drf_stalled, hph]; simp [hm]
      refine ⟨_, decode_live c3 hdi.2.2.2.2.2 ds, ?_⟩
      rw [if_neg hnr]
      exact ⟨rfl, es, rfl, by
        show c3.EX.busy = false
        rw [hx.ex_ins.2.2.2.2.2, hexb], ⟨rfl, rfl, rfl, rfl, rfl, rfl⟩, rfl, rfl, rfl, rfl,
        rfl, rfl, rfl, rfl, rfl, rfl⟩
  obtain ⟨c4, e4, k1, k2, k3, k4, k5, k6, k7, k8, k9, k10, k11, k12, k13, k14, k15⟩ := key
  rw [e4]
  constructor
  · refine
      { ex := ?_, drf_ins := ?_, drf_stalled := ?_, f_ins := ?_, f_stalled := ?_,
        regs_eq := k8, mem_eq := k9, z_eq := k10, MEM_eq := k11, WB_eq := k12, pc_eq := k13,
        code_eq := k14, out_eq := k15 }
    · rw [if_neg (by rw [n2]; simp)]
      exact ⟨⟨k2, k3, k4⟩, by rw [n3]; simp⟩
    · obtain ⟨p1, p2, p3, p4, p5, p6⟩ := hx.drf_ins
      obtain ⟨q1, q2, q3, q4, q5, q6⟩ := k5
      exact ⟨by rw [q1, p1], by rw [q2, p2], by rw [q3, p3], by rw [q4, p4], by rw [q5, p5],
        by rw [q6, p6]⟩
    · rw [k6, n3]; rfl
    · rw [k7, hx.f_eq]; exact same_ins_refl _
    · rw [k7, hx.f_eq, n5]
      simp [hnd]
  · intro r
    rw [k1, hv r]
    simp only [writer_in_flight, next_w, next_ow, next_im, n1, n2, n4,
      Bool.false_eq_true, false_and, or_false]

/-- Decode when every source of the DRF instruction is valid: the instruction goes to EX with
the reference values of its sources, and its destination is marked invalid. -/
theorem rel_decode_promote (hp : Prog code a0 N) (h : Core code a0 n N a s) (hd : a.d ≤ N)
    (c3 : APEX_CPU) (hx : AfterEX code a0 a s c3)
    (hregs : c3.regs = (S code a0 a.im).regs)
    (hv : ∀ r, c3.regs_valid r = true ↔
      ¬ ((a.om = true ∧ writes code a.im r = true) ∨
         (a.oe = true ∧ writes code a.ie r = true)))
    (hC : c3.ENABLE_COUNTING = false)
    (hph : a.phase1 code = false) (hbl : blocked code a = false) :
    AfterDE code a0 N (next code a) s c3 (decode c3) ∧
    (∀ r, (decode c3).regs_valid r = true ↔ ¬ writer_in_flight code (next code a) r) := by
  obtain ⟨n1, n2, n3, n4, n5⟩ := next_promote hph hbl
  have hdi : is_ins c3.DRF (ins code a.d) := is_ins_same (h.drf hd).1 hx.drf_ins
  have hr : ready c3 = true := by
    rw [ready_iff hp hd c3 hdi hv, hbl]
  have es : c3.EX.stalled = false := by rw [hx.ex_stalled, hph]
  have hH : c3.DRF.opcode = .HALT ↔ a.d = N := by rw [hdi.1]; exact halt_iff hp hd
  have key : ∃ c4, decode c3 = c4 ∧
      c4.regs_valid = (if c3.DRF.opcode.writes_rd = true
        then write c3.regs_valid c3.DRF.rd false else c3.regs_valid) ∧
      c4.EX = { DRF_read c3 with stalled := false } ∧
      same_ins c3.DRF c4.DRF ∧ c4.DRF.stalled = decide (a.d = N) ∧
      same_ins c3.F c4.F ∧ c4.F.stalled = (c3.F.stalled || decide (a.d = N)) ∧
      c4.regs = c3.regs ∧ c4.data_memory = c3.data_memory ∧ c4.z_flag = c3.z_flag ∧
      c4.MEM = c3.MEM ∧ c4.WB = c3.WB ∧ c4.pc = c3.pc ∧ c4.code_memory = c3.code_memory ∧
      c4.outside = c3.outside := by
    by_cases hm : a.mode = .wait
    · have ds : c3.DRF.stalled = true := by rw [hx.drf_stalled, hph]; simp [hm]
      obtain ⟨-, w2, w3⟩ := h.waiting hm
      have hneH : c3.DRF.opcode ≠ .HALT := by
        rw [hdi.1]; exact (hp.opcode hd).2.2.2.2.2 w3
      have hnN : ¬ a.d = N := by omega
      refine ⟨_, decode_retry c3 ds hneH es hC, ?_⟩
      rw [if_pos ⟨hr, Or.inl (by rw [hdi.1]; exact w2)⟩]
      refine ⟨rfl, rfl, ⟨rfl, rfl, rfl, rfl, rfl, rfl⟩, ?_, same_ins_refl _, ?_, rfl, rfl, rfl,
        rfl, rfl, rfl, rfl, rfl⟩
      · simp [hnN]
      · simp [hnN]
    · have ds : c3.DRF.stalled = false := by rw [hx.drf_stalled, hph]; simp [hm]
      refine ⟨_, decode_live c3 hdi.2.2.2.2.2 ds, ?_⟩
      rw [if_pos hr]
      refine ⟨rfl, ?_, ⟨rfl, rfl, rfl, rfl, rfl, rfl⟩, ?_, ⟨rfl, rfl, rfl, rfl, rfl, rfl⟩, ?_,
        rfl, rfl, rfl, rfl, rfl, rfl, rfl, rfl⟩
      · show DRF_read c3 = { DRF_read c3 with stalled := false }
        have : (DRF_read c3).stalled = false := ds
        rw [← this]
      · show decide (c3.DRF.opcode = .HALT) = decide (a.d = N)
        simp only [hH]
      · show (c3.F.stalled || decide (c3.DRF.opcode = .HALT)) = _
        simp only [hH]
  obtain ⟨c4, e4, k1, k2, k5, k6, k7, k7b, k8, k9, k10, k11, k12, k13, k14, k15⟩ := key
  rw [e4]
  have hdN1 : decide (a.d + 1 = N + 1) = decide (a.d = N) := by simp
  constructor
  · refine
      { ex := ?_, drf_ins := ?_, drf_stalled := ?_, f_ins := ?_, f_stalled := ?_,
        regs_eq := k8, mem_eq := k9, z_eq := k10, MEM_eq := k11, WB_eq := k12, pc_eq := k13,
        code_eq := k14, out_eq := k15 }
    · rw [if_pos n2, n4, k2]
      refine ⟨DRF_read_InEX hp h.bound c3 hdi hregs hbl false, ?_, fun x => ?_⟩
      · rw [n3]; rfl
      · rw [n3] at x; cases x
    · obtain ⟨p1, p2, p3, p4, p5, p6⟩ := hx.drf_ins
      obtain ⟨q1, q2, q3, q4, q5, q6⟩ := k5
      exact ⟨by rw [q1, p1], by rw [q2, p2], by rw [q3, p3], by rw [q4, p4], by rw [q5, p5],
        by rw [q6, p6]⟩
    · rw [k6, n3, n5, hdN1]; simp
    · obtain ⟨q1, q2, q3, q4, q5, q6⟩ := k7
      rw [hx.f_eq] at q1 q2 q3 q4 q5 q6
      exact ⟨q1, q2, q3, q4, q5, q6⟩
    · rw [k7b, hx.f_eq, n5, hdN1]
  · intro r
    rw [k1]
    simp only [writer_in_flight, next_w, next_ow, next_im, n1, n2, n4, true_and]
    have hwd : writes code a.d r = true ↔ (c3.DRF.opcode.writes_rd = true ∧ c3.DRF.rd = r) := by
      simp only [writes, hdi.1, hdi.2.1, Bool.and_eq_true, decide_eq_true_eq]
    by_cases hw : c3.DRF.opcode.writes_rd = true
    · rw [if_pos hw]
      by_cases hrd : r = c3.DRF.rd
      · subst hrd
        simp only [write, if_true, Bool.false_eq_true, false_iff, not_not]
        exact Or.inr (Or.inr (hwd.2 ⟨hw, rfl⟩))
      · have : ¬ writes code a.d r = true := fun x => hrd ((hwd.1 x).2).symm
        simp only [write, hrd, if_false]
        rw [hv r]
        constructor
        · rintro x (y | y | y)
          · exact x (Or.inl y)
          · exact x (Or.inr y)
          · exact this y
        · rintro x (y | y)
          · exact x (Or.inl y)
          · exact x (Or.inr (Or.inl y))
    · rw [if_neg hw, hv r]
      have : ¬ writes code a.d r = true := fun x => hw (hwd.1 x).1
      constructor
      · rintro x (y | y | y)
        · exact x (Or.inl y)
        · exact x (Or.inr y)
        · exact this y
      · rintro x (y | y)
        · exact x (Or.inl y)
        · exact x (Or.inr (Or.inl y))

end PartA


namespace PartB
open APEX

variable {code : List APEX_Instruction} {a0 : Arch} {n : Int} {N : Nat} {a : Abs}
  {s : APEX_CPU}

/-- The EX latch after Execute, as forwarding sees it. -/
theorem exview_after_EX_B (h : Core code a0 n N a s) (c3 : APEX_CPU)
    (hx : AfterEX code a0 a s c3) : EXview code a0 a c3.EX := by
  unfold EXview
  have hex := h.ex
  by_cases hoe : a.oe = true
  · rw [if_pos hoe] at hex ⊢
    exact ⟨is_ins_same hex.1.1 hx.ex_ins, hx.ex_buf hoe⟩
  · rw [if_neg hoe] at hex ⊢
    have hb := hx.ex_buf0 (by simpa using hoe)
    obtain ⟨q1, q2, -⟩ := hx.ex_ins
    rcases hex.1.2 with ⟨x, -⟩ | ⟨x1, -, x3, x4, x5, x6, x7, -⟩
    · exact Or.inl (by rw [q1, x])
    · exact Or.inr ⟨by rw [q1, x1], by rw [q2, x3], by rw [hb, x4], x5, x6, x7⟩

/-- Decode in the first Execute cycle of a MUL: nothing happens. -/
theorem rel_decode_phase1_B (h : Core code a0 n N a s) (hd : a.d ≤ N)
    (c3 : APEX_CPU) (hx : AfterEX code a0 a s c3) (hph : a.phase1 code = true) :
    AfterDE code a0 N (next code a) s c3 (decode c3) := by
  have hoe : a.oe = true := by
    simp only [Abs.phase1, Bool.and_eq_true] at hph; exact hph.1.1
  have hM : (ins code a.ie).opcode = .MUL := by
    simp only [Abs.phase1, Bool.and_eq_true, decide_eq_true_eq] at hph; exact hph.1.2
  have hex := h.ex
  rw [if_pos hoe] at hex
  have es : c3.EX.stalled = true := by rw [hx.ex_stalled, hph]
  have ds : c3.DRF.stalled = true := by rw [hx.drf_stalled, hph]; rfl
  have hdec : decode c3 = c3 := decode_idle_B c3 (Or.inr ds) (Or.inr (Or.inr es))
  rw [hdec]
  obtain ⟨n1, n2, n3, n4, n5⟩ := next_phase1_B hph
  refine
    { ex := ?_, drf_ins := hx.drf_ins, drf_stalled := ?_, f_ins := ?_, f_stalled := ?_,
      regs_eq := rfl, mem_eq := rfl, z_eq := rfl, MEM_eq := rfl, WB_eq := rfl, pc_eq := rfl,
      code_eq := rfl, out_eq := rfl }
  · rw [if_pos n2, n4]
    refine ⟨InEX_same hex.1 hx.ex_ins hx.ex_vals.1 hx.ex_vals.2, ?_, fun _ => ⟨hM, ?_, n1⟩⟩
    · rw [es, n3]; rfl
    · exact hx.ex_buf hoe (by simp [hM, Opcode.writes_rd]) (by simp [hM])
  · rw [ds, n3]; rfl
  · rw [hx.f_eq]; exact same_ins_refl _
  · rw [hx.f_eq, n5]
    have : ¬ a.d = N + 1 := by omega
    simp [this]

theorem blocked_reads_B (hp : Prog code a0 N) (hd : a.d ≤ N) (hbl : blocked code a = true) :
    (ins code a.d).opcode.reads_rs1 = true ∧ a.d < N ∧ a.oe = true := by
  simp only [blocked, Bool.and_eq_true] at hbl
  obtain ⟨⟨hoe, -⟩, hf⟩ := hbl
  have hr : (ins code a.d).opcode.reads_rs1 = true := by
    rcases (feeds_iff a.ie a.d).1 hf with ⟨x, -⟩ | ⟨x, -⟩
    · exact x
    · exact reads_rs2_rs1 _ x
  refine ⟨hr, ?_, hoe⟩
  rcases Nat.lt_or_ge a.d N with h1 | h1
  · exact h1
  · have : a.d = N := by omega
    rw [this, hp.2.2.1] at hr
    simp [Opcode.reads_rs1] at hr

/-- Decode when the LOAD in EX feeds the DRF instruction: the instruction stays, and a bubble
goes to EX. -/
theorem rel_decode_blocked_B (hp : Prog code a0 N) (h : Core code a0 n N a s) (hd : a.d ≤ N)
    (c3 : APEX_CPU) (hx : AfterEX code a0 a s c3)
    (hph : a.phase1 code = false) (hbl : blocked code a = true) :
    AfterDE code a0 N (next code a) s c3 (decode c3) := by
  obtain ⟨n1, n2, n3, n4, n5⟩ := next_blocked_B hph hbl
  obtain ⟨hr1, hdN, hoe⟩ := blocked_reads_B hp hd hbl
  have hdi : is_ins c3.DRF (ins code a.d) := is_ins_same (h.drf hd).1 hx.drf_ins
  have hst : stall c3 = true := by
    rw [stall_iff_B hp hd c3 hdi (exview_after_EX_B h c3 hx), hbl]
  have es : c3.EX.stalled = false := by rw [hx.ex_stalled, hph]
  have hneH : ¬ c3.DRF.opcode = .HALT := by
    rw [hdi.1]; exact (hp.opcode hd).2.2.2.2.2 hdN
  have hnd : ¬ a.d = N + 1 := by omega
  have hexb : s.EX.busy = false := by
    have hex := h.ex
    rw [if_pos hoe] at hex; exact hex.1.1.2.2.2.2.2
  have hm : ¬ a.mode = .wait := by
    intro hm
    have := (h.waiting hm).1
    rw [hoe] at this; cases this
  have ds : c3.DRF.stalled = false := by rw [hx.drf_stalled, hph]; simp [hm]
  rw [decode_live_B c3 hdi.2.2.2.2.2 ds]
  simp only [hst, if_true, Bool.true_or]
  refine
    { ex := ?_, drf_ins := ?_, drf_stalled := ?_, f_ins := ?_, f_stalled := ?_,
      regs_eq := rfl, mem_eq := rfl, z_eq := rfl, MEM_eq := rfl, WB_eq := rfl, pc_eq := rfl,
      code_eq := rfl, out_eq := rfl }
  · rw [if_neg (by rw [n2]; simp)]
    refine ⟨⟨es, rfl, ?_⟩, by rw [n3]; simp⟩
    show c3.EX.busy = false
    rw [hx.ex_ins.2.2.2.2.2, hexb]
  · obtain ⟨p1, p2, p3, p4, p5, p6⟩ := hx.drf_ins
    exact ⟨p1, p2, p3, p4, p5, p6⟩
  · show true = _
    rw [n3]; rfl
  · show same_ins s.F { c3.F with stalled := _ }
    rw [hx.f_eq]; exact ⟨rfl, rfl, rfl, rfl, rfl, rfl⟩
  · show (c3.F.stalled || decide (c3.DRF.opcode = .HALT)) = _
    rw [hx.f_eq, n5]
    simp [hnd, hneH]

/-- Decode when no LOAD in EX feeds the DRF instruction: the instruction goes to EX with the
reference values of its sources. -/
theorem rel_decode_promote_B (hp : Prog code a0 N) (h : Core code a0 n N a s) (hd : a.d ≤ N)
    (h0 : a0.regs 0 = 0) (c3 : APEX_CPU) (hx : AfterEX code a0 a s c3)
    (hregs : c3.regs = (S code a0 a.im).regs) (hW : WBview code a0 a c3.WB)
    (hC : c3.ENABLE_COUNTING = false)
    (hph : a.phase1 code = false) (hbl : blocked code a = false) :
    AfterDE code a0 N (next code a) s c3 (decode c3) := by
  obtain ⟨n1, n2, n3, n4, n5⟩ := next_promote_B hph hbl
  have hdi : is_ins c3.DRF (ins code a.d) := is_ins_same (h.drf hd).1 hx.drf_ins
  have hE := exview_after_EX_B h c3 hx
  have hst : stall c3 = false := by rw [stall_iff_B hp hd c3 hdi hE, hbl]
  have es : c3.EX.stalled = false := by rw [hx.ex_stalled, hph]
  have hH : c3.DRF.opcode = .HALT ↔ a.d = N := by rw [hdi.1]; exact halt_iff hp hd
  have key : ∃ c4, decode c3 = c4 ∧
      c4.EX = { DRF_read c3 with stalled := false } ∧
      same_ins c3.DRF c4.DRF ∧ c4.DRF.stalled = decide (a.d = N) ∧
      same_ins c3.F c4.F ∧ c4.F.stalled = (c3.F.stalled || decide (a.d = N)) ∧
      c4.regs = c3.regs ∧ c4.data_memory = c3.data_memory ∧ c4.z_flag = c3.z_flag ∧
      c4.MEM = c3.MEM ∧ c4.WB = c3.WB ∧ c4.pc = c3.pc ∧ c4.code_memory = c3.code_memory ∧
      c4.outside = c3.outside := by
    by_cases hm : a.mode = .wait
    · have ds : c3.DRF.stalled = true := by rw [hx.drf_stalled, hph]; simp [hm]
      obtain ⟨-, w2, w3⟩ := h.waiting hm
      have hneH : c3.DRF.opcode ≠ .HALT := by
        rw [hdi.1]; exact (hp.opcode hd).2.2.2.2.2 w3
      have hnN : ¬ a.d = N := by omega
      refine ⟨_, decode_retry_B c3 ds hneH es hC, ?_⟩
      rw [if_pos (by rw [hdi.1]; exact w2)]
      refine ⟨rfl, ⟨rfl, rfl, rfl, rfl, rfl, rfl⟩, ?_, same_ins_refl _, ?_, rfl, rfl, rfl,
        rfl, rfl, rfl, rfl, rfl⟩
      · simp [hnN]
      · simp [hnN]
    · have ds : c3.DRF.stalled = false := by rw [hx.drf_stalled, hph]; simp [hm]
      refine ⟨_, decode_live_B c3 hdi.2.2.2.2.2 ds, ?_⟩
      rw [hst]
      refine ⟨?_, ⟨rfl, rfl, rfl, rfl, rfl, rfl⟩, ?_, ⟨rfl, rfl, rfl, rfl, rfl, rfl⟩, ?_,
        rfl, rfl, rfl, rfl, rfl, rfl, rfl, rfl⟩
      · show DRF_read c3 = { DRF_read c3 with stalled := false }
        have : (DRF_read c3).stalled = false := ds
        rw [← this]
      · show decide (c3.DRF.opcode = .HALT) = decide (a.d = N)
        simp only [hH]
      · show (c3.F.stalled || decide (c3.DRF.opcode = .HALT)) = _
        simp only [hH]
  obtain ⟨c4, e4, k2, k5, k6, k7, k7b, k8, k9, k10, k11, k12, k13, k14, k15⟩ := key
  rw [e4]
  have hdN1 : decide (a.d + 1 = N + 1) = decide (a.d = N) := by simp
  refine
    { ex := ?_, drf_ins := ?_, drf_stalled := ?_, f_ins := ?_, f_stalled := ?_,
      regs_eq := k8, mem_eq := k9, z_eq := k10, MEM_eq := k11, WB_eq := k12, pc_eq := k13,
      code_eq := k14, out_eq := k15 }
  · rw [if_pos n2, n4, k2]
    refine ⟨DRF_read_InEX_B hp hd h0 c3 hdi hregs hE hW hbl false, ?_, fun x => ?_⟩
    · rw [n3]; rfl
    · rw [n3] at x; cases x
  · obtain ⟨p1, p2, p3, p4, p5, p6⟩ := hx.drf_ins
    obtain ⟨q1, q2, q3, q4, q5, q6⟩ := k5
    exact ⟨by rw [q1, p1], by rw [q2, p2], by rw [q3, p3], by rw [q4, p4], by rw [q5, p5],
      by rw [q6, p6]⟩
  · rw [k6, n3, n5, hdN1]; simp
  · obtain ⟨q1, q2, q3, q4, q5, q6⟩ := k7
    rw [hx.f_eq] at q1 q2 q3 q4 q5 q6
    exact ⟨q1, q2, q3, q4, q5, q6⟩
  · rw [k7b, hx.f_eq, n5, hdN1]

end PartB


namespace PartA
open APEX

variable {code : List APEX_Instruction} {a0 : Arch} {n : Int} {N : Nat} {a : Abs}
  {s : APEX_CPU}

/-- Fetch touches neither the architectural state nor the later latches. -/
theorem fetch_arch (c : APEX_CPU) :
    (fetch c).regs = c.regs ∧ (fetch c).regs_valid = c.regs_valid ∧
    (fetch c).data_memory = c.data_memory ∧ (fetch c).z_flag = c.z_flag ∧
    (fetch c).EX = c.EX ∧ (fetch c).MEM = c.MEM ∧ (fetch c).WB = c.WB ∧
    (fetch c).code_memory = c.code_memory ∧ (fetch c).ENABLE_COUNTING = c.ENABLE_COUNTING ∧
    (fetch c).clock = c.clock ∧ (fetch c).F.busy = c.F.busy ∧
    (c.WB.opcode ≠ .HALT → (fetch c).code_memory_size = c.code_memory_size) := by
  cases hl : c.F.ctl.live
  · rw [fetch_stalled c ((live_false_iff _).1 hl)]
    refine ⟨rfl, rfl, rfl, rfl, rfl, rfl, rfl, rfl, rfl, rfl, rfl, fun h => ?_⟩
    simp [h]
  · obtain ⟨hb, hs⟩ := (live_true_iff _).1 hl
    rw [fetch_live c hb hs]
    exact ⟨rfl, rfl, rfl, rfl, rfl, rfl, rfl, rfl, rfl, rfl, rfl, fun _ => rfl⟩

theorem fetch_fields_live (c : APEX_CPU) (hb : c.F.busy = false) (hs : c.F.stalled = false) :
    (fetch c).pc = c.pc + 4 ∧
    ∃ z, (fetch c).F = { fetched c z with stalled := c.DRF.stalled } ∧
      (fetch c).DRF = if c.DRF.stalled = true then c.DRF else fetched c z := by
  rw [fetch_live c hb hs]
  exact ⟨rfl, _, rfl, rfl⟩

theorem fetch_fields_stalled (c : APEX_CPU) (hs : c.F.stalled = true) :
    (fetch c).pc = c.pc ∧
    (fetch c).F = { c.F with
      stalled := if c.F.opcode = .BUBBLE ∨ (c.DRF.stalled = false ∧ c.DRF.opcode ≠ .BUBBLE)
                 then false else c.F.stalled } ∧
    (fetch c).DRF = if c.DRF.stalled = false ∧ c.DRF.opcode ≠ .BUBBLE
                    then { c.F with stalled := false } else c.DRF := by
  rw [fetch_stalled c (Or.inr hs)]
  exact ⟨rfl, rfl, rfl⟩

/-- Fetch behind a stalled DRF latch: DRF keeps its instruction and the F latch holds the
next one. -/
theorem fetch_hold (hp : Prog code a0 N) (c : APEX_CPU) (d : Nat)
    (hcode : c.code_memory = code) (hfb : c.F.busy = false) (hds : c.DRF.stalled = true) :
    (fetch c).DRF = c.DRF ∧
    (d < N →
      ((c.F.stalled = false ∧ c.pc = 4000 + 4 * ((d : Int) + 1)) ∨
       (c.F.stalled = true ∧ c.pc = 4000 + 4 * ((d : Int) + 2) ∧
         is_ins c.F (ins code (d + 1)))) →
      (fetch c).F.stalled = true ∧ (fetch c).pc = 4000 + 4 * ((d : Int) + 2) ∧
        is_ins (fetch c).F (ins code (d + 1))) := by
  by_cases hs : c.F.stalled = true
  · obtain ⟨e1, e2, e3⟩ := fetch_fields_stalled c hs
    rw [e1, e2, e3]
    refine ⟨by rw [if_neg (by rw [hds]; simp)], fun hd hm => ?_⟩
    rcases hm with ⟨x, -⟩ | ⟨-, hpc, hi⟩
    · rw [hs] at x; cases x
    · have hne : c.F.opcode ≠ .BUBBLE := by
        rw [hi.1]; exact (hp.opcode (by omega)).1
      refine ⟨?_, hpc, ?_⟩
      · show (if c.F.opcode = .BUBBLE ∨ (c.DRF.stalled = false ∧ c.DRF.opcode ≠ .BUBBLE)
          then false else c.F.stalled) = true
        rw [if_neg (by rw [hds]; simp [hne]), hs]
      · obtain ⟨i1, i2, i3, i4, i5, i6⟩ := hi
        exact ⟨i1, i2, i3, i4, i5, i6⟩
  · have hs' : c.F.stalled = false := by simpa using hs
    obtain ⟨e1, z, e2, e3⟩ := fetch_fields_live c hfb hs'
    rw [e1, e2, e3]
    refine ⟨by rw [if_pos hds], fun hd hm => ?_⟩
    rcases hm with ⟨-, hpc⟩ | ⟨x, -⟩
    · have hca := code_at_pc c code (d + 1) hcode (by have := hp.1.1; omega) hp.1.2
      have e : c.pc = 4000 + 4 * ((d + 1 : Nat) : Int) := by rw [hpc]; push_cast; ring
      rw [← e] at hca
      refine ⟨hds, by rw [hpc]; ring, ?_⟩
      simp only [is_ins, fetched, hca, hfb, and_self]
    · exact absurd x hs

/-- Fetch behind a DRF latch whose instruction Decode has just promoted: DRF receives the
next instruction. -/
theorem fetch_advance (hp : Prog code a0 N) (c : APEX_CPU) (d : Nat) (hd : d < N)
    (hcode : c.code_memory = code) (hfb : c.F.busy = false) (hds : c.DRF.stalled = false)
    (hdi : is_ins c.DRF (ins code d))
    (hm : (c.F.stalled = false ∧ c.pc = 4000 + 4 * ((d : Int) + 1)) ∨
       (c.F.stalled = true ∧ c.pc = 4000 + 4 * ((d : Int) + 2) ∧
         is_ins c.F (ins code (d + 1)))) :
    is_ins (fetch c).DRF (ins code (d + 1)) ∧ (fetch c).DRF.stalled = false ∧
    (fetch c).F.stalled = false ∧ (fetch c).pc = 4000 + 4 * ((d : Int) + 2) := by
  by_cases hs : c.F.stalled = true
  · obtain ⟨e1, e2, e3⟩ := fetch_fields_stalled c hs
    rw [e1, e2, e3]
    rcases hm with ⟨x, -⟩ | ⟨-, hpc, hi⟩
    · rw [hs] at x; cases x
    · have hne : c.DRF.opcode ≠ .BUBBLE := by
        rw [hdi.1]; exact (hp.opcode (by omega)).1
      have hc : c.DRF.stalled = false ∧ c.DRF.opcode ≠ .BUBBLE := ⟨hds, hne⟩
      obtain ⟨i1, i2, i3, i4, i5, i6⟩ := hi
      rw [if_pos hc]
      refine ⟨⟨i1, i2, i3, i4, i5, i6⟩, rfl, ?_, hpc⟩
      show (if c.F.opcode = .BUBBLE ∨ (c.DRF.stalled = false ∧ c.DRF.opcode ≠ .BUBBLE)
          then false else c.F.stalled) = false
      rw [if_pos (Or.inr hc)]
  · have hs' : c.F.stalled = false := by simpa using hs
    obtain ⟨e1, z, e2, e3⟩ := fetch_fields_live c hfb hs'
    rw [e1, e2, e3]
    rcases hm with ⟨-, hpc⟩ | ⟨x, -⟩
    · have hca := code_at_pc c code (d + 1) hcode (by have := hp.1.1; omega) hp.1.2
      have e : c.pc = 4000 + 4 * ((d + 1 : Nat) : Int) := by rw [hpc]; push_cast; ring
      rw [← e] at hca
      rw [if_neg (by rw [hds]; simp)]
      refine ⟨?_, hs', hds, by rw [hpc]; ring⟩
      simp only [is_ins, fetched, hca, hfb, and_self]
    · exact absurd x hs

end PartA


namespace PartB
open APEX

variable {code : List APEX_Instruction} {a0 : Arch} {n : Int} {N : Nat} {a : Abs}
  {s : APEX_CPU}

/-- Fetch touches neither the architectural state nor the later latches. -/
theorem fetch_arch_B (c : APEX_CPU) :
    (fetch c).regs = c.regs ∧ (fetch c).regs_valid = c.regs_valid ∧
    (fetch c).data_memory = c.data_memory ∧ (fetch c).z_flag = c.z_flag ∧
    (fetch c).EX = c.EX ∧ (fetch c).MEM = c.MEM ∧ (fetch c).WB = c.WB ∧
    (fetch c).code_memory = c.code_memory ∧ (fetch c).ENABLE_COUNTING = c.ENABLE_COUNTING ∧
    (fetch c).clock = c.clock ∧ (fetch c).F.busy = c.F.busy ∧
    (c.WB.opcode ≠ .HALT → (fetch c).code_memory_size = c.code_memory_size) := by
  cases hl : c.F.ctl.live
  · rw [fetch_stalled_B c ((live_false_iff _).1 hl)]
    refine ⟨rfl, rfl, rfl, rfl, rfl, rfl, rfl, rfl, rfl, rfl, rfl, fun h => ?_⟩
    simp [h]
  · obtain ⟨hb, hs⟩ := (live_true_iff _).1 hl
    rw [fetch_live_B c hb hs]
    exact ⟨rfl, rfl, rfl, rfl, rfl, rfl, rfl, rfl, rfl, rfl, rfl, fun _ => rfl⟩

theorem fetch_fields_live_B (c : APEX_CPU) (hb : c.F.busy = false) (hs : c.F.stalled = false) :
    (fetch c).pc = c.pc + 4 ∧
    ∃ z, (fetch c).F = { fetched c z with stalled := c.DRF.stalled } ∧
      (fetch c).DRF = if c.DRF.stalled = true then c.DRF else fetched c z := by
  rw [fetch_live_B c hb hs]
  exact ⟨rfl, _, rfl, rfl⟩

theorem fetch_fields_stalled_B (c : APEX_CPU) (hs : c.F.stalled = true) :
    (fetch c).pc = c.pc ∧
    (fetch c).F = { c.F with
      stalled := if c.F.opcode = .BUBBLE ∨ (c.DRF.stalled = false ∧ c.DRF.opcode ≠ .BUBBLE)
                 then false else c.F.stalled } ∧
    (fetch c).DRF = if c.DRF.stalled = false ∧ c.DRF.opcode ≠ .BUBBLE
                    then { c.F with stalled := false } else c.DRF := by
  rw [fetch_stalled_B c (Or.inr hs)]
  exact ⟨rfl, rfl, rfl⟩

/-- Fetch behind a stalled DRF latch: DRF keeps its instruction and the F latch holds the
next one. -/
theorem fetch_hold_B (hp : Prog code a0 N) (c : APEX_CPU) (d : Nat)
    (hcode : c.code_memory = code) (hfb : c.F.busy = false) (hds : c.DRF.stalled = true) :
    (fetch c).DRF = c.DRF ∧
    (d < N →
      ((c.F.stalled = false ∧ c.pc = 4000 + 4 * ((d : Int) + 1)) ∨
       (c.F.stalled = true ∧ c.pc = 4000 + 4 * ((d : Int) + 2) ∧
         is_ins c.F (ins code (d + 1)))) →
      (fetch c).F.stalled = true ∧ (fetch c).pc = 4000 + 4 * ((d : Int) + 2) ∧
        is_ins (fetch c).F (ins code (d + 1))) := by
  by_cases hs : c.F.stalled = true
  · obtain ⟨e1, e2, e3⟩ := fetch_fields_stalled_B c hs
    rw [e1, e2, e3]
    refine ⟨by rw [if_neg (by rw [hds]; simp)], fun hd hm => ?_⟩
    rcases hm with ⟨x, -⟩ | ⟨-, hpc, hi⟩
    · rw [hs] at x; cases x
    · have hne : c.F.opcode ≠ .BUBBLE := by
        rw [hi.1]; exact (hp.opcode (by omega)).1
      refine ⟨?_, hpc, ?_⟩
      · show (if c.F.opcode = .BUBBLE ∨ (c.DRF.stalled = false ∧ c.DRF.opcode ≠ .BUBBLE)
          then false else c.F.stalled) = true
        rw [if_neg (by rw [hds]; simp [hne]), hs]
      · obtain ⟨i1, i2, i3, i4, i5, i6⟩ := hi
        exact ⟨i1, i2, i3, i4, i5, i6⟩
  · have hs' : c.F.stalled = false := by simpa using hs
    obtain ⟨e1, z, e2, e3⟩ := fetch_fields_live_B c hfb hs'
    rw [e1, e2, e3]
    refine ⟨by rw [if_pos hds], fun hd hm => ?_⟩
    rcases hm with ⟨-, hpc⟩ | ⟨x, -⟩
    · have hca := code_at_pc c code (d + 1) hcode (by have := hp.1.1; omega) hp.1.2
      have e : c.pc = 4000 + 4 * ((d + 1 : Nat) : Int) := by rw [hpc]; push_cast; ring
      rw [← e] at hca
      refine ⟨hds, by rw [hpc]; ring, ?_⟩
      simp only [is_ins, fetched, hca, hfb, and_self]
    · exact absurd x hs

/-- Fetch behind a DRF latch whose instruction Decode has just promoted: DRF receives the
next instruction. -/
theorem fetch_advance_B (hp : Prog code a0 N) (c : APEX_CPU) (d : Nat) (hd : d < N)
    (hcode : c.code_memory = code) (hfb : c.F.busy = false) (hds : c.DRF.stalled = false)
    (hdi : is_ins c.DRF (ins code d))
    (hm : (c.F.stalled = false ∧ c.pc = 4000 + 4 * ((d : Int) + 1)) ∨
       (c.F.stalled = true ∧ c.pc = 4000 + 4 * ((d : Int) + 2) ∧
         is_ins c.F (ins code (d + 1)))) :
    is_ins (fetch c).DRF (ins code (d + 1)) ∧ (fetch c).DRF.stalled = false ∧
    (fetch c).F.stalled = false ∧ (fetch c).pc = 4000 + 4 * ((d : Int) + 2) := by
  by_cases hs : c.F.stalled = true
  · obtain ⟨e1, e2, e3⟩ := fetch_fields_stalled_B c hs
    rw [e1, e2, e3]
    rcases hm with ⟨x, -⟩ | ⟨-, hpc, hi⟩
    · rw [hs] at x; cases x
    · have hne : c.DRF.opcode ≠ .BUBBLE := by
        rw [hdi.1]; exact (hp.opcode (by omega)).1
      have hc : c.DRF.stalled = false ∧ c.DRF.opcode ≠ .BUBBLE := ⟨hds, hne⟩
      obtain ⟨i1, i2, i3, i4, i5, i6⟩ := hi
      rw [if_pos hc]
      refine ⟨⟨i1, i2, i3, i4, i5, i6⟩, rfl, ?_, hpc⟩
      show (if c.F.opcode = .BUBBLE ∨ (c.DRF.stalled = false ∧ c.DRF.opcode ≠ .BUBBLE)
          then false else c.F.stalled) = false
      rw [if_pos (Or.inr hc)]
  · have hs' : c.F.stalled = false := by simpa using hs
    obtain ⟨e1, z, e2, e3⟩ := fetch_fields_live_B c hfb hs'
    rw [e1, e2, e3]
    rcases hm with ⟨-, hpc⟩ | ⟨x, -⟩
    · have hca := code_at_pc c code (d + 1) hcode (by have := hp.1.1; omega) hp.1.2
      have e : c.pc = 4000 + 4 * ((d + 1 : Nat) : Int) := by rw [hpc]; push_cast; ring
      rw [← e] at hca
      rw [if_neg (by rw [hds]; simp)]
      refine ⟨?_, hs', hds, by rw [hpc]; ring⟩
      simp only [is_ins, fetched, hca, hfb, and_self]
    · exact absurd x hs

end PartB


namespace PartA
open APEX

variable {code : List APEX_Instruction} {a0 : Arch} {n : Int} {N : Nat} {a : Abs}
  {s : APEX_CPU}

theorem next_om : (next code a).om = true ↔ (a.oe = true ∧ a.phase1 code = false) := by
  unfold next
  split_ifs with h1 h2
  · simp [h1]
  · simp [h1]
  · simp [h1]

theorem next_d : ((next code a).mode = .run ∧ (next code a).d = a.d + 1) ∨
    ((next code a).mode ≠ .run ∧ (next code a).d = a.d) := by
  by_cases h1 : a.phase1 code = true
  · obtain ⟨-, -, n3, -, n5⟩ := next_phase1 h1
    right; rw [n3, n5]; simp
  · have h1' : a.phase1 code = false := by simpa using h1
    by_cases h2 : blocked code a = true
    · obtain ⟨-, -, n3, -, n5⟩ := next_blocked h1' h2
      right; rw [n3, n5]; simp
    · obtain ⟨-, -, n3, -, n5⟩ := next_promote h1' (by simpa using h2)
      left; rw [n3, n5]; simp

theorem next_ie_le (hb : a.ie ≤ N) (hd : a.d ≤ N) : (next code a).ie ≤ N := by
  by_cases h1 : a.phase1 code = true
  · rw [(next_phase1 h1).2.2.2.1]; exact hb
  · have h1' : a.phase1 code = false := by simpa using h1
    by_cases h2 : blocked code a = true
    · rw [(next_blocked h1' h2).2.2.2.1]; exact hd
    · rw [(next_promote h1' (by simpa using h2)).2.2.2.1]; exact hd

/-- The progress measure grows in every cycle. -/
theorem pot_next (hm : a.mode = .mul → a.oe = true) : a.pot < (next code a).pot := by
  rcases a with ⟨w, ow, om, oe, mode⟩
  simp only at hm
  by_cases h1 : Abs.phase1 code ⟨w, ow, om, oe, mode⟩ = true
  · have hoe : oe = true := by
      simp only [Abs.phase1, Bool.and_eq_true] at h1; exact h1.1.1
    have hmo : mode ≠ .mul := by
      simp only [Abs.phase1, Bool.and_eq_true, decide_eq_true_eq] at h1; exact h1.2
    subst hoe
    simp only [next, h1, if_true, Abs.pot, hmo, if_false]
    cases ow <;> cases om <;> simp <;> omega
  · by_cases h2 : blocked code ⟨w, ow, om, oe, mode⟩ = true
    · have hocc : om = true ∨ oe = true := by
        simp only [blocked, Bool.or_eq_true, Bool.and_eq_true] at h2
        rcases h2 with ⟨x, -⟩ | ⟨x, -⟩
        · exact Or.inl x
        · exact Or.inr x
      simp only [next, h1, h2, if_true, if_false, Abs.pot]
      by_cases hmm : mode = .mul
      · have := hm hmm
        subst this
        cases ow <;> cases om <;> simp [hmm] <;> omega
      · rcases hocc with x | x <;> subst x <;> cases ow <;>
          first
          | (cases oe <;> simp [hmm] <;> omega)
          | (cases om <;> simp [hmm] <;> omega)
    · simp only [next, h1, h2, if_false, Abs.pot]
      by_cases hmm : mode = .mul
      · have := hm hmm
        subst this
        cases ow <;> cases om <;> simp [hmm] <;> omega
      · cases ow <;> cases om <;> cases oe <;> simp [hmm] <;> omega

/-- One cycle under the common part of the refinement relation, given what Decode does. -/
theorem core_step (hp : Prog code a0 N) (h : Core code a0 n N a s) (hd : a.d ≤ N)
    (c3 : APEX_CPU) (hx3 : execute (mem_step (writeback s)) = some c3)
    (hax : AfterEX code a0 a s c3)
    (hade : AfterDE code a0 N (next code a) s c3 (decode c3))
    (hwt : (next code a).mode = .wait →
      (next code a).oe = false ∧ (ins code (next code a).d).opcode.reads_rs1 = true ∧
      (next code a).d < N) :
    ∃ s', cycle s = some s' ∧ Core code a0 n N (next code a) s' ∧
      s'.regs_valid = (decode c3).regs_valid ∧ s'.z_flag = (writeback s).z_flag := by
  -- the stages before Decode
  obtain ⟨w1, w2, w3, w4, w5, w6, w7, w8⟩ := writeback_latches s
  obtain ⟨wf1, wf2, wf3⟩ := writeback_frame s
  obtain ⟨wr1, wr2⟩ := rel_writeback_regs hp h
  obtain ⟨m1, m2, m3, m4, m5, m6, m7, m8, m9, m10, m11⟩ := memory_latches (writeback s)
  obtain ⟨mf1, mf2, mf3⟩ := memory_frame (writeback s)
  obtain ⟨mr1, mr2, mr3, mr4, mr5, mr6⟩ := rel_memory hp h (writeback s) w4 wr2 w6
  have hC2 : (mem_step (writeback s)).ENABLE_COUNTING = false := by
    rw [mf1, wf1, h.counting]
  obtain ⟨x1, x2, x3, x4, x5, x6, x7⟩ := execute_arch _ c3 hC2 hx3
  obtain ⟨xf1, xf2, xf3⟩ := execute_frame _ c3 hC2 hx3
  obtain ⟨df1, df2, df3⟩ := decode_frame c3 xf1
  obtain ⟨f1, f2, f3, f4, f5, f6, f7, f8, f9, f10, f11, f12⟩ := fetch_arch (decode c3)
  have hcy := cycle_of_execute s c3 (core_no_oob h) hx3
  -- facts about the next in-flight description
  have nw : (next code a).w = a.im := next_w
  have now : (next code a).ow = a.om := next_ow
  have nim : (next code a).im = a.ie := next_im
  have hmul : a.mode = .mul → a.oe = true := by
    intro hm
    by_contra hoe
    have := h.ex
    rw [if_neg hoe] at this
    exact this.2 hm
  have hpot := @pot_next code a hmul
  -- the state handed to Fetch
  have hWB4 : (decode c3).WB = (mem_step (writeback s)).WB := by rw [hade.WB_eq, x5]
  have hWBne : (decode c3).WB.opcode ≠ .HALT := by
    rw [hWB4]
    by_cases hom : a.om = true
    · rw [if_pos hom] at mr2
      rw [mr2.1.1]
      have : a.im < N := by
        have := h.bound
        simp only [Abs.ie, Abs.im, hom, Bool.toNat_true] at this ⊢; omega
      exact (hp.opcode (Nat.le_of_lt this)).2.2.2.2.2 this
    · rw [if_neg hom] at mr2
      rcases mr2 with y | ⟨⟨y, -⟩, -⟩ <;> rw [y] <;> simp
  have hcode4 : (decode c3).code_memory = code := by
    rw [hade.code_eq, x6, m10, w7, h.code_eq]
  have hfb4 : (decode c3).F.busy = false := by rw [hade.f_ins.2.2.2.2.2, h.fb]
  have hdi4 : is_ins (decode c3).DRF (ins code a.d) := is_ins_same (h.drf hd).1 hade.drf_ins
  have hpc4 : (decode c3).pc = s.pc := by rw [hade.pc_eq, hax.pc_eq]
  have hFm : a.d < N → (next code a).d ≠ N + 1 →
      (((decode c3).F.stalled = false ∧ (decode c3).pc = 4000 + 4 * ((a.d : Int) + 1)) ∨
       ((decode c3).F.stalled = true ∧ (decode c3).pc = 4000 + 4 * ((a.d : Int) + 2) ∧
         is_ins (decode c3).F (ins code (a.d + 1)))) := by
    intro hlt hne
    have hfs : (decode c3).F.stalled = s.F.stalled := by rw [hade.f_stalled]; simp [hne]
    obtain ⟨g1, g2⟩ := h.fetch hlt
    cases hs : s.DRF.stalled
    · obtain ⟨g3, g4⟩ := g1 hs
      left; rw [hfs, hpc4]; exact ⟨g3, g4⟩
    · obtain ⟨g3, g4, g5⟩ := g2 hs
      right; rw [hfs, hpc4]; exact ⟨g3, g4, is_ins_same g5 hade.f_ins⟩
  refine ⟨_, hcy, ?_, f2, ?_⟩
  swap
  · show (fetch (decode c3)).z_flag = _
    rw [f4, hade.z_eq, x4, m7]
  have hfront : ((next code a).d ≤ N →
        is_ins (fetch (decode c3)).DRF (ins code (next code a).d) ∧
        (fetch (decode c3)).DRF.stalled = decide ((next code a).mode ≠ .run)) ∧
      ((next code a).d = N + 1 →
        (fetch (decode c3)).DRF.stalled = true ∧ (fetch (decode c3)).DRF.opcode = .HALT) ∧
      ((next code a).d < N →
        ((fetch (decode c3)).DRF.stalled = false →
          (fetch (decode c3)).F.stalled = false ∧
          (fetch (decode c3)).pc = 4000 + 4 * (((next code a).d : Int) + 1)) ∧
        ((fetch (decode c3)).DRF.stalled = true →
          (fetch (decode c3)).F.stalled = true ∧
          (fetch (decode c3)).pc = 4000 + 4 * (((next code a).d : Int) + 2) ∧
          is_ins (fetch (decode c3)).F (ins code ((next code a).d + 1)))) := by
    have hds := hade.drf_stalled
    cases hst : (decode c3).DRF.stalled
    · -- Decode promoted a non-HALT instruction
      rw [hst] at hds
      have hrun : (next code a).mode = .run := by
        by_contra hc
        simp [hc] at hds
      have hnN : (next code a).d ≠ N + 1 := by
        intro hc; simp [hc] at hds
      have hd1 : (next code a).d = a.d + 1 := by
        rcases @next_d code a with ⟨-, y⟩ | ⟨y, -⟩
        · exact y
        · exact absurd hrun y
      have hlt : a.d < N := by omega
      obtain ⟨g1, g2, g3, g4⟩ := fetch_advance hp (decode c3) a.d hlt hcode4 hfb4 hst hdi4
        (hFm hlt hnN)
      rw [hd1]
      refine ⟨fun _ => ⟨g1, by rw [g2, hrun]; simp⟩, fun hc => by omega, fun _ => ⟨fun _ => ?_,
        fun hc => ?_⟩⟩
      · refine ⟨g3, ?_⟩
        rw [g4]; push_cast; ring
      · rw [g2] at hc; cases hc
    · rw [hst] at hds
      obtain ⟨g1, g2⟩ := fetch_hold hp (decode c3) a.d hcode4 hfb4 hst
      rw [g1]
      refine ⟨fun hle => ?_, fun hc => ?_, fun hlt => ?_⟩
      · have hnN : ¬ (next code a).d = N + 1 := by omega
        have hsame : (next code a).d = a.d := by
          rcases @next_d code a with ⟨y, -⟩ | ⟨-, y⟩
          · simp [y, hnN] at hds
          · exact y
        rw [hsame]
        refine ⟨hdi4, ?_⟩
        rw [hst, hds]; simp [hnN]
      · have hd1 : (next code a).d = a.d + 1 := by
          rcases @next_d code a with ⟨-, y⟩ | ⟨-, y⟩
          · exact y
          · omega
        have : a.d = N := by omega
        refine ⟨hst, ?_⟩
        rw [hdi4.1, this]; exact hp.2.2.1
      · have hnN : ¬ (next code a).d = N + 1 := by omega
        have hsame : (next code a).d = a.d := by
          rcases @next_d code a with ⟨y, -⟩ | ⟨-, y⟩
          · simp [y, hnN] at hds
          · exact y
        rw [hsame] at hlt ⊢
        refine ⟨fun hc => ?_, fun _ => g2 hlt (hFm hlt (by rw [hsame]; omega))⟩
        rw [hst] at hc; cases hc
  obtain ⟨hf1, hf2, hf3⟩ := hfront
  have hWB' : (fetch (decode c3)).WB = (mem_step (writeback s)).WB := by rw [f7, hWB4]
  have hMEM' : (fetch (decode c3)).MEM = c3.MEM := by rw [f6, hade.MEM_eq]
  refine
    { counting := ?_, code_eq := ?_, budget := ?_, clock := ?_, regs := ?_, mem := ?_,
      bound := next_ie_le h.bound hd, wb := ?_, mm := ?_, ex := ?_, drf := hf1, halted := hf2,
      fb := ?_, fetch := hf3, waiting := hwt }
  · show (fetch (decode c3)).ENABLE_COUNTING = false
    rw [f9, df1]
  · show (fetch (decode c3)).code_memory = code
    rw [f8, hcode4]
  · show (fetch (decode c3)).code_memory_size = n
    rw [f12 hWBne, df3, xf3, mf3, wf3, h.budget]
  · show (fetch (decode c3)).clock + 1 ≤ _
    rw [f10, df2, xf2, mf2, wf2]
    have := h.clock
    have hp2 : (a.pot : Int) + 1 ≤ ((next code a).pot : Int) := by exact_mod_cast hpot
    omega
  · show (fetch (decode c3)).regs = _
    rw [f1, hade.regs_eq, x1, m5, wr1, nw]
  · show (fetch (decode c3)).data_memory = _
    rw [f3, hade.mem_eq, x3, mr1, nim]
  · show (if (next code a).ow = true then InWB code a0 (next code a).w (fetch (decode c3)).WB
      else NoWB (next code a) (fetch (decode c3)).WB)
    rw [hWB', now, nw]
    by_cases hom : a.om = true
    · rw [if_pos hom] at mr2 ⊢; exact mr2
    · rw [if_neg hom] at mr2 ⊢
      rcases mr2 with y | ⟨y1, y2, y3⟩
      · exact Or.inl y
      · refine Or.inr ⟨y1, ?_⟩
        rw [nw]; simp [Abs.im, y2, y3]
  · show (if (next code a).om = true then InMEM code a0 (next code a).im (fetch (decode c3)).MEM
      else NoMEM (next code a) (fetch (decode c3)).MEM (fetch (decode c3)).WB)
    have hms := hax.mem_slot
    rw [hMEM', hWB', nim]
    by_cases hc : a.oe = true ∧ a.phase1 code = false
    · rw [if_pos hc] at hms
      rw [if_pos (next_om.2 hc)]
      exact hms
    · rw [if_neg hc] at hms
      rw [if_neg (fun x => hc (next_om.1 x))]
      obtain ⟨y1, y2, y3, y4⟩ := hms
      refine ⟨y1, y2, y3, fun hb => ?_⟩
      have hsb := y4 hb
      have hmm := h.mm
      have hom : ¬ a.om = true := by
        intro hom
        rw [if_pos hom] at hmm
        rw [hmm.1.2.2.2.2.2] at hsb; cases hsb
      rw [if_neg hom] at hmm
      obtain ⟨z1, z2, z3⟩ := hmm.2.2.2 hsb
      rw [mr6 hsb, nw, now]
      refine ⟨z1, ?_, by simpa using hom⟩
      simp [Abs.im, z2, z3]
  · show (if (next code a).oe = true then _ else _)
    have hex := hade.ex
    rw [f5]
    by_cases hoe : (next code a).oe = true
    · rw [if_pos hoe] at hex ⊢; exact hex
    · rw [if_neg hoe] at hex ⊢
      exact ⟨⟨hex.1.1, Or.inl ⟨hex.1.2.1, hex.1.2.2⟩⟩, hex.2⟩
  · show (fetch (decode c3)).F.busy = false
    rw [f11, hfb4]

end PartA


namespace PartB
open APEX

variable {code : List APEX_Instruction} {a0 : Arch} {n : Int} {N : Nat} {a : Abs}
  {s : APEX_CPU}

theorem next_om_B : (next code a).om = true ↔ (a.oe = true ∧ a.phase1 code = false) := by
  unfold next
  split_ifs with h1 h2
  · simp [h1]
  · simp [h1]
  · simp [h1]

theorem next_d_B : ((next code a).mode = .run ∧ (next code a).d = a.d + 1) ∨
    ((next code a).mode ≠ .run ∧ (next code a).d = a.d) := by
  by_cases h1 : a.phase1 code = true
  · obtain ⟨-, -, n3, -, n5⟩ := next_phase1_B h1
    right; rw [n3, n5]; simp
  · have h1' : a.phase1 code = false := by simpa using h1
    by_cases h2 : blocked code a = true
    · obtain ⟨-, -, n3, -, n5⟩ := next_blocked_B h1' h2
      right; rw [n3, n5]; simp
    · obtain ⟨-, -, n3, -, n5⟩ := next_promote_B h1' (by simpa using h2)
      left; rw [n3, n5]; simp

theorem next_ie_le_B (hb : a.ie ≤ N) (hd : a.d ≤ N) : (next code a).ie ≤ N := by
  by_cases h1 : a.phase1 code = true
  · rw [(next_phase1_B h1).2.2.2.1]; exact hb
  · have h1' : a.phase1 code = false := by simpa using h1
    by_cases h2 : blocked code a = true
    · rw [(next_blocked_B h1' h2).2.2.2.1]; exact hd
    · rw [(next_promote_B h1' (by simpa using h2)).2.2.2.1]; exact hd

/-- The progress measure grows in every cycle. -/
theorem pot_next_B (hm : a.mode = .mul → a.oe = true) : a.pot < (next code a).pot := by
  rcases a with ⟨w, ow, om, oe, mode⟩
  simp only at hm
  by_cases h1 : Abs.phase1 code ⟨w, ow, om, oe, mode⟩ = true
  · have hoe : oe = true := by
      simp only [Abs.phase1, Bool.and_eq_true] at h1; exact h1.1.1
    have hmo : mode ≠ .mul := by
      simp only [Abs.phase1, Bool.and_eq_true, decide_eq_true_eq] at h1; exact h1.2
    subst hoe
    simp only [next, h1, if_true, Abs.pot, hmo, if_false]
    cases ow <;> cases om <;> simp <;> omega
  · by_cases h2 : blocked code ⟨w, ow, om, oe, mode⟩ = true
    · have hoe : oe = true := by
        simp only [blocked, Bool.and_eq_true] at h2
        exact h2.1.1
      simp only [next, h1, h2, if_true, if_false, Abs.pot]
      subst hoe
      by_cases hmm : mode = .mul
      · cases ow <;> cases om <;> simp [hmm] <;> omega
      · cases ow <;> cases om <;> simp [hmm] <;> omega
    · simp only [next, h1, h2, if_false, Abs.pot]
      by_cases hmm : mode = .mul
      · have := hm hmm
        subst this
        cases ow <;> cases om <;> simp [hmm] <;> omega
      · cases ow <;> cases om <;> cases oe <;> simp [hmm] <;> omega

/-- One cycle under the common part of the refinement relation, given what Decode does. -/
theorem core_step_B (hp : Prog code a0 N) (h : Core code a0 n N a s) (hd : a.d ≤ N)
    (c3 : APEX_CPU) (hx3 : execute (mem_step (writeback s)) = some c3)
    (hax : AfterEX code a0 a s c3)
    (hade : AfterDE code a0 N (next code a) s c3 (decode c3))
    (hwt : (next code a).mode = .wait →
      (next code a).oe = false ∧ (ins code (next code a).d).opcode.reads_rs1 = true ∧
      (next code a).d < N) :
    ∃ s', cycle s = some s' ∧ Core code a0 n N (next code a) s' ∧
      s'.regs_valid = (decode c3).regs_valid ∧ s'.z_flag = (writeback s).z_flag := by
  -- the stages before Decode
  obtain ⟨w1, w2, w3, w4, w5, w6, w7, w8⟩ := writeback_latches_B s
  obtain ⟨wf1, wf2, wf3⟩ := writeback_frame_B s
  obtain ⟨wr1, wr2⟩ := rel_writeback_regs_B hp h
  obtain ⟨m1, m2, m3, m4, m5, m6, m7, m8, m9, m10, m11⟩ := memory_latches_B (writeback s)
  obtain ⟨mf1, mf2, mf3⟩ := memory_frame_B (writeback s)
  obtain ⟨mr1, mr2, mr3, mr4, mr5, mr6⟩ := rel_memory_B hp h (writeback s) w4 wr2 w6
  have hC2 : (mem_step (writeback s)).ENABLE_COUNTING = false := by
    rw [mf1, wf1, h.counting]
  obtain ⟨x1, x2, x3, x4, x5, x6, x7⟩ := execute_arch_B _ c3 hC2 hx3
  obtain ⟨xf1, xf2, xf3⟩ := execute_frame_B _ c3 hC2 hx3
  obtain ⟨df1, df2, df3⟩ := decode_frame_B c3 xf1
  obtain ⟨f1, f2, f3, f4, f5, f6, f7, f8, f9, f10, f11, f12⟩ := fetch_arch_B (decode c3)
  have hcy := cycle_of_execute_B s c3 (core_no_oob h) hx3
  -- facts about the next in-flight description
  have nw : (next code a).w = a.im := next_w_B
  have now : (next code a).ow = a.om := next_ow_B
  have nim : (next code a).im = a.ie := next_im_B
  have hmul : a.mode = .mul → a.oe = true := by
    intro hm
    by_contra hoe
    have := h.ex
    rw [if_neg hoe] at this
    exact this.2 hm
  have hpot := @pot_next_B code a hmul
  -- the state handed to Fetch
  have hWB4 : (decode c3).WB = (mem_step (writeback s)).WB := by rw [hade.WB_eq, x5]
  have hWBne : (decode c3).WB.opcode ≠ .HALT := by
    rw [hWB4]
    by_cases hom : a.om = true
    · rw [if_pos hom] at mr2
      rw [mr2.1.1]
      have : a.im < N := by
        have := h.bound
        simp only [Abs.ie, Abs.im, hom, Bool.toNat_true] at this ⊢; omega
      exact (hp.opcode (Nat.le_of_lt this)).2.2.2.2.2 this
    · rw [if_neg hom] at mr2
      rcases mr2 with y | ⟨⟨y, -⟩, -⟩ <;> rw [y] <;> simp
  have hcode4 : (decode c3).code_memory = code := by
    rw [hade.code_eq, x6, m10, w7, h.code_eq]
  have hfb4 : (decode c3).F.busy = false := by rw [hade.f_ins.2.2.2.2.2, h.fb]
  have hdi4 : is_ins (decode c3).DRF (ins code a.d) := is_ins_same (h.drf hd).1 hade.drf_ins
  have hpc4 : (decode c3).pc = s.pc := by rw [hade.pc_eq, hax.pc_eq]
  have hFm : a.d < N → (next code a).d ≠ N + 1 →
      (((decode c3).F.stalled = false ∧ (decode c3).pc = 4000 + 4 * ((a.d : Int) + 1)) ∨
       ((decode c3).F.stalled = true ∧ (decode c3).pc = 4000 + 4 * ((a.d : Int) + 2) ∧
         is_ins (decode c3).F (ins code (a.d + 1)))) := by
    intro hlt hne
    have hfs : (decode c3).F.stalled = s.F.stalled := by rw [hade.f_stalled]; simp [hne]
    obtain ⟨g1, g2⟩ := h.fetch hlt
    cases hs : s.DRF.stalled
    · obtain ⟨g3, g4⟩ := g1 hs
      left; rw [hfs, hpc4]; exact ⟨g3, g4⟩
    · obtain ⟨g3, g4, g5⟩ := g2 hs
      right; rw [hfs, hpc4]; exact ⟨g3, g4, is_ins_same g5 hade.f_ins⟩
  refine ⟨_, hcy, ?_, f2, ?_⟩
  swap
  · show (fetch (decode c3)).z_flag = _
    rw [f4, hade.z_eq, x4, m7]
  have hfront : ((next code a).d ≤ N →
        is_ins (fetch (decode c3)).DRF (ins code (next code a).d) ∧
        (fetch (decode c3)).DRF.stalled = decide ((next code a).mode ≠ .run)) ∧
      ((next code a).d = N + 1 →
        (fetch (decode c3)).DRF.stalled = true ∧ (fetch (decode c3)).DRF.opcode = .HALT) ∧
      ((next code a).d < N →
        ((fetch (decode c3)).DRF.stalled = false →
          (fetch (decode c3)).F.stalled = false ∧
          (fetch (decode c3)).pc = 4000 + 4 * (((next code a).d : Int) + 1)) ∧
        ((fetch (decode c3)).DRF.stalled = true →
          (fetch (decode c3)).F.stalled = true ∧
          (fetch (decode c3)).pc = 4000 + 4 * (((next code a).d : Int) + 2) ∧
          is_ins (fetch (decode c3)).F (ins code ((next code a).d + 1)))) := by
    have hds := hade.drf_stalled
    cases hst : (decode c3).DRF.stalled
    · -- Decode promoted a non-HALT instruction
      rw [hst] at hds
      have hrun : (next code a).mode = .run := by
        by_contra hc
        simp [hc] at hds
      have hnN : (next code a).d ≠ N + 1 := by
        intro hc; simp [hc] at hds
      have hd1 : (next code a).d = a.d + 1 := by
        rcases @next_d_B code a with ⟨-, y⟩ | ⟨y, -⟩
        · exact y
        · exact absurd hrun y
      have hlt : a.d < N := by omega
      obtain ⟨g1, g2, g3, g4⟩ := fetch_advance_B hp (decode c3) a.d hlt hcode4 hfb4 hst hdi4
        (hFm hlt hnN)
      rw [hd1]
      refine ⟨fun _ => ⟨g1, by rw [g2, hrun]; simp⟩, fun hc => by omega, fun _ => ⟨fun _ => ?_,
        fun hc => ?_⟩⟩
      · refine ⟨g3, ?_⟩
        rw [g4]; push_cast; ring
      · rw [g2] at hc; cases hc
    · rw [hst] at hds
      obtain ⟨g1, g2⟩ := fetch_hold_B hp (decode c3) a.d hcode4 hfb4 hst
      rw [g1]
      refine ⟨fun hle => ?_, fun hc => ?_, fun hlt => ?_⟩
      · have hnN : ¬ (next code a).d = N + 1 := by omega
        have hsame : (next code a).d = a.d := by
          rcases @next_d_B code a with ⟨y, -⟩ | ⟨-, y⟩
          · simp [y, hnN] at hds
          · exact y
        rw [hsame]
        refine ⟨hdi4, ?_⟩
        rw [hst, hds]; simp [hnN]
      · have hd1 : (next code a).d = a.d + 1 := by
          rcases @next_d_B code a with ⟨-, y⟩ | ⟨-, y⟩
          · exact y
          · omega
        have : a.d = N := by omega
        refine ⟨hst, ?_⟩
        rw [hdi4.1, this]; exact hp.2.2.1
      · have hnN : ¬ (next code a).d = N + 1 := by omega
        have hsame : (next code a).d = a.d := by
          rcases @next_d_B code a with ⟨y, -⟩ | ⟨-, y⟩
          · simp [y, hnN] at hds
          · exact y
        rw [hsame] at hlt ⊢
        refine ⟨fun hc => ?_, fun _ => g2 hlt (hFm hlt (by rw [hsame]; omega))⟩
        rw [hst] at hc; cases hc
  obtain ⟨hf1, hf2, hf3⟩ := hfront
  have hWB' : (fetch (decode c3)).WB = (mem_step (writeback s)).WB := by rw [f7, hWB4]
  have hMEM' : (fetch (decode c3)).MEM = c3.MEM := by rw [f6, hade.MEM_eq]
  refine
    { counting := ?_, code_eq := ?_, budget := ?_, clock := ?_, regs := ?_, mem := ?_,
      bound := next_ie_le_B h.bound hd, wb := ?_, mm := ?_, ex := ?_, drf := hf1, halted := hf2,
      fb := ?_, fetch := hf3, waiting := hwt }
  · show (fetch (decode c3)).ENABLE_COUNTING = false
    rw [f9, df1]
  · show (fetch (decode c3)).code_memory = code
    rw [f8, hcode4]
  · show (fetch (decode c3)).code_memory_size = n
    rw [f12 hWBne, df3, xf3, mf3, wf3, h.budget]
  · show (fetch (decode c3)).clock + 1 ≤ _
    rw [f10, df2, xf2, mf2, wf2]
    have := h.clock
    have hp2 : (a.pot : Int) + 1 ≤ ((next code a).pot : Int) := by exact_mod_cast hpot
    omega
  · show (fetch (decode c3)).regs = _
    rw [f1, hade.regs_eq, x1, m5, wr1, nw]
  · show (fetch (decode c3)).data_memory = _
    rw [f3, hade.mem_eq, x3, mr1, nim]
  · show (if (next code a).ow = true then InWB code a0 (next code a).w (fetch (decode c3)).WB
      else NoWB (next code a) (fetch (decode c3)).WB)
    rw [hWB', now, nw]
    by_cases hom : a.om = true
    · rw [if_pos hom] at mr2 ⊢; exact mr2
    · rw [if_neg hom] at mr2 ⊢
      rcases mr2 with y | ⟨y1, y2, y3⟩
      · exact Or.inl y
      · refine Or.inr ⟨y1, ?_⟩
        rw [nw]; simp [Abs.im, y2, y3]
  · show (if (next code a).om = true then InMEM code a0 (next code a).im (fetch (decode c3)).MEM
      else NoMEM (next code a) (fetch (decode c3)).MEM (fetch (decode c3)).WB)
    have hms := hax.mem_slot
    rw [hMEM', hWB', nim]
    by_cases hc : a.oe = true ∧ a.phase1 code = false
    · rw [if_pos hc] at hms
      rw [if_pos (next_om_B.2 hc)]
      exact hms
    · rw [if_neg hc] at hms
      rw [if_neg (fun x => hc (next_om_B.1 x))]
      obtain ⟨y1, y2, y3, y4⟩ := hms
      refine ⟨y1, y2, y3, fun hb => ?_⟩
      have hsb := y4 hb
      have hmm := h.mm
      have hom : ¬ a.om = true := by
        intro hom
        rw [if_pos hom] at hmm
        rw [hmm.1.2.2.2.2.2] at hsb; cases hsb
      rw [if_neg hom] at hmm
      obtain ⟨z1, z2, z3⟩ := hmm.2.2.2 hsb
      rw [mr6 hsb, nw, now]
      refine ⟨z1, ?_, by simpa using hom⟩
      simp [Abs.im, z2, z3]
  · show (if (next code a).oe = true then _ else _)
    have hex := hade.ex
    rw [f5]
    by_cases hoe : (next code a).oe = true
    · rw [if_pos hoe] at hex ⊢; exact hex
    · rw [if_neg hoe] at hex ⊢
      exact ⟨⟨hex.1.1, Or.inl ⟨hex.1.2.1, hex.1.2.2⟩⟩, hex.2⟩
  · show (fetch (decode c3)).F.busy = false
    rw [f11, hfb4]

end PartB


namespace PartA
open APEX

variable {code : List APEX_Instruction} {a0 : Arch} {n : Int} {N : Nat} {a : Abs}
  {s : APEX_CPU}

/-- One cycle preserves the refinement relation of variant A, as long as the HALT has not
been promoted to EX and Execute raises no address exception; `c3` is the state after
Execute. -/
theorem rel_step_full (hp : Prog code a0 N) (h : Rel code a0 n N a s) (hd : a.d ≤ N)
    (hok : a.oe = true → (S code a0 a.ie).addr_fine (ins code a.ie)) :
    ∃ c3 s', execute (mem_step (writeback s)) = some c3 ∧ AfterEX code a0 a s c3 ∧
      AfterDE code a0 N (next code a) s c3 (decode c3) ∧
      cycle s = some s' ∧ Rel code a0 n N (next code a) s' := by
  obtain ⟨-, w2, w3, w4, w5, -⟩ := writeback_latches s
  obtain ⟨wf1, -, -⟩ := writeback_frame s
  obtain ⟨wr1, wr2⟩ := rel_writeback_regs hp h.core
  obtain ⟨m1, m2, m3, m4, m5, m6, -⟩ := memory_latches (writeback s)
  obtain ⟨mf1, -, -⟩ := memory_frame (writeback s)
  obtain ⟨-, -, mr3, mr4, mr5, -⟩ := rel_memory hp h.core (writeback s) w4 wr2
    (writeback_latches s).2.2.2.2.2.1
  have hC2 : (mem_step (writeback s)).ENABLE_COUNTING = false := by
    rw [mf1, wf1, h.core.counting]
  obtain ⟨c3, hx3, hax⟩ := rel_execute hp h.core hd hok (mem_step (writeback s))
    (by rw [m3, w3]) (by rw [m2, w2]) (by rw [m1, (writeback_latches s).1])
    (by rw [m4, w5]) mr3 mr4 mr5 hC2
  obtain ⟨x1, x2, -⟩ := execute_arch _ c3 hC2 hx3
  obtain ⟨xf1, -, -⟩ := execute_frame _ c3 hC2 hx3
  have hregs : c3.regs = (S code a0 a.im).regs := by rw [x1, m5, wr1]
  have hv : ∀ r, c3.regs_valid r = true ↔
      ¬ ((a.om = true ∧ writes code a.im r = true) ∨
         (a.oe = true ∧ writes code a.ie r = true)) := by
    intro r
    rw [x2, m6]
    exact rel_writeback_valid hp h hd r
  have hdec : AfterDE code a0 N (next code a) s c3 (decode c3) ∧
      (∀ r, (decode c3).regs_valid r = true ↔ ¬ writer_in_flight code (next code a) r) ∧
      ((next code a).mode = .wait →
        (next code a).oe = false ∧ (ins code (next code a).d).opcode.reads_rs1 = true ∧
        (next code a).d < N) := by
    by_cases h1 : a.phase1 code = true
    · obtain ⟨p1, p2⟩ := rel_decode_phase1 h.core hd c3 hax hv h1
      refine ⟨p1, p2, fun hm => ?_⟩
      rw [(next_phase1 h1).2.2.1] at hm; cases hm
    · have h1' : a.phase1 code = false := by simpa using h1
      by_cases h2 : blocked code a = true
      · obtain ⟨p1, p2⟩ := rel_decode_blocked hp h.core hd c3 hax hv xf1 h1' h2
        obtain ⟨-, n2, -, -, n5⟩ := next_blocked h1' h2
        obtain ⟨b1, b2, -⟩ := blocked_reads hp hd h2
        refine ⟨p1, p2, fun _ => ⟨n2, ?_, ?_⟩⟩
        · rw [n5]; exact b1
        · rw [n5]; exact b2
      · have h2' : blocked code a = false := by simpa using h2
        obtain ⟨p1, p2⟩ := rel_decode_promote hp h.core hd c3 hax hregs hv xf1 h1' h2'
        refine ⟨p1, p2, fun hm => ?_⟩
        rw [(next_promote h1' h2').2.2.1] at hm; cases hm
  obtain ⟨hade, hv', hwt⟩ := hdec
  obtain ⟨s', hcy, hcore, ev, ez⟩ := core_step hp h.core hd c3 hx3 hax hade hwt
  refine ⟨c3, s', hx3, hax, hade, hcy,
    { core := hcore, valid := fun _ r => ?_, zf := fun b hb => ?_ }⟩
  · rw [ev]; exact hv' r
  · rw [next_w] at hb
    rw [ez]
    rcases rel_writeback_z hp h b hb with y | y | y
    · exact Or.inl y
    · right; left
      rw [next_ow, next_w]; exact y
    · right; right
      by_cases h1 : a.phase1 code = true
      · obtain ⟨-, n2, -, n4, -⟩ := next_phase1 h1
        right; rw [n2, n4]; exact ⟨rfl, y.2⟩
      · have h1' : a.phase1 code = false := by simpa using h1
        left
        rw [next_im]
        exact ⟨next_om.2 ⟨y.1, h1'⟩, y.2⟩

theorem rel_step (hp : Prog code a0 N) (h : Rel code a0 n N a s) (hd : a.d ≤ N)
    (hok : a.oe = true → (S code a0 a.ie).addr_fine (ins code a.ie)) :
    ∃ s', cycle s = some s' ∧ Rel code a0 n N (next code a) s' := by
  obtain ⟨-, s', -, -, -, h1, h2⟩ := rel_step_full hp h hd hok
  exact ⟨s', h1, h2⟩

end PartA


namespace PartB
open APEX

variable {code : List APEX_Instruction} {a0 : Arch} {n : Int} {N : Nat} {a : Abs}
  {s : APEX_CPU}

/-- One cycle preserves the refinement relation of variant B, as long as the HALT has not
been promoted to EX and Execute raises no address exception; `c3` is the state after
Execute. -/
theorem rel_step_full_B (hp : Prog code a0 N) (h : Rel code a0 n N a s) (hd : a.d ≤ N)
    (hok : a.oe = true → (S code a0 a.ie).addr_fine (ins code a.ie)) :
    ∃ c3 s', execute (mem_step (writeback s)) = some c3 ∧ AfterEX code a0 a s c3 ∧
      AfterDE code a0 N (next code a) s c3 (decode c3) ∧
      cycle s = some s' ∧ Rel code a0 n N (next code a) s' := by
  obtain ⟨-, w2, w3, w4, w5, -⟩ := writeback_latches_B s
  obtain ⟨wf1, -, -⟩ := writeback_frame_B s
  obtain ⟨wr1, wr2⟩ := rel_writeback_regs_B hp h.core
  obtain ⟨m1, m2, m3, m4, m5, m6, -⟩ := memory_latches_B (writeback s)
  obtain ⟨mf1, -, -⟩ := memory_frame_B (writeback s)
  obtain ⟨-, mr2, mr3, mr4, mr5, -⟩ := rel_memory_B hp h.core (writeback s) w4 wr2
    (writeback_latches_B s).2.2.2.2.2.1
  have hC2 : (mem_step (writeback s)).ENABLE_COUNTING = false := by
    rw [mf1, wf1, h.core.counting]
  obtain ⟨c3, hx3, hax⟩ := rel_execute_B hp h.core hd hok (mem_step (writeback s))
    (by rw [m3, w3]) (by rw [m2, w2]) (by rw [m1, (writeback_latches_B s).1])
    (by rw [m4, w5]) mr3 mr4 mr5 hC2
  obtain ⟨x1, x2, x3, x4, x5, -⟩ := execute_arch_B _ c3 hC2 hx3
  obtain ⟨xf1, -, -⟩ := execute_frame_B _ c3 hC2 hx3
  have hregs : c3.regs = (S code a0 a.im).regs := by rw [x1, m5, wr1]
  have hW : WBview code a0 a c3.WB := by
    unfold WBview
    rw [x5]; exact mr2
  have hdec : AfterDE code a0 N (next code a) s c3 (decode c3) ∧
      ((next code a).mode = .wait →
        (next code a).oe = false ∧ (ins code (next code a).d).opcode.reads_rs1 = true ∧
        (next code a).d < N) := by
    by_cases h1 : a.phase1 code = true
    · refine ⟨rel_decode_phase1_B h.core hd c3 hax h1, fun hm => ?_⟩
      rw [(next_phase1_B h1).2.2.1] at hm; cases hm
    · have h1' : a.phase1 code = false := by simpa using h1
      by_cases h2 : blocked code a = true
      · obtain ⟨-, n2, -, -, n5⟩ := next_blocked_B h1' h2
        obtain ⟨b1, b2, -⟩ := blocked_reads_B hp hd h2
        refine ⟨rel_decode_blocked_B hp h.core hd c3 hax h1' h2, fun _ => ⟨n2, ?_, ?_⟩⟩
        · rw [n5]; exact b1
        · rw [n5]; exact b2
      · have h2' : blocked code a = false := by simpa using h2
        refine ⟨rel_decode_promote_B hp h.core hd h.r0 c3 hax hregs hW xf1 h1' h2',
          fun hm => ?_⟩
        rw [(next_promote_B h1' h2').2.2.1] at hm; cases hm
  obtain ⟨hade, hwt⟩ := hdec
  obtain ⟨s', hcy, hcore, -, ez⟩ := core_step_B hp h.core hd c3 hx3 hax hade hwt
  refine ⟨c3, s', hx3, hax, hade, hcy, { core := hcore, zf := fun b hb => ?_, r0 := h.r0 }⟩
  rw [next_w_B] at hb
  rw [ez]
  exact rel_writeback_z_B hp h b hb

theorem rel_step_B (hp : Prog code a0 N) (h : Rel code a0 n N a s) (hd : a.d ≤ N)
    (hok : a.oe = true → (S code a0 a.ie).addr_fine (ins code a.ie)) :
    ∃ s', cycle s = some s' ∧ Rel code a0 n N (next code a) s' := by
  obtain ⟨-, s', -, -, -, h1, h2⟩ := rel_step_full_B hp h hd hok
  exact ⟨s', h1, h2⟩

end PartB


namespace PartA
open APEX

variable {code : List APEX_Instruction} {a0 : Arch} {n : Int} {N : Nat} {a : Abs}
  {s : APEX_CPU}

/-- After the first cycle, which only fetches instruction 0, the refinement relation holds
with nothing in flight. -/
theorem rel_init (u : Uninit) (hp : Prog code (Arch.init u) N) :
    ∃ s1, cycle (initial code n u) = some s1 ∧
      Rel code (Arch.init u) n N ⟨0, false, false, false, .run⟩ s1 := by
  have h1 : writeback (initial code n u) = initial code n u := writeback_idle _ (Or.inl rfl)
  have h2 : mem_step (initial code n u) = initial code n u := memory_idle _ (Or.inl rfl)
  have h3 : execute (initial code n u) = some (initial code n u) :=
    execute_idle _ (Or.inl rfl) (Or.inl rfl)
  have h4 : decode (initial code n u) = initial code n u :=
    decode_idle _ (Or.inl rfl) (Or.inl rfl)
  have hcy := cycle_of_execute (initial code n u) (initial code n u) (PartA.oob_of_idle _ (Or.inl rfl)) (by rw [h1, h2, h3])
  rw [h4, fetch_live _ rfl rfl] at hcy
  have hca := code_at_pc (initial code n u) code 0 rfl (by have := hp.1.1; omega) hp.1.2
  have hca' : code_at (initial code n u) (get_code_index (initial code n u).pc) = ins code 0 := by
    have : (initial code n u).pc = 4000 + 4 * ((0 : Nat) : Int) := by simp [initial]
    rw [this]; exact hca
  refine ⟨_, hcy, { core := ?_, valid := ?_, zf := ?_ }⟩
  · refine
      { counting := rfl, code_eq := rfl, budget := rfl, clock := ?_, regs := ?_, mem := ?_,
        bound := ?_, wb := ?_, mm := ?_, ex := ?_, drf := ?_, halted := ?_, fb := rfl,
        fetch := ?_, waiting := ?_ }
    · simp [initial, Abs.pot]
    · rw [S_zero]; rfl
    · simp only [Abs.im, Bool.toNat_false, Nat.add_zero]
      rw [S_zero]; rfl
    · simp [Abs.ie]
    · rw [if_neg (by simp)]
      exact Or.inr ⟨⟨rfl, rfl, rfl, rfl⟩, rfl⟩
    · rw [if_neg (by simp)]
      refine ⟨rfl, Or.inr rfl, fun _ => rfl, fun _ => ⟨⟨rfl, rfl, rfl, rfl⟩, rfl, rfl⟩⟩
    · rw [if_neg (by simp)]
      exact ⟨⟨rfl, Or.inr ⟨rfl, rfl, rfl, rfl, rfl, rfl, rfl, rfl⟩⟩, by simp⟩
    · intro _
      have e : (⟨0, false, false, false, .run⟩ : Abs).d = 0 := rfl
      rw [e]
      refine ⟨?_, rfl⟩
      simp only [is_ins, initial, zero_stage, Bool.false_eq_true, if_false, fetched]
      simp only [initial, zero_stage] at hca'
      rw [hca']
      simp
    · intro hc
      have e : (⟨0, false, false, false, .run⟩ : Abs).d = 0 := rfl
      rw [e] at hc; omega
    · intro _
      have e : (⟨0, false, false, false, .run⟩ : Abs).d = 0 := rfl
      rw [e]
      refine ⟨fun _ => ⟨rfl, ?_⟩, fun hc => ?_⟩
      · simp [initial]
      · simp [initial, zero_stage, fetched] at hc
    · intro hc; cases hc
  · intro _ r
    simp [initial, writer_in_flight]
  · intro b hb
    rw [S_zero] at hb
    cases hb

/-- The last two cycles of a run: from a state reached from the initial state in which a live
MEM latch holds the HALT, the loop returns after two more cycles, and what Writeback does in
the first of them is the last change to the architectural state. -/
theorem halt_run (code : List APEX_Instruction) (n : Int) (u : Uninit) (k : Nat)
    (s : APEX_CPU) (hr : cycles k (initial code n u) = some s)
    (hmb : s.MEM.busy = false) (hms : s.MEM.stalled = false) (hmo : s.MEM.opcode = .HALT)
    (hle : s.clock ≤ s.code_memory_size) :
    ∃ s2, (∀ fuel, APEX_cpu_run (fuel + 2) s = .returned s2) ∧
      s2.regs = (writeback s).regs ∧ s2.data_memory = s.data_memory ∧
      s2.z_flag = (writeback s).z_flag ∧ cycles 2 s = some s2 := by
  obtain ⟨hok, hc⟩ := reachable_ok code n u k s hr
  have hok' := hok
  obtain ⟨hfb, h2, -, -, -⟩ := hok'
  obtain ⟨a1, a2, a3, a4, a5⟩ := h2 (by simp [APEX_CPU.ctl, CPU_Stage.ctl, CtlStage.live, hmb, hms])
    hmo
  obtain ⟨s1, c1, k1, b1, wo, wb, ws, ms, es, eo, ds, d0, cc, r1, r2, r3, -⟩ :=
    cycle_HALT_to_WB s hc hmb hms hmo a1 a2 a3 a4 a5
  have hfb1 : s1.F.busy = false := (cycle_ok s s1 ⟨hok, hc⟩ c1).1.1
  obtain ⟨s2, c2, k2, b2, -, -, q1, q2, q3⟩ := cycle_HALT_retires s1 wo wb ws ms es eo ds d0 hfb1
  refine ⟨s2, fun fuel => ?_, by rw [q1, r1], by rw [q2, r2], by rw [q3, r3],
    by simp [cycles, c1, c2]⟩
  rw [run_step _ s s1 hle hc c1, run_step _ s1 s2 (by rw [k1, b1]) cc c2]
  exact run_done _ _ (by rw [k2, k1, b2, b1]; omega)

theorem cycles_succ_last (k : Nat) (s s1 s2 : APEX_CPU) (h1 : cycles k s = some s1)
    (h2 : cycle s1 = some s2) : cycles (k + 1) s = some s2 := by
  induction k generalizing s with
  | zero =>
    simp only [cycles, Option.some.injEq] at h1
    subst h1
    simp [cycles, h2]
  | succ k ih =>
    simp only [cycles] at h1 ⊢
    cases hc : cycle s with
    | none => simp [hc] at h1
    | some c =>
      have h1' : cycles k c = some s1 := by rw [hc] at h1; simpa using h1
      have := ih c h1'
      simpa [cycles] using this

theorem cycles_add (j k : Nat) (s : APEX_CPU) :
    cycles (j + k) s = (cycles j s).bind (cycles k) := by
  induction j generalizing s with
  | zero => simp [cycles]
  | succ j ih =>
    have e : j + 1 + k = (j + k) + 1 := by omega
    rw [e]
    simp only [cycles]
    cases cycle s with
    | none => rfl
    | some c => simpa using ih c

/-- A run of `k + 1` cycles is a run of `k` cycles and one more. -/
theorem cycles_succ_inv (k : Nat) (s s2 : APEX_CPU) (h : cycles (k + 1) s = some s2) :
    ∃ s1, cycles k s = some s1 ∧ cycle s1 = some s2 := by
  rw [cycles_add k 1 s] at h
  cases h1 : cycles k s with
  | none => rw [h1] at h; cases h
  | some s1 =>
    rw [h1] at h
    refine ⟨s1, rfl, ?_⟩
    simpa [cycles] using h

theorem cycles_succ_first (k : Nat) (s s1 s2 : APEX_CPU) (h1 : cycle s = some s1)
    (h2 : cycles k s1 = some s2) : cycles (k + 1) s = some s2 := by
  simp [cycles, h1, h2]

end PartA


namespace PartB
open APEX

variable {code : List APEX_Instruction} {a0 : Arch} {n : Int} {N : Nat} {a : Abs}
  {s : APEX_CPU}

/-- After the first cycle, which only fetches instruction 0, the refinement relation holds
with nothing in flight. -/
theorem rel_init_B (u : Uninit) (hp : Prog code (Arch.init u) N) :
    ∃ s1, cycle (initial code n u) = some s1 ∧
      Rel code (Arch.init u) n N ⟨0, false, false, false, .run⟩ s1 := by
  have h1 : writeback (initial code n u) = initial code n u := writeback_idle_B _ (Or.inl rfl)
  have h2 : mem_step (initial code n u) = initial code n u := memory_idle_B _ (Or.inl rfl)
  have h3 : execute (initial code n u) = some (initial code n u) :=
    execute_idle_B _ (Or.inl rfl) (Or.inl rfl)
  have h4 : decode (initial code n u) = initial code n u :=
    decode_idle_B _ (Or.inl rfl) (Or.inl rfl)
  have hcy := cycle_of_execute_B (initial code n u) (initial code n u) (PartA.oob_of_idle _ (Or.inl rfl)) (by rw [h1, h2, h3])
  rw [h4, fetch_live_B _ rfl rfl] at hcy
  have hca := code_at_pc (initial code n u) code 0 rfl (by have := hp.1.1; omega) hp.1.2
  have hca' : code_at (initial code n u) (get_code_index (initial code n u).pc) = ins code 0 := by
    have : (initial code n u).pc = 4000 + 4 * ((0 : Nat) : Int) := by simp [initial]
    rw [this]; exact hca
  refine ⟨_, hcy, { core := ?_, zf := ?_, r0 := rfl }⟩
  · refine
      { counting := rfl, code_eq := rfl, budget := rfl, clock := ?_, regs := ?_, mem := ?_,
        bound := ?_, wb := ?_, mm := ?_, ex := ?_, drf := ?_, halted := ?_, fb := rfl,
        fetch := ?_, waiting := ?_ }
    · simp [initial, Abs.pot]
    · rw [S_zero]; rfl
    · simp only [Abs.im, Bool.toNat_false, Nat.add_zero]
      rw [S_zero]; rfl
    · simp [Abs.ie]
    · rw [if_neg (by simp)]
      exact Or.inr ⟨⟨rfl, rfl, rfl, rfl⟩, rfl⟩
    · rw [if_neg (by simp)]
      refine ⟨rfl, Or.inr rfl, fun _ => rfl, fun _ => ⟨⟨rfl, rfl, rfl, rfl⟩, rfl, rfl⟩⟩
    · rw [if_neg (by simp)]
      exact ⟨⟨rfl, Or.inr ⟨rfl, rfl, rfl, rfl, rfl, rfl, rfl, rfl⟩⟩, by simp⟩
    · intro _
      have e : (⟨0, false, false, false, .run⟩ : Abs).d = 0 := rfl
      rw [e]
      refine ⟨?_, rfl⟩
      simp only [is_ins, initial, zero_stage, Bool.false_eq_true, if_false, fetched]
      simp only [initial, zero_stage] at hca'
      rw [hca']
      simp
    · intro hc
      have e : (⟨0, false, false, false, .run⟩ : Abs).d = 0 := rfl
      rw [e] at hc; omega
    · intro _
      have e : (⟨0, false, false, false, .run⟩ : Abs).d = 0 := rfl
      rw [e]
      refine ⟨fun _ => ⟨rfl, ?_⟩, fun hc => ?_⟩
      · simp [initial]
      · simp [initial, zero_stage, fetched] at hc
    · intro hc; cases hc
  · intro b hb
    rw [S_zero] at hb
    cases hb

/-- The last two cycles of a run: from a state reached from the initial state in which a live
MEM latch holds the HALT, the loop returns after two more cycles, and what Writeback does in
the first of them is the last change to the architectural state. -/
theorem halt_run_B (code : List APEX_Instruction) (n : Int) (u : Uninit) (k : Nat)
    (s : APEX_CPU) (hr : cycles k (initial code n u) = some s)
    (hmb : s.MEM.busy = false) (hms : s.MEM.stalled = false) (hmo : s.MEM.opcode = .HALT)
    (hle : s.clock ≤ s.code_memory_size) :
    ∃ s2, (∀ fuel, APEX_cpu_run (fuel + 2) s = .returned s2) ∧
      s2.regs = (writeback s).regs ∧ s2.data_memory = s.data_memory ∧
      s2.z_flag = (writeback s).z_flag ∧ cycles 2 s = some s2 := by
  obtain ⟨hok, hc⟩ := reachable_ok_B code n u k s hr
  have hok' := hok
  obtain ⟨hfb, h2, -, -, -⟩ := hok'
  obtain ⟨a1, a2, a3, a4, a5⟩ := h2 (by simp [APEX_CPU.ctl, CPU_Stage.ctl, CtlStage.live, hmb, hms])
    hmo
  obtain ⟨s1, c1, k1, b1, wo, wb, ws, ms, es, eo, ds, d0, cc, r1, r2, r3, -⟩ :=
    cycle_HALT_to_WB_B s hc hmb hms hmo a1 a2 a3 a4 a5
  have hfb1 : s1.F.busy = false := (cycle_ok_B s s1 ⟨hok, hc⟩ c1).1.1
  obtain ⟨s2, c2, k2, b2, -, -, q1, q2, q3⟩ := cycle_HALT_retires_B s1 wo wb ws ms es eo ds d0 hfb1
  refine ⟨s2, fun fuel => ?_, by rw [q1, r1], by rw [q2, r2], by rw [q3, r3],
    by simp [cycles, c1, c2]⟩
  rw [run_step_B _ s s1 hle hc c1, run_step_B _ s1 s2 (by rw [k1, b1]) cc c2]
  exact run_done_B _ _ (by rw [k2, k1, b2, b1]; omega)

theorem cycles_succ_last_B (k : Nat) (s s1 s2 : APEX_CPU) (h1 : cycles k s = some s1)
    (h2 : cycle s1 = some s2) : cycles (k + 1) s = some s2 := by
  induction k generalizing s with
  | zero =>
    simp only [cycles, Option.some.injEq] at h1
    subst h1
    simp [cycles, h2]
  | succ k ih =>
    simp only [cycles] at h1 ⊢
    cases hc : cycle s with
    | none => simp [hc] at h1
    | some c =>
      have h1' : cycles k c = some s1 := by rw [hc] at h1; simpa using h1
      have := ih c h1'
      simpa [cycles] using this

theorem cycles_add_B (j k : Nat) (s : APEX_CPU) :
    cycles (j + k) s = (cycles j s).bind (cycles k) := by
  induction j generalizing s with
  | zero => simp [cycles]
  | succ j ih =>
    have e : j + 1 + k = (j + k) + 1 := by omega
    rw [e]
    simp only [cycles]
    cases cycle s with
    | none => rfl
    | some c => simpa using ih c

/-- A run of `k + 1` cycles is a run of `k` cycles and one more. -/
theorem cycles_succ_inv_B (k : Nat) (s s2 : APEX_CPU) (h : cycles (k + 1) s = some s2) :
    ∃ s1, cycles k s = some s1 ∧ cycle s1 = some s2 := by
  rw [cycles_add_B k 1 s] at h
  cases h1 : cycles k s with
  | none => rw [h1] at h; cases h
  | some s1 =>
    rw [h1] at h
    refine ⟨s1, rfl, ?_⟩
    simpa [cycles] using h

theorem cycles_succ_first_B (k : Nat) (s s1 s2 : APEX_CPU) (h1 : cycle s = some s1)
    (h2 : cycles k s1 = some s2) : cycles (k + 1) s = some s2 := by
  simp [cycles, h1, h2]

end PartB


namespace PartA
open APEX

variable {code : List APEX_Instruction} {a0 : Arch} {n : Int} {N : Nat} {a : Abs}
  {s : APEX_CPU}

/-- Writeback of instruction `i` on top of the reference registers before `i`. -/
theorem writeback_slot (hp : Prog code a0 N) (c : APEX_CPU) (i : Nat) (hi : i < N)
    (hr : c.regs = (S code a0 i).regs) (hwb : InWB code a0 i c.WB) :
    (writeback c).regs = (S code a0 (i + 1)).regs ∧
    (writeback c).z_flag =
      if (ins code i).opcode.sets_z = true ∧ no_later_arith c = true
      then decide (res code a0 i = 0) else c.z_flag := by
  obtain ⟨⟨i1, i2, -, -, -, i6⟩, i7, i8⟩ := hwb
  rw [writeback_live c i6 i7]
  constructor
  · funext r
    show (if _ then write c.regs c.WB.rd c.WB.buffer else c.regs) r = _
    rw [regs_succ code a0 i (hp.lt_length (Nat.le_of_lt hi)) r, hr, i1]
    by_cases hwr : (ins code i).opcode.writes_rd = true
    · rw [if_pos hwr, i8 hwr, i2]
      simp only [write, writes, hwr, Bool.true_and, decide_eq_true_eq]
      by_cases hr : r = (ins code i).rd
      · simp [hr]
      · have hr' : ¬ (ins code i).rd = r := fun e => hr e.symm
        simp [hr, hr']
    · rw [if_neg hwr]
      simp [writes, hwr]
  · show (if c.WB.opcode.sets_z = true ∧ no_later_arith c = true then decide (c.WB.buffer = 0)
      else c.z_flag) = _
    rw [i1]
    by_cases hz : (ins code i).opcode.sets_z = true ∧ no_later_arith c = true
    · rw [if_pos hz, if_pos hz, i8 (sets_z_writes _ hz.1)]
    · rw [if_neg hz, if_neg hz]

/-- Writeback on a WB latch that holds no instruction. -/
theorem writeback_empty (c : APEX_CPU) (h : c.WB.opcode = .BUBBLE ∨ WB_init c.WB) :
    (writeback c).regs = c.regs ∧ (writeback c).z_flag = c.z_flag := by
  cases hl : c.WB.ctl.live
  · rw [writeback_idle c ((live_false_iff _).1 hl)]
    exact ⟨rfl, rfl⟩
  · obtain ⟨l1, l2⟩ := (live_true_iff _).1 hl
    rcases h with hb1 | ⟨-, hb2, -⟩
    · rw [writeback_live c l1 l2]
      constructor
      · simp [hb1, Opcode.writes_rd]
      · simp [hb1, Opcode.sets_z]
    · rw [l1] at hb2; cases hb2

/-- The cycle in which Execute processes the HALT. -/
theorem rel_halt (hp : Prog code a0 N) (h : Rel code a0 n N a s) (hd : a.d = N + 1) :
    ∃ sT, cycle s = some sT ∧ sT.MEM.busy = false ∧ sT.MEM.stalled = false ∧
      sT.MEM.opcode = .HALT ∧ sT.code_memory_size = n ∧ sT.clock = s.clock + 1 ∧
      sT.data_memory = (S code a0 N).mem ∧ (writeback sT).regs = (S code a0 N).regs ∧
      (∀ b, (S code a0 N).z = some b → (writeback sT).z_flag = b) := by
  have hb := h.core.bound
  have hoe : a.oe = true := by
    by_contra hc
    simp only [Abs.d, Abs.ie] at hd hb
    simp [hc] at hd
    omega
  have hie : a.ie = N := by
    simp only [Abs.d, Abs.ie, hoe, Bool.toNat_true] at hd ⊢; omega
  have hex := h.core.ex
  rw [if_pos hoe, hie] at hex
  obtain ⟨hin, hst, hmul⟩ := hex
  have hH : s.EX.opcode = .HALT := by rw [hin.1.1, hp.2.2.1]
  have hmode : a.mode ≠ .mul := by
    intro hm
    have := (hmul hm).1
    rw [hp.2.2.1] at this; cases this
  have hs0 : s.EX.stalled = false := by rw [hst]; simp [hmode]
  obtain ⟨hds, hdo⟩ := h.core.halted hd
  -- writeback and memory
  obtain ⟨w1, w2, w3, w4, w5, w6, w7, w8⟩ := writeback_latches s
  obtain ⟨wf1, wf2, wf3⟩ := writeback_frame s
  obtain ⟨wr1, wr2⟩ := rel_writeback_regs hp h.core
  obtain ⟨m1, m2, m3, m4, m5, m6, m7, m8, m9, m10, m11⟩ := memory_latches (writeback s)
  obtain ⟨mf1, mf2, mf3⟩ := memory_frame (writeback s)
  obtain ⟨mr1, mr2, mr3, mr4, mr5, mr6⟩ := rel_memory hp h.core (writeback s) w4 wr2 w6
  have hC2 : (mem_step (writeback s)).ENABLE_COUNTING = false := by
    rw [mf1, wf1, h.core.counting]
  have hE2 : (mem_step (writeback s)).EX = s.EX := by rw [m3, w3]
  have hD2 : (mem_step (writeback s)).DRF = s.DRF := by rw [m2, w2]
  -- execute
  obtain ⟨c3, z, hx3, eM, eE, eD, eF, eP⟩ := execute_not_taken (mem_step (writeback s))
    (by rw [hE2]; exact hin.1.2.2.2.2.2) (by rw [hE2, hs0]) hC2
    (by rw [hE2]; simp [ex_fault, hH]) (by intro z; rw [hE2]; simp [ex_taken, hH])
  rw [hE2] at eM eE eD
  rw [if_neg (by rw [hH]; simp)] at eM
  obtain ⟨x1, x2, x3, x4, x5, x6, x7⟩ := execute_arch _ c3 hC2 hx3
  obtain ⟨xf1, xf2, xf3⟩ := execute_frame _ c3 hC2 hx3
  -- decode
  have hdec : decode c3 = c3 := by
    apply decode_idle c3 (Or.inr (by rw [eD, hD2]; simp [hds]))
    right; left
    rw [eD, hD2]; exact hdo
  have hcy := cycle_of_execute s c3 (core_no_oob h.core) hx3
  rw [hdec] at hcy
  obtain ⟨f1, f2, f3, f4, f5, f6, f7, f8, f9, f10, f11, f12⟩ := fetch_arch c3
  have hWB3 : c3.WB = (mem_step (writeback s)).WB := x5
  have him : a.im + a.om.toNat = N := by
    simp only [Abs.ie, Abs.im] at hie ⊢; omega
  have hWBne : c3.WB.opcode ≠ .HALT := by
    rw [hWB3]
    by_cases hom : a.om = true
    · rw [if_pos hom] at mr2
      rw [mr2.1.1]
      have : a.im < N := by simp [hom] at him; omega
      exact (hp.opcode (Nat.le_of_lt this)).2.2.2.2.2 this
    · rw [if_neg hom] at mr2
      rcases mr2 with y | ⟨⟨y, -⟩, -⟩ <;> rw [y] <;> simp
  refine ⟨_, hcy, ?_, ?_, ?_, ?_, ?_, ?_, ?_, ?_⟩
  · show (fetch c3).MEM.busy = false
    rw [f6, eM]; exact hin.1.2.2.2.2.2
  · show (fetch c3).MEM.stalled = false
    rw [f6, eM]; exact hs0
  · show (fetch c3).MEM.opcode = .HALT
    rw [f6, eM]; exact hH
  · show (fetch c3).code_memory_size = n
    rw [f12 hWBne, xf3, mf3, wf3, h.core.budget]
  · show (fetch c3).clock + 1 = s.clock + 1
    rw [f10, xf2, mf2, wf2]
  · show (fetch c3).data_memory = _
    rw [f3, x3, mr1, hie]
  · -- the last retirement
    have hregs : (fetch c3).regs = (S code a0 a.im).regs := by rw [f1, x1, m5, wr1]
    have hWB : (fetch c3).WB = (mem_step (writeback s)).WB := by rw [f7, hWB3]
    by_cases hom : a.om = true
    · rw [if_pos hom] at mr2
      have hlt : a.im < N := by simp [hom] at him; omega
      have e : a.im + 1 = N := by simp [hom] at him; omega
      have := (writeback_slot hp { fetch c3 with clock := (fetch c3).clock + 1 } a.im hlt hregs
        (by show InWB code a0 a.im (fetch c3).WB; rw [hWB]; exact mr2)).1
      rw [e] at this
      exact this
    · rw [if_neg hom] at mr2
      have e : a.im = N := by simp [hom] at him; omega
      have := (writeback_empty { fetch c3 with clock := (fetch c3).clock + 1 }
        (by show (fetch c3).WB.opcode = .BUBBLE ∨ WB_init (fetch c3).WB
            rw [hWB]
            rcases mr2 with y | ⟨y, -⟩
            · exact Or.inl y
            · exact Or.inr y)).1
      rw [this]
      show (fetch c3).regs = _
      rw [hregs, e]
  · intro b hbz
    have hz3 : (fetch c3).z_flag = (writeback s).z_flag := by rw [f4, x4, m7]
    have hregs : (fetch c3).regs = (S code a0 a.im).regs := by rw [f1, x1, m5, wr1]
    have hWB : (fetch c3).WB = (mem_step (writeback s)).WB := by rw [f7, hWB3]
    have hnl : no_later_arith { fetch c3 with clock := (fetch c3).clock + 1 } = true := by
      show (!(fetch c3).MEM.opcode.sets_z && !(fetch c3).EX.opcode.sets_z) = true
      rw [f6, f5, eM, eE]
      show (!s.EX.opcode.sets_z && !s.EX.opcode.sets_z) = true
      rw [hH]; rfl
    have hzs := rel_writeback_z hp h
    by_cases hom : a.om = true
    · rw [if_pos hom] at mr2
      have hlt : a.im < N := by simp [hom] at him; omega
      have e : a.im + 1 = N := by simp [hom] at him; omega
      have hw := (writeback_slot hp { fetch c3 with clock := (fetch c3).clock + 1 } a.im hlt
        hregs (by show InWB code a0 a.im (fetch c3).WB; rw [hWB]; exact mr2)).2
      rw [hw]
      rw [← e, z_succ code a0 a.im (hp.lt_length (Nat.le_of_lt hlt))] at hbz
      by_cases hz : (ins code a.im).opcode.sets_z = true
      · rw [if_pos hz] at hbz
        rw [if_pos ⟨hz, hnl⟩]
        exact Option.some.inj hbz
      · rw [if_neg hz] at hbz
        rw [if_neg (fun x => hz x.1)]
        show (fetch c3).z_flag = b
        rw [hz3]
        rcases hzs b hbz with y | y | y
        · exact y
        · exact absurd y.2 hz
        · rw [hie, hp.2.2.1] at y
          simp [Opcode.sets_z] at y
    · rw [if_neg hom] at mr2
      have e : a.im = N := by simp [hom] at him; omega
      have := (writeback_empty { fetch c3 with clock := (fetch c3).clock + 1 }
        (by show (fetch c3).WB.opcode = .BUBBLE ∨ WB_init (fetch c3).WB
            rw [hWB]
            rcases mr2 with y | ⟨y, -⟩
            · exact Or.inl y
            · exact Or.inr y)).2
      rw [this]
      show (fetch c3).z_flag = b
      rw [hz3]
      rw [← e] at hbz
      rcases hzs b hbz with y | y | y
      · exact y
      · exact absurd y.1 hom
      · rw [hie, hp.2.2.1] at y
        simp [Opcode.sets_z] at y

end PartA


namespace PartB
open APEX

variable {code : List APEX_Instruction} {a0 : Arch} {n : Int} {N : Nat} {a : Abs}
  {s : APEX_CPU}

/-- Writeback of instruction `i` on top of the reference registers before `i`. -/
theorem writeback_slot_B (hp : Prog code a0 N) (c : APEX_CPU) (i : Nat) (hi : i < N)
    (hr : c.regs = (S code a0 i).regs) (hwb : InWB code a0 i c.WB) :
    (writeback c).regs = (S code a0 (i + 1)).regs ∧
    (writeback c).z_flag =
      if (ins code i).opcode.sets_z = true then decide (res code a0 i = 0)
      else c.z_flag := by
  obtain ⟨⟨i1, i2, -, -, -, i6⟩, i7, i8⟩ := hwb
  rw [writeback_live_B c i6 i7]
  constructor
  · funext r
    show (if _ then write c.regs c.WB.rd c.WB.buffer else c.regs) r = _
    rw [regs_succ code a0 i (hp.lt_length (Nat.le_of_lt hi)) r, hr, i1]
    by_cases hwr : (ins code i).opcode.writes_rd = true
    · rw [if_pos hwr, i8 hwr, i2]
      simp only [write, writes, hwr, Bool.true_and, decide_eq_true_eq]
      by_cases hr : r = (ins code i).rd
      · simp [hr]
      · have hr' : ¬ (ins code i).rd = r := fun e => hr e.symm
        simp [hr, hr']
    · rw [if_neg hwr]
      simp [writes, hwr]
  · show (if c.WB.opcode.sets_z = true then decide (c.WB.buffer = 0) else c.z_flag) = _
    rw [i1]
    by_cases hz : (ins code i).opcode.sets_z = true
    · rw [if_pos hz, if_pos hz, i8 (sets_z_writes_B _ hz)]
    · rw [if_neg hz, if_neg hz]

/-- Writeback on a WB latch that holds no instruction. -/
theorem writeback_empty_B (c : APEX_CPU) (h : c.WB.opcode = .BUBBLE ∨ WB_init c.WB) :
    (writeback c).regs = c.regs ∧ (writeback c).z_flag = c.z_flag := by
  cases hl : c.WB.ctl.live
  · rw [writeback_idle_B c ((live_false_iff _).1 hl)]
    exact ⟨rfl, rfl⟩
  · obtain ⟨l1, l2⟩ := (live_true_iff _).1 hl
    rcases h with hb1 | ⟨-, hb2, -⟩
    · rw [writeback_live_B c l1 l2]
      constructor
      · simp [hb1, Opcode.writes_rd]
      · simp [hb1, Opcode.sets_z]
    · rw [l1] at hb2; cases hb2

/-- The cycle in which Execute processes the HALT. -/
theorem rel_halt_B (hp : Prog code a0 N) (h : Rel code a0 n N a s) (hd : a.d = N + 1) :
    ∃ sT, cycle s = some sT ∧ sT.MEM.busy = false ∧ sT.MEM.stalled = false ∧
      sT.MEM.opcode = .HALT ∧ sT.code_memory_size = n ∧ sT.clock = s.clock + 1 ∧
      sT.data_memory = (S code a0 N).mem ∧ (writeback sT).regs = (S code a0 N).regs ∧
      (∀ b, (S code a0 N).z = some b → (writeback sT).z_flag = b) := by
  have hb := h.core.bound
  have hoe : a.oe = true := by
    by_contra hc
    simp only [Abs.d, Abs.ie] at hd hb
    simp [hc] at hd
    omega
  have hie : a.ie = N := by
    simp only [Abs.d, Abs.ie, hoe, Bool.toNat_true] at hd ⊢; omega
  have hex := h.core.ex
  rw [if_pos hoe, hie] at hex
  obtain ⟨hin, hst, hmul⟩ := hex
  have hH : s.EX.opcode = .HALT := by rw [hin.1.1, hp.2.2.1]
  have hmode : a.mode ≠ .mul := by
    intro hm
    have := (hmul hm).1
    rw [hp.2.2.1] at this; cases this
  have hs0 : s.EX.stalled = false := by rw [hst]; simp [hmode]
  obtain ⟨hds, hdo⟩ := h.core.halted hd
  -- writeback and memory
  obtain ⟨w1, w2, w3, w4, w5, w6, w7, w8⟩ := writeback_latches_B s
  obtain ⟨wf1, wf2, wf3⟩ := writeback_frame_B s
  obtain ⟨wr1, wr2⟩ := rel_writeback_regs_B hp h.core
  obtain ⟨m1, m2, m3, m4, m5, m6, m7, m8, m9, m10, m11⟩ := memory_latches_B (writeback s)
  obtain ⟨mf1, mf2, mf3⟩ := memory_frame_B (writeback s)
  obtain ⟨mr1, mr2, mr3, mr4, mr5, mr6⟩ := rel_memory_B hp h.core (writeback s) w4 wr2 w6
  have hC2 : (mem_step (writeback s)).ENABLE_COUNTING = false := by
    rw [mf1, wf1, h.core.counting]
  have hE2 : (mem_step (writeback s)).EX = s.EX := by rw [m3, w3]
  have hD2 : (mem_step (writeback s)).DRF = s.DRF := by rw [m2, w2]
  -- execute
  obtain ⟨c3, z, hx3, eM, eE, eD, eF, eP⟩ := execute_not_taken_B (mem_step (writeback s))
    (by rw [hE2]; exact hin.1.2.2.2.2.2) (by rw [hE2, hs0]) hC2
    (by rw [hE2]; simp [ex_fault, hH]) (by intro z; rw [hE2]; simp [ex_taken, hH])
  rw [hE2] at eM eE eD
  rw [if_neg (by rw [hH]; simp)] at eM
  obtain ⟨x1, x2, x3, x4, x5, x6, x7⟩ := execute_arch_B _ c3 hC2 hx3
  obtain ⟨xf1, xf2, xf3⟩ := execute_frame_B _ c3 hC2 hx3
  -- decode
  have hdec : decode c3 = c3 := by
    apply decode_idle_B c3 (Or.inr (by rw [eD, hD2]; simp [hds]))
    right; left
    rw [eD, hD2]; exact hdo
  have hcy := cycle_of_execute_B s c3 (core_no_oob h.core) hx3
  rw [hdec] at hcy
  obtain ⟨f1, f2, f3, f4, f5, f6, f7, f8, f9, f10, f11, f12⟩ := fetch_arch_B c3
  have hWB3 : c3.WB = (mem_step (writeback s)).WB := x5
  have him : a.im + a.om.toNat = N := by
    simp only [Abs.ie, Abs.im] at hie ⊢; omega
  have hWBne : c3.WB.opcode ≠ .HALT := by
    rw [hWB3]
    by_cases hom : a.om = true
    · rw [if_pos hom] at mr2
      rw [mr2.1.1]
      have : a.im < N := by simp [hom] at him; omega
      exact (hp.opcode (Nat.le_of_lt this)).2.2.2.2.2 this
    · rw [if_neg hom] at mr2
      rcases mr2 with y | ⟨⟨y, -⟩, -⟩ <;> rw [y] <;> simp
  refine ⟨_, hcy, ?_, ?_, ?_, ?_, ?_, ?_, ?_, ?_⟩
  · show (fetch c3).MEM.busy = false
    rw [f6, eM]; exact hin.1.2.2.2.2.2
  · show (fetch c3).MEM.stalled = false
    rw [f6, eM]; exact hs0
  · show (fetch c3).MEM.opcode = .HALT
    rw [f6, eM]; exact hH
  · show (fetch c3).code_memory_size = n
    rw [f12 hWBne, xf3, mf3, wf3, h.core.budget]
  · show (fetch c3).clock + 1 = s.clock + 1
    rw [f10, xf2, mf2, wf2]
  · show (fetch c3).data_memory = _
    rw [f3, x3, mr1, hie]
  · -- the last retirement
    have hregs : (fetch c3).regs = (S code a0 a.im).regs := by rw [f1, x1, m5, wr1]
    have hWB : (fetch c3).WB = (mem_step (writeback s)).WB := by rw [f7, hWB3]
    by_cases hom : a.om = true
    · rw [if_pos hom] at mr2
      have hlt : a.im < N := by simp [hom] at him; omega
      have e : a.im + 1 = N := by simp [hom] at him; omega
      have := (writeback_slot_B hp { fetch c3 with clock := (fetch c3).clock + 1 } a.im hlt hregs
        (by show InWB code a0 a.im (fetch c3).WB; rw [hWB]; exact mr2)).1
      rw [e] at this
      exact this
    · rw [if_neg hom] at mr2
      have e : a.im = N := by simp [hom] at him; omega
      have := (writeback_empty_B { fetch c3 with clock := (fetch c3).clock + 1 }
        (by show (fetch c3).WB.opcode = .BUBBLE ∨ WB_init (fetch c3).WB
            rw [hWB]
            rcases mr2 with y | ⟨y, -⟩
            · exact Or.inl y
            · exact Or.inr y)).1
      rw [this]
      show (fetch c3).regs = _
      rw [hregs, e]
  · intro b hbz
    have hz3 : (fetch c3).z_flag = (writeback s).z_flag := by rw [f4, x4, m7]
    have hregs : (fetch c3).regs = (S code a0 a.im).regs := by rw [f1, x1, m5, wr1]
    have hWB : (fetch c3).WB = (mem_step (writeback s)).WB := by rw [f7, hWB3]
    have hzs := rel_writeback_z_B hp h
    by_cases hom : a.om = true
    · rw [if_pos hom] at mr2
      have hlt : a.im < N := by simp [hom] at him; omega
      have e : a.im + 1 = N := by simp [hom] at him; omega
      have hw := (writeback_slot_B hp { fetch c3 with clock := (fetch c3).clock + 1 } a.im hlt
        hregs (by show InWB code a0 a.im (fetch c3).WB; rw [hWB]; exact mr2)).2
      rw [hw]
      rw [← e, z_succ code a0 a.im (hp.lt_length (Nat.le_of_lt hlt))] at hbz
      by_cases hz : (ins code a.im).opcode.sets_z = true
      · rw [if_pos hz] at hbz
        rw [if_pos hz]
        exact Option.some.inj hbz
      · rw [if_neg hz] at hbz
        rw [if_neg hz]
        show (fetch c3).z_flag = b
        rw [hz3]
        exact hzs b hbz
    · rw [if_neg hom] at mr2
      have e : a.im = N := by simp [hom] at him; omega
      have := (writeback_empty_B { fetch c3 with clock := (fetch c3).clock + 1 }
        (by show (fetch c3).WB.opcode = .BUBBLE ∨ WB_init (fetch c3).WB
            rw [hWB]
            rcases mr2 with y | ⟨y, -⟩
            · exact Or.inl y
            · exact Or.inr y)).2
      rw [this]
      show (fetch c3).z_flag = b
      rw [hz3]
      rw [← e] at hbz
      exact hzs b hbz

end PartB


namespace APEX

theorem pot_le (a : Abs) (hm : a.mode = .mul → a.oe = true) : a.pot ≤ 5 * a.d := by
  rcases a with ⟨w, ow, om, oe, mode⟩
  simp only [Abs.pot, Abs.d] at hm ⊢
  by_cases h : mode = .mul
  · rw [hm h, if_pos h]
    cases ow <;> cases om <;> simp <;> omega
  · rw [if_neg h]
    cases ow <;> cases om <;> cases oe <;> simp <;> omega

end APEX

namespace PartA
open APEX

variable {code : List APEX_Instruction} {a0 : Arch} {n : Int} {N : Nat} {a : Abs}
  {s : APEX_CPU}

theorem rel_mul_oe (h : Rel code a0 n N a s) : a.mode = .mul → a.oe = true := by
  intro hm
  by_contra hc
  have := h.core.ex
  rw [if_neg hc] at this
  exact this.2 hm

theorem rel_d_le (h : Rel code a0 n N a s) : a.d ≤ N + 1 := by
  have := h.core.bound
  simp only [Abs.d, Abs.ie, Abs.im] at this ⊢
  cases a.oe <;> simp <;> omega

/-- Progress: the HALT reaches EX within `5 (N + 1)` cycles, each of them an iteration of the
run loop. -/
theorem reach_halt (hp : Prog code a0 N) (hF : Fine code a0 (N + 1))
    (hn : 5 * (N : Int) + 4 ≤ n) :
    ∀ (m : Nat) (a : Abs) (s : APEX_CPU), Rel code a0 n N a s → 5 * (N + 1) ≤ a.pot + m →
      ∃ k a' s', cycles k s = some s' ∧ Rel code a0 n N a' s' ∧ a'.d = N + 1 ∧
        ∀ fuel, APEX_cpu_run (k + fuel) s = APEX_cpu_run fuel s' := by
  intro m
  induction m with
  | zero =>
    intro a s h hm
    have h1 := pot_le a (rel_mul_oe h)
    have h2 := rel_d_le h
    refine ⟨0, a, s, rfl, h, by omega, fun fuel => by rw [Nat.zero_add]⟩
  | succ m ih =>
    intro a s h hm
    by_cases hd : a.d = N + 1
    · exact ⟨0, a, s, rfl, h, hd, fun fuel => by rw [Nat.zero_add]⟩
    · have h2 := rel_d_le h
      have hdN : a.d ≤ N := by omega
      obtain ⟨s1, hc, h1⟩ := rel_step hp h hdN
        (fun _ => hF _ (by have := h.core.bound; omega))
      have hpn := @pot_next code a (rel_mul_oe h)
      obtain ⟨k, a', s', hk, hr, hd', hrun⟩ := ih (next code a) s1 h1 (by omega)
      refine ⟨k + 1, a', s', cycles_succ_first k s s1 s' hc hk, hr, hd', fun fuel => ?_⟩
      have hcl : s.clock ≤ s.code_memory_size := by
        have e1 := h.core.clock
        have e2 := pot_le a (rel_mul_oe h)
        rw [h.core.budget]
        omega
      have : k + 1 + fuel = (k + fuel) + 1 := by omega
      rw [this, run_step (k + fuel) s s1 hcl h.core.counting hc]
      exact hrun fuel

/-- Variant A refines the program-order semantics: for a program of `N` straight-line
instructions followed by a HALT and a budget of at least `5 N + 4` cycles, the run loop
returns, with the registers, the data memory and the Z flag of the reference state. -/
theorem refines (code : List APEX_Instruction) (N : Nat) (n : Int) (u : Uninit)
    (hp : Prog code (Arch.init u) N) (hF : Fine code (Arch.init u) (N + 1))
    (hn : 5 * (N : Int) + 4 ≤ n) :
    ∃ K final, (∀ fuel, APEX_cpu_run (K + fuel) (initial code n u) = .returned final) ∧
      cycles K (initial code n u) = some final ∧
      final.regs = (S code (Arch.init u) N).regs ∧
      final.data_memory = (S code (Arch.init u) N).mem ∧
      ∀ b, (S code (Arch.init u) N).z = some b → final.z_flag = b := by
  obtain ⟨s1, hc1, hr1⟩ := @rel_init code n N u hp
  obtain ⟨k, a', s', hk, hr, hd, hrun⟩ :=
    reach_halt hp hF hn (5 * (N + 1)) _ s1 hr1 (by omega)
  obtain ⟨sT, hcT, t1, t2, t3, t4, t5, t6, t7, t8⟩ := rel_halt hp hr hd
  have hreach : cycles (k + 1 + 1) (initial code n u) = some sT :=
    cycles_succ_last (k + 1) _ s' sT (cycles_succ_first k _ s1 s' hc1 hk) hcT
  -- clock bound at the HALT cycle
  have hpot : a'.pot ≤ 5 * N + 1 := by
    have hb := hr.core.bound
    have hex := hr.core.ex
    have hoe : a'.oe = true := by
      by_contra hcn
      simp only [Abs.d, Abs.ie, Abs.im] at hd hb
      simp [hcn] at hd
      omega
    rw [if_pos hoe] at hex
    have hie : a'.ie = N := by
      simp only [Abs.d, Abs.ie, Abs.im, hoe, Bool.toNat_true] at hd ⊢; omega
    have hmode : a'.mode ≠ .mul := by
      intro hm
      have := (hex.2.2 hm).1
      rw [hie, hp.2.2.1] at this; cases this
    simp only [Abs.pot, Abs.d, hoe, Bool.toNat_true, if_neg hmode] at hd ⊢
    have := Bool.toNat_le a'.ow
    have := Bool.toNat_le a'.om
    omega
  have hcl' : s'.clock ≤ s'.code_memory_size := by
    have := hr.core.clock
    rw [hr.core.budget]; omega
  have hclT : sT.clock ≤ sT.code_memory_size := by
    have := hr.core.clock
    rw [t4, t5]; omega
  obtain ⟨s2, hs2, f1, f2, f3, f4⟩ := halt_run code n u (k + 1 + 1) sT hreach t1 t2 t3 hclT
  refine ⟨k + 4, s2, fun fuel => ?_, ?_, by rw [f1, t7], by rw [f2, t6], fun b hb => ?_⟩
  · have e1 : k + 4 + fuel = (k + (1 + (fuel + 2))) + 1 := by omega
    have hcl0 : (initial code n u).clock ≤ (initial code n u).code_memory_size := by
      show (1 : Int) ≤ n
      omega
    rw [e1, run_step _ _ s1 hcl0 rfl hc1, hrun, Nat.add_comm 1 (fuel + 2),
      run_step _ _ sT hcl' hr.core.counting hcT]
    exact hs2 fuel
  · have e : k + 4 = (k + 1 + 1) + 2 := by omega
    rw [e, cycles_add, hreach]
    exact f4
  · rw [f3]; exact t8 b hb

end PartA


namespace PartB
open APEX

variable {code : List APEX_Instruction} {a0 : Arch} {n : Int} {N : Nat} {a : Abs}
  {s : APEX_CPU}

theorem rel_mul_oe_B (h : Rel code a0 n N a s) : a.mode = .mul → a.oe = true := by
  intro hm
  by_contra hc
  have := h.core.ex
  rw [if_neg hc] at this
  exact this.2 hm

theorem rel_d_le_B (h : Rel code a0 n N a s) : a.d ≤ N + 1 := by
  have := h.core.bound
  simp only [Abs.d, Abs.ie, Abs.im] at this ⊢
  cases a.oe <;> simp <;> omega

/-- Progress: the HALT reaches EX within `5 (N + 1)` cycles, each of them an iteration of the
run loop. -/
theorem reach_halt_B (hp : Prog code a0 N) (hF : Fine code a0 (N + 1))
    (hn : 5 * (N : Int) + 4 ≤ n) :
    ∀ (m : Nat) (a : Abs) (s : APEX_CPU), Rel code a0 n N a s → 5 * (N + 1) ≤ a.pot + m →
      ∃ k a' s', cycles k s = some s' ∧ Rel code a0 n N a' s' ∧ a'.d = N + 1 ∧
        ∀ fuel, APEX_cpu_run (k + fuel) s = APEX_cpu_run fuel s' := by
  intro m
  induction m with
  | zero =>
    intro a s h hm
    have h1 := pot_le a (rel_mul_oe_B h)
    have h2 := rel_d_le_B h
    refine ⟨0, a, s, rfl, h, by omega, fun fuel => by rw [Nat.zero_add]⟩
  | succ m ih =>
    intro a s h hm
    by_cases hd : a.d = N + 1
    · exact ⟨0, a, s, rfl, h, hd, fun fuel => by rw [Nat.zero_add]⟩
    · have h2 := rel_d_le_B h
      have hdN : a.d ≤ N := by omega
      obtain ⟨s1, hc, h1⟩ := rel_step_B hp h hdN
        (fun _ => hF _ (by have := h.core.bound; omega))
      have hpn := @pot_next_B code a (rel_mul_oe_B h)
      obtain ⟨k, a', s', hk, hr, hd', hrun⟩ := ih (next code a) s1 h1 (by omega)
      refine ⟨k + 1, a', s', cycles_succ_first_B k s s1 s' hc hk, hr, hd', fun fuel => ?_⟩
      have hcl : s.clock ≤ s.code_memory_size := by
        have e1 := h.core.clock
        have e2 := pot_le a (rel_mul_oe_B h)
        rw [h.core.budget]
        omega
      have : k + 1 + fuel = (k + fuel) + 1 := by omega
      rw [this, run_step_B (k + fuel) s s1 hcl h.core.counting hc]
      exact hrun fuel

/-- Variant B refines the program-order semantics: for a program of `N` straight-line
instructions followed by a HALT and a budget of at least `5 N + 4` cycles, the run loop
returns, with the registers, the data memory and the Z flag of the reference state. -/
theorem refines_B (code : List APEX_Instruction) (N : Nat) (n : Int) (u : Uninit)
    (hp : Prog code (Arch.init u) N) (hF : Fine code (Arch.init u) (N + 1))
    (hn : 5 * (N : Int) + 4 ≤ n) :
    ∃ K final, (∀ fuel, APEX_cpu_run (K + fuel) (initial code n u) = .returned final) ∧
      cycles K (initial code n u) = some final ∧
      final.regs = (S code (Arch.init u) N).regs ∧
      final.data_memory = (S code (Arch.init u) N).mem ∧
      ∀ b, (S code (Arch.init u) N).z = some b → final.z_flag = b := by
  obtain ⟨s1, hc1, hr1⟩ := @rel_init_B code n N u hp
  obtain ⟨k, a', s', hk, hr, hd, hrun⟩ :=
    reach_halt_B hp hF hn (5 * (N + 1)) _ s1 hr1 (by omega)
  obtain ⟨sT, hcT, t1, t2, t3, t4, t5, t6, t7, t8⟩ := rel_halt_B hp hr hd
  have hreach : cycles (k + 1 + 1) (initial code n u) = some sT :=
    cycles_succ_last_B (k + 1) _ s' sT (cycles_succ_first_B k _ s1 s' hc1 hk) hcT
  -- clock bound at the HALT cycle
  have hpot : a'.pot ≤ 5 * N + 1 := by
    have hb := hr.core.bound
    have hex := hr.core.ex
    have hoe : a'.oe = true := by
      by_contra hcn
      simp only [Abs.d, Abs.ie, Abs.im] at hd hb
      simp [hcn] at hd
      omega
    rw [if_pos hoe] at hex
    have hie : a'.ie = N := by
      simp only [Abs.d, Abs.ie, Abs.im, hoe, Bool.toNat_true] at hd ⊢; omega
    have hmode : a'.mode ≠ .mul := by
      intro hm
      have := (hex.2.2 hm).1
      rw [hie, hp.2.2.1] at this; cases this
    simp only [Abs.pot, Abs.d, hoe, Bool.toNat_true, if_neg hmode] at hd ⊢
    have := Bool.toNat_le a'.ow
    have := Bool.toNat_le a'.om
    omega
  have hcl' : s'.clock ≤ s'.code_memory_size := by
    have := hr.core.clock
    rw [hr.core.budget]; omega
  have hclT : sT.clock ≤ sT.code_memory_size := by
    have := hr.core.clock
    rw [t4, t5]; omega
  obtain ⟨s2, hs2, f1, f2, f3, f4⟩ := halt_run_B code n u (k + 1 + 1) sT hreach t1 t2 t3 hclT
  refine ⟨k + 4, s2, fun fuel => ?_, ?_, by rw [f1, t7], by rw [f2, t6], fun b hb => ?_⟩
  · have e1 : k + 4 + fuel = (k + (1 + (fuel + 2))) + 1 := by omega
    have hcl0 : (initial code n u).clock ≤ (initial code n u).code_memory_size := by
      show (1 : Int) ≤ n
      omega
    rw [e1, run_step_B _ _ s1 hcl0 rfl hc1, hrun, Nat.add_comm 1 (fuel + 2),
      run_step_B _ _ sT hcl' hr.core.counting hcT]
    exact hs2 fuel
  · have e : k + 4 = (k + 1 + 1) + 2 := by omega
    rw [e, cycles_add_B, hreach]
    exact f4
  · rw [f3]; exact t8 b hb

end PartB


namespace APEX

/-- A program that contains a HALT splits at its first HALT. -/
theorem first_HALT (code : List APEX_Instruction) (h : ∃ i ∈ code, i.opcode = .HALT) :
    ∃ body hlt rest, code = body ++ hlt :: rest ∧ hlt.opcode = .HALT ∧
      ∀ i ∈ body, i.opcode ≠ .HALT := by
  induction code with
  | nil => obtain ⟨i, hi, -⟩ := h; simp at hi
  | cons x xs ih =>
    by_cases hx : x.opcode = .HALT
    · exact ⟨[], x, xs, rfl, hx, by simp⟩
    · obtain ⟨i, hi, hH⟩ := h
      have hi' : i ∈ xs := by
        rcases List.mem_cons.1 hi with e | e
        · rw [e] at hH; exact absurd hH hx
        · exact e
      obtain ⟨body, hlt, rest, e, h1, h2⟩ := ih ⟨i, hi', hH⟩
      refine ⟨x :: body, hlt, rest, by rw [e]; rfl, h1, ?_⟩
      intro j hj
      rcases List.mem_cons.1 hj with e | e
      · rw [e]; exact hx
      · exact h2 j e

theorem ins_mem (code : List APEX_Instruction) (i : Nat) (h : i < code.length) :
    ins code i ∈ code := by
  unfold ins
  rw [List.getD_eq_getElem _ _ h]
  exact List.getElem_mem h

theorem ins_append_left (body : List APEX_Instruction) (tl : List APEX_Instruction) (i : Nat)
    (h : i < body.length) : ins (body ++ tl) i = ins body i := by
  unfold ins
  rw [List.getD_eq_getElem _ _ (by simp; omega), List.getD_eq_getElem _ _ h,
    List.getElem_append_left h]

theorem ins_append_mid (body : List APEX_Instruction) (hlt : APEX_Instruction)
    (rest : List APEX_Instruction) : ins (body ++ hlt :: rest) body.length = hlt := by
  unfold ins
  rw [List.getD_eq_getElem?_getD, List.getElem?_append_right (le_refl _)]
  simp

theorem init_ranged (u : Uninit) (hu : ∀ x, in32 (u.data_tail x)) : (Arch.init u).ranged := by
  refine ⟨fun r => by simp [Arch.init, in32], fun x => ?_⟩
  show in32 (if 0 ≤ x ∧ x < 4000 then 0 else u.data_tail x)
  by_cases h : 0 ≤ x ∧ x < 4000
  · rw [if_pos h]; simp [in32]
  · rw [if_neg h]; exact hu x

theorem step_eq_exec (a : Arch) (i : APEX_Instruction) (h : a.addr_ok i) :
    a.step i = a.exec i := by
  obtain ⟨h1, h2⟩ := h
  unfold Arch.step Arch.exec
  cases ho : i.opcode <;> simp only
  · have := h1 ho
    rw [wrap32_id _ (by omega) (by omega)]
  · have := h2 ho
    rw [wrap32_id _ (by omega) (by omega)]

theorem addr_fine_of_ok (a : Arch) (i : APEX_Instruction) (h : a.addr_ok i) :
    a.addr_fine i := by
  obtain ⟨h1, h2⟩ := h
  constructor
  · intro ho
    have := h1 ho
    rw [wrap32_id _ (by omega) (by omega)]
    omega
  · intro ho
    have := h2 ho
    rw [wrap32_id _ (by omega) (by omega)]
    omega

theorem S_cons (x : APEX_Instruction) (xs : List APEX_Instruction) (a0 : Arch) (i : Nat) :
    S (x :: xs) a0 (i + 1) = S xs (a0.step x) i := by
  simp [S, Arch.run]

theorem ins_cons (x : APEX_Instruction) (xs : List APEX_Instruction) (i : Nat) :
    ins (x :: xs) (i + 1) = ins xs i := by
  simp [ins]

/-- Up to the first HALT, the reference states of a program whose addresses are in range are
those of program-order execution, and every address passes the range test of Execute. -/
theorem program_eq_S (body : List APEX_Instruction) (hlt : APEX_Instruction)
    (rest : List APEX_Instruction) (hH : hlt.opcode = .HALT)
    (hb : ∀ i ∈ body, i.opcode ≠ .HALT) (a : Arch)
    (haddr : a.addrs_ok (body ++ hlt :: rest)) :
    S (body ++ hlt :: rest) a body.length = a.program (body ++ hlt :: rest) ∧
    Fine (body ++ hlt :: rest) a (body.length + 1) := by
  induction body generalizing a with
  | nil =>
    refine ⟨by simp [S, Arch.run, Arch.program, hH], fun i hi => ?_⟩
    have : i = 0 := by simpa using hi
    subst this
    simp [S, Arch.run, ins, Arch.addr_fine, hH]
  | cons x xs ih =>
    have hx : x.opcode ≠ .HALT := hb x (by simp)
    obtain ⟨h1, h2⟩ := haddr hx
    rw [← step_eq_exec a x h1] at h2
    obtain ⟨e1, e2⟩ := ih (fun i hi => hb i (by simp [hi])) (a.step x) h2
    constructor
    · show S (x :: (xs ++ hlt :: rest)) a (xs.length + 1) = _
      rw [S_cons, e1]
      show _ = Arch.program a (x :: (xs ++ hlt :: rest))
      simp only [Arch.program, hx, if_false]
      rw [step_eq_exec a x h1]
    · intro i hi
      cases i with
      | zero =>
        show (S (x :: (xs ++ hlt :: rest)) a 0).addr_fine (ins (x :: (xs ++ hlt :: rest)) 0)
        rw [S_zero]
        exact addr_fine_of_ok a x h1
      | succ j =>
        show (S (x :: (xs ++ hlt :: rest)) a (j + 1)).addr_fine
          (ins (x :: (xs ++ hlt :: rest)) (j + 1))
        rw [S_cons, ins_cons]
        exact e2 j (by simpa using hi)

/-- A program without BZ, BNZ and JUMP that ends with a HALT has the shape the refinement
proofs work with, `N` being the index of its first HALT. -/
theorem prog_of_program (code : List APEX_Instruction) (a0 : Arch)
    (hisa : ∀ i ∈ code, i.opcode.straight = true ∨ i.opcode = .HALT)
    (hend : ∃ h, code.getLast? = some h ∧ h.opcode = .HALT)
    (himm : ∀ i ∈ code, in32 i.imm) (h0 : a0.ranged)
    (hpc : 4000 + 4 * (code.length : Int) < 2147483648) :
    ∃ N body hlt rest, code = body ++ hlt :: rest ∧ N = body.length ∧ hlt.opcode = .HALT ∧
      (∀ i ∈ body, i.opcode ≠ .HALT) ∧ Prog code a0 N := by
  obtain ⟨h, hl, hH⟩ := hend
  obtain ⟨body, hlt, rest, e, h1, h2⟩ := first_HALT code ⟨h, List.mem_of_mem_getLast? hl, hH⟩
  have hlen : code.length = body.length + 1 + rest.length := by
    rw [e]; simp; omega
  have hins : ∀ i, i < body.length → ins code i ∈ body := by
    intro i hi
    rw [e, ins_append_left body _ i hi]
    exact ins_mem body i hi
  have hno : ∀ j, j < body.length → (ins code j).opcode ≠ .HALT := fun j hj => h2 _ (hins j hj)
  have hN : (ins code body.length).opcode = .HALT := by rw [e, ins_append_mid]; exact h1
  refine ⟨body.length, body, hlt, rest, e, rfl, h1, h2, ⟨by omega, hpc⟩, ?_, hN, ?_, h0⟩
  · intro i hi
    rcases hisa _ (ins_mem code i (by omega)) with x | x
    · exact x
    · exact absurd x (hno i hi)
  · intro i hi
    exact himm _ (ins_mem code i (by omega))

end APEX


namespace PartA
open APEX

/-- Execute exits through `exception_handler` exactly for a live LOAD or STORE whose computed
address is below 0 or above 4096. -/
theorem fault_iff (cpu : APEX_CPU) :
    execute cpu = none ↔
      cpu.EX.busy = false ∧ cpu.EX.stalled = false ∧
      ((cpu.EX.opcode = .LOAD ∧
          (wrap32 (cpu.EX.rs1_value + cpu.EX.imm) < 0 ∨
            wrap32 (cpu.EX.rs1_value + cpu.EX.imm) > 4096)) ∨
       (cpu.EX.opcode = .STORE ∧
          (wrap32 (cpu.EX.rs2_value + cpu.EX.imm) < 0 ∨
            wrap32 (cpu.EX.rs2_value + cpu.EX.imm) > 4096))) := by
  unfold execute
  by_cases hl : (!cpu.EX.busy && !cpu.EX.stalled) = true
  · rw [if_pos hl]
    simp only [Bool.and_eq_true, Bool.not_eq_true'] at hl
    cases ho : cpu.EX.opcode <;>
      simp [execute_STORE, execute_LOAD, exception_handler, ho, hl.1, hl.2]
    · generalize wrap32 (cpu.EX.rs1_value + cpu.EX.imm) = x
      omega
    · generalize wrap32 (cpu.EX.rs2_value + cpu.EX.imm) = x
      omega
  · rw [if_neg hl]
    simp only [Bool.and_eq_true, Bool.not_eq_true', not_and, Bool.not_eq_false] at hl
    simp
    intro hb hs
    rw [hl hb] at hs; cases hs

end PartA


namespace PartB
open APEX

/-- Execute exits through `exception_handler` exactly for a live LOAD or STORE whose computed
address is below 0 or above 4096. -/
theorem fault_iff_B (cpu : APEX_CPU) :
    execute cpu = none ↔
      cpu.EX.busy = false ∧ cpu.EX.stalled = false ∧
      ((cpu.EX.opcode = .LOAD ∧
          (wrap32 (cpu.EX.rs1_value + cpu.EX.imm) < 0 ∨
            wrap32 (cpu.EX.rs1_value + cpu.EX.imm) > 4096)) ∨
       (cpu.EX.opcode = .STORE ∧
          (wrap32 (cpu.EX.rs2_value + cpu.EX.imm) < 0 ∨
            wrap32 (cpu.EX.rs2_value + cpu.EX.imm) > 4096))) := by
  unfold execute
  by_cases hl : (!cpu.EX.busy && !cpu.EX.stalled) = true
  · rw [if_pos hl]
    simp only [Bool.and_eq_true, Bool.not_eq_true'] at hl
    cases ho : cpu.EX.opcode <;>
      simp [execute_STORE, execute_LOAD, exception_handler, ho, hl.1, hl.2]
    · generalize wrap32 (cpu.EX.rs1_value + cpu.EX.imm) = x
      omega
    · generalize wrap32 (cpu.EX.rs2_value + cpu.EX.imm) = x
      omega
  · rw [if_neg hl]
    simp only [Bool.and_eq_true, Bool.not_eq_true', not_and, Bool.not_eq_false] at hl
    simp
    intro hb hs
    rw [hl hb] at hs; cases hs

end PartB


namespace PartA
open APEX

variable {code : List APEX_Instruction} {a0 : Arch} {n : Int} {N : Nat} {a : Abs}
  {s : APEX_CPU}

/-- A run whose addresses pass the range test goes on as long as the HALT has not been
issued. -/
theorem trace_run (u : Uninit) (hp : Prog code (Arch.init u) N)
    (hF : Fine code (Arch.init u) (N + 1)) :
    ∀ (j : Nat), (∀ i, i < j → (trace code i).d ≤ N) →
      ∃ s, cycles (j + 1) (initial code n u) = some s ∧
        Rel code (Arch.init u) n N (trace code j) s := by
  intro j
  induction j with
  | zero =>
    intro _
    obtain ⟨s1, h1, h2⟩ := @rel_init code n N u hp
    exact ⟨s1, by simp [cycles, h1], h2⟩
  | succ j ih =>
    intro hd
    obtain ⟨s1, h1, hr⟩ := ih (fun i hi => hd i (by omega))
    obtain ⟨s2, h3, h4⟩ := rel_step hp hr (hd j (by omega))
      (fun _ => hF _ (by have := hr.core.bound; omega))
    exact ⟨s2, cycles_succ_last (j + 1) _ s1 s2 h1 h3, h4⟩

/-- The states of a run on a straight-line program whose addresses lie inside the data
memory are described by the trace, as long as the HALT has not been issued. -/
theorem trace_rel (u : Uninit) (hp : Prog code (Arch.init u) N)
    (hF : Fine code (Arch.init u) (N + 1)) :
    ∀ (j : Nat) (s : APEX_CPU), cycles (j + 1) (initial code n u) = some s →
      (∀ i, i < j → (trace code i).d ≤ N) → Rel code (Arch.init u) n N (trace code j) s := by
  intro j s hs hd
  obtain ⟨s1, h1, h2⟩ := @trace_run code n N u hp hF j hd
  rw [hs] at h1
  cases h1
  exact h2

end PartA


namespace PartB
open APEX

variable {code : List APEX_Instruction} {a0 : Arch} {n : Int} {N : Nat} {a : Abs}
  {s : APEX_CPU}

/-- A run whose addresses pass the range test goes on as long as the HALT has not been
issued. -/
theorem trace_run_B (u : Uninit) (hp : Prog code (Arch.init u) N)
    (hF : Fine code (Arch.init u) (N + 1)) :
    ∀ (j : Nat), (∀ i, i < j → (trace code i).d ≤ N) →
      ∃ s, cycles (j + 1) (initial code n u) = some s ∧
        Rel code (Arch.init u) n N (trace code j) s := by
  intro j
  induction j with
  | zero =>
    intro _
    obtain ⟨s1, h1, h2⟩ := @rel_init_B code n N u hp
    exact ⟨s1, by simp [cycles, h1], h2⟩
  | succ j ih =>
    intro hd
    obtain ⟨s1, h1, hr⟩ := ih (fun i hi => hd i (by omega))
    obtain ⟨s2, h3, h4⟩ := rel_step_B hp hr (hd j (by omega))
      (fun _ => hF _ (by have := hr.core.bound; omega))
    exact ⟨s2, cycles_succ_last_B (j + 1) _ s1 s2 h1 h3, h4⟩

/-- The states of a run on a straight-line program whose addresses lie inside the data
memory are described by the trace, as long as the HALT has not been issued. -/
theorem trace_rel_B (u : Uninit) (hp : Prog code (Arch.init u) N)
    (hF : Fine code (Arch.init u) (N + 1)) :
    ∀ (j : Nat) (s : APEX_CPU), cycles (j + 1) (initial code n u) = some s →
      (∀ i, i < j → (trace code i).d ≤ N) → Rel code (Arch.init u) n N (trace code j) s := by
  intro j s hs hd
  obtain ⟨s1, h1, h2⟩ := @trace_run_B code n N u hp hF j hd
  rw [hs] at h1
  cases h1
  exact h2

end PartB


namespace PartA
open APEX

variable {code : List APEX_Instruction} {a0 : Arch} {n : Int} {N : Nat} {a : Abs}
  {s : APEX_CPU}

theorem not_blocked_halt (h : (ins code a.d).opcode = .HALT) : blocked code a = false := by
  simp [blocked, feeds, h, Opcode.reads_rs1, Opcode.reads_rs2]

/-- The HALT stays in Decode only behind the first Execute cycle of a MUL. -/
theorem phase1_of_stay (h : (ins code a.d).opcode = .HALT) (hm : (next code a).mode ≠ .run) :
    a.phase1 code = true := by
  by_cases h1 : a.phase1 code = true
  · exact h1
  · have h1' : a.phase1 code = false := by simpa using h1
    have := (next_promote h1' (not_blocked_halt h)).2.2.1
    exact absurd this hm

theorem pc_ok_step (c : APEX_CPU) (k : Nat) (hk : k < code.length)
    (hpc : c.pc = 4000 + 4 * (k : Int)) :
    4000 ≤ c.pc + 4 ∧ c.pc + 4 ≤ 4000 + 4 * (code.length : Int) ∧
      (c.pc + 4 - 4000) % 4 = 0 := by
  rw [hpc]
  have : (k : Int) + 1 ≤ code.length := by exact_mod_cast hk
  omega

end PartA

namespace PartA
open APEX

variable {code : List APEX_Instruction} {a0 : Arch} {n : Int} {N : Nat} {a : Abs}
  {s : APEX_CPU}

/-- The F latch and the pc at a cycle boundary, as long as the HALT has not been issued. -/
theorem front_status (h : Core code a0 n N a s) (hd : a.d ≤ N) (hf : Front code N a s) :
    (s.DRF.stalled = false → s.F.stalled = false ∧ s.pc = 4000 + 4 * ((a.d : Int) + 1)) ∧
    (s.DRF.stalled = true → s.F.stalled = true ∧ s.pc = 4000 + 4 * ((a.d : Int) + 2) ∧
      (a.d = N → N + 1 < code.length)) := by
  rcases Nat.lt_or_ge a.d N with h1 | h1
  · obtain ⟨f1, f2⟩ := h.fetch h1
    exact ⟨f1, fun x => ⟨(f2 x).1, (f2 x).2.1, fun e => by omega⟩⟩
  · have e : a.d = N := by omega
    refine ⟨fun x => ?_, fun x => ?_⟩
    · rw [e]; exact hf.live e x
    · rw [e]; exact ⟨(hf.held e x).1, (hf.held e x).2.1, fun _ => (hf.held e x).2.2⟩

end PartA

namespace PartA
open APEX

variable {code : List APEX_Instruction} {a0 : Arch} {n : Int} {N : Nat} {a : Abs}
  {s : APEX_CPU}

/-- One cycle of a straight-line run, seen from Fetch: the index it reads is inside the
program unless the HALT is held in Decode by a MUL that ends the program, the pc stays in
range, and the front of the pipeline is frozen once the HALT is issued. -/
theorem front_step (hp : Prog code a0 N)
    (hI : ∀ i, i < code.length → (ins code i).opcode ≠ .BUBBLE)
    (hM : ∀ i, i + 1 = N → (ins code i).opcode = .MUL → N + 1 < code.length)
    (h : Core code a0 n N a s) (hd : a.d ≤ N) (hf : Front code N a s)
    (c3 s' : APEX_CPU) (hx3 : execute (mem_step (writeback s)) = some c3)
    (hax : AfterEX code a0 a s c3)
    (hade : AfterDE code a0 N (next code a) s c3 (decode c3))
    (hcy : cycle s = some s') (h' : Core code a0 n N (next code a) s') :
    Front code N (next code a) s' ∧ ((next code a).d = N + 1 → Frozen s') ∧
    (∀ i, fetch_reads s = some i → 0 ≤ i ∧ i < (code.length : Int)) := by
  have hs' : s' = { fetch (decode c3) with clock := (fetch (decode c3)).clock + 1 } := by
    have := cycle_of_execute s c3 (core_no_oob h) hx3
    rw [hcy] at this
    exact Option.some.inj this
  obtain ⟨st1, st2⟩ := front_status h hd hf
  obtain ⟨q1, q2, q3, q4, q5, q6⟩ := hade.f_ins
  have hFb : (decode c3).F.busy = false := by rw [q6]; exact h.fb
  have hFs := hade.f_stalled
  have hDs := hade.drf_stalled
  have hpc : (decode c3).pc = s.pc := by rw [hade.pc_eq, hax.pc_eq]
  have hnd := @next_d code a
  have hlenN : N < code.length := by have := hp.1.1; omega
  have hreads : fetch_reads s =
      if (decode c3).F.busy = false ∧ (decode c3).F.stalled = false
      then some (get_code_index (decode c3).pc) else none := by
    simp only [fetch_reads, bind_of_execute s c3 (core_no_oob h) hx3]
  by_cases hcs : (decode c3).F.stalled = true
  · -- Fetch is stalled in this cycle
    obtain ⟨e1, e2, e3⟩ := fetch_fields_stalled (decode c3) hcs
    have r1 : s'.pc = s.pc := by rw [hs']; show (fetch (decode c3)).pc = _; rw [e1, hpc]
    have r2 : s'.F.opcode = s.F.opcode := by
      rw [hs']; show (fetch (decode c3)).F.opcode = _; rw [e2]; exact q1
    have r3 : s'.F.stalled =
        if (decode c3).F.opcode = .BUBBLE ∨
          ((decode c3).DRF.stalled = false ∧ (decode c3).DRF.opcode ≠ .BUBBLE)
        then false else (decode c3).F.stalled := by
      rw [hs']; show (fetch (decode c3)).F.stalled = _; rw [e2]
    have hfopc : (decode c3).F.opcode ≠ .BUBBLE := by rw [q1]; exact hf.fop
    refine ⟨{ fop := by rw [r2]; exact hf.fop, pc := ?_, live := ?_, held := ?_ }, ?_, ?_⟩
    · obtain ⟨p1, p2, p3⟩ := hf.pc
      exact ⟨by rw [r1]; exact p1, by rw [r1]; exact p2, by rw [r1]; exact p3⟩
    · intro e x
      have hm : (next code a).mode = .run := by
        have := (h'.drf (by omega)).2
        rw [x] at this
        simpa using this.symm
      have hd1 : (next code a).d = a.d + 1 := by
        rcases hnd with ⟨-, y⟩ | ⟨y, -⟩
        · exact y
        · exact absurd hm y
      have hsF : s.F.stalled = true := by
        rw [hFs] at hcs
        have : ¬ (next code a).d = N + 1 := by omega
        simpa [this] using hcs
      have hsD : s.DRF.stalled = true := by
        by_contra hc
        have := (st1 (by simpa using hc)).1
        rw [hsF] at this; cases this
      have hcD : (decode c3).DRF.stalled = false := by
        rw [hDs]
        have : ¬ (next code a).d = N + 1 := by omega
        simp [hm, this]
      have hcO : (decode c3).DRF.opcode ≠ .BUBBLE := by
        rw [hade.drf_ins.1, (h.drf hd).1.1]
        exact (hp.opcode hd).1
      refine ⟨?_, ?_⟩
      · rw [r3, if_pos (Or.inr ⟨hcD, hcO⟩)]
      · rw [r1, (st2 hsD).2.1]
        have : (a.d : Int) + 1 = N := by exact_mod_cast (by omega : a.d + 1 = N)
        omega
    · intro e x
      have hm : (next code a).mode ≠ .run := by
        have := (h'.drf (by omega)).2
        rw [x] at this
        simpa using this.symm
      have hd1 : (next code a).d = a.d := by
        rcases hnd with ⟨y, -⟩ | ⟨-, y⟩
        · exact absurd y hm
        · exact y
      have hsF : s.F.stalled = true := by
        rw [hFs] at hcs
        have : ¬ (next code a).d = N + 1 := by omega
        simpa [this] using hcs
      have hsD : s.DRF.stalled = true := by
        by_contra hc
        have := (st1 (by simpa using hc)).1
        rw [hsF] at this; cases this
      have hcD : (decode c3).DRF.stalled = true := by
        rw [hDs]; simp [hm]
      obtain ⟨-, t2, t3⟩ := st2 hsD
      refine ⟨?_, ?_, t3 (by omega)⟩
      · rw [r3, if_neg (by rw [hcD]; simp [hfopc]), hcs]
      · rw [r1, t2]
        have : (a.d : Int) = N := by exact_mod_cast (by omega : a.d = N)
        omega
    · intro e
      have hcD : (decode c3).DRF.stalled = true := by
        rw [hDs]; simp [e]
      obtain ⟨k1, k2⟩ := h'.halted e
      have hex := h'.ex
      have hb := h'.bound
      have hoe : (next code a).oe = true := by
        by_contra hc
        simp only [Abs.d, Abs.ie] at e hb
        simp [hc] at e
        omega
      have hie : (next code a).ie = N := by
        simp only [Abs.d, Abs.ie, hoe, Bool.toNat_true] at e ⊢; omega
      rw [if_pos hoe, hie] at hex
      exact
        { counting := h'.counting, f_busy := h'.fb,
          f_stalled := by rw [r3, if_neg (by rw [hcD]; simp [hfopc]), hcs],
          f_op := by rw [r2]; exact hf.fop, d_stalled := k1, d_op := k2,
          e_busy := hex.1.1.2.2.2.2.2, e_op := by rw [hex.1.1.1, hp.2.2.1] }
    · intro i hi
      rw [hreads, if_neg (by rw [hcs]; simp)] at hi
      cases hi
  · -- Fetch reads an instruction in this cycle
    have hcs' : (decode c3).F.stalled = false := by simpa using hcs
    obtain ⟨e1, z, e2, e3⟩ := fetch_fields_live (decode c3) hFb hcs'
    have hsF : s.F.stalled = false ∧ ¬ (next code a).d = N + 1 := by
      rw [hFs] at hcs'
      simpa using hcs'
    have hsD : s.DRF.stalled = false := by
      by_contra hc
      have := (st2 (by simpa using hc)).1
      rw [hsF.1] at this; cases this
    have hpc0 := (st1 hsD).2
    -- the index read is inside the program
    have hin : a.d + 1 < code.length := by
      rcases Nat.lt_or_ge a.d N with x | x
      · omega
      · have e : a.d = N := by omega
        have hm : (next code a).mode ≠ .run := by
          rcases hnd with ⟨-, y⟩ | ⟨y, -⟩
          · exact absurd (by omega) hsF.2
          · exact y
        have hH : (ins code a.d).opcode = .HALT := by rw [e]; exact hp.2.2.1
        have hph := phase1_of_stay hH hm
        simp only [Abs.phase1, Bool.and_eq_true, decide_eq_true_eq] at hph
        have hie : a.ie + 1 = N := by
          simp only [Abs.d, Abs.ie, hph.1.1, Bool.toNat_true] at e ⊢; omega
        have := hM a.ie hie hph.1.2
        omega
    have hcode : (decode c3).code_memory = code := by
      have hC2 : (mem_step (writeback s)).ENABLE_COUNTING = false := by
        rw [(memory_frame _).1, (writeback_frame _).1, h.counting]
      rw [hade.code_eq, (execute_arch _ c3 hC2 hx3).2.2.2.2.2.1,
        (memory_latches _).2.2.2.2.2.2.2.2.2.1, (writeback_latches s).2.2.2.2.2.2.1,
        h.code_eq]
    have hpcN : (decode c3).pc = 4000 + 4 * ((a.d + 1 : Nat) : Int) := by
      rw [hpc, hpc0]; push_cast; ring
    have hca := code_at_pc (decode c3) code (a.d + 1) hcode hin hp.1.2
    rw [← hpcN] at hca
    have r1 : s'.pc = s.pc + 4 := by rw [hs']; show (fetch (decode c3)).pc = _; rw [e1, hpc]
    have r2 : s'.F.opcode = (ins code (a.d + 1)).opcode := by
      rw [hs']; show (fetch (decode c3)).F.opcode = _; rw [e2]
      show (code_at (decode c3) (get_code_index (decode c3).pc)).opcode = _
      rw [hca]
    have r3 : s'.F.stalled = (decode c3).DRF.stalled := by
      rw [hs']; show (fetch (decode c3)).F.stalled = _; rw [e2]
    have hDeq : (decode c3).DRF.stalled = decide ((next code a).mode ≠ .run) := by
      rw [hDs]; simp [hsF.2]
    have hpk := @pc_ok_step code (decode c3) (a.d + 1) hin hpcN
    rw [hpc] at hpk
    refine ⟨{ fop := by rw [r2]; exact hI _ hin, pc := ?_, live := ?_, held := ?_ }, ?_, ?_⟩
    · exact ⟨by rw [r1]; exact hpk.1, by rw [r1]; exact hpk.2.1, by rw [r1]; exact hpk.2.2⟩
    · intro e x
      have hm : (next code a).mode = .run := by
        have := (h'.drf (by omega)).2
        rw [x] at this
        simpa using this.symm
      have hd1 : (next code a).d = a.d + 1 := by
        rcases hnd with ⟨-, y⟩ | ⟨y, -⟩
        · exact y
        · exact absurd hm y
      refine ⟨by rw [r3, hDeq]; simp [hm], ?_⟩
      rw [r1, hpc0]
      have : (a.d : Int) + 1 = N := by exact_mod_cast (by omega : a.d + 1 = N)
      omega
    · intro e x
      have hm : (next code a).mode ≠ .run := by
        have := (h'.drf (by omega)).2
        rw [x] at this
        simpa using this.symm
      have hd1 : (next code a).d = a.d := by
        rcases hnd with ⟨y, -⟩ | ⟨-, y⟩
        · exact absurd y hm
        · exact y
      refine ⟨by rw [r3, hDeq]; simp [hm], ?_, by omega⟩
      rw [r1, hpc0]
      have : (a.d : Int) = N := by exact_mod_cast (by omega : a.d = N)
      omega
    · intro e; exact absurd e hsF.2
    · intro i hi
      rw [hreads, if_pos ⟨hFb, hcs'⟩, hpcN, get_code_index_pc _ (by have := hp.1.2; omega)] at hi
      have := Option.some.inj hi
      have hin' : ((a.d + 1 : Nat) : Int) < code.length := by exact_mod_cast hin
      omega

end PartA

namespace PartA
open APEX

variable {code : List APEX_Instruction} {a0 : Arch} {n : Int} {N : Nat} {a : Abs}
  {s : APEX_CPU}

/-- Once the HALT has been issued, a cycle leaves the front of the pipeline as it is: Fetch
reads nothing and the pc stays. -/
theorem frozen_cycle (hz : Frozen s) (hm : mem_oob s = false) :
    ∃ s', cycle s = some s' ∧ Frozen s' ∧ s'.pc = s.pc ∧ fetch_reads s = none ∧
      mem_oob s' = false := by
  obtain ⟨w1, w2, w3, w4, w5, -⟩ := writeback_latches s
  obtain ⟨wf1, -, -⟩ := writeback_frame s
  obtain ⟨m1, m2, m3, m4, -⟩ := memory_latches (writeback s)
  obtain ⟨mf1, -, -⟩ := memory_frame (writeback s)
  have hC : (mem_step (writeback s)).ENABLE_COUNTING = false := by rw [mf1, wf1, hz.counting]
  have hE : (mem_step (writeback s)).EX = s.EX := by rw [m3, w3]
  have hD : (mem_step (writeback s)).DRF = s.DRF := by rw [m2, w2]
  have hF : (mem_step (writeback s)).F = s.F := by rw [m1, w1]
  have hP : (mem_step (writeback s)).pc = s.pc := by rw [m4, w5]
  have key : ∃ c3, execute (mem_step (writeback s)) = some c3 ∧ c3.F = s.F ∧ c3.DRF = s.DRF ∧
      c3.pc = s.pc ∧ c3.EX.opcode = .HALT ∧ c3.EX.busy = false ∧
      c3.ENABLE_COUNTING = false ∧ mem_oob c3 = false := by
    by_cases hs : s.EX.stalled = true
    · have := execute_idle (mem_step (writeback s)) (Or.inr (by rw [hE]; exact hs))
        (Or.inr (by rw [hE, hz.e_op]; simp))
      exact ⟨_, this, hF, hD, hP, by rw [hE]; exact hz.e_op, by rw [hE]; exact hz.e_busy, hC,
        PartA.oob_mem_step _ (by rw [oob_writeback]; exact hm)⟩
    · have hs' : s.EX.stalled = false := by simpa using hs
      obtain ⟨c3, z, hx3, eM, eE, eD, eF, eP⟩ := execute_not_taken (mem_step (writeback s))
        (by rw [hE]; exact hz.e_busy) (by rw [hE]; exact hs') hC
        (by rw [hE]; simp [ex_fault, hz.e_op]) (by intro z; rw [hE]; simp [ex_taken, hz.e_op])
      refine ⟨c3, hx3, by rw [eF, hF], ?_, by rw [eP, hP], ?_, ?_,
        (execute_frame _ c3 hC hx3).1, ?_⟩
      · rw [eD, hD, hE, hz.e_op]
        simp
      · rw [eE, hE]; exact hz.e_op
      · rw [eE, hE]; exact hz.e_busy
      · have ho : c3.MEM.opcode = .HALT := by
          rw [eM, hE, hz.e_op]
          simp [ex_done, hz.e_op]
        exact PartA.oob_of_opcode c3 (by rw [ho]; decide) (by rw [ho]; decide)
  obtain ⟨c3, hx3, k1, k2, k3, k4, k5, k6, k7⟩ := key
  have hdec : decode c3 = c3 :=
    decode_idle c3 (Or.inr (by rw [k2]; exact hz.d_stalled))
      (Or.inr (Or.inl (by rw [k2]; exact hz.d_op)))
  have hcy := cycle_of_execute s c3 hm hx3
  rw [hdec] at hcy
  have hcs : c3.F.stalled = true := by rw [k1]; exact hz.f_stalled
  obtain ⟨e1, e2, e3⟩ := fetch_fields_stalled c3 hcs
  obtain ⟨f1, f2, f3, f4, f5, f6, f7, f8, f9, f10, f11, f12⟩ := fetch_arch c3
  have hno : ¬ (c3.F.opcode = .BUBBLE ∨ (c3.DRF.stalled = false ∧ c3.DRF.opcode ≠ .BUBBLE)) := by
    rw [k1, k2, hz.d_stalled]
    simp [hz.f_op]
  refine ⟨_, hcy, ?_, ?_, ?_, ?_⟩
  rotate_right
  · exact (PartA.oob_congr _ c3 (show (fetch c3).MEM = c3.MEM from f6)).trans k7
  · exact
      { counting := by show (fetch c3).ENABLE_COUNTING = false; rw [f9]; exact k6
        f_busy := by show (fetch c3).F.busy = false; rw [f11, k1]; exact hz.f_busy
        f_stalled := by
          show (fetch c3).F.stalled = true
          rw [e2]
          show (if _ then false else c3.F.stalled) = true
          rw [if_neg hno, hcs]
        f_op := by show (fetch c3).F.opcode ≠ .BUBBLE; rw [e2, k1]; exact hz.f_op
        d_stalled := by
          show (fetch c3).DRF.stalled = true
          rw [e3, if_neg (fun x => hno (Or.inr x)), k2]; exact hz.d_stalled
        d_op := by
          show (fetch c3).DRF.opcode = .HALT
          rw [e3, if_neg (fun x => hno (Or.inr x)), k2]; exact hz.d_op
        e_busy := by show (fetch c3).EX.busy = false; rw [f5]; exact k5
        e_op := by show (fetch c3).EX.opcode = .HALT; rw [f5]; exact k4 }
  · show (fetch c3).pc = s.pc
    rw [e1, k3]
  · simp only [fetch_reads, bind_of_execute s c3 hm hx3, hdec, hcs]
    simp

end PartA


namespace PartB
open APEX

variable {code : List APEX_Instruction} {a0 : Arch} {n : Int} {N : Nat} {a : Abs}
  {s : APEX_CPU}

theorem not_blocked_halt_B (h : (ins code a.d).opcode = .HALT) : blocked code a = false := by
  simp [blocked, feeds, h, Opcode.reads_rs1, Opcode.reads_rs2]

/-- The HALT stays in Decode only behind the first Execute cycle of a MUL. -/
theorem phase1_of_stay_B (h : (ins code a.d).opcode = .HALT) (hm : (next code a).mode ≠ .run) :
    a.phase1 code = true := by
  by_cases h1 : a.phase1 code = true
  · exact h1
  · have h1' : a.phase1 code = false := by simpa using h1
    have := (next_promote_B h1' (not_blocked_halt_B h)).2.2.1
    exact absurd this hm

theorem pc_ok_step_B (c : APEX_CPU) (k : Nat) (hk : k < code.length)
    (hpc : c.pc = 4000 + 4 * (k : Int)) :
    4000 ≤ c.pc + 4 ∧ c.pc + 4 ≤ 4000 + 4 * (code.length : Int) ∧
      (c.pc + 4 - 4000) % 4 = 0 := by
  rw [hpc]
  have : (k : Int) + 1 ≤ code.length := by exact_mod_cast hk
  omega

end PartB

namespace PartB
open APEX

variable {code : List APEX_Instruction} {a0 : Arch} {n : Int} {N : Nat} {a : Abs}
  {s : APEX_CPU}

/-- The F latch and the pc at a cycle boundary, as long as the HALT has not been issued. -/
theorem front_status_B (h : Core code a0 n N a s) (hd : a.d ≤ N) (hf : Front code N a s) :
    (s.DRF.stalled = false → s.F.stalled = false ∧ s.pc = 4000 + 4 * ((a.d : Int) + 1)) ∧
    (s.DRF.stalled = true → s.F.stalled = true ∧ s.pc = 4000 + 4 * ((a.d : Int) + 2) ∧
      (a.d = N → N + 1 < code.length)) := by
  rcases Nat.lt_or_ge a.d N with h1 | h1
  · obtain ⟨f1, f2⟩ := h.fetch h1
    exact ⟨f1, fun x => ⟨(f2 x).1, (f2 x).2.1, fun e => by omega⟩⟩
  · have e : a.d = N := by omega
    refine ⟨fun x => ?_, fun x => ?_⟩
    · rw [e]; exact hf.live e x
    · rw [e]; exact ⟨(hf.held e x).1, (hf.held e x).2.1, fun _ => (hf.held e x).2.2⟩

end PartB

namespace PartB
open APEX

variable {code : List APEX_Instruction} {a0 : Arch} {n : Int} {N : Nat} {a : Abs}
  {s : APEX_CPU}

/-- One cycle of a straight-line run, seen from Fetch: the index it reads is inside the
program unless the HALT is held in Decode by a MUL that ends the program, the pc stays in
range, and the front of the pipeline is frozen once the HALT is issued. -/
theorem front_step_B (hp : Prog code a0 N)
    (hI : ∀ i, i < code.length → (ins code i).opcode ≠ .BUBBLE)
    (hM : ∀ i, i + 1 = N → (ins code i).opcode = .MUL → N + 1 < code.length)
    (h : Core code a0 n N a s) (hd : a.d ≤ N) (hf : Front code N a s)
    (c3 s' : APEX_CPU) (hx3 : execute (mem_step (writeback s)) = some c3)
    (hax : AfterEX code a0 a s c3)
    (hade : AfterDE code a0 N (next code a) s c3 (decode c3))
    (hcy : cycle s = some s') (h' : Core code a0 n N (next code a) s') :
    Front code N (next code a) s' ∧ ((next code a).d = N + 1 → Frozen s') ∧
    (∀ i, fetch_reads s = some i → 0 ≤ i ∧ i < (code.length : Int)) := by
  have hs' : s' = { fetch (decode c3) with clock := (fetch (decode c3)).clock + 1 } := by
    have := cycle_of_execute_B s c3 (core_no_oob h) hx3
    rw [hcy] at this
    exact Option.some.inj this
  obtain ⟨st1, st2⟩ := front_status_B h hd hf
  obtain ⟨q1, q2, q3, q4, q5, q6⟩ := hade.f_ins
  have hFb : (decode c3).F.busy = false := by rw [q6]; exact h.fb
  have hFs := hade.f_stalled
  have hDs := hade.drf_stalled
  have hpc : (decode c3).pc = s.pc := by rw [hade.pc_eq, hax.pc_eq]
  have hnd := @next_d_B code a
  have hlenN : N < code.length := by have := hp.1.1; omega
  have hreads : fetch_reads s =
      if (decode c3).F.busy = false ∧ (decode c3).F.stalled = false
      then some (get_code_index (decode c3).pc) else none := by
    simp only [fetch_reads, bind_of_execute_B s c3 (core_no_oob h) hx3]
  by_cases hcs : (decode c3).F.stalled = true
  · -- Fetch is stalled in this cycle
    obtain ⟨e1, e2, e3⟩ := fetch_fields_stalled_B (decode c3) hcs
    have r1 : s'.pc = s.pc := by rw [hs']; show (fetch (decode c3)).pc = _; rw [e1, hpc]
    have r2 : s'.F.opcode = s.F.opcode := by
      rw [hs']; show (fetch (decode c3)).F.opcode = _; rw [e2]; exact q1
    have r3 : s'.F.stalled =
        if (decode c3).F.opcode = .BUBBLE ∨
          ((decode c3).DRF.stalled = false ∧ (decode c3).DRF.opcode ≠ .BUBBLE)
        then false else (decode c3).F.stalled := by
      rw [hs']; show (fetch (decode c3)).F.stalled = _; rw [e2]
    have hfopc : (decode c3).F.opcode ≠ .BUBBLE := by rw [q1]; exact hf.fop
    refine ⟨{ fop := by rw [r2]; exact hf.fop, pc := ?_, live := ?_, held := ?_ }, ?_, ?_⟩
    · obtain ⟨p1, p2, p3⟩ := hf.pc
      exact ⟨by rw [r1]; exact p1, by rw [r1]; exact p2, by rw [r1]; exact p3⟩
    · intro e x
      have hm : (next code a).mode = .run := by
        have := (h'.drf (by omega)).2
        rw [x] at this
        simpa using this.symm
      have hd1 : (next code a).d = a.d + 1 := by
        rcases hnd with ⟨-, y⟩ | ⟨y, -⟩
        · exact y
        · exact absurd hm y
      have hsF : s.F.stalled = true := by
        rw [hFs] at hcs
        have : ¬ (next code a).d = N + 1 := by omega
        simpa [this] using hcs
      have hsD : s.DRF.stalled = true := by
        by_contra hc
        have := (st1 (by simpa using hc)).1
        rw [hsF] at this; cases this
      have hcD : (decode c3).DRF.stalled = false := by
        rw [hDs]
        have : ¬ (next code a).d = N + 1 := by omega
        simp [hm, this]
      have hcO : (decode c3).DRF.opcode ≠ .BUBBLE := by
        rw [hade.drf_ins.1, (h.drf hd).1.1]
        exact (hp.opcode hd).1
      refine ⟨?_, ?_⟩
      · rw [r3, if_pos (Or.inr ⟨hcD, hcO⟩)]
      · rw [r1, (st2 hsD).2.1]
        have : (a.d : Int) + 1 = N := by exact_mod_cast (by omega : a.d + 1 = N)
        omega
    · intro e x
      have hm : (next code a).mode ≠ .run := by
        have := (h'.drf (by omega)).2
        rw [x] at this
        simpa using this.symm
      have hd1 : (next code a).d = a.d := by
        rcases hnd with ⟨y, -⟩ | ⟨-, y⟩
        · exact absurd y hm
        · exact y
      have hsF : s.F.stalled = true := by
        rw [hFs] at hcs
        have : ¬ (next code a).d = N + 1 := by omega
        simpa [this] using hcs
      have hsD : s.DRF.stalled = true := by
        by_contra hc
        have := (st1 (by simpa using hc)).1
        rw [hsF] at this; cases this
      have hcD : (decode c3).DRF.stalled = true := by
        rw [hDs]; simp [hm]
      obtain ⟨-, t2, t3⟩ := st2 hsD
      refine ⟨?_, ?_, t3 (by omega)⟩
      · rw [r3, if_neg (by rw [hcD]; simp [hfopc]), hcs]
      · rw [r1, t2]
        have : (a.d : Int) = N := by exact_mod_cast (by omega : a.d = N)
        omega
    · intro e
      have hcD : (decode c3).DRF.stalled = true := by
        rw [hDs]; simp [e]
      obtain ⟨k1, k2⟩ := h'.halted e
      have hex := h'.ex
      have hb := h'.bound
      have hoe : (next code a).oe = true := by
        by_contra hc
        simp only [Abs.d, Abs.ie] at e hb
        simp [hc] at e
        omega
      have hie : (next code a).ie = N := by
        simp only [Abs.d, Abs.ie, hoe, Bool.toNat_true] at e ⊢; omega
      rw [if_pos hoe, hie] at hex
      exact
        { counting := h'.counting, f_busy := h'.fb,
          f_stalled := by rw [r3, if_neg (by rw [hcD]; simp [hfopc]), hcs],
          f_op := by rw [r2]; exact hf.fop, d_stalled := k1, d_op := k2,
          e_busy := hex.1.1.2.2.2.2.2, e_op := by rw [hex.1.1.1, hp.2.2.1] }
    · intro i hi
      rw [hreads, if_neg (by rw [hcs]; simp)] at hi
      cases hi
  · -- Fetch reads an instruction in this cycle
    have hcs' : (decode c3).F.stalled = false := by simpa using hcs
    obtain ⟨e1, z, e2, e3⟩ := fetch_fields_live_B (decode c3) hFb hcs'
    have hsF : s.F.stalled = false ∧ ¬ (next code a).d = N + 1 := by
      rw [hFs] at hcs'
      simpa using hcs'
    have hsD : s.DRF.stalled = false := by
      by_contra hc
      have := (st2 (by simpa using hc)).1
      rw [hsF.1] at this; cases this
    have hpc0 := (st1 hsD).2
    -- the index read is inside the program
    have hin : a.d + 1 < code.length := by
      rcases Nat.lt_or_ge a.d N with x | x
      · omega
      · have e : a.d = N := by omega
        have hm : (next code a).mode ≠ .run := by
          rcases hnd with ⟨-, y⟩ | ⟨y, -⟩
          · exact absurd (by omega) hsF.2
          · exact y
        have hH : (ins code a.d).opcode = .HALT := by rw [e]; exact hp.2.2.1
        have hph := phase1_of_stay_B hH hm
        simp only [Abs.phase1, Bool.and_eq_true, decide_eq_true_eq] at hph
        have hie : a.ie + 1 = N := by
          simp only [Abs.d, Abs.ie, hph.1.1, Bool.toNat_true] at e ⊢; omega
        have := hM a.ie hie hph.1.2
        omega
    have hcode : (decode c3).code_memory = code := by
      have hC2 : (mem_step (writeback s)).ENABLE_COUNTING = false := by
        rw [(memory_frame_B _).1, (writeback_frame_B _).1, h.counting]
      rw [hade.code_eq, (execute_arch_B _ c3 hC2 hx3).2.2.2.2.2.1,
        (memory_latches_B _).2.2.2.2.2.2.2.2.2.1, (writeback_latches_B s).2.2.2.2.2.2.1,
        h.code_eq]
    have hpcN : (decode c3).pc = 4000 + 4 * ((a.d + 1 : Nat) : Int) := by
      rw [hpc, hpc0]; push_cast; ring
    have hca := code_at_pc (decode c3) code (a.d + 1) hcode hin hp.1.2
    rw [← hpcN] at hca
    have r1 : s'.pc = s.pc + 4 := by rw [hs']; show (fetch (decode c3)).pc = _; rw [e1, hpc]
    have r2 : s'.F.opcode = (ins code (a.d + 1)).opcode := by
      rw [hs']; show (fetch (decode c3)).F.opcode = _; rw [e2]
      show (code_at (decode c3) (get_code_index (decode c3).pc)).opcode = _
      rw [hca]
    have r3 : s'.F.stalled = (decode c3).DRF.stalled := by
      rw [hs']; show (fetch (decode c3)).F.stalled = _; rw [e2]
    have hDeq : (decode c3).DRF.stalled = decide ((next code a).mode ≠ .run) := by
      rw [hDs]; simp [hsF.2]
    have hpk := @pc_ok_step_B code (decode c3) (a.d + 1) hin hpcN
    rw [hpc] at hpk
    refine ⟨{ fop := by rw [r2]; exact hI _ hin, pc := ?_, live := ?_, held := ?_ }, ?_, ?_⟩
    · exact ⟨by rw [r1]; exact hpk.1, by rw [r1]; exact hpk.2.1, by rw [r1]; exact hpk.2.2⟩
    · intro e x
      have hm : (next code a).mode = .run := by
        have := (h'.drf (by omega)).2
        rw [x] at this
        simpa using this.symm
      have hd1 : (next code a).d = a.d + 1 := by
        rcases hnd with ⟨-, y⟩ | ⟨y, -⟩
        · exact y
        · exact absurd hm y
      refine ⟨by rw [r3, hDeq]; simp [hm], ?_⟩
      rw [r1, hpc0]
      have : (a.d : Int) + 1 = N := by exact_mod_cast (by omega : a.d + 1 = N)
      omega
    · intro e x
      have hm : (next code a).mode ≠ .run := by
        have := (h'.drf (by omega)).2
        rw [x] at this
        simpa using this.symm
      have hd1 : (next code a).d = a.d := by
        rcases hnd with ⟨y, -⟩ | ⟨-, y⟩
        · exact absurd y hm
        · exact y
      refine ⟨by rw [r3, hDeq]; simp [hm], ?_, by omega⟩
      rw [r1, hpc0]
      have : (a.d : Int) = N := by exact_mod_cast (by omega : a.d = N)
      omega
    · intro e; exact absurd e hsF.2
    · intro i hi
      rw [hreads, if_pos ⟨hFb, hcs'⟩, hpcN, get_code_index_pc _ (by have := hp.1.2; omega)] at hi
      have := Option.some.inj hi
      have hin' : ((a.d + 1 : Nat) : Int) < code.length := by exact_mod_cast hin
      omega

end PartB

namespace PartB
open APEX

variable {code : List APEX_Instruction} {a0 : Arch} {n : Int} {N : Nat} {a : Abs}
  {s : APEX_CPU}

/-- Once the HALT has been issued, a cycle leaves the front of the pipeline as it is: Fetch
reads nothing and the pc stays. -/
theorem frozen_cycle_B (hz : Frozen s) (hm : mem_oob s = false) :
    ∃ s', cycle s = some s' ∧ Frozen s' ∧ s'.pc = s.pc ∧ fetch_reads s = none ∧
      mem_oob s' = false := by
  obtain ⟨w1, w2, w3, w4, w5, -⟩ := writeback_latches_B s
  obtain ⟨wf1, -, -⟩ := writeback_frame_B s
  obtain ⟨m1, m2, m3, m4, -⟩ := memory_latches_B (writeback s)
  obtain ⟨mf1, -, -⟩ := memory_frame_B (writeback s)
  have hC : (mem_step (writeback s)).ENABLE_COUNTING = false := by rw [mf1, wf1, hz.counting]
  have hE : (mem_step (writeback s)).EX = s.EX := by rw [m3, w3]
  have hD : (mem_step (writeback s)).DRF = s.DRF := by rw [m2, w2]
  have hF : (mem_step (writeback s)).F = s.F := by rw [m1, w1]
  have hP : (mem_step (writeback s)).pc = s.pc := by rw [m4, w5]
  have key : ∃ c3, execute (mem_step (writeback s)) = some c3 ∧ c3.F = s.F ∧ c3.DRF = s.DRF ∧
      c3.pc = s.pc ∧ c3.EX.opcode = .HALT ∧ c3.EX.busy = false ∧
      c3.ENABLE_COUNTING = false ∧ mem_oob c3 = false := by
    by_cases hs : s.EX.stalled = true
    · have := execute_idle_B (mem_step (writeback s)) (Or.inr (by rw [hE]; exact hs))
        (Or.inr (by rw [hE, hz.e_op]; simp))
      exact ⟨_, this, hF, hD, hP, by rw [hE]; exact hz.e_op, by rw [hE]; exact hz.e_busy, hC,
        PartA.oob_mem_step _ (by rw [oob_writeback_B]; exact hm)⟩
    · have hs' : s.EX.stalled = false := by simpa using hs
      obtain ⟨c3, z, hx3, eM, eE, eD, eF, eP⟩ := execute_not_taken_B (mem_step (writeback s))
        (by rw [hE]; exact hz.e_busy) (by rw [hE]; exact hs') hC
        (by rw [hE]; simp [ex_fault, hz.e_op]) (by intro z; rw [hE]; simp [ex_taken, hz.e_op])
      refine ⟨c3, hx3, by rw [eF, hF], ?_, by rw [eP, hP], ?_, ?_,
        (execute_frame_B _ c3 hC hx3).1, ?_⟩
      · rw [eD, hD, hE, hz.e_op]
        simp
      · rw [eE, hE]; exact hz.e_op
      · rw [eE, hE]; exact hz.e_busy
      · have ho : c3.MEM.opcode = .HALT := by
          rw [eM, hE, hz.e_op]
          simp [ex_done, hz.e_op]
        exact PartA.oob_of_opcode c3 (by rw [ho]; decide) (by rw [ho]; decide)
  obtain ⟨c3, hx3, k1, k2, k3, k4, k5, k6, k7⟩ := key
  have hdec : decode c3 = c3 :=
    decode_idle_B c3 (Or.inr (by rw [k2]; exact hz.d_stalled))
      (Or.inr (Or.inl (by rw [k2]; exact hz.d_op)))
  have hcy := cycle_of_execute_B s c3 hm hx3
  rw [hdec] at hcy
  have hcs : c3.F.stalled = true := by rw [k1]; exact hz.f_stalled
  obtain ⟨e1, e2, e3⟩ := fetch_fields_stalled_B c3 hcs
  obtain ⟨f1, f2, f3, f4, f5, f6, f7, f8, f9, f10, f11, f12⟩ := fetch_arch_B c3
  have hno : ¬ (c3.F.opcode = .BUBBLE ∨ (c3.DRF.stalled = false ∧ c3.DRF.opcode ≠ .BUBBLE)) := by
    rw [k1, k2, hz.d_stalled]
    simp [hz.f_op]
  refine ⟨_, hcy, ?_, ?_, ?_, ?_⟩
  rotate_right
  · exact (PartA.oob_congr _ c3 (show (fetch c3).MEM = c3.MEM from f6)).trans k7
  · exact
      { counting := by show (fetch c3).ENABLE_COUNTING = false; rw [f9]; exact k6
        f_busy := by show (fetch c3).F.busy = false; rw [f11, k1]; exact hz.f_busy
        f_stalled := by
          show (fetch c3).F.stalled = true
          rw [e2]
          show (if _ then false else c3.F.stalled) = true
          rw [if_neg hno, hcs]
        f_op := by show (fetch c3).F.opcode ≠ .BUBBLE; rw [e2, k1]; exact hz.f_op
        d_stalled := by
          show (fetch c3).DRF.stalled = true
          rw [e3, if_neg (fun x => hno (Or.inr x)), k2]; exact hz.d_stalled
        d_op := by
          show (fetch c3).DRF.opcode = .HALT
          rw [e3, if_neg (fun x => hno (Or.inr x)), k2]; exact hz.d_op
        e_busy := by show (fetch c3).EX.busy = false; rw [f5]; exact k5
        e_op := by show (fetch c3).EX.opcode = .HALT; rw [f5]; exact k4 }
  · show (fetch c3).pc = s.pc
    rw [e1, k3]
  · simp only [fetch_reads, bind_of_execute_B s c3 hm hx3, hdec, hcs]
    simp

end PartB


namespace PartA
open APEX

variable {code : List APEX_Instruction} {a0 : Arch} {n : Int} {N : Nat} {a : Abs}
  {s : APEX_CPU}

/-- The first cycle reads instruction 0 and leaves the pc at 4004. -/
theorem front_init (u : Uninit) (hN : N < code.length)
    (hb : 4000 + 4 * (code.length : Int) < 2147483648)
    (hI : ∀ i, i < code.length → (ins code i).opcode ≠ .BUBBLE) (s1 : APEX_CPU)
    (hc : cycle (initial code n u) = some s1) :
    Front code N Abs.start s1 ∧ fetch_reads (initial code n u) = some 0 := by
  have h1 : writeback (initial code n u) = initial code n u := writeback_idle _ (Or.inl rfl)
  have h2 : mem_step (initial code n u) = initial code n u := memory_idle _ (Or.inl rfl)
  have h3 : execute (initial code n u) = some (initial code n u) :=
    execute_idle _ (Or.inl rfl) (Or.inl rfl)
  have h4 : decode (initial code n u) = initial code n u :=
    decode_idle _ (Or.inl rfl) (Or.inl rfl)
  have hcy := cycle_of_execute (initial code n u) (initial code n u) (PartA.oob_of_idle _ (Or.inl rfl)) (by rw [h1, h2, h3])
  rw [h4, hc] at hcy
  have hs1 := Option.some.inj hcy
  obtain ⟨e1, z, e2, e3⟩ := fetch_fields_live (initial code n u) rfl rfl
  have hca := code_at_pc (initial code n u) code 0 rfl (by omega) hb
  have hpc0 : (initial code n u).pc = 4000 + 4 * ((0 : Nat) : Int) := by simp [initial]
  rw [← hpc0] at hca
  have hlen : (1 : Int) ≤ code.length := by exact_mod_cast (by omega : 1 ≤ code.length)
  constructor
  · refine { fop := ?_, pc := ?_, live := ?_, held := ?_ }
    · rw [hs1]
      show (fetch (initial code n u)).F.opcode ≠ .BUBBLE
      rw [e2]
      show (code_at (initial code n u) (get_code_index (initial code n u).pc)).opcode ≠ _
      rw [hca]
      exact hI 0 (by omega)
    · rw [hs1]
      show 4000 ≤ (fetch (initial code n u)).pc ∧ (fetch (initial code n u)).pc ≤ _ ∧
        ((fetch (initial code n u)).pc - 4000) % 4 = 0
      rw [e1]
      show 4000 ≤ (4000 : Int) + 4 ∧ (4000 : Int) + 4 ≤ _ ∧ ((4000 : Int) + 4 - 4000) % 4 = 0
      omega
    · intro e _
      have e0 : N = 0 := e.symm
      rw [hs1]
      show (fetch (initial code n u)).F.stalled = false ∧ (fetch (initial code n u)).pc = _
      rw [e1, e2, e0]
      exact ⟨rfl, rfl⟩
    · intro _ x
      rw [hs1] at x
      have : (fetch (initial code n u)).DRF.stalled = false := by
        rw [e3]; rfl
      rw [this] at x; cases x
  · simp only [fetch_reads, bind_of_execute _ _ (PartA.oob_of_idle _ (Or.inl rfl)) (show execute (mem_step (writeback (initial code n u))) = some (initial code n u) by rw [h1, h2, h3]), h4]
    rw [if_pos ⟨rfl, rfl⟩, hpc0, get_code_index_pc _ (by norm_num)]
    rfl

end PartA


namespace PartB
open APEX

variable {code : List APEX_Instruction} {a0 : Arch} {n : Int} {N : Nat} {a : Abs}
  {s : APEX_CPU}

/-- The first cycle reads instruction 0 and leaves the pc at 4004. -/
theorem front_init_B (u : Uninit) (hN : N < code.length)
    (hb : 4000 + 4 * (code.length : Int) < 2147483648)
    (hI : ∀ i, i < code.length → (ins code i).opcode ≠ .BUBBLE) (s1 : APEX_CPU)
    (hc : cycle (initial code n u) = some s1) :
    Front code N Abs.start s1 ∧ fetch_reads (initial code n u) = some 0 := by
  have h1 : writeback (initial code n u) = initial code n u := writeback_idle_B _ (Or.inl rfl)
  have h2 : mem_step (initial code n u) = initial code n u := memory_idle_B _ (Or.inl rfl)
  have h3 : execute (initial code n u) = some (initial code n u) :=
    execute_idle_B _ (Or.inl rfl) (Or.inl rfl)
  have h4 : decode (initial code n u) = initial code n u :=
    decode_idle_B _ (Or.inl rfl) (Or.inl rfl)
  have hcy := cycle_of_execute_B (initial code n u) (initial code n u) (PartA.oob_of_idle _ (Or.inl rfl)) (by rw [h1, h2, h3])
  rw [h4, hc] at hcy
  have hs1 := Option.some.inj hcy
  obtain ⟨e1, z, e2, e3⟩ := fetch_fields_live_B (initial code n u) rfl rfl
  have hca := code_at_pc (initial code n u) code 0 rfl (by omega) hb
  have hpc0 : (initial code n u).pc = 4000 + 4 * ((0 : Nat) : Int) := by simp [initial]
  rw [← hpc0] at hca
  have hlen : (1 : Int) ≤ code.length := by exact_mod_cast (by omega : 1 ≤ code.length)
  constructor
  · refine { fop := ?_, pc := ?_, live := ?_, held := ?_ }
    · rw [hs1]
      show (fetch (initial code n u)).F.opcode ≠ .BUBBLE
      rw [e2]
      show (code_at (initial code n u) (get_code_index (initial code n u).pc)).opcode ≠ _
      rw [hca]
      exact hI 0 (by omega)
    · rw [hs1]
      show 4000 ≤ (fetch (initial code n u)).pc ∧ (fetch (initial code n u)).pc ≤ _ ∧
        ((fetch (initial code n u)).pc - 4000) % 4 = 0
      rw [e1]
      show 4000 ≤ (4000 : Int) + 4 ∧ (4000 : Int) + 4 ≤ _ ∧ ((4000 : Int) + 4 - 4000) % 4 = 0
      omega
    · intro e _
      have e0 : N = 0 := e.symm
      rw [hs1]
      show (fetch (initial code n u)).F.stalled = false ∧ (fetch (initial code n u)).pc = _
      rw [e1, e2, e0]
      exact ⟨rfl, rfl⟩
    · intro _ x
      rw [hs1] at x
      have : (fetch (initial code n u)).DRF.stalled = false := by
        rw [e3]; rfl
      rw [this] at x; cases x
  · simp only [fetch_reads, bind_of_execute_B _ _ (PartA.oob_of_idle _ (Or.inl rfl)) (show execute (mem_step (writeback (initial code n u))) = some (initial code n u) by rw [h1, h2, h3]), h4]
    rw [if_pos ⟨rfl, rfl⟩, hpc0, get_code_index_pc _ (by norm_num)]
    rfl

end PartB


namespace PartA
open APEX

/-- Execute leaves the WB latch and the retirement counter alone. -/
theorem execute_keeps (cpu cpu' : APEX_CPU) (hc : cpu.ENABLE_COUNTING = false)
    (h : execute cpu = some cpu') :
    cpu'.WB = cpu.WB ∧ cpu'.ins_completed = cpu.ins_completed := by
  cases hl : cpu.EX.ctl.live
  · have hl' := (live_false_iff _).1 hl
    by_cases hm : cpu.EX.stalled = true ∧ cpu.EX.opcode = .MUL
    · rw [execute_resume cpu hm.1 hm.2 hc] at h
      cases h
      exact ⟨rfl, rfl⟩
    · have hm' : cpu.EX.stalled = false ∨ cpu.EX.opcode ≠ .MUL := by
        by_cases h1 : cpu.EX.stalled = true
        · right; exact fun h2 => hm ⟨h1, h2⟩
        · left; simpa using h1
      rw [execute_idle cpu hl' hm'] at h
      cases h
      exact ⟨rfl, rfl⟩
  · obtain ⟨hb, hs⟩ := (live_true_iff _).1 hl
    rw [execute_live cpu hb hs hc] at h
    by_cases hf : ex_fault cpu.EX = true
    · simp [hf] at h
    · rw [if_neg hf] at h
      cases h
      exact ⟨rfl, rfl⟩

/-- Decode leaves the WB latch and the retirement counter alone. -/
theorem decode_keeps (cpu : APEX_CPU) (hc : cpu.ENABLE_COUNTING = false) :
    (decode cpu).WB = cpu.WB ∧ (decode cpu).ins_completed = cpu.ins_completed := by
  cases hl : cpu.DRF.ctl.live
  · have hl' := (live_false_iff _).1 hl
    by_cases hr : cpu.DRF.stalled = true ∧ cpu.DRF.opcode ≠ .HALT ∧ cpu.EX.stalled = false
    · rw [decode_retry cpu hr.1 hr.2.1 hr.2.2 hc]
      split_ifs <;> exact ⟨rfl, rfl⟩
    · have hi : cpu.DRF.stalled = false ∨ cpu.DRF.opcode = .HALT ∨ cpu.EX.stalled = true := by
        by_cases h1 : cpu.DRF.stalled = true
        · by_cases h2 : cpu.DRF.opcode = .HALT
          · exact Or.inr (Or.inl h2)
          · by_cases h3 : cpu.EX.stalled = true
            · exact Or.inr (Or.inr h3)
            · exact absurd ⟨h1, h2, by simpa using h3⟩ hr
        · left; simpa using h1
      rw [decode_idle cpu hl' hi]
      exact ⟨rfl, rfl⟩
  · obtain ⟨hb, hs⟩ := (live_true_iff _).1 hl
    rw [decode_live cpu hb hs]
    split_ifs <;> exact ⟨rfl, rfl⟩

/-- Fetch leaves the WB latch and the retirement counter alone. -/
theorem fetch_keeps (cpu : APEX_CPU) :
    (fetch cpu).WB = cpu.WB ∧ (fetch cpu).ins_completed = cpu.ins_completed := by
  cases hl : cpu.F.ctl.live
  · rw [fetch_stalled cpu ((live_false_iff _).1 hl)]
    exact ⟨rfl, rfl⟩
  · obtain ⟨hb, hs⟩ := (live_true_iff _).1 hl
    rw [fetch_live cpu hb hs]
    exact ⟨rfl, rfl⟩

/-- Writeback counts every latch it processes, whatever its opcode. -/
theorem writeback_counts (cpu : APEX_CPU) :
    (writeback cpu).ins_completed =
      cpu.ins_completed + (if cpu.WB.busy = false ∧ cpu.WB.stalled = false then 1 else 0) ∧
    (writeback cpu).WB.busy = cpu.WB.busy ∧ (writeback cpu).WB.stalled = cpu.WB.stalled := by
  cases hl : cpu.WB.ctl.live
  · have hl' := (live_false_iff _).1 hl
    rw [writeback_idle cpu hl']
    have : ¬ (cpu.WB.busy = false ∧ cpu.WB.stalled = false) := by
      rcases hl' with x | x <;> simp [x]
    rw [if_neg this]
    exact ⟨by simp, rfl, rfl⟩
  · obtain ⟨hb, hs⟩ := (live_true_iff _).1 hl
    rw [writeback_live cpu hb hs, if_pos (And.intro hb hs)]
    exact ⟨rfl, rfl, rfl⟩

/-- Memory hands a live MEM latch to WB, which is then live; otherwise WB stays as it is. -/
theorem memory_WB (cpu : APEX_CPU) :
    (cpu.MEM.busy = false ∧ cpu.MEM.stalled = false ∧
      (mem_step cpu).WB = mem_done cpu.MEM cpu.data_memory) ∨
    ((cpu.MEM.busy = true ∨ cpu.MEM.stalled = true) ∧ (mem_step cpu).WB = cpu.WB) := by
  cases hl : cpu.MEM.ctl.live
  · have hl' := (live_false_iff _).1 hl
    right
    rw [memory_idle cpu hl']
    exact ⟨hl', rfl⟩
  · obtain ⟨hb, hs⟩ := (live_true_iff _).1 hl
    left
    rw [memory_live cpu hb hs]
    exact ⟨hb, hs, rfl⟩

/-- One cycle adds one to `ins_completed` exactly when the WB latch it starts with is live;
the WB latch it ends with is the MEM latch if that was live, else the old WB latch with the
opcode of a retired HALT cleared. -/
theorem cycle_counts (s s' : APEX_CPU) (hc : s.ENABLE_COUNTING = false)
    (h : cycle s = some s') :
    s'.ins_completed =
      s.ins_completed + (if s.WB.busy = false ∧ s.WB.stalled = false then 1 else 0) ∧
    ((s.MEM.busy = false ∧ s.MEM.stalled = false ∧ s'.WB.busy = false ∧
        s'.WB.stalled = false ∧ s'.WB.opcode = s.MEM.opcode) ∨
     ((s.MEM.busy = true ∨ s.MEM.stalled = true) ∧ s'.WB.busy = s.WB.busy ∧
        s'.WB.stalled = s.WB.stalled ∧
        (s.WB.opcode ≠ .HALT → s'.WB.opcode = s.WB.opcode))) := by
  obtain ⟨c3, he, rfl⟩ := cycle_some s s' h
  have hc1 : (mem_step (writeback s)).ENABLE_COUNTING = false := by
    rw [(memory_frame _).1, (writeback_frame _).1, hc]
  have hc2 : c3.ENABLE_COUNTING = false := (execute_frame _ _ hc1 he).1
  obtain ⟨e1, e2⟩ := execute_keeps _ _ hc1 he
  obtain ⟨d1, d2⟩ := decode_keeps c3 hc2
  obtain ⟨f1, f2⟩ := fetch_keeps (decode c3)
  obtain ⟨w1, w2, w3⟩ := writeback_counts s
  have hM : (writeback s).MEM = s.MEM := (writeback_latches s).2.2.2.1
  constructor
  · show (fetch (decode c3)).ins_completed = _
    rw [f2, d2, e2, (memory_latches _).2.2.2.2.2.2.2.2.1, w1]
  · have hWB : (fetch (decode c3)).WB = (mem_step (writeback s)).WB := by rw [f1, d1, e1]
    show (_ ∧ _ ∧ (fetch (decode c3)).WB.busy = false ∧ (fetch (decode c3)).WB.stalled = false ∧
        (fetch (decode c3)).WB.opcode = s.MEM.opcode) ∨
      (_ ∧ (fetch (decode c3)).WB.busy = s.WB.busy ∧ (fetch (decode c3)).WB.stalled = _ ∧
        (_ → (fetch (decode c3)).WB.opcode = s.WB.opcode))
    rw [hWB]
    rcases memory_WB (writeback s) with ⟨m1, m2, m3⟩ | ⟨m1, m3⟩
    · rw [hM] at m1 m2 m3
      left
      rw [m3]
      exact ⟨m1, m2, m1, m2, rfl⟩
    · rw [hM] at m1
      right
      rw [m3]
      refine ⟨m1, w2, w3, fun hne => ?_⟩
      cases hl : s.WB.ctl.live
      · rw [writeback_idle s ((live_false_iff _).1 hl)]
      · obtain ⟨hb, hs⟩ := (live_true_iff _).1 hl
        rw [writeback_live s hb hs]
        show (if s.WB.opcode = .HALT then Opcode.EMPTY else s.WB.opcode) = s.WB.opcode
        rw [if_neg hne]

theorem cycles_counting (k : Nat) (s s' : APEX_CPU) (hc : s.ENABLE_COUNTING = false)
    (h : cycles k s = some s') : s'.ENABLE_COUNTING = false := by
  induction k generalizing s with
  | zero =>
    simp only [cycles, Option.some.injEq] at h
    rw [← h]; exact hc
  | succ k ih =>
    simp only [cycles] at h
    cases h1 : cycle s with
    | none => simp [h1] at h
    | some c =>
      rw [h1] at h
      exact ih c (cycle_counting s c hc h1) h

/-- After `k` cycles `ins_completed` has grown by the number of latches Writeback processed,
whatever their opcodes. -/
theorem cycles_retired (k : Nat) (s s' : APEX_CPU) (hc : s.ENABLE_COUNTING = false)
    (h : cycles k s = some s') :
    s'.ins_completed = s.ins_completed + (retired (fun _ => true) k s : Int) := by
  induction k generalizing s with
  | zero =>
    simp only [cycles, Option.some.injEq] at h
    rw [← h]; simp [retired]
  | succ k ih =>
    simp only [cycles] at h
    cases h1 : cycle s with
    | none => simp [h1] at h
    | some c =>
      rw [h1] at h
      have h2 := ih c (cycle_counting s c hc h1) h
      have h3 := (cycle_counts s c hc h1).1
      rw [h2, h3]
      simp only [retired, h1, and_true]
      split_ifs <;> push_cast <;> ring

/-- The latches Writeback processes are those with a BUBBLE and those with another opcode. -/
theorem retired_split (k : Nat) (s : APEX_CPU) :
    retired (fun _ => true) k s =
      retired (fun o => decide (o ≠ .BUBBLE)) k s + retired (fun o => decide (o = .BUBBLE)) k s := by
  induction k generalizing s with
  | zero => simp [retired]
  | succ k ih =>
    simp only [retired]
    cases cycle s with
    | none =>
      by_cases hb : s.WB.opcode = .BUBBLE <;>
        by_cases hl : s.WB.busy = false ∧ s.WB.stalled = false <;> simp [hb, hl]
    | some c =>
      simp only []
      rw [ih c]
      by_cases hb : s.WB.opcode = .BUBBLE <;>
        by_cases hl : s.WB.busy = false ∧ s.WB.stalled = false <;> simp [hb, hl] <;> omega

/-- Once the WB latch is live it stays live, and `ins_completed` grows by one in every cycle. -/
theorem live_counts (k : Nat) (s s' : APEX_CPU) (hc : s.ENABLE_COUNTING = false)
    (hb : s.WB.busy = false) (hs : s.WB.stalled = false) (h : cycles k s = some s') :
    s'.WB.busy = false ∧ s'.WB.stalled = false ∧ s'.ins_completed = s.ins_completed + k := by
  induction k generalizing s with
  | zero =>
    simp only [cycles, Option.some.injEq] at h
    rw [← h]; exact ⟨hb, hs, by simp⟩
  | succ k ih =>
    simp only [cycles] at h
    cases h1 : cycle s with
    | none => simp [h1] at h
    | some c =>
      rw [h1] at h
      obtain ⟨c1, c2⟩ := cycle_counts s c hc h1
      have hcb : c.WB.busy = false ∧ c.WB.stalled = false := by
        rcases c2 with ⟨-, -, x, y, -⟩ | ⟨-, x, y, -⟩
        · exact ⟨x, y⟩
        · exact ⟨by rw [x, hb], by rw [y, hs]⟩
      obtain ⟨i1, i2, i3⟩ := ih c (cycle_counting s c hc h1) hcb.1 hcb.2 h
      refine ⟨i1, i2, ?_⟩
      rw [i3, c1, if_pos (And.intro hb hs)]
      push_cast; ring

end PartA


namespace PartB
open APEX

/-- Execute leaves the WB latch and the retirement counter alone. -/
theorem execute_keeps_B (cpu cpu' : APEX_CPU) (hc : cpu.ENABLE_COUNTING = false)
    (h : execute cpu = some cpu') :
    cpu'.WB = cpu.WB ∧ cpu'.ins_completed = cpu.ins_completed := by
  cases hl : cpu.EX.ctl.live
  · have hl' := (live_false_iff _).1 hl
    by_cases hm : cpu.EX.stalled = true ∧ cpu.EX.opcode = .MUL
    · rw [execute_resume_B cpu hm.1 hm.2 hc] at h
      cases h
      exact ⟨rfl, rfl⟩
    · have hm' : cpu.EX.stalled = false ∨ cpu.EX.opcode ≠ .MUL := by
        by_cases h1 : cpu.EX.stalled = true
        · right; exact fun h2 => hm ⟨h1, h2⟩
        · left; simpa using h1
      rw [execute_idle_B cpu hl' hm'] at h
      cases h
      exact ⟨rfl, rfl⟩
  · obtain ⟨hb, hs⟩ := (live_true_iff _).1 hl
    rw [execute_live_B cpu hb hs hc] at h
    by_cases hf : ex_fault cpu.EX = true
    · simp [hf] at h
    · rw [if_neg hf] at h
      cases h
      exact ⟨rfl, rfl⟩

/-- Decode leaves the WB latch and the retirement counter alone. -/
theorem decode_keeps_B (cpu : APEX_CPU) (hc : cpu.ENABLE_COUNTING = false) :
    (decode cpu).WB = cpu.WB ∧ (decode cpu).ins_completed = cpu.ins_completed := by
  cases hl : cpu.DRF.ctl.live
  · have hl' := (live_false_iff _).1 hl
    by_cases hr : cpu.DRF.stalled = true ∧ cpu.DRF.opcode ≠ .HALT ∧ cpu.EX.stalled = false
    · rw [decode_retry_B cpu hr.1 hr.2.1 hr.2.2 hc]
      split_ifs <;> exact ⟨rfl, rfl⟩
    · have hi : cpu.DRF.stalled = false ∨ cpu.DRF.opcode = .HALT ∨ cpu.EX.stalled = true := by
        by_cases h1 : cpu.DRF.stalled = true
        · by_cases h2 : cpu.DRF.opcode = .HALT
          · exact Or.inr (Or.inl h2)
          · by_cases h3 : cpu.EX.stalled = true
            · exact Or.inr (Or.inr h3)
            · exact absurd ⟨h1, h2, by simpa using h3⟩ hr
        · left; simpa using h1
      rw [decode_idle_B cpu hl' hi]
      exact ⟨rfl, rfl⟩
  · obtain ⟨hb, hs⟩ := (live_true_iff _).1 hl
    rw [decode_live_B cpu hb hs]
    split_ifs <;> exact ⟨rfl, rfl⟩

/-- Fetch leaves the WB latch and the retirement counter alone. -/
theorem fetch_keeps_B (cpu : APEX_CPU) :
    (fetch cpu).WB = cpu.WB ∧ (fetch cpu).ins_completed = cpu.ins_completed := by
  cases hl : cpu.F.ctl.live
  · rw [fetch_stalled_B cpu ((live_false_iff _).1 hl)]
    exact ⟨rfl, rfl⟩
  · obtain ⟨hb, hs⟩ := (live_true_iff _).1 hl
    rw [fetch_live_B cpu hb hs]
    exact ⟨rfl, rfl⟩

/-- Writeback counts every latch it processes, whatever its opcode. -/
theorem writeback_counts_B (cpu : APEX_CPU) :
    (writeback cpu).ins_completed =
      cpu.ins_completed + (if cpu.WB.busy = false ∧ cpu.WB.stalled = false then 1 else 0) ∧
    (writeback cpu).WB.busy = cpu.WB.busy ∧ (writeback cpu).WB.stalled = cpu.WB.stalled := by
  cases hl : cpu.WB.ctl.live
  · have hl' := (live_false_iff _).1 hl
    rw [writeback_idle_B cpu hl']
    have : ¬ (cpu.WB.busy = false ∧ cpu.WB.stalled = false) := by
      rcases hl' with x | x <;> simp [x]
    rw [if_neg this]
    exact ⟨by simp, rfl, rfl⟩
  · obtain ⟨hb, hs⟩ := (live_true_iff _).1 hl
    rw [writeback_live_B cpu hb hs, if_pos (And.intro hb hs)]
    exact ⟨rfl, rfl, rfl⟩

/-- Memory hands a live MEM latch to WB, which is then live; otherwise WB stays as it is. -/
theorem memory_WB_B (cpu : APEX_CPU) :
    (cpu.MEM.busy = false ∧ cpu.MEM.stalled = false ∧
      (mem_step cpu).WB = mem_done cpu.MEM cpu.data_memory) ∨
    ((cpu.MEM.busy = true ∨ cpu.MEM.stalled = true) ∧ (mem_step cpu).WB = cpu.WB) := by
  cases hl : cpu.MEM.ctl.live
  · have hl' := (live_false_iff _).1 hl
    right
    rw [memory_idle_B cpu hl']
    exact ⟨hl', rfl⟩
  · obtain ⟨hb, hs⟩ := (live_true_iff _).1 hl
    left
    rw [memory_live_B cpu hb hs]
    exact ⟨hb, hs, rfl⟩

/-- One cycle adds one to `ins_completed` exactly when the WB latch it starts with is live;
the WB latch it ends with is the MEM latch if that was live, else the old WB latch with the
opcode of a retired HALT cleared. -/
theorem cycle_counts_B (s s' : APEX_CPU) (hc : s.ENABLE_COUNTING = false)
    (h : cycle s = some s') :
    s'.ins_completed =
      s.ins_completed + (if s.WB.busy = false ∧ s.WB.stalled = false then 1 else 0) ∧
    ((s.MEM.busy = false ∧ s.MEM.stalled = false ∧ s'.WB.busy = false ∧
        s'.WB.stalled = false ∧ s'.WB.opcode = s.MEM.opcode) ∨
     ((s.MEM.busy = true ∨ s.MEM.stalled = true) ∧ s'.WB.busy = s.WB.busy ∧
        s'.WB.stalled = s.WB.stalled ∧
        (s.WB.opcode ≠ .HALT → s'.WB.opcode = s.WB.opcode))) := by
  obtain ⟨c3, he, rfl⟩ := cycle_some_B s s' h
  have hc1 : (mem_step (writeback s)).ENABLE_COUNTING = false := by
    rw [(memory_frame_B _).1, (writeback_frame_B _).1, hc]
  have hc2 : c3.ENABLE_COUNTING = false := (execute_frame_B _ _ hc1 he).1
  obtain ⟨e1, e2⟩ := execute_keeps_B _ _ hc1 he
  obtain ⟨d1, d2⟩ := decode_keeps_B c3 hc2
  obtain ⟨f1, f2⟩ := fetch_keeps_B (decode c3)
  obtain ⟨w1, w2, w3⟩ := writeback_counts_B s
  have hM : (writeback s).MEM = s.MEM := (writeback_latches_B s).2.2.2.1
  constructor
  · show (fetch (decode c3)).ins_completed = _
    rw [f2, d2, e2, (memory_latches_B _).2.2.2.2.2.2.2.2.1, w1]
  · have hWB : (fetch (decode c3)).WB = (mem_step (writeback s)).WB := by rw [f1, d1, e1]
    show (_ ∧ _ ∧ (fetch (decode c3)).WB.busy = false ∧ (fetch (decode c3)).WB.stalled = false ∧
        (fetch (decode c3)).WB.opcode = s.MEM.opcode) ∨
      (_ ∧ (fetch (decode c3)).WB.busy = s.WB.busy ∧ (fetch (decode c3)).WB.stalled = _ ∧
        (_ → (fetch (decode c3)).WB.opcode = s.WB.opcode))
    rw [hWB]
    rcases memory_WB_B (writeback s) with ⟨m1, m2, m3⟩ | ⟨m1, m3⟩
    · rw [hM] at m1 m2 m3
      left
      rw [m3]
      exact ⟨m1, m2, m1, m2, rfl⟩
    · rw [hM] at m1
      right
      rw [m3]
      refine ⟨m1, w2, w3, fun hne => ?_⟩
      cases hl : s.WB.ctl.live
      · rw [writeback_idle_B s ((live_false_iff _).1 hl)]
      · obtain ⟨hb, hs⟩ := (live_true_iff _).1 hl
        rw [writeback_live_B s hb hs]
        show (if s.WB.opcode = .HALT then Opcode.EMPTY else s.WB.opcode) = s.WB.opcode
        rw [if_neg hne]

theorem cycles_counting_B (k : Nat) (s s' : APEX_CPU) (hc : s.ENABLE_COUNTING = false)
    (h : cycles k s = some s') : s'.ENABLE_COUNTING = false := by
  induction k generalizing s with
  | zero =>
    simp only [cycles, Option.some.injEq] at h
    rw [← h]; exact hc
  | succ k ih =>
    simp only [cycles] at h
    cases h1 : cycle s with
    | none => simp [h1] at h
    | some c =>
      rw [h1] at h
      exact ih c (cycle_counting_B s c hc h1) h

/-- After `k` cycles `ins_completed` has grown by the number of latches Writeback processed,
whatever their opcodes. -/
theorem cycles_retired_B (k : Nat) (s s' : APEX_CPU) (hc : s.ENABLE_COUNTING = false)
    (h : cycles k s = some s') :
    s'.ins_completed = s.ins_completed + (retired (fun _ => true) k s : Int) := by
  induction k generalizing s with
  | zero =>
    simp only [cycles, Option.some.injEq] at h
    rw [← h]; simp [retired]
  | succ k ih =>
    simp only [cycles] at h
    cases h1 : cycle s with
    | none => simp [h1] at h
    | some c =>
      rw [h1] at h
      have h2 := ih c (cycle_counting_B s c hc h1) h
      have h3 := (cycle_counts_B s c hc h1).1
      rw [h2, h3]
      simp only [retired, h1, and_true]
      split_ifs <;> push_cast <;> ring

/-- The latches Writeback processes are those with a BUBBLE and those with another opcode. -/
theorem retired_split_B (k : Nat) (s : APEX_CPU) :
    retired (fun _ => true) k s =
      retired (fun o => decide (o ≠ .BUBBLE)) k s + retired (fun o => decide (o = .BUBBLE)) k s := by
  induction k generalizing s with
  | zero => simp [retired]
  | succ k ih =>
    simp only [retired]
    cases cycle s with
    | none =>
      by_cases hb : s.WB.opcode = .BUBBLE <;>
        by_cases hl : s.WB.busy = false ∧ s.WB.stalled = false <;> simp [hb, hl]
    | some c =>
      simp only []
      rw [ih c]
      by_cases hb : s.WB.opcode = .BUBBLE <;>
        by_cases hl : s.WB.busy = false ∧ s.WB.stalled = false <;> simp [hb, hl] <;> omega

/-- Once the WB latch is live it stays live, and `ins_completed` grows by one in every cycle. -/
theorem live_counts_B (k : Nat) (s s' : APEX_CPU) (hc : s.ENABLE_COUNTING = false)
    (hb : s.WB.busy = false) (hs : s.WB.stalled = false) (h : cycles k s = some s') :
    s'.WB.busy = false ∧ s'.WB.stalled = false ∧ s'.ins_completed = s.ins_completed + k := by
  induction k generalizing s with
  | zero =>
    simp only [cycles, Option.some.injEq] at h
    rw [← h]; exact ⟨hb, hs, by simp⟩
  | succ k ih =>
    simp only [cycles] at h
    cases h1 : cycle s with
    | none => simp [h1] at h
    | some c =>
      rw [h1] at h
      obtain ⟨c1, c2⟩ := cycle_counts_B s c hc h1
      have hcb : c.WB.busy = false ∧ c.WB.stalled = false := by
        rcases c2 with ⟨-, -, x, y, -⟩ | ⟨-, x, y, -⟩
        · exact ⟨x, y⟩
        · exact ⟨by rw [x, hb], by rw [y, hs]⟩
      obtain ⟨i1, i2, i3⟩ := ih c (cycle_counting_B s c hc h1) hcb.1 hcb.2 h
      refine ⟨i1, i2, ?_⟩
      rw [i3, c1, if_pos (And.intro hb hs)]
      push_cast; ring

end PartB


namespace APEX

/-- A busy latch behind a busy latch stays busy for one more cycle: the busy bits of the
initial state clear one latch per cycle, front to back. -/
theorem Ctl.cycle_busy (c : Ctl) (t p : Bool) (o : Opcode) :
    (c.MEM.busy = true → c.WB.busy = true → (c.cycle t p o).WB.busy = true) ∧
    (c.EX.busy = true → c.MEM.busy = true → (c.cycle t p o).MEM.busy = true) ∧
    (c.DRF.busy = true → c.EX.busy = true → (c.cycle t p o).EX.busy = true) := by
  rcases c with ⟨⟨fo, fb, fs⟩, ⟨dop, db, ds⟩, ⟨eo, eb, es⟩, ⟨mo, mb, ms⟩, ⟨wo, wb, ws⟩⟩
  refine ⟨?_, ?_, ?_⟩
  · intro h1 h2
    simp only at h1 h2
    subst h1 h2
    simp [Ctl.cycle, Ctl.fetch, Ctl.decode, Ctl.execute, Ctl.memory, Ctl.writeback,
      CtlStage.live]
  · intro h1 h2
    simp only at h1 h2
    subst h1 h2
    simp only [Ctl.cycle, Ctl.fetch, Ctl.decode, Ctl.execute, Ctl.memory, Ctl.writeback,
      CtlStage.live, Ctl.resume, Ctl.taken]
    cases es <;> simp
    split_ifs <;> rfl
  · intro h1 h2
    simp only at h1 h2
    subst h1 h2
    simp only [Ctl.cycle, Ctl.fetch, Ctl.decode, Ctl.execute, Ctl.memory, Ctl.writeback,
      CtlStage.live, Ctl.resume, Ctl.taken, Ctl.retry]
    cases es <;> cases ds <;> cases p <;> simp <;> split_ifs <;> rfl

end APEX

namespace PartA
open APEX

variable {code : List APEX_Instruction} {a0 : Arch} {n : Int} {N : Nat} {a : Abs}
  {s : APEX_CPU}

/-- The latches behind Fetch start busy and clear one per cycle: WB is busy in the first four
cycles of every run. -/
theorem early_busy (code : List APEX_Instruction) (n : Int) (u : Uninit) :
    ∀ (k : Nat) (s : APEX_CPU), cycles k (initial code n u) = some s →
      (k ≤ 3 → s.WB.busy = true) ∧ (k ≤ 2 → s.MEM.busy = true) ∧
      (k ≤ 1 → s.EX.busy = true) ∧ (k ≤ 0 → s.DRF.busy = true) := by
  intro k
  induction k with
  | zero =>
    intro s hs
    simp only [cycles, Option.some.injEq] at hs
    rw [← hs]
    exact ⟨fun _ => rfl, fun _ => rfl, fun _ => rfl, fun _ => rfl⟩
  | succ k ih =>
    intro s hs
    obtain ⟨s1, h1, h2⟩ := cycles_succ_inv k _ s hs
    obtain ⟨i1, i2, i3, i4⟩ := ih s1 h1
    obtain ⟨t, p, o, e⟩ := ctl_cycle s1 s (reachable_ok code n u k s1 h1).2 h2
    obtain ⟨b1, b2, b3⟩ := Ctl.cycle_busy s1.ctl t p o
    rw [← e] at b1 b2 b3
    exact ⟨fun hk => b1 (i2 (by omega)) (i1 (by omega)),
      fun hk => b2 (i3 (by omega)) (i2 (by omega)),
      fun hk => b3 (i4 (by omega)) (i3 (by omega)), fun hk => by omega⟩

/-- Nothing retires in the first four cycles of a run. -/
theorem early_count (code : List APEX_Instruction) (n : Int) (u : Uninit) :
    ∀ (k : Nat) (s : APEX_CPU), k ≤ 4 → cycles k (initial code n u) = some s →
      s.ins_completed = u.ins_completed := by
  intro k
  induction k with
  | zero =>
    intro s _ hs
    simp only [cycles, Option.some.injEq] at hs
    rw [← hs]; rfl
  | succ k ih =>
    intro s hk hs
    obtain ⟨s1, h1, h2⟩ := cycles_succ_inv k _ s hs
    have hb := (early_busy code n u k s1 h1).1 (by omega)
    rw [(cycle_counts s1 s (reachable_ok code n u k s1 h1).2 h2).1, ih s1 (by omega) h1,
      if_neg (by rw [hb]; simp)]
    simp

/-- The retirement counter at the end of a run whose WB latch is live after four cycles. -/
theorem count_from_four (code : List APEX_Instruction) (n : Int) (u : Uninit) (m : Nat)
    (s4 final : APEX_CPU) (h4 : cycles 4 (initial code n u) = some s4)
    (hb : s4.WB.busy = false) (hs : s4.WB.stalled = false)
    (hf : cycles (4 + m) (initial code n u) = some final) :
    final.ins_completed = u.ins_completed + m := by
  rw [cycles_add, h4] at hf
  obtain ⟨-, -, e⟩ := live_counts m s4 final (reachable_ok code n u 4 s4 h4).2 hb hs hf
  rw [e, early_count code n u 4 s4 (le_refl _) h4]

end PartA


namespace PartB
open APEX

variable {code : List APEX_Instruction} {a0 : Arch} {n : Int} {N : Nat} {a : Abs}
  {s : APEX_CPU}

/-- The latches behind Fetch start busy and clear one per cycle: WB is busy in the first four
cycles of every run. -/
theorem early_busy_B (code : List APEX_Instruction) (n : Int) (u : Uninit) :
    ∀ (k : Nat) (s : APEX_CPU), cycles k (initial code n u) = some s →
      (k ≤ 3 → s.WB.busy = true) ∧ (k ≤ 2 → s.MEM.busy = true) ∧
      (k ≤ 1 → s.EX.busy = true) ∧ (k ≤ 0 → s.DRF.busy = true) := by
  intro k
  induction k with
  | zero =>
    intro s hs
    simp only [cycles, Option.some.injEq] at hs
    rw [← hs]
    exact ⟨fun _ => rfl, fun _ => rfl, fun _ => rfl, fun _ => rfl⟩
  | succ k ih =>
    intro s hs
    obtain ⟨s1, h1, h2⟩ := cycles_succ_inv_B k _ s hs
    obtain ⟨i1, i2, i3, i4⟩ := ih s1 h1
    obtain ⟨t, p, o, e⟩ := ctl_cycle_B s1 s (reachable_ok_B code n u k s1 h1).2 h2
    obtain ⟨b1, b2, b3⟩ := Ctl.cycle_busy s1.ctl t p o
    rw [← e] at b1 b2 b3
    exact ⟨fun hk => b1 (i2 (by omega)) (i1 (by omega)),
      fun hk => b2 (i3 (by omega)) (i2 (by omega)),
      fun hk => b3 (i4 (by omega)) (i3 (by omega)), fun hk => by omega⟩

/-- Nothing retires in the first four cycles of a run. -/
theorem early_count_B (code : List APEX_Instruction) (n : Int) (u : Uninit) :
    ∀ (k : Nat) (s : APEX_CPU), k ≤ 4 → cycles k (initial code n u) = some s →
      s.ins_completed = u.ins_completed := by
  intro k
  induction k with
  | zero =>
    intro s _ hs
    simp only [cycles, Option.some.injEq] at hs
    rw [← hs]; rfl
  | succ k ih =>
    intro s hk hs
    obtain ⟨s1, h1, h2⟩ := cycles_succ_inv_B k _ s hs
    have hb := (early_busy_B code n u k s1 h1).1 (by omega)
    rw [(cycle_counts_B s1 s (reachable_ok_B code n u k s1 h1).2 h2).1, ih s1 (by omega) h1,
      if_neg (by rw [hb]; simp)]
    simp

/-- The retirement counter at the end of a run whose WB latch is live after four cycles. -/
theorem count_from_four_B (code : List APEX_Instruction) (n : Int) (u : Uninit) (m : Nat)
    (s4 final : APEX_CPU) (h4 : cycles 4 (initial code n u) = some s4)
    (hb : s4.WB.busy = false) (hs : s4.WB.stalled = false)
    (hf : cycles (4 + m) (initial code n u) = some final) :
    final.ins_completed = u.ins_completed + m := by
  rw [cycles_add_B, h4] at hf
  obtain ⟨-, -, e⟩ := live_counts_B m s4 final (reachable_ok_B code n u 4 s4 h4).2 hb hs hf
  rw [e, early_count_B code n u 4 s4 (le_refl _) h4]

end PartB


namespace PartA
open APEX

variable {code : List APEX_Instruction} {a0 : Arch} {n : Int} {N : Nat} {a : Abs}
  {s : APEX_CPU}

/-- The F latch and the pc along the trace, and the frozen front once the HALT is issued. -/
theorem trace_front (u : Uninit) (hp : Prog code (Arch.init u) N)
    (hF : Fine code (Arch.init u) (N + 1))
    (hI : ∀ i, i < code.length → (ins code i).opcode ≠ .BUBBLE)
    (hM : ∀ i, i + 1 = N → (ins code i).opcode = .MUL → N + 1 < code.length) :
    ∀ (j : Nat) (s : APEX_CPU), cycles (j + 1) (initial code n u) = some s →
      (∀ i, i < j → (trace code i).d ≤ N) →
      Front code N (trace code j) s ∧ ((trace code j).d = N + 1 → Frozen s) := by
  have hN : N < code.length := by have := hp.1.1; omega
  intro j
  induction j with
  | zero =>
    intro s hs _
    have hc : cycle (initial code n u) = some s := by
      simpa [cycles] using hs
    refine ⟨(front_init u hN hp.1.2 hI s hc).1, fun hd => ?_⟩
    have e : (trace code 0).d = 0 := rfl
    omega
  | succ j ih =>
    intro s hs hd
    obtain ⟨s1, h1, h2⟩ := cycles_succ_inv (j + 1) _ s hs
    have hr := trace_rel u hp hF j s1 h1 (fun i hi => hd i (by omega))
    obtain ⟨hf, -⟩ := ih s1 h1 (fun i hi => hd i (by omega))
    obtain ⟨c3, s2, hx3, hax, hade, hcy, hr'⟩ := rel_step_full hp hr (hd j (by omega))
      (fun _ => hF _ (by have := hr.core.bound; omega))
    rw [h2] at hcy
    cases hcy
    obtain ⟨f1, f2, -⟩ :=
      front_step hp hI hM hr.core (hd j (by omega)) hf c3 s hx3 hax hade h2 hr'.core
    exact ⟨f1, f2⟩

/-- The run loop follows the trace: while the HALT has not been issued and the budget is
not used up, every cycle is an iteration of the loop, and the clock counts them. -/
theorem run_trace (u : Uninit) (hp : Prog code (Arch.init u) N)
    (hF : Fine code (Arch.init u) (N + 1)) :
    ∀ (j : Nat), (∀ i, i < j → (trace code i).d ≤ N) → (j : Int) + 1 ≤ n →
      ∃ s, cycles (j + 1) (initial code n u) = some s ∧
        Rel code (Arch.init u) n N (trace code j) s ∧ s.clock = (j : Int) + 2 ∧
        ∀ fuel, APEX_cpu_run (j + 1 + fuel) (initial code n u) = APEX_cpu_run fuel s := by
  intro j
  induction j with
  | zero =>
    intro _ hn
    obtain ⟨s1, h1, h2⟩ := @rel_init code n N u hp
    refine ⟨s1, by simp [cycles, h1], h2, ?_, fun fuel => ?_⟩
    · rw [cycle_clock _ s1 rfl h1]; rfl
    · have hcl0 : (initial code n u).clock ≤ (initial code n u).code_memory_size := by
        show (1 : Int) ≤ n
        omega
      have e : 0 + 1 + fuel = fuel + 1 := by omega
      rw [e, run_step fuel _ s1 hcl0 rfl h1]
  | succ j ih =>
    intro hd hn
    obtain ⟨s1, h1, hr, hck, hrun⟩ := ih (fun i hi => hd i (by omega)) (by omega)
    obtain ⟨s2, h3, h4⟩ := rel_step hp hr (hd j (by omega))
      (fun _ => hF _ (by have := hr.core.bound; omega))
    refine ⟨s2, cycles_succ_last (j + 1) _ s1 s2 h1 h3, h4, ?_, fun fuel => ?_⟩
    · rw [cycle_clock s1 s2 hr.core.counting h3, hck]
      push_cast; ring
    · have hcl : s1.clock ≤ s1.code_memory_size := by
        rw [hck, hr.core.budget]
        push_cast at hn
        omega
      have e : j + 1 + 1 + fuel = j + 1 + (fuel + 1) := by omega
      rw [e, hrun (fuel + 1), run_step fuel s1 s2 hcl hr.core.counting h3]

/-- A run whose HALT is issued in cycle `k0 + 2` returns after `k0 + 4` cycles in the reference
state, if the budget covers the cycle in which the HALT reaches MEM. -/
theorem run_exact (u : Uninit) (hp : Prog code (Arch.init u) N)
    (hF : Fine code (Arch.init u) (N + 1)) (k0 : Nat)
    (hk : ∀ i, i < k0 → (trace code i).d ≤ N) (hk0 : (trace code k0).d = N + 1)
    (hn : (k0 : Int) + 3 ≤ n) :
    ∃ final, (∀ fuel, APEX_cpu_run (k0 + 4 + fuel) (initial code n u) = .returned final) ∧
      cycles (k0 + 4) (initial code n u) = some final ∧
      final.regs = (S code (Arch.init u) N).regs ∧
      final.data_memory = (S code (Arch.init u) N).mem ∧
      ∀ b, (S code (Arch.init u) N).z = some b → final.z_flag = b := by
  obtain ⟨s', hcs, hr, hck, hrun⟩ := @run_trace code n N u hp hF k0 hk (by omega)
  obtain ⟨sT, hcT, t1, t2, t3, t4, t5, t6, t7, t8⟩ := rel_halt hp hr hk0
  have hreach : cycles (k0 + 1 + 1) (initial code n u) = some sT :=
    cycles_succ_last (k0 + 1) _ s' sT hcs hcT
  have hcl' : s'.clock ≤ s'.code_memory_size := by
    rw [hck, hr.core.budget]; omega
  have hclT : sT.clock ≤ sT.code_memory_size := by
    rw [t4, t5, hck]; omega
  obtain ⟨s2, hs2, f1, f2, f3, f4⟩ := halt_run code n u (k0 + 1 + 1) sT hreach t1 t2 t3 hclT
  refine ⟨s2, fun fuel => ?_, ?_, by rw [f1, t7], by rw [f2, t6], fun b hb => ?_⟩
  · have e1 : k0 + 4 + fuel = k0 + 1 + ((fuel + 2) + 1) := by omega
    rw [e1, hrun, run_step _ _ sT hcl' hr.core.counting hcT]
    exact hs2 fuel
  · have e : k0 + 4 = (k0 + 1 + 1) + 2 := by omega
    rw [e, cycles_add, hreach]
    exact f4
  · rw [f3]; exact t8 b hb

/-- The retirement counter at the end of such a run, when instruction 0 is in WB after four
cycles: one count per cycle from the fifth on. -/
theorem count_exact (u : Uninit) (hp : Prog code (Arch.init u) N)
    (hF : Fine code (Arch.init u) (N + 1)) (k0 : Nat)
    (hk : ∀ i, i < k0 → (trace code i).d ≤ N) (h3 : 3 ≤ k0)
    (how : (trace code 3).ow = true) (final : APEX_CPU)
    (hf : cycles (k0 + 4) (initial code n u) = some final) :
    final.ins_completed = u.ins_completed + k0 := by
  have e : k0 + 4 = 4 + k0 := by omega
  rw [e] at hf
  have hf' := hf
  rw [cycles_add] at hf'
  cases h4 : cycles 4 (initial code n u) with
  | none => rw [h4] at hf'; cases hf'
  | some s4 =>
    have hr := trace_rel u hp hF 3 s4 h4 (fun i hi => hk i (by omega))
    have hwb := hr.core.wb
    rw [if_pos how] at hwb
    exact count_from_four code n u k0 s4 final h4 hwb.1.2.2.2.2.2 hwb.2.1 hf

end PartA


namespace PartB
open APEX

variable {code : List APEX_Instruction} {a0 : Arch} {n : Int} {N : Nat} {a : Abs}
  {s : APEX_CPU}

/-- The F latch and the pc along the trace, and the frozen front once the HALT is issued. -/
theorem trace_front_B (u : Uninit) (hp : Prog code (Arch.init u) N)
    (hF : Fine code (Arch.init u) (N + 1))
    (hI : ∀ i, i < code.length → (ins code i).opcode ≠ .BUBBLE)
    (hM : ∀ i, i + 1 = N → (ins code i).opcode = .MUL → N + 1 < code.length) :
    ∀ (j : Nat) (s : APEX_CPU), cycles (j + 1) (initial code n u) = some s →
      (∀ i, i < j → (trace code i).d ≤ N) →
      Front code N (trace code j) s ∧ ((trace code j).d = N + 1 → Frozen s) := by
  have hN : N < code.length := by have := hp.1.1; omega
  intro j
  induction j with
  | zero =>
    intro s hs _
    have hc : cycle (initial code n u) = some s := by
      simpa [cycles] using hs
    refine ⟨(front_init_B u hN hp.1.2 hI s hc).1, fun hd => ?_⟩
    have e : (trace code 0).d = 0 := rfl
    omega
  | succ j ih =>
    intro s hs hd
    obtain ⟨s1, h1, h2⟩ := cycles_succ_inv_B (j + 1) _ s hs
    have hr := trace_rel_B u hp hF j s1 h1 (fun i hi => hd i (by omega))
    obtain ⟨hf, -⟩ := ih s1 h1 (fun i hi => hd i (by omega))
    obtain ⟨c3, s2, hx3, hax, hade, hcy, hr'⟩ := rel_step_full_B hp hr (hd j (by omega))
      (fun _ => hF _ (by have := hr.core.bound; omega))
    rw [h2] at hcy
    cases hcy
    obtain ⟨f1, f2, -⟩ :=
      front_step_B hp hI hM hr.core (hd j (by omega)) hf c3 s hx3 hax hade h2 hr'.core
    exact ⟨f1, f2⟩

/-- The run loop follows the trace: while the HALT has not been issued and the budget is
not used up, every cycle is an iteration of the loop, and the clock counts them. -/
theorem run_trace_B (u : Uninit) (hp : Prog code (Arch.init u) N)
    (hF : Fine code (Arch.init u) (N + 1)) :
    ∀ (j : Nat), (∀ i, i < j → (trace code i).d ≤ N) → (j : Int) + 1 ≤ n →
      ∃ s, cycles (j + 1) (initial code n u) = some s ∧
        Rel code (Arch.init u) n N (trace code j) s ∧ s.clock = (j : Int) + 2 ∧
        ∀ fuel, APEX_cpu_run (j + 1 + fuel) (initial code n u) = APEX_cpu_run fuel s := by
  intro j
  induction j with
  | zero =>
    intro _ hn
    obtain ⟨s1, h1, h2⟩ := @rel_init_B code n N u hp
    refine ⟨s1, by simp [cycles, h1], h2, ?_, fun fuel => ?_⟩
    · rw [cycle_clock_B _ s1 rfl h1]; rfl
    · have hcl0 : (initial code n u).clock ≤ (initial code n u).code_memory_size := by
        show (1 : Int) ≤ n
        omega
      have e : 0 + 1 + fuel = fuel + 1 := by omega
      rw [e, run_step_B fuel _ s1 hcl0 rfl h1]
  | succ j ih =>
    intro hd hn
    obtain ⟨s1, h1, hr, hck, hrun⟩ := ih (fun i hi => hd i (by omega)) (by omega)
    obtain ⟨s2, h3, h4⟩ := rel_step_B hp hr (hd j (by omega))
      (fun _ => hF _ (by have := hr.core.bound; omega))
    refine ⟨s2, cycles_succ_last_B (j + 1) _ s1 s2 h1 h3, h4, ?_, fun fuel => ?_⟩
    · rw [cycle_clock_B s1 s2 hr.core.counting h3, hck]
      push_cast; ring
    · have hcl : s1.clock ≤ s1.code_memory_size := by
        rw [hck, hr.core.budget]
        push_cast at hn
        omega
      have e : j + 1 + 1 + fuel = j + 1 + (fuel + 1) := by omega
      rw [e, hrun (fuel + 1), run_step_B fuel s1 s2 hcl hr.core.counting h3]

/-- A run whose HALT is issued in cycle `k0 + 2` returns after `k0 + 4` cycles in the reference
state, if the budget covers the cycle in which the HALT reaches MEM. -/
theorem run_exact_B (u : Uninit) (hp : Prog code (Arch.init u) N)
    (hF : Fine code (Arch.init u) (N + 1)) (k0 : Nat)
    (hk : ∀ i, i < k0 → (trace code i).d ≤ N) (hk0 : (trace code k0).d = N + 1)
    (hn : (k0 : Int) + 3 ≤ n) :
    ∃ final, (∀ fuel, APEX_cpu_run (k0 + 4 + fuel) (initial code n u) = .returned final) ∧
      cycles (k0 + 4) (initial code n u) = some final ∧
      final.regs = (S code (Arch.init u) N).regs ∧
      final.data_memory = (S code (Arch.init u) N).mem ∧
      ∀ b, (S code (Arch.init u) N).z = some b → final.z_flag = b := by
  obtain ⟨s', hcs, hr, hck, hrun⟩ := @run_trace_B code n N u hp hF k0 hk (by omega)
  obtain ⟨sT, hcT, t1, t2, t3, t4, t5, t6, t7, t8⟩ := rel_halt_B hp hr hk0
  have hreach : cycles (k0 + 1 + 1) (initial code n u) = some sT :=
    cycles_succ_last_B (k0 + 1) _ s' sT hcs hcT
  have hcl' : s'.clock ≤ s'.code_memory_size := by
    rw [hck, hr.core.budget]; omega
  have hclT : sT.clock ≤ sT.code_memory_size := by
    rw [t4, t5, hck]; omega
  obtain ⟨s2, hs2, f1, f2, f3, f4⟩ := halt_run_B code n u (k0 + 1 + 1) sT hreach t1 t2 t3 hclT
  refine ⟨s2, fun fuel => ?_, ?_, by rw [f1, t7], by rw [f2, t6], fun b hb => ?_⟩
  · have e1 : k0 + 4 + fuel = k0 + 1 + ((fuel + 2) + 1) := by omega
    rw [e1, hrun, run_step_B _ _ sT hcl' hr.core.counting hcT]
    exact hs2 fuel
  · have e : k0 + 4 = (k0 + 1 + 1) + 2 := by omega
    rw [e, cycles_add_B, hreach]
    exact f4
  · rw [f3]; exact t8 b hb

/-- The retirement counter at the end of such a run, when instruction 0 is in WB after four
cycles: one count per cycle from the fifth on. -/
theorem count_exact_B (u : Uninit) (hp : Prog code (Arch.init u) N)
    (hF : Fine code (Arch.init u) (N + 1)) (k0 : Nat)
    (hk : ∀ i, i < k0 → (trace code i).d ≤ N) (h3 : 3 ≤ k0)
    (how : (trace code 3).ow = true) (final : APEX_CPU)
    (hf : cycles (k0 + 4) (initial code n u) = some final) :
    final.ins_completed = u.ins_completed + k0 := by
  have e : k0 + 4 = 4 + k0 := by omega
  rw [e] at hf
  have hf' := hf
  rw [cycles_add_B] at hf'
  cases h4 : cycles 4 (initial code n u) with
  | none => rw [h4] at hf'; cases hf'
  | some s4 =>
    have hr := trace_rel_B u hp hF 3 s4 h4 (fun i hi => hk i (by omega))
    have hwb := hr.core.wb
    rw [if_pos how] at hwb
    exact count_from_four_B code n u k0 s4 final h4 hwb.1.2.2.2.2.2 hwb.2.1 hf

end PartB


namespace PartA
open APEX

variable {code : List APEX_Instruction} {a0 : Arch} {n : Int} {N : Nat} {a : Abs}
  {s : APEX_CPU}

theorem held_succ (op : Opcode) (k : Nat) (s s' : APEX_CPU) (h : cycle s = some s') :
    held op (k + 1) s =
      (if s'.DRF.opcode = op ∧ s'.DRF.stalled = true then 1 else 0) + held op k s' := by
  simp only [held, h]

theorem held_add (op : Opcode) (m1 m2 : Nat) (s : APEX_CPU) :
    held op (m1 + m2) s =
      held op m1 s + (match cycles m1 s with | none => 0 | some s' => held op m2 s') := by
  induction m1 generalizing s with
  | zero => simp [held, cycles]
  | succ m ih =>
    have e : m + 1 + m2 = (m + m2) + 1 := by omega
    rw [e]
    simp only [held, cycles]
    cases cycle s with
    | none => rfl
    | some c =>
      simp only [Option.some_bind]
      rw [ih c]
      omega

/-- Behind an issued HALT nothing but the HALT is held in Decode. -/
theorem held_frozen (op : Opcode) (ho : op ≠ .HALT) (m : Nat) :
    ∀ s : APEX_CPU, Frozen s → mem_oob s = false → held op m s = 0 := by
  induction m with
  | zero => intro s _ _; rfl
  | succ m ih =>
    intro s hz hm
    obtain ⟨s', hc, hz', -, -, hm'⟩ := frozen_cycle hz hm
    simp only [held, hc]
    rw [ih s' hz' hm', if_neg]
    intro h
    rw [hz'.d_op] at h
    exact ho h.1.symm

/-- The cycles in which Decode holds an instruction with opcode `op`, read off the trace. -/
theorem held_rel (u : Uninit) (hp : Prog code (Arch.init u) N)
    (hF : Fine code (Arch.init u) (N + 1)) (op : Opcode) (ho : op ≠ .HALT) :
    ∀ (m j : Nat) (s : APEX_CPU), Rel code (Arch.init u) n N (trace code j) s →
      (∀ i, i < j + m → (trace code i).d ≤ N) →
      held op m s = held_abs code op m (trace code j) := by
  intro m
  induction m with
  | zero => intro j s _ _; rfl
  | succ m ih =>
    intro j s hr hd
    obtain ⟨s2, h3, h4⟩ := rel_step hp hr (hd j (by omega))
      (fun _ => hF _ (by have := hr.core.bound; omega))
    have h4' : Rel code (Arch.init u) n N (trace code (j + 1)) s2 := h4
    simp only [held, held_abs, h3]
    rw [ih (j + 1) s2 h4' (fun i hi => hd i (by omega))]
    have e : trace code (j + 1) = next code (trace code j) := rfl
    rw [← e]
    congr 1
    by_cases hle : (trace code (j + 1)).d ≤ N
    · obtain ⟨hi, hst⟩ := h4'.core.drf hle
      rw [hi.1, hst]
      simp
    · have hN1 : (trace code (j + 1)).d = N + 1 := by
        have := rel_d_le h4'
        omega
      obtain ⟨x1, x2⟩ := h4'.core.halted hN1
      have hrun : (trace code (j + 1)).mode = .run := by
        have hw := h4'.core.waiting
        have hx := h4'.core.ex
        have hb := h4'.core.bound
        cases hmode : (trace code (j + 1)).mode with
        | run => rfl
        | wait =>
          have := (hw hmode).2.2
          omega
        | mul =>
          have hoe := rel_mul_oe h4' hmode
          rw [if_pos hoe] at hx
          have hie : (trace code (j + 1)).ie = N := by
            simp only [Abs.d, Abs.ie, hoe, Bool.toNat_true] at hN1 ⊢
            omega
          have := (hx.2.2 hmode).1
          rw [hie, hp.2.2.1] at this
          cases this
      rw [if_neg, if_neg]
      · intro h; exact h.2 hrun
      · intro h
        rw [x2] at h
        exact ho h.1.symm

/-- Over a whole run, the cycles in which Decode holds an instruction with opcode `op` are
those of the trace up to the issue of the HALT. -/
theorem held_exact (u : Uninit) (hp : Prog code (Arch.init u) N)
    (hF : Fine code (Arch.init u) (N + 1))
    (hI : ∀ i, i < code.length → (ins code i).opcode ≠ .BUBBLE)
    (hM : ∀ i, i + 1 = N → (ins code i).opcode = .MUL → N + 1 < code.length)
    (op : Opcode) (ho : op ≠ .HALT) (k0 : Nat)
    (hk : ∀ i, i < k0 → (trace code i).d ≤ N) (hk0 : (trace code k0).d = N + 1) :
    held op (k0 + 4) (initial code n u) = held_abs code op k0 Abs.start := by
  obtain ⟨s0, hc0, hr0⟩ := @rel_init code n N u hp
  obtain ⟨s', hcs, hr⟩ := @trace_run code n N u hp hF k0 hk
  have hz : Frozen s' := (trace_front u hp hF hI hM k0 s' hcs hk).2 hk0
  have hcs' : cycles k0 s0 = some s' := by
    have e : k0 + 1 = 1 + k0 := by omega
    rw [e, cycles_add] at hcs
    simpa [cycles, hc0] using hcs
  have e : k0 + 4 = (k0 + 3) + 1 := by omega
  rw [e, held_succ op (k0 + 3) _ s0 hc0]
  have hd0 : s0.DRF.stalled = false := by
    have := (hr0.core.drf (Nat.zero_le _)).2
    rw [this]; rfl
  rw [if_neg (by rw [hd0]; simp), held_add op k0 3 s0, hcs']
  show 0 + (held op k0 s0 + held op 3 s') = _
  rw [held_frozen op ho 3 s' hz (core_no_oob hr.core), held_rel u hp hF op ho k0 0 s0 hr0 (fun i hi => hk i (by omega))]
  simp [trace]

end PartA

namespace APEX

/-- Two programs with the same opcodes and register numbers: they differ in literals only. -/
theorem feeds_congr {code code' : List APEX_Instruction}
    (h : ∀ i, (ins code i).opcode = (ins code' i).opcode ∧ (ins code i).rd = (ins code' i).rd ∧
      (ins code i).rs1 = (ins code' i).rs1 ∧ (ins code i).rs2 = (ins code' i).rs2)
    (i j : Nat) : feeds code i j = feeds code' i j := by
  simp only [feeds, (h i).1, (h i).2.1, (h j).1, (h j).2.2.1, (h j).2.2.2]

theorem phase1_congr {code code' : List APEX_Instruction}
    (h : ∀ i, (ins code i).opcode = (ins code' i).opcode ∧ (ins code i).rd = (ins code' i).rd ∧
      (ins code i).rs1 = (ins code' i).rs1 ∧ (ins code i).rs2 = (ins code' i).rs2)
    (a : Abs) : a.phase1 code = a.phase1 code' := by
  simp only [Abs.phase1, (h _).1]

end APEX

namespace PartA
open APEX

/-- The trace of a straight-line program does not depend on its literals. -/
theorem trace_congr {code code' : List APEX_Instruction}
    (h : ∀ i, (ins code i).opcode = (ins code' i).opcode ∧ (ins code i).rd = (ins code' i).rd ∧
      (ins code i).rs1 = (ins code' i).rs1 ∧ (ins code i).rs2 = (ins code' i).rs2) :
    (∀ a, next code a = next code' a) ∧ (∀ j, trace code j = trace code' j) ∧
    ∀ op m a, held_abs code op m a = held_abs code' op m a := by
  have hn : ∀ a, next code a = next code' a := by
    intro a
    simp only [next, blocked, phase1_congr h, feeds_congr h, (h _).1]
  have ht : ∀ j, trace code j = trace code' j := by
    intro j
    induction j with
    | zero => rfl
    | succ j ih => simp only [trace, ih, hn]
  refine ⟨hn, ht, fun op m => ?_⟩
  induction m with
  | zero => intro a; rfl
  | succ m ih =>
    intro a
    simp only [held_abs, hn, ih, (h _).1]

end PartA


namespace PartB
open APEX

variable {code : List APEX_Instruction} {a0 : Arch} {n : Int} {N : Nat} {a : Abs}
  {s : APEX_CPU}

theorem held_succ_B (op : Opcode) (k : Nat) (s s' : APEX_CPU) (h : cycle s = some s') :
    held op (k + 1) s =
      (if s'.DRF.opcode = op ∧ s'.DRF.stalled = true then 1 else 0) + held op k s' := by
  simp only [held, h]

theorem held_add_B (op : Opcode) (m1 m2 : Nat) (s : APEX_CPU) :
    held op (m1 + m2) s =
      held op m1 s + (match cycles m1 s with | none => 0 | some s' => held op m2 s') := by
  induction m1 generalizing s with
  | zero => simp [held, cycles]
  | succ m ih =>
    have e : m + 1 + m2 = (m + m2) + 1 := by omega
    rw [e]
    simp only [held, cycles]
    cases cycle s with
    | none => rfl
    | some c =>
      simp only [Option.some_bind]
      rw [ih c]
      omega

/-- Behind an issued HALT nothing but the HALT is held in Decode. -/
theorem held_frozen_B (op : Opcode) (ho : op ≠ .HALT) (m : Nat) :
    ∀ s : APEX_CPU, Frozen s → mem_oob s = false → held op m s = 0 := by
  induction m with
  | zero => intro s _ _; rfl
  | succ m ih =>
    intro s hz hm
    obtain ⟨s', hc, hz', -, -, hm'⟩ := frozen_cycle_B hz hm
    simp only [held, hc]
    rw [ih s' hz' hm', if_neg]
    intro h
    rw [hz'.d_op] at h
    exact ho h.1.symm

/-- The cycles in which Decode holds an instruction with opcode `op`, read off the trace. -/
theorem held_rel_B (u : Uninit) (hp : Prog code (Arch.init u) N)
    (hF : Fine code (Arch.init u) (N + 1)) (op : Opcode) (ho : op ≠ .HALT) :
    ∀ (m j : Nat) (s : APEX_CPU), Rel code (Arch.init u) n N (trace code j) s →
      (∀ i, i < j + m → (trace code i).d ≤ N) →
      held op m s = held_abs code op m (trace code j) := by
  intro m
  induction m with
  | zero => intro j s _ _; rfl
  | succ m ih =>
    intro j s hr hd
    obtain ⟨s2, h3, h4⟩ := rel_step_B hp hr (hd j (by omega))
      (fun _ => hF _ (by have := hr.core.bound; omega))
    have h4' : Rel code (Arch.init u) n N (trace code (j + 1)) s2 := h4
    simp only [held, held_abs, h3]
    rw [ih (j + 1) s2 h4' (fun i hi => hd i (by omega))]
    have e : trace code (j + 1) = next code (trace code j) := rfl
    rw [← e]
    congr 1
    by_cases hle : (trace code (j + 1)).d ≤ N
    · obtain ⟨hi, hst⟩ := h4'.core.drf hle
      rw [hi.1, hst]
      simp
    · have hN1 : (trace code (j + 1)).d = N + 1 := by
        have := rel_d_le_B h4'
        omega
      obtain ⟨x1, x2⟩ := h4'.core.halted hN1
      have hrun : (trace code (j + 1)).mode = .run := by
        have hw := h4'.core.waiting
        have hx := h4'.core.ex
        have hb := h4'.core.bound
        cases hmode : (trace code (j + 1)).mode with
        | run => rfl
        | wait =>
          have := (hw hmode).2.2
          omega
        | mul =>
          have hoe := rel_mul_oe_B h4' hmode
          rw [if_pos hoe] at hx
          have hie : (trace code (j + 1)).ie = N := by
            simp only [Abs.d, Abs.ie, hoe, Bool.toNat_true] at hN1 ⊢
            omega
          have := (hx.2.2 hmode).1
          rw [hie, hp.2.2.1] at this
          cases this
      rw [if_neg, if_neg]
      · intro h; exact h.2 hrun
      · intro h
        rw [x2] at h
        exact ho h.1.symm

/-- Over a whole run, the cycles in which Decode holds an instruction with opcode `op` are
those of the trace up to the issue of the HALT. -/
theorem held_exact_B (u : Uninit) (hp : Prog code (Arch.init u) N)
    (hF : Fine code (Arch.init u) (N + 1))
    (hI : ∀ i, i < code.length → (ins code i).opcode ≠ .BUBBLE)
    (hM : ∀ i, i + 1 = N → (ins code i).opcode = .MUL → N + 1 < code.length)
    (op : Opcode) (ho : op ≠ .HALT) (k0 : Nat)
    (hk : ∀ i, i < k0 → (trace code i).d ≤ N) (hk0 : (trace code k0).d = N + 1) :
    held op (k0 + 4) (initial code n u) = held_abs code op k0 Abs.start := by
  obtain ⟨s0, hc0, hr0⟩ := @rel_init_B code n N u hp
  obtain ⟨s', hcs, hr⟩ := @trace_run_B code n N u hp hF k0 hk
  have hz : Frozen s' := (trace_front_B u hp hF hI hM k0 s' hcs hk).2 hk0
  have hcs' : cycles k0 s0 = some s' := by
    have e : k0 + 1 = 1 + k0 := by omega
    rw [e, cycles_add_B] at hcs
    simpa [cycles, hc0] using hcs
  have e : k0 + 4 = (k0 + 3) + 1 := by omega
  rw [e, held_succ_B op (k0 + 3) _ s0 hc0]
  have hd0 : s0.DRF.stalled = false := by
    have := (hr0.core.drf (Nat.zero_le _)).2
    rw [this]; rfl
  rw [if_neg (by rw [hd0]; simp), held_add_B op k0 3 s0, hcs']
  show 0 + (held op k0 s0 + held op 3 s') = _
  rw [held_frozen_B op ho 3 s' hz (core_no_oob hr.core), held_rel_B u hp hF op ho k0 0 s0 hr0 (fun i hi => hk i (by omega))]
  simp [trace]

end PartB

namespace PartB
open APEX

/-- The trace of a straight-line program does not depend on its literals. -/
theorem trace_congr_B {code code' : List APEX_Instruction}
    (h : ∀ i, (ins code i).opcode = (ins code' i).opcode ∧ (ins code i).rd = (ins code' i).rd ∧
      (ins code i).rs1 = (ins code' i).rs1 ∧ (ins code i).rs2 = (ins code' i).rs2) :
    (∀ a, next code a = next code' a) ∧ (∀ j, trace code j = trace code' j) ∧
    ∀ op m a, held_abs code op m a = held_abs code' op m a := by
  have hn : ∀ a, next code a = next code' a := by
    intro a
    simp only [next, blocked, phase1_congr h, feeds_congr h, (h _).1]
  have ht : ∀ j, trace code j = trace code' j := by
    intro j
    induction j with
    | zero => rfl
    | succ j ih => simp only [trace, ih, hn]
  refine ⟨hn, ht, fun op m => ?_⟩
  induction m with
  | zero => intro a; rfl
  | succ m ih =>
    intro a
    simp only [held_abs, hn, ih, (h _).1]

end PartB


/-!
The scenario programs: shape, well-formedness and reference states
-/

namespace APEX

theorem S1_shape (a b : Int) (i : Nat) :
    (ins (prog_S1 a b) i).opcode = (ins (prog_S1 0 0) i).opcode ∧
    (ins (prog_S1 a b) i).rd = (ins (prog_S1 0 0) i).rd ∧
    (ins (prog_S1 a b) i).rs1 = (ins (prog_S1 0 0) i).rs1 ∧
    (ins (prog_S1 a b) i).rs2 = (ins (prog_S1 0 0) i).rs2 := by
  rcases i with _ | _ | _ | _ | i <;> exact ⟨rfl, rfl, rfl, rfl⟩

theorem S1_prog (a b : Int) (ha : in32 a) (hb : in32 b) (u : Uninit)
    (hu : ∀ x, in32 (u.data_tail x)) : Prog (prog_S1 a b) (Arch.init u) 3 := by
  refine ⟨by simp [prog_S1], ?_, rfl, ?_, init_ranged u hu⟩
  · intro i hi
    interval_cases i <;> rfl
  · intro i hi
    interval_cases i
    · exact ha
    · exact hb
    · simp [ins, prog_S1, in32]
    · simp [ins, prog_S1, in32]

theorem S1_fine (a b : Int) (u : Uninit) : Fine (prog_S1 a b) (Arch.init u) 4 := by
  intro i hi
  interval_cases i <;> simp [Arch.addr_fine, ins, prog_S1]

theorem S1_ref (a b : Int) (u : Uninit) :
    (S (prog_S1 a b) (Arch.init u) 3).regs 1 = a ∧
    (S (prog_S1 a b) (Arch.init u) 3).regs 2 = b ∧
    (S (prog_S1 a b) (Arch.init u) 3).regs 3 = wrap32 (a + b) ∧
    (S (prog_S1 a b) (Arch.init u) 3).z = some (decide (wrap32 (a + b) = 0)) := by
  simp [S, Arch.run, prog_S1, Arch.step, Arch.exec, Arch.init, write]

theorem S1_side (a b : Int) :
    (∀ i, i < (prog_S1 a b).length → (ins (prog_S1 a b) i).opcode ≠ .BUBBLE) ∧
    (∀ i, i + 1 = 3 → (ins (prog_S1 a b) i).opcode = .MUL → 3 + 1 < (prog_S1 a b).length) := by
  constructor
  · intro i hi
    have : i < 4 := hi
    interval_cases i <;> simp [ins, prog_S1]
  · intro i hi h
    have : i = 2 := by omega
    subst this
    simp [ins, prog_S1] at h

theorem S2_shape (a : Int) (i : Nat) :
    (ins (prog_S2 a) i).opcode = (ins (prog_S2 0) i).opcode ∧
    (ins (prog_S2 a) i).rd = (ins (prog_S2 0) i).rd ∧
    (ins (prog_S2 a) i).rs1 = (ins (prog_S2 0) i).rs1 ∧
    (ins (prog_S2 a) i).rs2 = (ins (prog_S2 0) i).rs2 := by
  rcases i with _ | _ | _ | _ | i <;> exact ⟨rfl, rfl, rfl, rfl⟩

theorem S2_prog (a : Int) (ha : in32 a) (u : Uninit)
    (hu : ∀ x, in32 (u.data_tail x)) : Prog (prog_S2 a) (Arch.init u) 3 := by
  refine ⟨by simp [prog_S2], ?_, rfl, ?_, init_ranged u hu⟩
  · intro i hi
    interval_cases i <;> rfl
  · intro i hi
    interval_cases i
    · exact ha
    · simp [ins, prog_S2, in32]
    · simp [ins, prog_S2, in32]
    · simp [ins, prog_S2, in32]

theorem S2_fine (a : Int) (u : Uninit) : Fine (prog_S2 a) (Arch.init u) 4 := by
  intro i hi
  interval_cases i <;> simp [Arch.addr_fine, ins, prog_S2]

theorem S2_ref (a : Int) (ha : in32 a) (u : Uninit) :
    (S (prog_S2 a) (Arch.init u) 3).regs 2 = wrap32 (2 * a) ∧
    (S (prog_S2 a) (Arch.init u) 3).regs 3 = a ∧
    (S (prog_S2 a) (Arch.init u) 3).z = some (decide (a = 0)) := by
  have e1 : wrap32 (a + a) = wrap32 (2 * a) := by rw [two_mul]
  have e2 : wrap32 (wrap32 (a + a) - a) = a := by
    unfold in32 at ha
    unfold wrap32
    omega
  simp [S, Arch.run, prog_S2, Arch.step, Arch.exec, Arch.init, write, e1, e2]
  rw [← e1, e2]
  simp

theorem S2_side (a : Int) :
    (∀ i, i < (prog_S2 a).length → (ins (prog_S2 a) i).opcode ≠ .BUBBLE) ∧
    (∀ i, i + 1 = 3 → (ins (prog_S2 a) i).opcode = .MUL → 3 + 1 < (prog_S2 a).length) := by
  constructor
  · intro i hi
    have : i < 4 := hi
    interval_cases i <;> simp [ins, prog_S2]
  · intro i hi h
    have : i = 2 := by omega
    subst this
    simp [ins, prog_S2] at h

theorem S3_shape (v : Int) (i : Nat) :
    (ins (prog_S3 v) i).opcode = (ins (prog_S3 0) i).opcode ∧
    (ins (prog_S3 v) i).rd = (ins (prog_S3 0) i).rd ∧
    (ins (prog_S3 v) i).rs1 = (ins (prog_S3 0) i).rs1 ∧
    (ins (prog_S3 v) i).rs2 = (ins (prog_S3 0) i).rs2 := by
  rcases i with _ | _ | _ | _ | _ | i <;> exact ⟨rfl, rfl, rfl, rfl⟩

theorem S3_prog (v : Int) (hv : in32 v) (u : Uninit)
    (hu : ∀ x, in32 (u.data_tail x)) : Prog (prog_S3 v) (Arch.init u) 4 := by
  refine ⟨by simp [prog_S3], ?_, rfl, ?_, init_ranged u hu⟩
  · intro i hi
    interval_cases i <;> rfl
  · intro i hi
    interval_cases i
    · exact hv
    all_goals simp [ins, prog_S3, in32]

theorem S3_wrap (v : Int) (h0 : 0 ≤ v) (h1 : v + 40 ≤ 4095) :
    wrap32 (v + 40) = v + 40 ∧ wrap32 (v + v) = 2 * v := by
  unfold wrap32
  omega

theorem S3_fine (v : Int) (h0 : 0 ≤ v) (h1 : v + 40 ≤ 4095) (u : Uninit) :
    Fine (prog_S3 v) (Arch.init u) 5 := by
  obtain ⟨e, -⟩ := S3_wrap v h0 h1
  intro i hi
  interval_cases i <;>
    simp [Arch.addr_fine, ins, prog_S3, S, Arch.run, Arch.step, Arch.exec, Arch.init, write, e]
  all_goals omega

theorem S3_ref (v : Int) (h0 : 0 ≤ v) (h1 : v + 40 ≤ 4095) (u : Uninit) :
    (S (prog_S3 v) (Arch.init u) 4).mem (v + 40) = v ∧
    (S (prog_S3 v) (Arch.init u) 4).regs 2 = v ∧
    (S (prog_S3 v) (Arch.init u) 4).regs 3 = 2 * v ∧
    (S (prog_S3 v) (Arch.init u) 4).z = some (decide (v = 0)) := by
  obtain ⟨e1, e2⟩ := S3_wrap v h0 h1
  have e3 : (2 * v = 0) ↔ v = 0 := by omega
  simp [S, Arch.run, prog_S3, Arch.step, Arch.exec, Arch.init, write, e1, e2, e3]

theorem S3_side (v : Int) :
    (∀ i, i < (prog_S3 v).length → (ins (prog_S3 v) i).opcode ≠ .BUBBLE) ∧
    (∀ i, i + 1 = 4 → (ins (prog_S3 v) i).opcode = .MUL → 4 + 1 < (prog_S3 v).length) := by
  constructor
  · intro i hi
    have : i < 5 := hi
    interval_cases i <;> simp [ins, prog_S3]
  · intro i hi h
    have : i = 3 := by omega
    subst this
    simp [ins, prog_S3] at h

theorem S6_shape (a b : Int) (i : Nat) :
    (ins (prog_S6 a b) i).opcode = (ins (prog_S6 0 0) i).opcode ∧
    (ins (prog_S6 a b) i).rd = (ins (prog_S6 0 0) i).rd ∧
    (ins (prog_S6 a b) i).rs1 = (ins (prog_S6 0 0) i).rs1 ∧
    (ins (prog_S6 a b) i).rs2 = (ins (prog_S6 0 0) i).rs2 := by
  rcases i with _ | _ | _ | _ | _ | i <;> exact ⟨rfl, rfl, rfl, rfl⟩

theorem S6_prog (a b : Int) (ha : in32 a) (hb : in32 b) (u : Uninit)
    (hu : ∀ x, in32 (u.data_tail x)) : Prog (prog_S6 a b) (Arch.init u) 4 := by
  refine ⟨by simp [prog_S6], ?_, rfl, ?_, init_ranged u hu⟩
  · intro i hi
    interval_cases i <;> rfl
  · intro i hi
    interval_cases i
    · exact ha
    · exact hb
    all_goals simp [ins, prog_S6, in32]

theorem S6_fine (a b : Int) (u : Uninit) : Fine (prog_S6 a b) (Arch.init u) 5 := by
  intro i hi
  interval_cases i <;> simp [Arch.addr_fine, ins, prog_S6]

theorem S6_ref (a b : Int) (u : Uninit) :
    (S (prog_S6 a b) (Arch.init u) 4).regs 3 = wrap32 (a * b) ∧
    (S (prog_S6 a b) (Arch.init u) 4).regs 4 = wrap32 (2 * a * b) := by
  have e : wrap32 (wrap32 (a * b) + wrap32 (a * b)) = wrap32 (2 * a * b) := by
    have : 2 * a * b = a * b + a * b := by ring
    rw [this]
    generalize a * b = x
    unfold wrap32
    omega
  simp [S, Arch.run, prog_S6, Arch.step, Arch.exec, Arch.init, write, e]

end APEX


namespace PartA
open APEX

variable {code : List APEX_Instruction} {n : Int} {N : Nat}

/-- A straight-line run whose first instruction is in WB after four cycles and whose HALT is
issued in cycle `k0 + 2`: the loop returns after `k0 + 4` cycles with the reference state, and
Writeback has counted `k0` latches. -/
theorem run_scenario (u : Uninit) (hp : Prog code (Arch.init u) N)
    (hF : Fine code (Arch.init u) (N + 1)) (k0 : Nat)
    (hk : ∀ i, i < k0 → (trace code i).d ≤ N) (hk0 : (trace code k0).d = N + 1)
    (h3 : 3 ≤ k0) (how : (trace code 3).ow = true) (hn : (k0 : Int) + 3 ≤ n) :
    ∃ final, (∀ fuel, APEX_cpu_run (k0 + 4 + fuel) (initial code n u) = .returned final) ∧
      final.regs = (S code (Arch.init u) N).regs ∧
      final.data_memory = (S code (Arch.init u) N).mem ∧
      (∀ b, (S code (Arch.init u) N).z = some b → final.z_flag = b) ∧
      final.ins_completed = u.ins_completed + k0 := by
  obtain ⟨final, f1, f2, f3, f4, f5⟩ := @run_exact code n N u hp hF k0 hk hk0 hn
  exact ⟨final, f1, f3, f4, f5, count_exact u hp hF k0 hk h3 how final f2⟩

end PartA


namespace PartB
open APEX

variable {code : List APEX_Instruction} {n : Int} {N : Nat}

/-- A straight-line run whose first instruction is in WB after four cycles and whose HALT is
issued in cycle `k0 + 2`: the loop returns after `k0 + 4` cycles with the reference state, and
Writeback has counted `k0` latches. -/
theorem run_scenario_B (u : Uninit) (hp : Prog code (Arch.init u) N)
    (hF : Fine code (Arch.init u) (N + 1)) (k0 : Nat)
    (hk : ∀ i, i < k0 → (trace code i).d ≤ N) (hk0 : (trace code k0).d = N + 1)
    (h3 : 3 ≤ k0) (how : (trace code 3).ow = true) (hn : (k0 : Int) + 3 ≤ n) :
    ∃ final, (∀ fuel, APEX_cpu_run (k0 + 4 + fuel) (initial code n u) = .returned final) ∧
      final.regs = (S code (Arch.init u) N).regs ∧
      final.data_memory = (S code (Arch.init u) N).mem ∧
      (∀ b, (S code (Arch.init u) N).z = some b → final.z_flag = b) ∧
      final.ins_completed = u.ins_completed + k0 := by
  obtain ⟨final, f1, f2, f3, f4, f5⟩ := @run_exact_B code n N u hp hF k0 hk hk0 hn
  exact ⟨final, f1, f3, f4, f5, count_exact_B u hp hF k0 hk h3 how final f2⟩

end PartB


namespace PartA
open APEX

/-- A run that returns has executed `iterations` cycles, and returns the state they lead
to. -/
theorem run_cycles (fuel : Nat) : ∀ (s final : APEX_CPU),
    APEX_cpu_run fuel s = .returned final → cycles (iterations fuel s) s = some final := by
  induction fuel with
  | zero =>
    intro s final h
    simp only [APEX_cpu_run] at h
    simp only [iterations, cycles]
    split_ifs at h <;> simp_all
  | succ fuel ih =>
    intro s final h
    simp only [APEX_cpu_run] at h
    simp only [iterations]
    by_cases h1 : s.clock ≤ s.code_memory_size
    · rw [if_pos h1] at h ⊢
      by_cases h2 : (s.ENABLE_COUNTING && s.ins_completed == s.code_memory_size) = true
      · rw [if_pos h2] at h ⊢
        simp only [RunResult.returned.injEq] at h
        simp [cycles, h]
      · rw [if_neg h2] at h ⊢
        cases hc : cycle s with
        | none =>
          rw [hc] at h
          simp only at h
          split_ifs at h
        | some c =>
          rw [hc] at h
          simp only at h ⊢
          have := ih c final h
          rw [Nat.add_comm]
          simp [cycles, hc, this]
    · rw [if_neg h1] at h ⊢
      simp only [RunResult.returned.injEq] at h
      simp [cycles, h]

end PartA


namespace PartB
open APEX

/-- A run that returns has executed `iterations` cycles, and returns the state they lead
to. -/
theorem run_cycles_B (fuel : Nat) : ∀ (s final : APEX_CPU),
    APEX_cpu_run fuel s = .returned final → cycles (iterations fuel s) s = some final := by
  induction fuel with
  | zero =>
    intro s final h
    simp only [APEX_cpu_run] at h
    simp only [iterations, cycles]
    split_ifs at h <;> simp_all
  | succ fuel ih =>
    intro s final h
    simp only [APEX_cpu_run] at h
    simp only [iterations]
    by_cases h1 : s.clock ≤ s.code_memory_size
    · rw [if_pos h1] at h ⊢
      by_cases h2 : (s.ENABLE_COUNTING && s.ins_completed == s.code_memory_size) = true
      · rw [if_pos h2] at h ⊢
        simp only [RunResult.returned.injEq] at h
        simp [cycles, h]
      · rw [if_neg h2] at h ⊢
        cases hc : cycle s with
        | none =>
          rw [hc] at h
          simp only at h
          split_ifs at h
        | some c =>
          rw [hc] at h
          simp only at h ⊢
          have := ih c final h
          rw [Nat.add_comm]
          simp [cycles, hc, this]
    · rw [if_neg h1] at h ⊢
      simp only [RunResult.returned.injEq] at h
      simp [cycles, h]

end PartB


namespace PartA
open APEX

end PartA


namespace PartB
open APEX

end PartB


namespace PartA
open APEX

/-- Writeback does not depend on the erased parts of the state. -/
theorem writeback_erase (s : APEX_CPU) : (writeback s).erase = (writeback s.erase).erase := by
  cases hl : s.WB.ctl.live
  · have hl' := (live_false_iff _).1 hl
    rw [writeback_idle s hl', writeback_idle s.erase hl']
    rfl
  · obtain ⟨hb, hs⟩ := (live_true_iff _).1 hl
    rw [writeback_live s hb hs, writeback_live s.erase hb hs]
    rfl

/-- Memory does not depend on the erased parts of the state, unless it processes a LOAD. -/
theorem memory_erase (s : APEX_CPU)
    (h : ¬ (s.MEM.opcode = .LOAD ∧ s.MEM.busy = false ∧ s.MEM.stalled = false)) :
    (mem_step s).erase = (mem_step s.erase).erase := by
  cases hl : s.MEM.ctl.live
  · have hl' := (live_false_iff _).1 hl
    rw [memory_idle s hl', memory_idle s.erase hl']
    rfl
  · obtain ⟨hb, hs⟩ := (live_true_iff _).1 hl
    have ho : s.MEM.opcode ≠ .LOAD := fun x => h ⟨x, hb, hs⟩
    rw [memory_live s hb hs, memory_live s.erase hb hs]
    simp only [APEX_CPU.erase, mem_done, ho, if_false]

/-- Execute does not depend on the erased parts of the state. -/
theorem execute_erase (s : APEX_CPU) (hc : s.ENABLE_COUNTING = false) :
    (execute s).map APEX_CPU.erase = (execute s.erase).map APEX_CPU.erase := by
  cases hl : s.EX.ctl.live
  · have hl' := (live_false_iff _).1 hl
    by_cases hm : s.EX.stalled = true ∧ s.EX.opcode = .MUL
    · rw [execute_resume s hm.1 hm.2 hc, execute_resume s.erase hm.1 hm.2 hc]
      rfl
    · have hm' : s.EX.stalled = false ∨ s.EX.opcode ≠ .MUL := by
        by_cases h1 : s.EX.stalled = true
        · right; exact fun h2 => hm ⟨h1, h2⟩
        · left; simpa using h1
      rw [execute_idle s hl' hm', execute_idle s.erase hl' hm']
      rfl
  · obtain ⟨hb, hs⟩ := (live_true_iff _).1 hl
    rw [execute_live s hb hs hc, execute_live s.erase hb hs hc]
    show Option.map APEX_CPU.erase (if ex_fault s.EX = true then none else _) =
      Option.map APEX_CPU.erase (if ex_fault s.EX = true then none else _)
    by_cases hf : ex_fault s.EX = true
    · rw [if_pos hf, if_pos hf]
    · rw [if_neg hf, if_neg hf]
      rfl

/-- Decode does not depend on the erased parts of the state. -/
theorem decode_erase (s : APEX_CPU) (hc : s.ENABLE_COUNTING = false) :
    (decode s).erase = (decode s.erase).erase := by
  cases hl : s.DRF.ctl.live
  · have hl' := (live_false_iff _).1 hl
    by_cases hr : s.DRF.stalled = true ∧ s.DRF.opcode ≠ .HALT ∧ s.EX.stalled = false
    · rw [decode_retry s hr.1 hr.2.1 hr.2.2 hc, decode_retry s.erase hr.1 hr.2.1 hr.2.2 hc]
      simp only [APEX_CPU.erase, ready, DRF_read]
      split_ifs <;> rfl
    · have hi : s.DRF.stalled = false ∨ s.DRF.opcode = .HALT ∨ s.EX.stalled = true := by
        by_cases h1 : s.DRF.stalled = true
        · by_cases h2 : s.DRF.opcode = .HALT
          · exact Or.inr (Or.inl h2)
          · by_cases h3 : s.EX.stalled = true
            · exact Or.inr (Or.inr h3)
            · exact absurd ⟨h1, h2, by simpa using h3⟩ hr
        · left; simpa using h1
      rw [decode_idle s hl' hi, decode_idle s.erase hl' hi]
      rfl
  · obtain ⟨hb, hs⟩ := (live_true_iff _).1 hl
    rw [decode_live s hb hs, decode_live s.erase hb hs]
    simp only [APEX_CPU.erase, ready, DRF_read]
    split_ifs <;> rfl

/-- Fetch does not depend on the erased parts of the state, unless it reads outside the
program. -/
theorem fetch_erase (s : APEX_CPU)
    (h : s.F.busy = false → s.F.stalled = false →
      0 ≤ get_code_index s.pc ∧ get_code_index s.pc < (s.code_memory.length : Int)) :
    (fetch s).erase = (fetch s.erase).erase := by
  cases hl : s.F.ctl.live
  · have hl' := (live_false_iff _).1 hl
    rw [fetch_stalled s hl', fetch_stalled s.erase hl']
    rfl
  · obtain ⟨hb, hs⟩ := (live_true_iff _).1 hl
    have e : code_at s.erase (get_code_index s.pc) = code_at s (get_code_index s.pc) := by
      have hr := h hb hs
      unfold code_at
      rw [if_pos (by exact hr), if_pos hr]
      have hlt : (get_code_index s.pc).toNat < s.code_memory.length := by omega
      show s.code_memory.getD _ _ = s.code_memory.getD _ _
      rw [List.getD_eq_getElem _ _ hlt, List.getD_eq_getElem _ _ hlt]
    have e' : code_at s.erase (get_code_index s.erase.pc) = code_at s (get_code_index s.pc) := e
    have e2 : ∀ z, fetched s.erase z = fetched s z := by
      intro z
      unfold fetched
      rw [e']
      rfl
    rw [fetch_live s hb hs, fetch_live s.erase hb hs]
    rw [e2]
    rfl

end PartA


namespace PartB
open APEX

/-- Writeback does not depend on the erased parts of the state. -/
theorem writeback_erase_B (s : APEX_CPU) : (writeback s).erase = (writeback s.erase).erase := by
  cases hl : s.WB.ctl.live
  · have hl' := (live_false_iff _).1 hl
    rw [writeback_idle_B s hl', writeback_idle_B s.erase hl']
    rfl
  · obtain ⟨hb, hs⟩ := (live_true_iff _).1 hl
    rw [writeback_live_B s hb hs, writeback_live_B s.erase hb hs]
    rfl

/-- Memory does not depend on the erased parts of the state, unless it processes a LOAD. -/
theorem memory_erase_B (s : APEX_CPU)
    (h : ¬ (s.MEM.opcode = .LOAD ∧ s.MEM.busy = false ∧ s.MEM.stalled = false)) :
    (mem_step s).erase = (mem_step s.erase).erase := by
  cases hl : s.MEM.ctl.live
  · have hl' := (live_false_iff _).1 hl
    rw [memory_idle_B s hl', memory_idle_B s.erase hl']
    rfl
  · obtain ⟨hb, hs⟩ := (live_true_iff _).1 hl
    have ho : s.MEM.opcode ≠ .LOAD := fun x => h ⟨x, hb, hs⟩
    rw [memory_live_B s hb hs, memory_live_B s.erase hb hs]
    simp only [APEX_CPU.erase, mem_done, ho, if_false]

/-- Execute does not depend on the erased parts of the state. -/
theorem execute_erase_B (s : APEX_CPU) (hc : s.ENABLE_COUNTING = false) :
    (execute s).map APEX_CPU.erase = (execute s.erase).map APEX_CPU.erase := by
  cases hl : s.EX.ctl.live
  · have hl' := (live_false_iff _).1 hl
    by_cases hm : s.EX.stalled = true ∧ s.EX.opcode = .MUL
    · rw [execute_resume_B s hm.1 hm.2 hc, execute_resume_B s.erase hm.1 hm.2 hc]
      rfl
    · have hm' : s.EX.stalled = false ∨ s.EX.opcode ≠ .MUL := by
        by_cases h1 : s.EX.stalled = true
        · right; exact fun h2 => hm ⟨h1, h2⟩
        · left; simpa using h1
      rw [execute_idle_B s hl' hm', execute_idle_B s.erase hl' hm']
      rfl
  · obtain ⟨hb, hs⟩ := (live_true_iff _).1 hl
    rw [execute_live_B s hb hs hc, execute_live_B s.erase hb hs hc]
    show Option.map APEX_CPU.erase (if ex_fault s.EX = true then none else _) =
      Option.map APEX_CPU.erase (if ex_fault s.EX = true then none else _)
    by_cases hf : ex_fault s.EX = true
    · rw [if_pos hf, if_pos hf]
    · rw [if_neg hf, if_neg hf]
      rfl

/-- Decode does not depend on the erased parts of the state. -/
theorem decode_erase_B (s : APEX_CPU) (hc : s.ENABLE_COUNTING = false) :
    (decode s).erase = (decode s.erase).erase := by
  cases hl : s.DRF.ctl.live
  · have hl' := (live_false_iff _).1 hl
    by_cases hr : s.DRF.stalled = true ∧ s.DRF.opcode ≠ .HALT ∧ s.EX.stalled = false
    · rw [decode_retry_B s hr.1 hr.2.1 hr.2.2 hc, decode_retry_B s.erase hr.1 hr.2.1 hr.2.2 hc]
      by_cases hcnd : s.DRF.opcode.reads_rs1 = true
      · have hcnd' : s.erase.DRF.opcode.reads_rs1 = true := hcnd
        rw [if_pos hcnd, if_pos hcnd']
        rfl
      · have hcnd' : ¬ s.erase.DRF.opcode.reads_rs1 = true := hcnd
        rw [if_neg hcnd, if_neg hcnd']
        rfl
    · have hi : s.DRF.stalled = false ∨ s.DRF.opcode = .HALT ∨ s.EX.stalled = true := by
        by_cases h1 : s.DRF.stalled = true
        · by_cases h2 : s.DRF.opcode = .HALT
          · exact Or.inr (Or.inl h2)
          · by_cases h3 : s.EX.stalled = true
            · exact Or.inr (Or.inr h3)
            · exact absurd ⟨h1, h2, by simpa using h3⟩ hr
        · left; simpa using h1
      rw [decode_idle_B s hl' hi, decode_idle_B s.erase hl' hi]
      rfl
  · obtain ⟨hb, hs⟩ := (live_true_iff _).1 hl
    rw [decode_live_B s hb hs, decode_live_B s.erase hb hs]
    rfl

/-- Fetch does not depend on the erased parts of the state, unless it reads outside the
program. -/
theorem fetch_erase_B (s : APEX_CPU)
    (h : s.F.busy = false → s.F.stalled = false →
      0 ≤ get_code_index s.pc ∧ get_code_index s.pc < (s.code_memory.length : Int)) :
    (fetch s).erase = (fetch s.erase).erase := by
  cases hl : s.F.ctl.live
  · have hl' := (live_false_iff _).1 hl
    rw [fetch_stalled_B s hl', fetch_stalled_B s.erase hl']
    rfl
  · obtain ⟨hb, hs⟩ := (live_true_iff _).1 hl
    have e : code_at s.erase (get_code_index s.pc) = code_at s (get_code_index s.pc) := by
      have hr := h hb hs
      unfold code_at
      rw [if_pos (by exact hr), if_pos hr]
      have hlt : (get_code_index s.pc).toNat < s.code_memory.length := by omega
      show s.code_memory.getD _ _ = s.code_memory.getD _ _
      rw [List.getD_eq_getElem _ _ hlt, List.getD_eq_getElem _ _ hlt]
    have e' : code_at s.erase (get_code_index s.erase.pc) = code_at s (get_code_index s.pc) := e
    have e2 : ∀ z, fetched s.erase z = fetched s z := by
      intro z
      unfold fetched
      rw [e']
      rfl
    rw [fetch_live_B s hb hs, fetch_live_B s.erase hb hs]
    rw [e2]
    rfl

end PartB


namespace PartA
open APEX

/-- Two states that differ in the erased parts only are taken to such states by a quiet
cycle. -/
theorem cycle_erase (x y : APEX_CPU) (h : x.erase = y.erase)
    (hc : y.ENABLE_COUNTING = false) (hq : quiet y = true) :
    (cycle x).map APEX_CPU.erase = (cycle y).map APEX_CPU.erase := by
  have hcx : x.ENABLE_COUNTING = false := by
    have := congrArg APEX_CPU.ENABLE_COUNTING h
    exact this.trans hc
  have hM : x.MEM = y.MEM := by
    have := congrArg APEX_CPU.MEM h
    exact this
  simp only [quiet, Bool.and_eq_true, Bool.not_eq_true', Bool.and_eq_false_iff,
    decide_eq_false_iff_not, Bool.not_eq_false'] at hq
  obtain ⟨q1, q2⟩ := hq
  have hy : ¬ (y.MEM.opcode = .LOAD ∧ y.MEM.busy = false ∧ y.MEM.stalled = false) := by
    rintro ⟨a, b, c⟩
    rcases q1 with (q | q) | q
    · exact q a
    · rw [b] at q; cases q
    · rw [c] at q; cases q
  have hw : (writeback x).erase = (writeback y).erase := by
    rw [writeback_erase x, writeback_erase y, h]
  have hm : (mem_step (writeback x)).erase = (mem_step (writeback y)).erase := by
    rw [memory_erase (writeback x) (by rw [(writeback_latches x).2.2.2.1, hM]; exact hy),
      memory_erase (writeback y) (by rw [(writeback_latches y).2.2.2.1]; exact hy)]
    rw [hw]
  have hc1 : (mem_step (writeback y)).ENABLE_COUNTING = false := by
    rw [(memory_frame _).1, (writeback_frame _).1, hc]
  have hc1x : (mem_step (writeback x)).ENABLE_COUNTING = false := by
    rw [(memory_frame _).1, (writeback_frame _).1, hcx]
  have he : (execute (mem_step (writeback x))).map APEX_CPU.erase =
      (execute (mem_step (writeback y))).map APEX_CPU.erase := by
    rw [execute_erase _ hc1x, execute_erase _ hc1, hm]
  have hox : mem_oob (writeback x) = mem_oob (writeback y) := by
    rw [oob_writeback, oob_writeback]
    exact PartA.oob_congr x y hM
  rw [cycle_eq, cycle_eq, hox]
  cases ho : mem_oob (writeback y)
  swap
  · rfl
  rw [memory_some _ ho] at q2
  simp only [Option.some_bind, Bool.false_eq_true, if_false] at q2 ⊢
  cases hxe : execute (mem_step (writeback x)) with
  | none =>
    rw [hxe] at he
    cases hye : execute (mem_step (writeback y)) with
    | none => rfl
    | some c => rw [hye] at he; cases he
  | some cx =>
    rw [hxe] at he
    cases hye : execute (mem_step (writeback y)) with
    | none => rw [hye] at he; cases he
    | some cy =>
      rw [hye] at he q2
      have hce : cx.erase = cy.erase := by simpa using he
      have hc2x : cx.ENABLE_COUNTING = false := (execute_frame _ _ hc1x hxe).1
      have hc2 : cy.ENABLE_COUNTING = false := (execute_frame _ _ hc1 hye).1
      have hd : (decode cx).erase = (decode cy).erase := by
        rw [decode_erase cx hc2x, decode_erase cy hc2, hce]
      have hF : (decode cx).F = (decode cy).F := by
        have := congrArg APEX_CPU.F hd
        exact this
      have hP : (decode cx).pc = (decode cy).pc := by
        have := congrArg APEX_CPU.pc hd
        exact this
      have hC : (decode cx).code_memory = (decode cy).code_memory := by
        have := congrArg APEX_CPU.code_memory hd
        exact this
      have hfy : (decode cy).F.busy = false → (decode cy).F.stalled = false →
          0 ≤ get_code_index (decode cy).pc ∧
            get_code_index (decode cy).pc < ((decode cy).code_memory.length : Int) := by
        intro b1 b2
        simp only [b1, b2, Bool.false_or, Bool.and_eq_true, decide_eq_true_eq] at q2
        exact q2
      have hf : (fetch (decode cx)).erase = (fetch (decode cy)).erase := by
        rw [fetch_erase (decode cx) (by rw [hF, hP, hC]; exact hfy),
          fetch_erase (decode cy) hfy, hd]
      simp only [Option.map_some', Option.some.injEq]
      have := congrArg (fun s : APEX_CPU => ({ s with clock := s.clock + 1 } : APEX_CPU)) hf
      exact this

end PartA

namespace PartA
open APEX

/-- A quiet stretch of a run does not depend on the erased parts of the state: the stretch
from `x` follows the one from the reference state `y`, keeps its budget, and is made of
iterations of the run loop if the budget covers it. -/
theorem cycles_erase : ∀ (k : Nat) (x y : APEX_CPU), x.erase = y.erase →
    y.ENABLE_COUNTING = false → quiet_for k y = true →
    ∃ tx ty, cycles k x = some tx ∧ cycles k y = some ty ∧ tx.erase = ty.erase ∧
      tx.code_memory_size = x.code_memory_size ∧
      (x.clock + (k : Int) ≤ x.code_memory_size + 1 →
        ∀ fuel, APEX_cpu_run (k + fuel) x = APEX_cpu_run fuel tx) := by
  intro k
  induction k with
  | zero =>
    intro x y h _ _
    exact ⟨x, y, rfl, rfl, h, rfl, fun _ fuel => by rw [Nat.zero_add]⟩
  | succ k ih =>
    intro x y h hc hq
    have hcx : x.ENABLE_COUNTING = false := by
      have := congrArg APEX_CPU.ENABLE_COUNTING h
      exact this.trans hc
    simp only [quiet_for, Bool.and_eq_true] at hq
    obtain ⟨q1, q2⟩ := hq
    have hce := cycle_erase x y h hc q1
    cases hy : cycle y with
    | none => rw [hy] at q2; cases q2
    | some y1 =>
      rw [hy] at q2 hce
      simp only [Bool.and_eq_true, decide_eq_true_eq] at q2
      cases hx : cycle x with
      | none => rw [hx] at hce; cases hce
      | some x1 =>
        rw [hx] at hce
        have h1 : x1.erase = y1.erase := by simpa using hce
        have hW : x1.WB = y1.WB := by
          have := congrArg APEX_CPU.WB h1
          exact this
        obtain ⟨tx, ty, c1, c2, e, sz, hrun⟩ :=
          ih x1 y1 h1 (cycle_counting y y1 hc hy) q2.2
        have hsz : x1.code_memory_size = x.code_memory_size := by
          rcases cycle_budget x x1 hcx hx with b | ⟨-, b⟩
          · exact b
          · rw [hW] at b; exact absurd b q2.1
        have hck : x1.clock = x.clock + 1 := cycle_clock x x1 hcx hx
        refine ⟨tx, ty, by simp [cycles, hx, c1], by simp [cycles, hy, c2], e,
          by rw [sz, hsz], fun hle fuel => ?_⟩
        have e1 : k + 1 + fuel = (k + fuel) + 1 := by omega
        rw [e1, run_step (k + fuel) x x1 (by push_cast at hle; omega) hcx hx]
        exact hrun (by rw [hck, hsz]; push_cast at hle; omega) fuel

end PartA


namespace PartB
open APEX

/-- Two states that differ in the erased parts only are taken to such states by a quiet
cycle. -/
theorem cycle_erase_B (x y : APEX_CPU) (h : x.erase = y.erase)
    (hc : y.ENABLE_COUNTING = false) (hq : quiet y = true) :
    (cycle x).map APEX_CPU.erase = (cycle y).map APEX_CPU.erase := by
  have hcx : x.ENABLE_COUNTING = false := by
    have := congrArg APEX_CPU.ENABLE_COUNTING h
    exact this.trans hc
  have hM : x.MEM = y.MEM := by
    have := congrArg APEX_CPU.MEM h
    exact this
  simp only [quiet, Bool.and_eq_true, Bool.not_eq_true', Bool.and_eq_false_iff,
    decide_eq_false_iff_not, Bool.not_eq_false'] at hq
  obtain ⟨q1, q2⟩ := hq
  have hy : ¬ (y.MEM.opcode = .LOAD ∧ y.MEM.busy = false ∧ y.MEM.stalled = false) := by
    rintro ⟨a, b, c⟩
    rcases q1 with (q | q) | q
    · exact q a
    · rw [b] at q; cases q
    · rw [c] at q; cases q
  have hw : (writeback x).erase = (writeback y).erase := by
    rw [writeback_erase_B x, writeback_erase_B y, h]
  have hm : (mem_step (writeback x)).erase = (mem_step (writeback y)).erase := by
    rw [memory_erase_B (writeback x) (by rw [(writeback_latches_B x).2.2.2.1, hM]; exact hy),
      memory_erase_B (writeback y) (by rw [(writeback_latches_B y).2.2.2.1]; exact hy)]
    rw [hw]
  have hc1 : (mem_step (writeback y)).ENABLE_COUNTING = false := by
    rw [(memory_frame_B _).1, (writeback_frame_B _).1, hc]
  have hc1x : (mem_step (writeback x)).ENABLE_COUNTING = false := by
    rw [(memory_frame_B _).1, (writeback_frame_B _).1, hcx]
  have he : (execute (mem_step (writeback x))).map APEX_CPU.erase =
      (execute (mem_step (writeback y))).map APEX_CPU.erase := by
    rw [execute_erase_B _ hc1x, execute_erase_B _ hc1, hm]
  have hox : mem_oob (writeback x) = mem_oob (writeback y) := by
    rw [oob_writeback_B, oob_writeback_B]
    exact PartA.oob_congr x y hM
  rw [cycle_eq_B, cycle_eq_B, hox]
  cases ho : mem_oob (writeback y)
  swap
  · rfl
  rw [memory_some_B _ ho] at q2
  simp only [Option.some_bind, Bool.false_eq_true, if_false] at q2 ⊢
  cases hxe : execute (mem_step (writeback x)) with
  | none =>
    rw [hxe] at he
    cases hye : execute (mem_step (writeback y)) with
    | none => rfl
    | some c => rw [hye] at he; cases he
  | some cx =>
    rw [hxe] at he
    cases hye : execute (mem_step (writeback y)) with
    | none => rw [hye] at he; cases he
    | some cy =>
      rw [hye] at he q2
      have hce : cx.erase = cy.erase := by simpa using he
      have hc2x : cx.ENABLE_COUNTING = false := (execute_frame_B _ _ hc1x hxe).1
      have hc2 : cy.ENABLE_COUNTING = false := (execute_frame_B _ _ hc1 hye).1
      have hd : (decode cx).erase = (decode cy).erase := by
        rw [decode_erase_B cx hc2x, decode_erase_B cy hc2, hce]
      have hF : (decode cx).F = (decode cy).F := by
        have := congrArg APEX_CPU.F hd
        exact this
      have hP : (decode cx).pc = (decode cy).pc := by
        have := congrArg APEX_CPU.pc hd
        exact this
      have hC : (decode cx).code_memory = (decode cy).code_memory := by
        have := congrArg APEX_CPU.code_memory hd
        exact this
      have hfy : (decode cy).F.busy = false → (decode cy).F.stalled = false →
          0 ≤ get_code_index (decode cy).pc ∧
            get_code_index (decode cy).pc < ((decode cy).code_memory.length : Int) := by
        intro b1 b2
        simp only [b1, b2, Bool.false_or, Bool.and_eq_true, decide_eq_true_eq] at q2
        exact q2
      have hf : (fetch (decode cx)).erase = (fetch (decode cy)).erase := by
        rw [fetch_erase_B (decode cx) (by rw [hF, hP, hC]; exact hfy),
          fetch_erase_B (decode cy) hfy, hd]
      simp only [Option.map_some', Option.some.injEq]
      have := congrArg (fun s : APEX_CPU => ({ s with clock := s.clock + 1 } : APEX_CPU)) hf
      exact this

end PartB

namespace PartB
open APEX

/-- A quiet stretch of a run does not depend on the erased parts of the state: the stretch
from `x` follows the one from the reference state `y`, keeps its budget, and is made of
iterations of the run loop if the budget covers it. -/
theorem cycles_erase_B : ∀ (k : Nat) (x y : APEX_CPU), x.erase = y.erase →
    y.ENABLE_COUNTING = false → quiet_for k y = true →
    ∃ tx ty, cycles k x = some tx ∧ cycles k y = some ty ∧ tx.erase = ty.erase ∧
      tx.code_memory_size = x.code_memory_size ∧
      (x.clock + (k : Int) ≤ x.code_memory_size + 1 →
        ∀ fuel, APEX_cpu_run (k + fuel) x = APEX_cpu_run fuel tx) := by
  intro k
  induction k with
  | zero =>
    intro x y h _ _
    exact ⟨x, y, rfl, rfl, h, rfl, fun _ fuel => by rw [Nat.zero_add]⟩
  | succ k ih =>
    intro x y h hc hq
    have hcx : x.ENABLE_COUNTING = false := by
      have := congrArg APEX_CPU.ENABLE_COUNTING h
      exact this.trans hc
    simp only [quiet_for, Bool.and_eq_true] at hq
    obtain ⟨q1, q2⟩ := hq
    have hce := cycle_erase_B x y h hc q1
    cases hy : cycle y with
    | none => rw [hy] at q2; cases q2
    | some y1 =>
      rw [hy] at q2 hce
      simp only [Bool.and_eq_true, decide_eq_true_eq] at q2
      cases hx : cycle x with
      | none => rw [hx] at hce; cases hce
      | some x1 =>
        rw [hx] at hce
        have h1 : x1.erase = y1.erase := by simpa using hce
        have hW : x1.WB = y1.WB := by
          have := congrArg APEX_CPU.WB h1
          exact this
        obtain ⟨tx, ty, c1, c2, e, sz, hrun⟩ :=
          ih x1 y1 h1 (cycle_counting_B y y1 hc hy) q2.2
        have hsz : x1.code_memory_size = x.code_memory_size := by
          rcases cycle_budget_B x x1 hcx hx with b | ⟨-, b⟩
          · exact b
          · rw [hW] at b; exact absurd b q2.1
        have hck : x1.clock = x.clock + 1 := cycle_clock_B x x1 hcx hx
        refine ⟨tx, ty, by simp [cycles, hx, c1], by simp [cycles, hy, c2], e,
          by rw [sz, hsz], fun hle fuel => ?_⟩
        have e1 : k + 1 + fuel = (k + fuel) + 1 := by omega
        rw [e1, run_step_B (k + fuel) x x1 (by push_cast at hle; omega) hcx hx]
        exact hrun (by rw [hck, hsz]; push_cast at hle; omega) fuel

end PartB


namespace PartA
open APEX

/-- Scenario S4 in variant A, whatever the budget (from 13 on) and the uninitialised storage:
the run follows the run with budget 100 and zeroed storage (and the same initial `z_flag`)
for 12 cycles, to the state in which the HALT is in MEM, and returns two cycles later. -/
theorem S4_run (n : Int) (u : Uninit) (hn : 13 ≤ n) :
    ∃ final, (∀ fuel, APEX_cpu_run (14 + fuel) (initial prog_S4 n u) = .returned final) ∧
      final.regs 4 = 0 ∧ final.regs 5 = 0 ∧ final.z_flag = true := by
  have key : ∀ ref : APEX_CPU, (initial prog_S4 n u).erase = ref.erase →
      ref.ENABLE_COUNTING = false → quiet_for 12 ref = true →
      (∀ t, cycles 12 ref = some t → t.MEM.busy = false ∧ t.MEM.stalled = false ∧
        t.MEM.opcode = .HALT ∧ t.clock = 13 ∧ (writeback t).regs 4 = 0 ∧
        (writeback t).regs 5 = 0 ∧ (writeback t).z_flag = true) →
      ∃ final, (∀ fuel, APEX_cpu_run (14 + fuel) (initial prog_S4 n u) = .returned final) ∧
        final.regs 4 = 0 ∧ final.regs 5 = 0 ∧ final.z_flag = true := by
    intro ref h hc hq hT
    obtain ⟨tx, ty, c1, c2, e, sz, hrun⟩ := cycles_erase 12 _ ref h hc hq
    obtain ⟨t1, t2, t3, t4, t5, t6, t7⟩ := hT ty c2
    have hM : tx.MEM = ty.MEM := by
      have := congrArg APEX_CPU.MEM e
      exact this
    have hK : tx.clock = ty.clock := by
      have := congrArg APEX_CPU.clock e
      exact this
    have hw : (writeback tx).erase = (writeback ty).erase := by
      rw [writeback_erase tx, writeback_erase ty, e]
    have hR : (writeback tx).regs = (writeback ty).regs := by
      have := congrArg APEX_CPU.regs hw
      exact this
    have hZ : (writeback tx).z_flag = (writeback ty).z_flag := by
      have := congrArg APEX_CPU.z_flag hw
      exact this
    have hsz : tx.code_memory_size = n := sz
    obtain ⟨s2, hs2, f1, -, f3, -⟩ := halt_run prog_S4 n u 12 tx c1 (by rw [hM]; exact t1)
      (by rw [hM]; exact t2) (by rw [hM]; exact t3) (by rw [hK, t4, hsz]; exact hn)
    refine ⟨s2, fun fuel => ?_, by rw [f1, hR]; exact t5, by rw [f1, hR]; exact t6,
      by rw [f3, hZ]; exact t7⟩
    have e1 : 14 + fuel = 12 + (fuel + 2) := by omega
    rw [e1, hrun (by show (1 : Int) + ((12 : Nat) : Int) ≤ n + 1; push_cast; omega)]
    exact hs2 fuel
  cases hz : u.z_flag
  · refine key (initial prog_S4 100 blank) ?_ rfl rfl ?_
    · simp only [APEX_CPU.erase, initial, blank, hz]
    · intro t ht
      have : cycles 12 (initial prog_S4 100 blank) =
          some ((cycles 12 (initial prog_S4 100 blank)).getD (initial prog_S4 100 blank)) := rfl
      rw [this] at ht
      cases ht
      exact ⟨rfl, rfl, rfl, rfl, rfl, rfl, rfl⟩
  · refine key (initial prog_S4 100 { blank with z_flag := true }) ?_ rfl rfl ?_
    · simp only [APEX_CPU.erase, initial, blank, hz]
    · intro t ht
      have : cycles 12 (initial prog_S4 100 { blank with z_flag := true }) =
          some ((cycles 12 (initial prog_S4 100 { blank with z_flag := true })).getD
            (initial prog_S4 100 blank)) := rfl
      rw [this] at ht
      cases ht
      exact ⟨rfl, rfl, rfl, rfl, rfl, rfl, rfl⟩

end PartA

namespace PartB
open APEX

/-- Scenario S4 in variant B, whatever the budget (from 10 on) and the uninitialised storage:
the run follows the run with budget 100 and zeroed storage for 9 cycles, to the state in
which the HALT is in MEM, and returns two cycles later. -/
theorem S4_run_B (n : Int) (u : Uninit) (hn : 10 ≤ n) :
    ∃ final, (∀ fuel, APEX_cpu_run (11 + fuel) (initial prog_S4 n u) = .returned final) ∧
      final.regs 4 = 0 ∧ final.regs 5 = 0 ∧ final.z_flag = true := by
  have h : (initial prog_S4 n u).erase = (initial prog_S4 100 blank).erase := by
    simp only [APEX_CPU.erase, initial, blank]
  obtain ⟨tx, ty, c1, c2, e, sz, hrun⟩ :=
    cycles_erase_B 9 _ (initial prog_S4 100 blank) h rfl rfl
  have hT : ty.MEM.busy = false ∧ ty.MEM.stalled = false ∧ ty.MEM.opcode = .HALT ∧
      ty.clock = 10 ∧ (writeback ty).regs 4 = 0 ∧ (writeback ty).regs 5 = 0 ∧
      (writeback ty).z_flag = true := by
    have : cycles 9 (initial prog_S4 100 blank) =
        some ((cycles 9 (initial prog_S4 100 blank)).getD (initial prog_S4 100 blank)) := rfl
    rw [this] at c2
    cases c2
    exact ⟨rfl, rfl, rfl, rfl, rfl, rfl, rfl⟩
  obtain ⟨t1, t2, t3, t4, t5, t6, t7⟩ := hT
  have hM : tx.MEM = ty.MEM := by
    have := congrArg APEX_CPU.MEM e
    exact this
  have hK : tx.clock = ty.clock := by
    have := congrArg APEX_CPU.clock e
    exact this
  have hw : (writeback tx).erase = (writeback ty).erase := by
    rw [writeback_erase_B tx, writeback_erase_B ty, e]
  have hR : (writeback tx).regs = (writeback ty).regs := by
    have := congrArg APEX_CPU.regs hw
    exact this
  have hZ : (writeback tx).z_flag = (writeback ty).z_flag := by
    have := congrArg APEX_CPU.z_flag hw
    exact this
  have hsz : tx.code_memory_size = n := sz
  obtain ⟨s2, hs2, f1, -, f3, -⟩ := halt_run_B prog_S4 n u 9 tx c1 (by rw [hM]; exact t1)
    (by rw [hM]; exact t2) (by rw [hM]; exact t3) (by rw [hK, t4, hsz]; exact hn)
  refine ⟨s2, fun fuel => ?_, by rw [f1, hR]; exact t5, by rw [f1, hR]; exact t6,
    by rw [f3, hZ]; exact t7⟩
  have e1 : 11 + fuel = 9 + (fuel + 2) := by omega
  rw [e1, hrun (by show (1 : Int) + ((9 : Nat) : Int) ≤ n + 1; push_cast; omega)]
  exact hs2 fuel

end PartB


namespace PartA
open APEX

theorem control_flow_shape (cpu : APEX_CPU) :
    control_flow cpu =
      { cpu with
        pc := cpu.EX.buffer
        F := { cpu.F with opcode := .BUBBLE, pc := 0, stalled := true }
        DRF := { cpu.DRF with opcode := .BUBBLE, pc := 0 }
        code_memory_size := (control_flow cpu).code_memory_size } := by
  unfold control_flow
  simp only []
  split_ifs <;> rfl

theorem control_flow_EX (cpu : APEX_CPU) : (control_flow cpu).EX = cpu.EX := by
  rw [control_flow_shape]

theorem execute_straight (cpu : APEX_CPU) (hb : cpu.EX.busy = false)
    (hs : cpu.EX.stalled = false) (ht : ex_taken cpu.EX cpu.z_flag = false) :
    execute cpu =
      if ex_fault cpu.EX then none
      else some
        { cpu with
          DRF := { cpu.DRF with stalled := cpu.DRF.stalled || decide (cpu.EX.opcode = .MUL) }
          EX := { ex_done cpu.EX cpu.z_flag with
                  stalled := decide (cpu.EX.opcode = .MUL) || decide (cpu.EX.opcode = .HALT) }
          MEM := if cpu.EX.opcode = .MUL then { cpu.MEM with opcode := .BUBBLE, pc := 0 }
                 else ex_done cpu.EX cpu.z_flag } := by
  rcases cpu with ⟨clock, pc, regs, rv, F, DRF, EX, MEM, WB, cm, cms, dm, ic, z, zv, ec, out⟩
  rcases EX with ⟨wpc, wop, wrs1, wrs2, wrd, wimm, wv1, wv2, wbuf, wma, wbusy, wst, wz⟩
  simp only at hb hs ht
  subst hb hs
  cases wop <;> cases z <;> simp [ex_taken] at ht <;>
    simp [execute, execute_from_MOVC, execute_HALT, execute_to_MEM, execute_BZ, execute_BNZ,
      execute_JUMP, execute_EXOR, execute_OR, execute_AND, execute_MUL, execute_SUB, execute_ADD,
      execute_MOVC, execute_LOAD, execute_STORE, set_buffer, ex_fault, ex_addr,
      ex_buffer, ex_done, exception_handler]
  all_goals
    split_ifs <;>
    simp [execute_from_MOVC, execute_HALT, execute_to_MEM, execute_BZ, execute_BNZ,
      execute_JUMP, execute_EXOR, execute_OR, execute_AND, execute_MUL, execute_SUB,
      execute_ADD, execute_MOVC]

theorem execute_ALU_skip (c : APEX_CPU)
    (h : c.EX.opcode = .JUMP ∨ c.EX.opcode = .BNZ ∨ c.EX.opcode = .BZ) :
    execute_EXOR (execute_OR (execute_AND (execute_MUL (execute_SUB (execute_ADD
      (execute_MOVC c)))))) = c := by
  rcases h with h | h | h <;>
    simp [execute_EXOR, execute_OR, execute_AND, execute_MUL, execute_SUB, execute_ADD,
      execute_MOVC, h]

theorem execute_addr_skip (c : APEX_CPU)
    (h : c.EX.opcode = .JUMP ∨ c.EX.opcode = .BNZ ∨ c.EX.opcode = .BZ) :
    (execute_STORE c).bind execute_LOAD = some c := by
  rcases h with h | h | h <;> simp [execute_STORE, execute_LOAD, h]

theorem execute_branch_blocks (c : APEX_CPU) (ht : ex_taken c.EX c.z_flag = true) :
    execute_BZ (execute_BNZ (execute_JUMP c)) =
      control_flow (set_buffer c (ex_buffer c.EX c.z_flag)) := by
  have hop : (c.EX.opcode = .JUMP ∨ (c.EX.opcode = .BNZ ∧ c.z_flag = false)) ∨
      (c.EX.opcode = .BZ ∧ c.z_flag = true) := by
    simpa [ex_taken] using ht
  rcases hop with (h | ⟨h, z⟩) | ⟨h, z⟩
  · simp [execute_BZ, execute_BNZ, execute_JUMP, control_flow_EX, set_buffer, ex_buffer, h]
  · simp [execute_BZ, execute_BNZ, execute_JUMP, control_flow_EX, set_buffer, ex_buffer, h, z]
  · simp [execute_BZ, execute_BNZ, execute_JUMP, control_flow_EX, set_buffer, ex_buffer, h, z]

theorem execute_branch (cpu : APEX_CPU) (hb : cpu.EX.busy = false)
    (hs : cpu.EX.stalled = false) (ht : ex_taken cpu.EX cpu.z_flag = true) :
    execute cpu =
      some { control_flow (set_buffer cpu (ex_buffer cpu.EX cpu.z_flag)) with
             MEM := { cpu.EX with buffer := ex_buffer cpu.EX cpu.z_flag } } := by
  have hop : cpu.EX.opcode = .JUMP ∨ cpu.EX.opcode = .BNZ ∨ cpu.EX.opcode = .BZ := by
    have : (cpu.EX.opcode = .JUMP ∨ (cpu.EX.opcode = .BNZ ∧ cpu.z_flag = false)) ∨
        (cpu.EX.opcode = .BZ ∧ cpu.z_flag = true) := by
      simpa [ex_taken] using ht
    rcases this with (h | h) | h
    · exact Or.inl h
    · exact Or.inr (Or.inl h.1)
    · exact Or.inr (Or.inr h.1)
  have hne : cpu.EX.opcode ≠ .HALT := by
    rcases hop with h | h | h <;> simp [h]
  unfold execute
  rw [if_pos (by simp [hb, hs]), execute_addr_skip cpu hop]
  simp only [Option.map_some', execute_from_MOVC]
  rw [execute_ALU_skip cpu hop, execute_branch_blocks cpu ht]
  have key : ∀ c d : APEX_CPU, d.EX = c.EX → c.EX.stalled = false → c.EX.opcode ≠ .HALT →
      execute_HALT (execute_to_MEM d) = { d with MEM := c.EX } := by
    intro c d e h1 h2
    simp [execute_HALT, execute_to_MEM, e, h1, h2]
  rw [key (set_buffer cpu (ex_buffer cpu.EX cpu.z_flag)) _ (control_flow_EX _) hs hne]
  rfl

theorem execute_post_holds (cpu : APEX_CPU) (hb : cpu.EX.busy = false)
    (hs : cpu.EX.stalled = false) (hf : ex_fault cpu.EX = false) :
    ∃ c, execute cpu = some c ∧ execute_post cpu c := by
  cases ht : ex_taken cpu.EX cpu.z_flag
  · have hx := execute_straight cpu hb hs ht
    rw [hf] at hx
    simp only [Bool.false_eq_true, if_false] at hx
    refine ⟨_, hx, ?_⟩
    · unfold execute_post
      refine ⟨?_, ?_, ?_, ?_, ?_, ?_, ?_, ?_, ?_, rfl, rfl, rfl, ?_⟩
      all_goals intro h
      all_goals simp [ex_done, ex_buffer, ex_addr, h]
      have hh : cpu.EX.opcode = .HALT ∨ cpu.EX.opcode ≠ .HALT := em _
      rcases hh with hh | hh <;> simp [hh, hs]
  · have hop : (cpu.EX.opcode = .JUMP ∨ (cpu.EX.opcode = .BNZ ∧ cpu.z_flag = false)) ∨
        (cpu.EX.opcode = .BZ ∧ cpu.z_flag = true) := by
      simpa [ex_taken] using ht
    have hop2 : cpu.EX.opcode = .JUMP ∨ cpu.EX.opcode = .BNZ ∨ cpu.EX.opcode = .BZ := by
      rcases hop with (h | h) | h
      · exact Or.inl h
      · exact Or.inr (Or.inl h.1)
      · exact Or.inr (Or.inr h.1)
    refine ⟨_, execute_branch cpu hb hs ht, ?_⟩
    have e := control_flow_shape (set_buffer cpu (ex_buffer cpu.EX cpu.z_flag))
    unfold execute_post
    iterate 9
      refine ⟨fun h => ?_, ?_⟩
      · exfalso
        rcases hop2 with h2 | h2 | h2 <;> simp [h2] at h
    refine ⟨?_, ?_, ?_, ?_⟩
    · rw [e]; rfl
    · rw [e]; rfl
    · rw [e]; rfl
    · intro _
      show _ = { (control_flow (set_buffer cpu (ex_buffer cpu.EX cpu.z_flag))).EX with
                 stalled := false }
      rw [control_flow_EX]
      simp [set_buffer, hs]

end PartA

namespace PartB
open APEX

theorem control_flow_shape_B (cpu : APEX_CPU) :
    control_flow cpu =
      { cpu with
        pc := cpu.EX.buffer
        F := { cpu.F with opcode := .BUBBLE, pc := 0, stalled := true }
        DRF := { cpu.DRF with opcode := .BUBBLE, pc := 0 }
        code_memory_size := (control_flow cpu).code_memory_size } := by
  unfold control_flow
  simp only []
  split_ifs <;> rfl

theorem control_flow_EX_B (cpu : APEX_CPU) : (control_flow cpu).EX = cpu.EX := by
  rw [control_flow_shape_B]

theorem execute_straight_B (cpu : APEX_CPU) (hb : cpu.EX.busy = false)
    (hs : cpu.EX.stalled = false) (ht : ex_taken cpu.EX cpu.EX.z_flag = false) :
    execute cpu =
      if ex_fault cpu.EX then none
      else some
        { cpu with
          DRF := { cpu.DRF with stalled := cpu.DRF.stalled || decide (cpu.EX.opcode = .MUL) }
          EX := { ex_done cpu.EX cpu.EX.z_flag with
                  stalled := decide (cpu.EX.opcode = .MUL) || decide (cpu.EX.opcode = .HALT) }
          MEM := if cpu.EX.opcode = .MUL then { cpu.MEM with opcode := .BUBBLE, pc := 0 }
                 else ex_done cpu.EX cpu.EX.z_flag } := by
  rcases cpu with ⟨clock, pc, regs, rv, F, DRF, EX, MEM, WB, cm, cms, dm, ic, z, zv, ec, out⟩
  rcases EX with ⟨wpc, wop, wrs1, wrs2, wrd, wimm, wv1, wv2, wbuf, wma, wbusy, wst, wz⟩
  simp only at hb hs ht
  subst hb hs
  cases wop <;> cases wz <;> simp [ex_taken] at ht <;>
    simp [execute, execute_from_MOVC, execute_HALT, execute_to_MEM, execute_BZ, execute_BNZ,
      execute_JUMP, execute_EXOR, execute_OR, execute_AND, execute_MUL, execute_SUB, execute_ADD,
      execute_MOVC, execute_LOAD, execute_STORE, set_buffer, ex_fault, ex_addr,
      ex_buffer, ex_done, exception_handler]
  all_goals
    split_ifs <;>
    simp [execute_from_MOVC, execute_HALT, execute_to_MEM, execute_BZ, execute_BNZ,
      execute_JUMP, execute_EXOR, execute_OR, execute_AND, execute_MUL, execute_SUB,
      execute_ADD, execute_MOVC]

theorem execute_ALU_skip_B (c : APEX_CPU)
    (h : c.EX.opcode = .JUMP ∨ c.EX.opcode = .BNZ ∨ c.EX.opcode = .BZ) :
    execute_EXOR (execute_OR (execute_AND (execute_MUL (execute_SUB (execute_ADD
      (execute_MOVC c)))))) = c := by
  rcases h with h | h | h <;>
    simp [execute_EXOR, execute_OR, execute_AND, execute_MUL, execute_SUB, execute_ADD,
      execute_MOVC, h]

theorem execute_addr_skip_B (c : APEX_CPU)
    (h : c.EX.opcode = .JUMP ∨ c.EX.opcode = .BNZ ∨ c.EX.opcode = .BZ) :
    (execute_STORE c).bind execute_LOAD = some c := by
  rcases h with h | h | h <;> simp [execute_STORE, execute_LOAD, h]

theorem execute_branch_blocks_B (c : APEX_CPU) (ht : ex_taken c.EX c.EX.z_flag = true) :
    execute_BZ (execute_BNZ (execute_JUMP c)) =
      control_flow (set_buffer c (ex_buffer c.EX c.EX.z_flag)) := by
  have hop : (c.EX.opcode = .JUMP ∨ (c.EX.opcode = .BNZ ∧ c.EX.z_flag = false)) ∨
      (c.EX.opcode = .BZ ∧ c.EX.z_flag = true) := by
    simpa [ex_taken] using ht
  rcases hop with (h | ⟨h, z⟩) | ⟨h, z⟩
  · simp [execute_BZ, execute_BNZ, execute_JUMP, control_flow_EX_B, set_buffer, ex_buffer, h]
  · simp [execute_BZ, execute_BNZ, execute_JUMP, control_flow_EX_B, set_buffer, ex_buffer, h, z]
  · simp [execute_BZ, execute_BNZ, execute_JUMP, control_flow_EX_B, set_buffer, ex_buffer, h, z]

theorem execute_branch_B (cpu : APEX_CPU) (hb : cpu.EX.busy = false)
    (hs : cpu.EX.stalled = false) (ht : ex_taken cpu.EX cpu.EX.z_flag = true) :
    execute cpu =
      some { control_flow (set_buffer cpu (ex_buffer cpu.EX cpu.EX.z_flag)) with
             MEM := { cpu.EX with buffer := ex_buffer cpu.EX cpu.EX.z_flag } } := by
  have hop : cpu.EX.opcode = .JUMP ∨ cpu.EX.opcode = .BNZ ∨ cpu.EX.opcode = .BZ := by
    have : (cpu.EX.opcode = .JUMP ∨ (cpu.EX.opcode = .BNZ ∧ cpu.EX.z_flag = false)) ∨
        (cpu.EX.opcode = .BZ ∧ cpu.EX.z_flag = true) := by
      simpa [ex_taken] using ht
    rcases this with (h | h) | h
    · exact Or.inl h
    · exact Or.inr (Or.inl h.1)
    · exact Or.inr (Or.inr h.1)
  have hne : cpu.EX.opcode ≠ .HALT := by
    rcases hop with h | h | h <;> simp [h]
  unfold execute
  rw [if_pos (by simp [hb, hs]), execute_addr_skip_B cpu hop]
  simp only [Option.map_some', execute_from_MOVC]
  rw [execute_ALU_skip_B cpu hop, execute_branch_blocks_B cpu ht]
  have key : ∀ c d : APEX_CPU, d.EX = c.EX → c.EX.stalled = false → c.EX.opcode ≠ .HALT →
      execute_HALT (execute_to_MEM d) = { d with MEM := c.EX } := by
    intro c d e h1 h2
    simp [execute_HALT, execute_to_MEM, e, h1, h2]
  rw [key (set_buffer cpu (ex_buffer cpu.EX cpu.EX.z_flag)) _ (control_flow_EX_B _) hs hne]
  rfl

theorem execute_post_holds_B (cpu : APEX_CPU) (hb : cpu.EX.busy = false)
    (hs : cpu.EX.stalled = false) (hf : ex_fault cpu.EX = false) :
    ∃ c, execute cpu = some c ∧ execute_post cpu c := by
  cases ht : ex_taken cpu.EX cpu.EX.z_flag
  · have hx := execute_straight_B cpu hb hs ht
    rw [hf] at hx
    simp only [Bool.false_eq_true, if_false] at hx
    refine ⟨_, hx, ?_⟩
    · unfold execute_post
      refine ⟨?_, ?_, ?_, ?_, ?_, ?_, ?_, ?_, ?_, rfl, rfl, rfl, ?_⟩
      all_goals intro h
      all_goals simp [ex_done, ex_buffer, ex_addr, h]
      have hh : cpu.EX.opcode = .HALT ∨ cpu.EX.opcode ≠ .HALT := em _
      rcases hh with hh | hh <;> simp [hh, hs]
  · have hop : (cpu.EX.opcode = .JUMP ∨ (cpu.EX.opcode = .BNZ ∧ cpu.EX.z_flag = false)) ∨
        (cpu.EX.opcode = .BZ ∧ cpu.EX.z_flag = true) := by
      simpa [ex_taken] using ht
    have hop2 : cpu.EX.opcode = .JUMP ∨ cpu.EX.opcode = .BNZ ∨ cpu.EX.opcode = .BZ := by
      rcases hop with (h | h) | h
      · exact Or.inl h
      · exact Or.inr (Or.inl h.1)
      · exact Or.inr (Or.inr h.1)
    refine ⟨_, execute_branch_B cpu hb hs ht, ?_⟩
    have e := control_flow_shape_B (set_buffer cpu (ex_buffer cpu.EX cpu.EX.z_flag))
    unfold execute_post
    iterate 9
      refine ⟨fun h => ?_, ?_⟩
      · exfalso
        rcases hop2 with h2 | h2 | h2 <;> simp [h2] at h
    refine ⟨?_, ?_, ?_, ?_⟩
    · rw [e]; rfl
    · rw [e]; rfl
    · rw [e]; rfl
    · intro _
      show _ = { (control_flow (set_buffer cpu (ex_buffer cpu.EX cpu.EX.z_flag))).EX with
                 stalled := false }
      rw [control_flow_EX_B]
      simp [set_buffer, hs]

end PartB


namespace APEX

end APEX

namespace APEX

end APEX

namespace PartA
open APEX

end PartA


namespace APEX

/-- C1 (variant B, forwarding): for every program without BZ, BNZ and JUMP that ends
with HALT, uses register numbers 0..15 only and computes memory addresses in 0..4095 only,
the run loop started in the initial state with a cycle budget of at least five cycles per
instruction returns, whatever fuel beyond `K` the loop model is given, and the final register
file and data memory are those of executing the instructions one at a time in program
order (MOVC rd <- imm; ADD, SUB, MUL, AND, OR, EX-OR rd <- rs1 op rs2 with 32-bit
wrap-around; LOAD rd <- mem[rs1 + imm]; STORE mem[rs2 + imm] <- rs1); if an ADD, SUB or
MUL was executed, the final `z_flag` is (result of the last one == 0).  Literals,
uninitialised memory words and the instruction addresses `4000 + 4 * i` are C `int`s. -/
theorem forwarding_refines_program_order (code : List APEX_Instruction) (n : Int) (u : Uninit)
    (hisa : ∀ i ∈ code, i.opcode.straight = true ∨ i.opcode = .HALT)
    (hend : ∃ h, code.getLast? = some h ∧ h.opcode = .HALT)
    (_hregs : ∀ i ∈ code, regs_ok i)
    (haddr : (Arch.init u).addrs_ok code)
    (himm : ∀ i ∈ code, in32 i.imm) (hu : ∀ x, in32 (u.data_tail x))
    (hn : 5 * (code.length : Int) ≤ n)
    (hpc : 4000 + 4 * (code.length : Int) < 2147483648) :
    ∃ K final,
      (∀ fuel, PartB.APEX_cpu_run (K + fuel) (PartB.initial code n u) = .returned final) ∧
      final.regs = ((Arch.init u).program code).regs ∧
      final.data_memory = ((Arch.init u).program code).mem ∧
      ∀ b, ((Arch.init u).program code).z = some b → final.z_flag = b := by
  obtain ⟨N, body, hlt, rest, e, eN, hH, hb, hp⟩ :=
    prog_of_program code (Arch.init u) hisa hend himm (init_ranged u hu) hpc
  rw [e] at haddr
  obtain ⟨hS, hF⟩ := program_eq_S body hlt rest hH hb (Arch.init u) haddr
  rw [← e, ← eN] at hS hF
  have hlen : (N : Int) + 1 ≤ code.length := by exact_mod_cast hp.1.1
  obtain ⟨K, final, h1, -, h2⟩ := PartB.refines_B code N n u hp hF (by omega)
  rw [← hS]
  exact ⟨K, final, h1, h2⟩

theorem forwarding_refines_program_order_witness :
    ∃ K final,
      (∀ fuel, PartB.APEX_cpu_run (K + fuel) (PartB.initial prog_MOVC_LOAD_ADD 20 blank) =
        .returned final) ∧
      final.regs = ((Arch.init blank).program prog_MOVC_LOAD_ADD).regs ∧
      final.data_memory = ((Arch.init blank).program prog_MOVC_LOAD_ADD).mem ∧
      ∀ b, ((Arch.init blank).program prog_MOVC_LOAD_ADD).z = some b → final.z_flag = b :=
  forwarding_refines_program_order prog_MOVC_LOAD_ADD 20 blank
    (by simp [prog_MOVC_LOAD_ADD, Opcode.straight])
    ⟨_, rfl, rfl⟩
    (by simp [prog_MOVC_LOAD_ADD, regs_ok, Opcode.writes_rd, Opcode.reads_rs1,
      Opcode.reads_rs2])
    (by simp [prog_MOVC_LOAD_ADD, Arch.addrs_ok, Arch.addr_ok, Arch.exec, Arch.init, write])
    (by simp [prog_MOVC_LOAD_ADD, in32])
    (by simp [blank, in32])
    (by simp [prog_MOVC_LOAD_ADD])
    (by simp [prog_MOVC_LOAD_ADD])

/-- C2 (variant A, scoreboard stall): for every program without BZ, BNZ and JUMP that ends
with HALT, uses register numbers 0..15 only and computes memory addresses in 0..4095 only,
the run loop started in the initial state with a cycle budget of at least five cycles per
instruction returns, whatever fuel beyond `K` the loop model is given, and the final register
file and data memory are those of executing the instructions one at a time in program
order; if an ADD, SUB or MUL was executed, the final `z_flag` is (result of the last one
== 0).  Literals, uninitialised memory words and the instruction addresses `4000 + 4 * i`
are C `int`s. -/
theorem scoreboard_refines_program_order (code : List APEX_Instruction) (n : Int) (u : Uninit)
    (hisa : ∀ i ∈ code, i.opcode.straight = true ∨ i.opcode = .HALT)
    (hend : ∃ h, code.getLast? = some h ∧ h.opcode = .HALT)
    (_hregs : ∀ i ∈ code, regs_ok i)
    (haddr : (Arch.init u).addrs_ok code)
    (himm : ∀ i ∈ code, in32 i.imm) (hu : ∀ x, in32 (u.data_tail x))
    (hn : 5 * (code.length : Int) ≤ n)
    (hpc : 4000 + 4 * (code.length : Int) < 2147483648) :
    ∃ K final,
      (∀ fuel, PartA.APEX_cpu_run (K + fuel) (PartA.initial code n u) = .returned final) ∧
      final.regs = ((Arch.init u).program code).regs ∧
      final.data_memory = ((Arch.init u).program code).mem ∧
      ∀ b, ((Arch.init u).program code).z = some b → final.z_flag = b := by
  obtain ⟨N, body, hlt, rest, e, eN, hH, hb, hp⟩ :=
    prog_of_program code (Arch.init u) hisa hend himm (init_ranged u hu) hpc
  rw [e] at haddr
  obtain ⟨hS, hF⟩ := program_eq_S body hlt rest hH hb (Arch.init u) haddr
  rw [← e, ← eN] at hS hF
  have hlen : (N : Int) + 1 ≤ code.length := by exact_mod_cast hp.1.1
  obtain ⟨K, final, h1, -, h2⟩ := PartA.refines code N n u hp hF (by omega)
  rw [← hS]
  exact ⟨K, final, h1, h2⟩

theorem scoreboard_refines_program_order_witness :
    ∃ K final,
      (∀ fuel, PartA.APEX_cpu_run (K + fuel) (PartA.initial prog_two_writers 20 blank) =
        .returned final) ∧
      final.regs = ((Arch.init blank).program prog_two_writers).regs ∧
      final.data_memory = ((Arch.init blank).program prog_two_writers).mem ∧
      ∀ b, ((Arch.init blank).program prog_two_writers).z = some b → final.z_flag = b :=
  scoreboard_refines_program_order prog_two_writers 20 blank
    (by simp [prog_two_writers, Opcode.straight])
    ⟨_, rfl, rfl⟩
    (by simp [prog_two_writers, regs_ok, Opcode.writes_rd, Opcode.reads_rs1,
      Opcode.reads_rs2])
    (by simp [prog_two_writers, Arch.addrs_ok, Arch.addr_ok, Arch.exec, Arch.init, write])
    (by simp [prog_two_writers, in32])
    (by simp [blank, in32])
    (by simp [prog_two_writers])
    (by simp [prog_two_writers])

end APEX


namespace APEX

/-- Claim C4 (both variants). Let `s` be a state reached from the initial state whose live MEM
latch holds HALT, so that cycle `c = s.clock`, which the loop executes, copies HALT into WB.
Then that cycle ends with HALT in WB and the budget set to `c + 1`; the loop executes exactly
one more cycle, in which Writeback retires the HALT (counted in `ins_completed`) and clears
the opcode slot; and the loop returns with `clock = c + 2`. -/
theorem HALT_in_WB_ends_run (code : List APEX_Instruction) (n : Int) (u : Uninit) (k : Nat) :
    (∀ s, PartA.cycles k (PartA.initial code n u) = some s →
      s.MEM.busy = false → s.MEM.stalled = false → s.MEM.opcode = .HALT →
      s.clock ≤ s.code_memory_size →
      ∃ s1 s2, PartA.cycle s = some s1 ∧ s1.WB.opcode = .HALT ∧
        s1.code_memory_size = s.clock + 1 ∧ PartA.cycle s1 = some s2 ∧
        s2.WB.opcode = .EMPTY ∧ s2.ins_completed = s1.ins_completed + 1 ∧
        s2.clock = s.clock + 2 ∧
        ∀ fuel, PartA.APEX_cpu_run (fuel + 2) s = .returned s2 ∧
          PartA.iterations (fuel + 2) s = 2) ∧
    (∀ s, PartB.cycles k (PartB.initial code n u) = some s →
      s.MEM.busy = false → s.MEM.stalled = false → s.MEM.opcode = .HALT →
      s.clock ≤ s.code_memory_size →
      ∃ s1 s2, PartB.cycle s = some s1 ∧ s1.WB.opcode = .HALT ∧
        s1.code_memory_size = s.clock + 1 ∧ PartB.cycle s1 = some s2 ∧
        s2.WB.opcode = .EMPTY ∧ s2.ins_completed = s1.ins_completed + 1 ∧
        s2.clock = s.clock + 2 ∧
        ∀ fuel, PartB.APEX_cpu_run (fuel + 2) s = .returned s2 ∧
          PartB.iterations (fuel + 2) s = 2) := by
  constructor
  · intro s hr hmb hms hmo hle
    obtain ⟨s1, s2, c1, wo, b1, k1, c2, wo2, ic, k2, b2, hrun⟩ :=
      PartA.halt_in_MEM code n u k s hr hmb hms hmo
    obtain ⟨-, hc⟩ := PartA.reachable_ok code n u k s hr
    have hc1 := PartA.cycle_counting s s1 hc c1
    refine ⟨s1, s2, c1, wo, b1, c2, wo2, ic, k2, fun fuel => ⟨hrun hle fuel, ?_⟩⟩
    have d : ¬ s2.clock ≤ s2.code_memory_size := by rw [k2, b2]; omega
    have l1 : s1.clock ≤ s1.code_memory_size := by rw [k1, b1]
    simp [PartA.iterations, hle, hc, c1, l1, hc1, c2, PartA.iterations_done fuel s2 d]
  · intro s hr hmb hms hmo hle
    obtain ⟨s1, s2, c1, wo, b1, k1, c2, wo2, ic, k2, b2, hrun⟩ :=
      PartB.halt_in_MEM_B code n u k s hr hmb hms hmo
    obtain ⟨-, hc⟩ := PartB.reachable_ok_B code n u k s hr
    have hc1 := PartB.cycle_counting_B s s1 hc c1
    refine ⟨s1, s2, c1, wo, b1, c2, wo2, ic, k2, fun fuel => ⟨hrun hle fuel, ?_⟩⟩
    have d : ¬ s2.clock ≤ s2.code_memory_size := by rw [k2, b2]; omega
    have l1 : s1.clock ≤ s1.code_memory_size := by rw [k1, b1]
    simp [PartB.iterations, hle, hc, c1, l1, hc1, c2, PartB.iterations_done_B fuel s2 d]

theorem HALT_in_WB_ends_run_witness :
    (∃ s1 s2, PartA.cycle PartA.halt_state = some s1 ∧ s1.WB.opcode = .HALT ∧
        s1.code_memory_size = PartA.halt_state.clock + 1 ∧ PartA.cycle s1 = some s2 ∧
        s2.WB.opcode = .EMPTY ∧ s2.ins_completed = s1.ins_completed + 1 ∧
        s2.clock = PartA.halt_state.clock + 2 ∧
        ∀ fuel, PartA.APEX_cpu_run (fuel + 2) PartA.halt_state = .returned s2 ∧
          PartA.iterations (fuel + 2) PartA.halt_state = 2) ∧
    (∃ s1 s2, PartB.cycle PartB.halt_state = some s1 ∧ s1.WB.opcode = .HALT ∧
        s1.code_memory_size = PartB.halt_state.clock + 1 ∧ PartB.cycle s1 = some s2 ∧
        s2.WB.opcode = .EMPTY ∧ s2.ins_completed = s1.ins_completed + 1 ∧
        s2.clock = PartB.halt_state.clock + 2 ∧
        ∀ fuel, PartB.APEX_cpu_run (fuel + 2) PartB.halt_state = .returned s2 ∧
          PartB.iterations (fuel + 2) PartB.halt_state = 2) :=
  ⟨(HALT_in_WB_ends_run prog_HALT 10 blank 3).1 PartA.halt_state rfl rfl rfl rfl (by decide),
   (HALT_in_WB_ends_run prog_HALT 10 blank 3).2 PartB.halt_state rfl rfl rfl rfl (by decide)⟩

/-- Claim C7 (both variants; `a`, `t` are states of variant A, `b`, `v` of variant B). Let
`a` (`b`) hold a MUL in a live EX latch at the start of a cycle in which the Memory stage
stays inside the data memory.  In that cycle Execute sets `buffer` hto the (wrapped) product
of the two source values, sets `EX.stalled` and `DRF.stalled` and puts a BUBBLE in MEM, and
Decode does nothing.  In the next cycle Execute clears both stall bits and hands the
unchanged MUL latch hto MEM, and Decode processes the DRF latch, if it holds an instruction:
it issues the instruction it read hto EX, or a BUBBLE if it has hto stall.  Behind a
single-cycle instruction (states `t`, `v`: a non-MUL, non-branch instruction in a live EX
latch) Execute leaves DRF untouched and Decode processes a live DRF latch in that same
cycle: the instruction behind a MUL is processed one cycle later. -/
theorem MUL_occupies_EX_two_cycles (a t b v : APEX_CPU)
    (hac : a.ENABLE_COUNTING = false) (ham : mem_oob a = false)
    (hab : a.EX.busy = false) (has : a.EX.stalled = false) (hao : a.EX.opcode = .MUL)
    (htc : t.ENABLE_COUNTING = false) (htm : mem_oob t = false)
    (htb : t.EX.busy = false) (hts : t.EX.stalled = false)
    (hto : t.EX.opcode ≠ .MUL ∧ t.EX.opcode ≠ .BZ ∧ t.EX.opcode ≠ .BNZ ∧
      t.EX.opcode ≠ .JUMP)
    (htf : ex_fault t.EX = false)
    (hbc : b.ENABLE_COUNTING = false) (hbm : mem_oob b = false)
    (hbb : b.EX.busy = false) (hbs : b.EX.stalled = false) (hbo : b.EX.opcode = .MUL)
    (hvc : v.ENABLE_COUNTING = false) (hvm : mem_oob v = false)
    (hvb : v.EX.busy = false) (hvs : v.EX.stalled = false)
    (hvo : v.EX.opcode ≠ .MUL ∧ v.EX.opcode ≠ .BZ ∧ v.EX.opcode ≠ .BNZ ∧
      v.EX.opcode ≠ .JUMP)
    (hvf : ex_fault v.EX = false) :
    (∃ c1 s1 c2 s2, (PartA.memory (PartA.writeback a)).bind PartA.execute = some c1 ∧
      c1.EX.opcode = .MUL ∧ c1.EX.buffer = wrap32 (a.EX.rs1_value * a.EX.rs2_value) ∧
      c1.EX.stalled = true ∧ c1.DRF = { a.DRF with stalled := true } ∧
      c1.MEM.opcode = .BUBBLE ∧ PartA.decode c1 = c1 ∧
      PartA.cycle a = some s1 ∧ s1.EX = c1.EX ∧ s1.DRF = c1.DRF ∧
      (PartA.memory (PartA.writeback s1)).bind PartA.execute = some c2 ∧
      c2.EX.stalled = false ∧ c2.DRF = { a.DRF with stalled := false } ∧
      c2.MEM = { c1.EX with stalled := false } ∧
      PartA.cycle s1 = some s2 ∧ s2.EX = (PartA.decode c2).EX ∧
      (a.DRF.busy = false → (PartA.decode c2).EX = if PartA.ready c2 then PartA.DRF_read c2
          else { c2.EX with opcode := .BUBBLE, pc := 0 })) ∧
    (∃ c1 s1, (PartA.memory (PartA.writeback t)).bind PartA.execute = some c1 ∧
      c1.DRF = t.DRF ∧ PartA.cycle t = some s1 ∧ s1.EX = (PartA.decode c1).EX ∧
      (t.DRF.busy = false → t.DRF.stalled = false →
        (PartA.decode c1).EX = if PartA.ready c1 then PartA.DRF_read c1
          else { c1.EX with opcode := .BUBBLE, pc := 0 })) ∧
    (∃ c1 s1 c2 s2, (PartB.memory (PartB.writeback b)).bind PartB.execute = some c1 ∧
      c1.EX.opcode = .MUL ∧ c1.EX.buffer = wrap32 (b.EX.rs1_value * b.EX.rs2_value) ∧
      c1.EX.stalled = true ∧ c1.DRF = { b.DRF with stalled := true } ∧
      c1.MEM.opcode = .BUBBLE ∧ PartB.decode c1 = c1 ∧
      PartB.cycle b = some s1 ∧ s1.EX = c1.EX ∧ s1.DRF = c1.DRF ∧
      (PartB.memory (PartB.writeback s1)).bind PartB.execute = some c2 ∧
      c2.EX.stalled = false ∧ c2.DRF = { b.DRF with stalled := false } ∧
      c2.MEM = { c1.EX with stalled := false } ∧
      PartB.cycle s1 = some s2 ∧ s2.EX = (PartB.decode c2).EX ∧
      (b.DRF.busy = false → (PartB.decode c2).EX = if PartB.stall c2 then { c2.EX with opcode := .BUBBLE, pc := 0 }
          else PartB.DRF_read c2)) ∧
    (∃ c1 s1, (PartB.memory (PartB.writeback v)).bind PartB.execute = some c1 ∧
      c1.DRF = v.DRF ∧ PartB.cycle v = some s1 ∧ s1.EX = (PartB.decode c1).EX ∧
      (v.DRF.busy = false → v.DRF.stalled = false →
        (PartB.decode c1).EX = if PartB.stall c1 then { c1.EX with opcode := .BUBBLE, pc := 0 }
          else PartB.DRF_read c1)) :=
  ⟨PartA.MUL_behind a hac ham hab has hao,
   PartA.single_cycle_behind t htc htm htb hts hto.1 hto.2.1 hto.2.2.1 hto.2.2.2 htf,
   PartB.MUL_behind_B b hbc hbm hbb hbs hbo,
   PartB.single_cycle_behind_B v hvc hvm hvb hvs hvo.1 hvo.2.1 hvo.2.2.1 hvo.2.2.2 hvf⟩

theorem MUL_occupies_EX_two_cycles_witness :
    PartA.mul_state.DRF.busy = false ∧ PartA.movc_state.DRF.busy = false ∧
    PartB.mul_state.DRF.busy = false ∧ PartB.movc_state.DRF.busy = false ∧
    (∃ c1 s1 c2 s2, (PartA.memory (PartA.writeback PartA.mul_state)).bind PartA.execute = some c1 ∧
      c1.EX.opcode = .MUL ∧ c1.EX.buffer = wrap32 (PartA.mul_state.EX.rs1_value * PartA.mul_state.EX.rs2_value) ∧
      c1.EX.stalled = true ∧ c1.DRF = { PartA.mul_state.DRF with stalled := true } ∧
      c1.MEM.opcode = .BUBBLE ∧ PartA.decode c1 = c1 ∧
      PartA.cycle PartA.mul_state = some s1 ∧ s1.EX = c1.EX ∧ s1.DRF = c1.DRF ∧
      (PartA.memory (PartA.writeback s1)).bind PartA.execute = some c2 ∧
      c2.EX.stalled = false ∧ c2.DRF = { PartA.mul_state.DRF with stalled := false } ∧
      c2.MEM = { c1.EX with stalled := false } ∧
      PartA.cycle s1 = some s2 ∧ s2.EX = (PartA.decode c2).EX ∧
      (PartA.mul_state.DRF.busy = false → (PartA.decode c2).EX = if PartA.ready c2 then PartA.DRF_read c2
          else { c2.EX with opcode := .BUBBLE, pc := 0 })) ∧
    (∃ c1 s1, (PartA.memory (PartA.writeback PartA.movc_state)).bind PartA.execute = some c1 ∧
      c1.DRF = PartA.movc_state.DRF ∧ PartA.cycle PartA.movc_state = some s1 ∧ s1.EX = (PartA.decode c1).EX ∧
      (PartA.movc_state.DRF.busy = false → PartA.movc_state.DRF.stalled = false →
        (PartA.decode c1).EX = if PartA.ready c1 then PartA.DRF_read c1
          else { c1.EX with opcode := .BUBBLE, pc := 0 })) ∧
    (∃ c1 s1 c2 s2, (PartB.memory (PartB.writeback PartB.mul_state)).bind PartB.execute = some c1 ∧
      c1.EX.opcode = .MUL ∧ c1.EX.buffer = wrap32 (PartB.mul_state.EX.rs1_value * PartB.mul_state.EX.rs2_value) ∧
      c1.EX.stalled = true ∧ c1.DRF = { PartB.mul_state.DRF with stalled := true } ∧
      c1.MEM.opcode = .BUBBLE ∧ PartB.decode c1 = c1 ∧
      PartB.cycle PartB.mul_state = some s1 ∧ s1.EX = c1.EX ∧ s1.DRF = c1.DRF ∧
      (PartB.memory (PartB.writeback s1)).bind PartB.execute = some c2 ∧
      c2.EX.stalled = false ∧ c2.DRF = { PartB.mul_state.DRF with stalled := false } ∧
      c2.MEM = { c1.EX with stalled := false } ∧
      PartB.cycle s1 = some s2 ∧ s2.EX = (PartB.decode c2).EX ∧
      (PartB.mul_state.DRF.busy = false → (PartB.decode c2).EX = if PartB.stall c2 then { c2.EX with opcode := .BUBBLE, pc := 0 }
          else PartB.DRF_read c2)) ∧
    (∃ c1 s1, (PartB.memory (PartB.writeback PartB.movc_state)).bind PartB.execute = some c1 ∧
      c1.DRF = PartB.movc_state.DRF ∧ PartB.cycle PartB.movc_state = some s1 ∧ s1.EX = (PartB.decode c1).EX ∧
      (PartB.movc_state.DRF.busy = false → PartB.movc_state.DRF.stalled = false →
        (PartB.decode c1).EX = if PartB.stall c1 then { c1.EX with opcode := .BUBBLE, pc := 0 }
          else PartB.DRF_read c1)) :=
  ⟨rfl, rfl, rfl, rfl,
   MUL_occupies_EX_two_cycles PartA.mul_state PartA.movc_state PartB.mul_state PartB.movc_state
    rfl rfl rfl rfl rfl rfl rfl rfl rfl (by decide) rfl
    rfl rfl rfl rfl rfl rfl rfl rfl rfl (by decide) rfl⟩

/-- Claim C6 (variant B). Let `s` hold a LOAD in a live EX latch and, in a live DRF latch, a
consumer one of whose needed sources is the rd of that LOAD, the accesses of the Memory stage
in this cycle and of the LOAD lying inside the data memory.  In the cycle that starts at `s`
Decode holds the consumer (DRF stalled, a BUBBLE in EX); in the following cycle the consumer
is promoted to EX and carries, as that source value, the word Memory read for the LOAD. -/
theorem LOAD_use_stalls_one_cycle (s : APEX_CPU) (hc : s.ENABLE_COUNTING = false)
    (hm : mem_oob s = false) (ha : ex_addr s.EX < DATA_MEMORY_SIZE)
    (hb : s.EX.busy = false) (hs : s.EX.stalled = false) (ho : s.EX.opcode = .LOAD)
    (hf : ex_fault s.EX = false) (db : s.DRF.busy = false) (ds : s.DRF.stalled = false)
    (hsrc : (s.DRF.opcode.reads_rs1 = true ∧ s.DRF.rs1 = s.EX.rd) ∨
            (s.DRF.opcode.reads_rs2 = true ∧ s.DRF.rs2 = s.EX.rd)) :
    ∃ s1 s2, PartB.cycle s = some s1 ∧ s1.DRF.stalled = true ∧
      s1.DRF.opcode = s.DRF.opcode ∧ s1.DRF.pc = s.DRF.pc ∧ s1.EX.opcode = .BUBBLE ∧
      PartB.cycle s1 = some s2 ∧ s2.EX.opcode = s.DRF.opcode ∧ s2.EX.pc = s.DRF.pc ∧
      s2.EX.busy = false ∧ s2.EX.stalled = false ∧
      s2.WB.opcode = .LOAD ∧ s2.WB.buffer = s1.data_memory (ex_addr s.EX) ∧
      (s.DRF.rs1 = s.EX.rd → s2.EX.rs1_value = s1.data_memory (ex_addr s.EX)) ∧
      (s.DRF.opcode.reads_rs2 = true → s.DRF.rs2 = s.EX.rd →
        s2.EX.rs2_value = s1.data_memory (ex_addr s.EX)) := by
  obtain ⟨s1, c1, k1, a1, a2, a3, a4, a5, a6, a7, a8, a9, a10, a11, a12⟩ :=
    PartB.load_use_first_cycle s hm hc hb hs ho hf db ds hsrc
  have dr : s.DRF.opcode.reads_rs1 = true := by
    rcases hsrc with ⟨a, -⟩ | ⟨a, -⟩
    · exact a
    · revert a; cases s.DRF.opcode <;> simp [Opcode.reads_rs1, Opcode.reads_rs2]
  have mo : s1.MEM.opcode = .LOAD := by rw [a12]; exact ho
  have mb : s1.MEM.busy = false := by rw [a12]; exact hb
  have ma : s1.MEM.mem_address = ex_addr s.EX := by rw [a12]; rfl
  have mr : s1.MEM.rd = s.EX.rd := by rw [a12]; rfl
  obtain ⟨s2, c2, b1, b2, b3, b4, b5, b6, b7, b8⟩ :=
    PartB.load_use_second_cycle s1
      (PartA.oob_of_bounds s1 (fun _ => by
        rw [ma]
        have h0 : ex_addr s.EX ≤ 4096 ∧ 0 ≤ ex_addr s.EX := by simpa [ex_fault, ho] using hf
        exact ⟨h0.2, ha⟩))
      k1 a1 (by rw [a3]; exact dr) a9 a10 a11 mo mb (by rw [a12])
  rw [ma] at b6 b7 b8
  exact ⟨s1, s2, c1, a1, a3, a4, a9, c2, by rw [b1, a3], by rw [b2, a4], by rw [b4, a2], b3,
    b5, b6, fun h => b7 (by rw [a5, mr]; exact h),
    fun h1 h2 => b8 (by rw [a3]; exact h1) (by rw [a6, mr]; exact h2)⟩

theorem LOAD_use_stalls_one_cycle_witness :
    ∃ s1 s2, PartB.cycle PartB.load_state = some s1 ∧ s1.DRF.stalled = true ∧
      s1.DRF.opcode = PartB.load_state.DRF.opcode ∧ s1.DRF.pc = PartB.load_state.DRF.pc ∧
      s1.EX.opcode = .BUBBLE ∧
      PartB.cycle s1 = some s2 ∧ s2.EX.opcode = PartB.load_state.DRF.opcode ∧
      s2.EX.pc = PartB.load_state.DRF.pc ∧
      s2.EX.busy = false ∧ s2.EX.stalled = false ∧
      s2.WB.opcode = .LOAD ∧ s2.WB.buffer = s1.data_memory (ex_addr PartB.load_state.EX) ∧
      (PartB.load_state.DRF.rs1 = PartB.load_state.EX.rd →
        s2.EX.rs1_value = s1.data_memory (ex_addr PartB.load_state.EX)) ∧
      (PartB.load_state.DRF.opcode.reads_rs2 = true →
        PartB.load_state.DRF.rs2 = PartB.load_state.EX.rd →
        s2.EX.rs2_value = s1.data_memory (ex_addr PartB.load_state.EX)) :=
  LOAD_use_stalls_one_cycle PartB.load_state rfl rfl (by decide) rfl rfl rfl (by decide) rfl rfl
    (Or.inl ⟨rfl, by decide⟩)

/-- Counterexample to claim C5 as stated (variant B), program
`MOVC R1,#5; LOAD R2,R0,#0; ADD R3,R1,R2; HALT`: at the start of cycle 4 the ADD, a consumer of
the R1 written by the MOVC (not a LOAD, now in MEM), is in a live DRF latch for the first
time, with the LOAD in EX; after that cycle the ADD is still in DRF, stalled, and EX holds a
BUBBLE: the consumer was not promoted in the first cycle Decode processed it. -/
theorem forwarding_consumer_stalled :
    (PartB.cycles 3 (PartB.initial prog_MOVC_LOAD_ADD 10 blank)).map
        (fun c => (c.DRF.opcode, c.DRF.rs1, c.DRF.busy, c.DRF.stalled, c.EX.opcode,
          c.MEM.opcode, c.MEM.rd))
      = some (.ADD, 1, false, false, .LOAD, .MOVC, 1) ∧
    (PartB.cycles 4 (PartB.initial prog_MOVC_LOAD_ADD 10 blank)).map
        (fun c => (c.DRF.opcode, c.DRF.stalled, c.EX.opcode))
      = some (.ADD, true, .BUBBLE) :=
  ⟨rfl, rfl⟩

/-- Claim C5, amended (variant B). When Decode processes a live DRF latch none of whose needed
source registers is the rd of a LOAD held in the EX latch (`stall cpu = false`), the
instruction is promoted to EX in that same cycle, and each source value it carries is the
`buffer` of the EX latch if the producer (a register-writing instruction) is held there, else
the `buffer` of the WB latch if the producer is held there and EX does not write the register,
else the register-file entry. -/
theorem forwarding_without_load_use (cpu : APEX_CPU) (db : cpu.DRF.busy = false)
    (ds : cpu.DRF.stalled = false) (hst : PartB.stall cpu = false) :
    (PartB.decode cpu).EX.opcode = cpu.DRF.opcode ∧ (PartB.decode cpu).EX.pc = cpu.DRF.pc ∧
    (PartB.decode cpu).EX.stalled = false ∧
    (cpu.DRF.opcode.reads_rs1 = true →
      (PartB.decode cpu).DRF.stalled = false ∧
      (cpu.EX.opcode.writes_rd = true → cpu.EX.rd = cpu.DRF.rs1 →
        cpu.EX.opcode ≠ .LOAD ∧ (PartB.decode cpu).EX.rs1_value = cpu.EX.buffer) ∧
      (PartB.src_in cpu.DRF.rs1 cpu.EX = false → cpu.WB.opcode.writes_rd = true →
        cpu.WB.rd = cpu.DRF.rs1 → (PartB.decode cpu).EX.rs1_value = cpu.WB.buffer) ∧
      (PartB.src_in cpu.DRF.rs1 cpu.EX = false → PartB.src_in cpu.DRF.rs1 cpu.WB = false →
        (PartB.decode cpu).EX.rs1_value = cpu.regs cpu.DRF.rs1)) ∧
    (cpu.DRF.opcode.reads_rs2 = true →
      (cpu.EX.opcode.writes_rd = true → cpu.EX.rd = cpu.DRF.rs2 →
        cpu.EX.opcode ≠ .LOAD ∧ (PartB.decode cpu).EX.rs2_value = cpu.EX.buffer) ∧
      (PartB.src_in cpu.DRF.rs2 cpu.EX = false → cpu.WB.opcode.writes_rd = true →
        cpu.WB.rd = cpu.DRF.rs2 → (PartB.decode cpu).EX.rs2_value = cpu.WB.buffer) ∧
      (PartB.src_in cpu.DRF.rs2 cpu.EX = false → PartB.src_in cpu.DRF.rs2 cpu.WB = false →
        (PartB.decode cpu).EX.rs2_value = cpu.regs cpu.DRF.rs2)) := by
  obtain ⟨a1, a2, -, a4, a5, a6, a7⟩ := PartB.decode_forwards cpu db ds hst
  simp only [PartB.stall, Bool.or_eq_false_iff, Bool.and_eq_false_iff] at hst
  refine ⟨a1, a2, a4, fun h => ⟨a5 h, fun hw hr => ?_, fun he hw hr => ?_, fun he hw => ?_⟩,
    fun h => ⟨fun hw hr => ?_, fun he hw hr => ?_, fun he hw => ?_⟩⟩
  · have s1 := PartB.src_in_of_writes_rd _ cpu.EX hw hr
    have l1 := hst.1
    simp [h, PartB.load_use, s1] at l1
    exact ⟨l1, by rw [a6 h]; simp [PartB.fwd, s1]⟩
  · rw [a6 h]; simp [PartB.fwd, he, PartB.src_in_of_writes_rd _ cpu.WB hw hr]
  · rw [a6 h]; simp [PartB.fwd, he, hw]
  · have s1 := PartB.src_in_of_writes_rd _ cpu.EX hw hr
    have l1 := hst.2
    simp [h, PartB.load_use, s1] at l1
    exact ⟨l1, by rw [a7 h]; simp [PartB.fwd, s1]⟩
  · rw [a7 h]; simp [PartB.fwd, he, PartB.src_in_of_writes_rd _ cpu.WB hw hr]
  · rw [a7 h]; simp [PartB.fwd, he, hw]

theorem forwarding_without_load_use_witness :
    PartB.fwd_state.DRF.opcode = .ADD ∧ PartB.fwd_state.EX.opcode = .MOVC ∧
    PartB.fwd_state.EX.buffer = 3 ∧
    (PartB.decode PartB.fwd_state).EX.opcode = PartB.fwd_state.DRF.opcode ∧
    (PartB.decode PartB.fwd_state).EX.rs1_value = PartB.fwd_state.EX.buffer ∧
    (PartB.decode PartB.fwd_state).EX.rs2_value = PartB.fwd_state.EX.buffer :=
  ⟨rfl, rfl, rfl, (forwarding_without_load_use PartB.fwd_state rfl rfl rfl).1,
   (((forwarding_without_load_use PartB.fwd_state rfl rfl rfl).2.2.2.1 rfl).2.1 rfl rfl).2,
   (((forwarding_without_load_use PartB.fwd_state rfl rfl rfl).2.2.2.2 rfl).1 rfl rfl).2⟩

/-- Claim C10 fails in the code (variant A), program
`MOVC R1,#0; ADD R2,R1,R1; MOVC R3,#1; ADD R4,R3,R3; BZ #8; MOVC R5,#1; HALT`: at the start
of cycle 11 the BZ is in a live EX latch while the `ADD R4` before it, whose result is 2, is
still in the MEM latch, and the architectural `z_flag` is the stale `true` of `ADD R2`; the
branch is taken and the run returns with `R4 = 2` but `R5 = 0`. -/
theorem BZ_tests_stale_Z :
    (PartA.cycles 10 (PartA.initial prog_stale_Z 100 blank)).map
        (fun c => (c.clock, c.EX.opcode, c.EX.busy, c.EX.stalled, c.MEM.opcode, c.MEM.rd,
          c.MEM.buffer, c.MEM.busy, c.MEM.stalled, c.z_flag))
      = some (11, .BZ, false, false, .ADD, 4, 2, false, false, true) ∧
    (PartA.cycles 11 (PartA.initial prog_stale_Z 100 blank)).map
        (fun c => (c.pc, c.DRF.opcode, c.EX.opcode))
      = some (4024, .BUBBLE, .BUBBLE) ∧
    (PartA.APEX_cpu_run 20 (PartA.initial prog_stale_Z 100 blank)).final.map
        (fun c => (c.regs 4, c.regs 5, c.clock))
      = some (2, 0, 17) :=
  ⟨rfl, rfl, rfl⟩

/-- Counterexample to claim C9 as stated (variant A), program
`MOVC R1,#1; MOVC R2,#2; ADD R1,R2,R2; HALT`: at the start of cycle 5 the two writers of R1
are both in flight, `MOVC R1` in the WB latch and `ADD R1` stalled in DRF, and
`regs_valid[1]` is false; during cycle 5 Writeback sets it to true although the ADD has not
retired (it is still in DRF at the end of the cycle). -/
theorem valid_set_while_later_writer_in_DRF :
    (PartA.cycles 4 (PartA.initial prog_two_writers 20 blank)).map
        (fun c => (c.WB.opcode, c.WB.rd, c.WB.busy, c.DRF.opcode, c.DRF.rd, c.DRF.busy,
          c.regs_valid 1))
      = some (.MOVC, 1, false, .ADD, 1, false, false) ∧
    (PartA.cycles 5 (PartA.initial prog_two_writers 20 blank)).map
        (fun c => (c.DRF.opcode, c.DRF.rd, c.DRF.stalled, c.regs_valid 1))
      = some (.ADD, 1, true, true) :=
  ⟨rfl, rfl⟩

/-- Claim C9, amended (variant A). In every run from the initial state, while a
register-writing instruction with destination `r` is held in the EX or the MEM latch,
`regs_valid[r]` is false at the start of the cycle, Writeback of that cycle (which may retire
an older writer of `r`) leaves it false, and it is still false at the end of the cycle. -/
theorem valid_stays_clear (code : List APEX_Instruction) (n : Int) (u : Uninit) (k : Nat)
    (s : APEX_CPU) (r : Int) (hr : PartA.cycles k (PartA.initial code n u) = some s)
    (hj : (s.EX.opcode.writes_rd = true ∧ s.EX.rd = r) ∨
          (s.MEM.opcode.writes_rd = true ∧ s.MEM.rd = r)) :
    s.regs_valid r = false ∧ (PartA.writeback s).regs_valid r = false ∧
    ∀ s', PartA.cycle s = some s' → s'.regs_valid r = false := by
  obtain ⟨hc, hp⟩ := PartA.reachable_pending code n u k s hr
  have h0 : s.regs_valid r = false := by
    rcases hj with ⟨a, b⟩ | ⟨a, b⟩
    · rw [← b]; exact hp.1 a
    · rw [← b]; exact hp.2 a
  refine ⟨h0, ?_, fun s' hcy => (PartA.cycle_pending s s' hc hp hcy).2 r hj⟩
  rw [PartA.writeback_valid s r hj]
  exact h0

theorem valid_stays_clear_witness :
    PartA.movc_state.EX.opcode = .MOVC ∧ PartA.movc_state.EX.rd = 1 ∧
    PartA.movc_state.regs_valid 1 = false ∧
    (PartA.writeback PartA.movc_state).regs_valid 1 = false ∧
    ∀ s', PartA.cycle PartA.movc_state = some s' → s'.regs_valid 1 = false :=
  ⟨rfl, rfl, valid_stays_clear prog_MOVC 10 blank 2 PartA.movc_state 1 rfl (Or.inl ⟨rfl, rfl⟩)⟩

end APEX


namespace APEX

/-- Counterexample to claim C11 as stated: scenario S1 with `a = 5`, `b = 7` in variant A
returns after 10 cycles with `ins_completed = 6`, while only 4 of the latches Writeback
processed held something other than a BUBBLE (the three instructions and the HALT); scenario
S3 with `v = 0` in variant B returns after 10 cycles with `ins_completed = 6`, 5 of the
latches being non-BUBBLE.  The BUBBLEs that reach Writeback are counted. -/
theorem bubbles_are_counted :
    (PartA.APEX_cpu_run 20 (PartA.initial (prog_S1 5 7) 100 blank)).final.map
        (fun c => c.ins_completed) = some 6 ∧
    PartA.iterations 20 (PartA.initial (prog_S1 5 7) 100 blank) = 10 ∧
    PartA.retired (fun o => decide (o ≠ .BUBBLE)) 10 (PartA.initial (prog_S1 5 7) 100 blank)
      = 4 ∧
    (PartB.APEX_cpu_run 20 (PartB.initial (prog_S3 0) 100 blank)).final.map
        (fun c => c.ins_completed) = some 6 ∧
    PartB.iterations 20 (PartB.initial (prog_S3 0) 100 blank) = 10 ∧
    PartB.retired (fun o => decide (o ≠ .BUBBLE)) 10 (PartB.initial (prog_S3 0) 100 blank)
      = 5 :=
  ⟨rfl, rfl, rfl, rfl, rfl, rfl⟩

/-- Claim C11, amended (both variants). For every program and every budget, when the run
loop returns (a run in which the Memory stage indexes `data_memory` outside its 4096 words
has no defined outcome and does not return here), `ins_completed` is its initial value plus
the number of latches Writeback has processed in the cycles of the run: those holding
something other than a BUBBLE (HALT included) and those holding a BUBBLE alike. -/
theorem ins_completed_counts_latches (code : List APEX_Instruction) (n : Int) (u : Uninit)
    (fuel : Nat) (final : APEX_CPU) :
    (PartA.APEX_cpu_run fuel (PartA.initial code n u) = .returned final →
      final.ins_completed = u.ins_completed +
        (PartA.retired (fun o => decide (o ≠ .BUBBLE))
          (PartA.iterations fuel (PartA.initial code n u)) (PartA.initial code n u) : Int) +
        (PartA.retired (fun o => decide (o = .BUBBLE))
          (PartA.iterations fuel (PartA.initial code n u)) (PartA.initial code n u) : Int)) ∧
    (PartB.APEX_cpu_run fuel (PartB.initial code n u) = .returned final →
      final.ins_completed = u.ins_completed +
        (PartB.retired (fun o => decide (o ≠ .BUBBLE))
          (PartB.iterations fuel (PartB.initial code n u)) (PartB.initial code n u) : Int) +
        (PartB.retired (fun o => decide (o = .BUBBLE))
          (PartB.iterations fuel (PartB.initial code n u)) (PartB.initial code n u) : Int)) := by
  constructor
  · intro h
    have hc := PartA.run_cycles fuel _ final h
    rw [PartA.cycles_retired _ _ final rfl hc, PartA.retired_split]
    push_cast
    show u.ins_completed + _ = _
    ring
  · intro h
    have hc := PartB.run_cycles_B fuel _ final h
    rw [PartB.cycles_retired_B _ _ final rfl hc, PartB.retired_split_B]
    push_cast
    show u.ins_completed + _ = _
    ring

theorem ins_completed_counts_latches_witness :
    PartA.S1_final.ins_completed = blank.ins_completed +
        (PartA.retired (fun o => decide (o ≠ .BUBBLE))
          (PartA.iterations 20 (PartA.initial (prog_S1 5 7) 100 blank))
          (PartA.initial (prog_S1 5 7) 100 blank) : Int) +
        (PartA.retired (fun o => decide (o = .BUBBLE))
          (PartA.iterations 20 (PartA.initial (prog_S1 5 7) 100 blank))
          (PartA.initial (prog_S1 5 7) 100 blank) : Int) ∧
    PartB.S3_final.ins_completed = blank.ins_completed +
        (PartB.retired (fun o => decide (o ≠ .BUBBLE))
          (PartB.iterations 20 (PartB.initial (prog_S3 0) 100 blank))
          (PartB.initial (prog_S3 0) 100 blank) : Int) +
        (PartB.retired (fun o => decide (o = .BUBBLE))
          (PartB.iterations 20 (PartB.initial (prog_S3 0) 100 blank))
          (PartB.initial (prog_S3 0) 100 blank) : Int) :=
  ⟨(ins_completed_counts_latches (prog_S1 5 7) 100 blank 20 PartA.S1_final).1 rfl,
   (ins_completed_counts_latches (prog_S3 0) 100 blank 20 PartB.S3_final).2 rfl⟩

/-- Claim C12 (both variants). `exception_handler 0` ends the process (`exit(1)`), and Execute
ends the process exactly when the EX latch it processes (neither busy nor stalled) holds a
LOAD whose address `rs1_value + imm`, or a STORE whose address `rs2_value + imm`, is below 0
or above 4096, the address being the `int` sum Execute stores in `mem_address`; no other
latch makes Execute end the process. -/
theorem address_fault_iff :
    exception_handler 0 = none ∧
    (∀ cpu : APEX_CPU, PartA.execute cpu = none ↔
      cpu.EX.busy = false ∧ cpu.EX.stalled = false ∧
      ((cpu.EX.opcode = .LOAD ∧ (wrap32 (cpu.EX.rs1_value + cpu.EX.imm) < 0 ∨
            wrap32 (cpu.EX.rs1_value + cpu.EX.imm) > 4096)) ∨
       (cpu.EX.opcode = .STORE ∧ (wrap32 (cpu.EX.rs2_value + cpu.EX.imm) < 0 ∨
            wrap32 (cpu.EX.rs2_value + cpu.EX.imm) > 4096)))) ∧
    (∀ cpu : APEX_CPU, PartB.execute cpu = none ↔
      cpu.EX.busy = false ∧ cpu.EX.stalled = false ∧
      ((cpu.EX.opcode = .LOAD ∧ (wrap32 (cpu.EX.rs1_value + cpu.EX.imm) < 0 ∨
            wrap32 (cpu.EX.rs1_value + cpu.EX.imm) > 4096)) ∨
       (cpu.EX.opcode = .STORE ∧ (wrap32 (cpu.EX.rs2_value + cpu.EX.imm) < 0 ∨
            wrap32 (cpu.EX.rs2_value + cpu.EX.imm) > 4096)))) :=
  ⟨rfl, PartA.fault_iff, PartB.fault_iff_B⟩

/-- Claim C13 fails in the code (both variants): for the two-instruction program
`MUL R1,R0,R0; HALT`, a straight-line program that ends with HALT, the third cycle reads
`code_memory[2]`, one past the HALT.  The MUL in Execute holds the HALT in Decode before
Decode has processed it, so Decode has not stalled Fetch yet, and Fetch reads on. -/
theorem fetch_past_HALT_behind_MUL :
    (PartA.cycles 2 (PartA.initial prog_MUL 20 blank)).bind PartA.fetch_reads = some 2 ∧
    (PartB.cycles 2 (PartB.initial prog_MUL 20 blank)).bind PartB.fetch_reads = some 2 ∧
    prog_MUL.length = 2 :=
  ⟨rfl, rfl, rfl⟩

/-- Counterexample to claim C16 as stated: scenario S4 ends in both variants with `R5 = 0`,
not 7.  The BZ at 4012 is taken to `4012 + 12 = 4024`, which is the HALT, so that
`MOVC R5,#7` at 4020 is skipped like `MOVC R4,#99` at 4016. -/
theorem S4_skips_both_MOVC :
    (PartA.APEX_cpu_run 20 (PartA.initial prog_S4 100 blank)).final.map
        (fun c => (c.regs 4, c.regs 5, c.z_flag)) = some (0, 0, true) ∧
    (PartB.APEX_cpu_run 20 (PartB.initial prog_S4 100 blank)).final.map
        (fun c => (c.regs 4, c.regs 5, c.z_flag)) = some (0, 0, true) :=
  ⟨rfl, rfl⟩

/-- Claim C16, amended (scenario S4, both variants). The program
`MOVC R1,#0; MOVC R2,#1; SUB R3,R1,R1; BZ #12; MOVC R4,#99; MOVC R5,#7; HALT`, run from the
initial state with a cycle budget of at least 13, whatever the uninitialised storage holds,
returns (variant A after 14 cycles, variant B after 11) with `R4 = 0`, `R5 = 0` and
`Z = 1`. -/
theorem S4_taken_branch (n : Int) (u : Uninit) (hn : 13 ≤ n) :
    (∃ final,
      (∀ fuel, PartA.APEX_cpu_run (14 + fuel) (PartA.initial prog_S4 n u) = .returned final) ∧
      final.regs 4 = 0 ∧ final.regs 5 = 0 ∧ final.z_flag = true) ∧
    (∃ final,
      (∀ fuel, PartB.APEX_cpu_run (11 + fuel) (PartB.initial prog_S4 n u) = .returned final) ∧
      final.regs 4 = 0 ∧ final.regs 5 = 0 ∧ final.z_flag = true) :=
  ⟨PartA.S4_run n u hn, PartB.S4_run_B n u (by omega)⟩

theorem S4_taken_branch_witness :
    (∃ final,
      (∀ fuel, PartA.APEX_cpu_run (14 + fuel) (PartA.initial prog_S4 20 blank) =
        .returned final) ∧
      final.regs 4 = 0 ∧ final.regs 5 = 0 ∧ final.z_flag = true) ∧
    (∃ final,
      (∀ fuel, PartB.APEX_cpu_run (11 + fuel) (PartB.initial prog_S4 20 blank) =
        .returned final) ∧
      final.regs 4 = 0 ∧ final.regs 5 = 0 ∧ final.z_flag = true) :=
  S4_taken_branch 20 blank (by decide)

/-- Counterexample to claim C17 as stated: with `a = 5`, `b = 7` (the witness of the claim)
variant A ends with `ins_completed = 6`, not 4, because Writeback also counts the two BUBBLEs
Decode inserts while the ADD waits for R1 and R2; and with `a = 2147483647`, `b = 1` the sum
wraps around, so that R3 is not `a + b`. -/
theorem S1_counts_six :
    (PartA.APEX_cpu_run 20 (PartA.initial (prog_S1 5 7) 100 blank)).final.map
        (fun c => (c.regs 1, c.regs 2, c.regs 3, c.z_flag, c.ins_completed))
      = some (5, 7, 12, false, 6) ∧
    (PartA.APEX_cpu_run 20 (PartA.initial (prog_S1 2147483647 1) 100 blank)).final.map
        (fun c => c.regs 3)
      = some (-2147483648) :=
  ⟨rfl, rfl⟩

/-- Claim C17, amended (scenario S1, both variants). For all C `int` literals `a` and `b`,
the program `MOVC R1,#a; MOVC R2,#b; ADD R3,R1,R2; HALT`, run from the initial state with
`ins_completed` starting at 0 and a cycle budget of at least 9, returns with `R1 = a`,
`R2 = b`, `R3 = a + b` with 32-bit wrap-around and `Z = (R3 == 0)`; `ins_completed` is 6 in
variant A (after 10 cycles) and 4 in variant B (after 8 cycles). -/
theorem S1_independent_chain (a b n : Int) (u : Uninit) (ha : in32 a) (hb : in32 b)
    (hu : ∀ x, in32 (u.data_tail x)) (hic : u.ins_completed = 0) (hn : 9 ≤ n) :
    (∃ final,
      (∀ fuel, PartA.APEX_cpu_run (10 + fuel) (PartA.initial (prog_S1 a b) n u) =
        .returned final) ∧
      final.regs 1 = a ∧ final.regs 2 = b ∧ final.regs 3 = wrap32 (a + b) ∧
      final.z_flag = decide (wrap32 (a + b) = 0) ∧ final.ins_completed = 6) ∧
    (∃ final,
      (∀ fuel, PartB.APEX_cpu_run (8 + fuel) (PartB.initial (prog_S1 a b) n u) =
        .returned final) ∧
      final.regs 1 = a ∧ final.regs 2 = b ∧ final.regs 3 = wrap32 (a + b) ∧
      final.z_flag = decide (wrap32 (a + b) = 0) ∧ final.ins_completed = 4) := by
  obtain ⟨r1, r2, r3, r4⟩ := S1_ref a b u
  constructor
  · obtain ⟨final, f1, f2, -, f4, f5⟩ :=
      @PartA.run_scenario (prog_S1 a b) n 3 u (S1_prog a b ha hb u hu) (S1_fine a b u) 6
        (by intro i hi; rw [(PartA.trace_congr (S1_shape a b)).2.1]
            interval_cases i <;> decide)
        (by rw [(PartA.trace_congr (S1_shape a b)).2.1]; decide) (by decide)
        (by rw [(PartA.trace_congr (S1_shape a b)).2.1]; decide) (by push_cast; omega)
    exact ⟨final, f1, by rw [f2]; exact r1, by rw [f2]; exact r2, by rw [f2]; exact r3,
      f4 _ r4, by rw [f5, hic]; rfl⟩
  · obtain ⟨final, f1, f2, -, f4, f5⟩ :=
      @PartB.run_scenario_B (prog_S1 a b) n 3 u (S1_prog a b ha hb u hu) (S1_fine a b u) 4
        (by intro i hi; rw [(PartB.trace_congr_B (S1_shape a b)).2.1]
            interval_cases i <;> decide)
        (by rw [(PartB.trace_congr_B (S1_shape a b)).2.1]; decide) (by decide)
        (by rw [(PartB.trace_congr_B (S1_shape a b)).2.1]; decide) (by push_cast; omega)
    exact ⟨final, f1, by rw [f2]; exact r1, by rw [f2]; exact r2, by rw [f2]; exact r3,
      f4 _ r4, by rw [f5, hic]; rfl⟩

theorem S1_independent_chain_witness :
    (∃ final,
      (∀ fuel, PartA.APEX_cpu_run (10 + fuel) (PartA.initial (prog_S1 5 7) 20 blank) =
        .returned final) ∧
      final.regs 1 = 5 ∧ final.regs 2 = 7 ∧ final.regs 3 = wrap32 (5 + 7) ∧
      final.z_flag = decide (wrap32 (5 + 7) = 0) ∧ final.ins_completed = 6) ∧
    (∃ final,
      (∀ fuel, PartB.APEX_cpu_run (8 + fuel) (PartB.initial (prog_S1 5 7) 20 blank) =
        .returned final) ∧
      final.regs 1 = 5 ∧ final.regs 2 = 7 ∧ final.regs 3 = wrap32 (5 + 7) ∧
      final.z_flag = decide (wrap32 (5 + 7) = 0) ∧ final.ins_completed = 4) :=
  S1_independent_chain 5 7 20 blank (by simp [in32]) (by simp [in32]) (by simp [blank, in32])
    rfl (by decide)

/-- Counterexample to claim C18 as stated: with `a = 1073741824` the sum `a + a` wraps
around, and both variants end with `R2 = -2147483648`, not `2a`. -/
theorem S2_sum_wraps :
    (PartA.APEX_cpu_run 20 (PartA.initial (prog_S2 1073741824) 100 blank)).final.map
        (fun c => (c.regs 2, c.regs 3, c.z_flag))
      = some (-2147483648, 1073741824, false) ∧
    (PartB.APEX_cpu_run 20 (PartB.initial (prog_S2 1073741824) 100 blank)).final.map
        (fun c => (c.regs 2, c.regs 3, c.z_flag))
      = some (-2147483648, 1073741824, false) :=
  ⟨rfl, rfl⟩

/-- Claim C18, amended (scenario S2). For every C `int` literal `a`, the program
`MOVC R1,#a; ADD R2,R1,R1; SUB R3,R2,R1; HALT`, run from the initial state with a cycle budget
of at least 11, returns in both variants with `R2 = 2a` with 32-bit wrap-around, `R3 = a` and
`Z = (a == 0)`; over the run of variant A (12 cycles) the SUB is held stalled in Decode at
the end of exactly 2 cycles, over the run of variant B (8 cycles) of none. -/
theorem S2_RAW_hazard (a n : Int) (u : Uninit) (ha : in32 a)
    (hu : ∀ x, in32 (u.data_tail x)) (hn : 11 ≤ n) :
    (∃ final,
      (∀ fuel, PartA.APEX_cpu_run (12 + fuel) (PartA.initial (prog_S2 a) n u) =
        .returned final) ∧
      final.regs 2 = wrap32 (2 * a) ∧ final.regs 3 = a ∧ final.z_flag = decide (a = 0)) ∧
    (∃ final,
      (∀ fuel, PartB.APEX_cpu_run (8 + fuel) (PartB.initial (prog_S2 a) n u) =
        .returned final) ∧
      final.regs 2 = wrap32 (2 * a) ∧ final.regs 3 = a ∧ final.z_flag = decide (a = 0)) ∧
    PartA.held .SUB 12 (PartA.initial (prog_S2 a) n u) = 2 ∧
    PartB.held .SUB 8 (PartB.initial (prog_S2 a) n u) = 0 := by
  obtain ⟨r1, r2, r3⟩ := S2_ref a ha u
  have hkA : ∀ i, i < 8 → (PartA.trace (prog_S2 a) i).d ≤ 3 := by
    intro i hi
    rw [(PartA.trace_congr (S2_shape a)).2.1]
    interval_cases i <;> decide
  have hkB : ∀ i, i < 4 → (PartB.trace (prog_S2 a) i).d ≤ 3 := by
    intro i hi
    rw [(PartB.trace_congr_B (S2_shape a)).2.1]
    interval_cases i <;> decide
  have h0A : (PartA.trace (prog_S2 a) 8).d = 3 + 1 := by
    rw [(PartA.trace_congr (S2_shape a)).2.1]; decide
  have h0B : (PartB.trace (prog_S2 a) 4).d = 3 + 1 := by
    rw [(PartB.trace_congr_B (S2_shape a)).2.1]; decide
  refine ⟨?_, ?_, ?_, ?_⟩
  · obtain ⟨final, f1, f2, -, f4, -⟩ :=
      @PartA.run_scenario (prog_S2 a) n 3 u (S2_prog a ha u hu) (S2_fine a u) 8 hkA h0A
        (by decide) (by rw [(PartA.trace_congr (S2_shape a)).2.1]; decide)
        (by push_cast; omega)
    exact ⟨final, f1, by rw [f2]; exact r1, by rw [f2]; exact r2, f4 _ r3⟩
  · obtain ⟨final, f1, f2, -, f4, -⟩ :=
      @PartB.run_scenario_B (prog_S2 a) n 3 u (S2_prog a ha u hu) (S2_fine a u) 4 hkB h0B
        (by decide) (by rw [(PartB.trace_congr_B (S2_shape a)).2.1]; decide)
        (by push_cast; omega)
    exact ⟨final, f1, by rw [f2]; exact r1, by rw [f2]; exact r2, f4 _ r3⟩
  · have := @PartA.held_exact (prog_S2 a) n 3 u (S2_prog a ha u hu) (S2_fine a u)
      (S2_side a).1 (S2_side a).2 .SUB (by decide) 8 hkA h0A
    rw [(PartA.trace_congr (S2_shape a)).2.2] at this
    exact this
  · have := @PartB.held_exact_B (prog_S2 a) n 3 u (S2_prog a ha u hu) (S2_fine a u)
      (S2_side a).1 (S2_side a).2 .SUB (by decide) 4 hkB h0B
    rw [(PartB.trace_congr_B (S2_shape a)).2.2] at this
    exact this

theorem S2_RAW_hazard_witness :
    (∃ final,
      (∀ fuel, PartA.APEX_cpu_run (12 + fuel) (PartA.initial (prog_S2 10) 20 blank) =
        .returned final) ∧
      final.regs 2 = wrap32 (2 * 10) ∧ final.regs 3 = 10 ∧
      final.z_flag = decide ((10 : Int) = 0)) ∧
    (∃ final,
      (∀ fuel, PartB.APEX_cpu_run (8 + fuel) (PartB.initial (prog_S2 10) 20 blank) =
        .returned final) ∧
      final.regs 2 = wrap32 (2 * 10) ∧ final.regs 3 = 10 ∧
      final.z_flag = decide ((10 : Int) = 0)) ∧
    PartA.held .SUB 12 (PartA.initial (prog_S2 10) 20 blank) = 2 ∧
    PartB.held .SUB 8 (PartB.initial (prog_S2 10) 20 blank) = 0 :=
  S2_RAW_hazard 10 20 blank (by simp [in32]) (by simp [blank, in32]) (by decide)

/-- Claim C19 (scenario S3). For every literal `v` with `0 <= v` and `v + 40 <= 4095`, the
program `MOVC R1,#v; STORE R1,R1,#40; LOAD R2,R1,#40; ADD R3,R2,R2; HALT`, run from the initial
state with a cycle budget of at least 12, returns in both variants with `mem[v+40] = v`,
`R2 = v`, `R3 = 2v` and `Z = (v == 0)`; over the run of variant B (10 cycles) the ADD is held
stalled in Decode at the end of exactly one cycle. -/
theorem S3_LOAD_use (v n : Int) (u : Uninit) (h0 : 0 ≤ v) (h1 : v + 40 ≤ 4095)
    (hu : ∀ x, in32 (u.data_tail x)) (hn : 12 ≤ n) :
    (∃ final,
      (∀ fuel, PartA.APEX_cpu_run (13 + fuel) (PartA.initial (prog_S3 v) n u) =
        .returned final) ∧
      final.data_memory (v + 40) = v ∧ final.regs 2 = v ∧ final.regs 3 = 2 * v ∧
      final.z_flag = decide (v = 0)) ∧
    (∃ final,
      (∀ fuel, PartB.APEX_cpu_run (10 + fuel) (PartB.initial (prog_S3 v) n u) =
        .returned final) ∧
      final.data_memory (v + 40) = v ∧ final.regs 2 = v ∧ final.regs 3 = 2 * v ∧
      final.z_flag = decide (v = 0)) ∧
    PartB.held .ADD 10 (PartB.initial (prog_S3 v) n u) = 1 := by
  have hv : in32 v := ⟨by omega, by omega⟩
  obtain ⟨r1, r2, r3, r4⟩ := S3_ref v h0 h1 u
  have hkB : ∀ i, i < 6 → (PartB.trace (prog_S3 v) i).d ≤ 4 := by
    intro i hi
    rw [(PartB.trace_congr_B (S3_shape v)).2.1]
    interval_cases i <;> decide
  have h0B : (PartB.trace (prog_S3 v) 6).d = 4 + 1 := by
    rw [(PartB.trace_congr_B (S3_shape v)).2.1]; decide
  refine ⟨?_, ?_, ?_⟩
  · obtain ⟨final, f1, f2, f3, f4, -⟩ :=
      @PartA.run_scenario (prog_S3 v) n 4 u (S3_prog v hv u hu) (S3_fine v h0 h1 u) 9
        (by intro i hi; rw [(PartA.trace_congr (S3_shape v)).2.1]
            interval_cases i <;> decide)
        (by rw [(PartA.trace_congr (S3_shape v)).2.1]; decide) (by decide)
        (by rw [(PartA.trace_congr (S3_shape v)).2.1]; decide) (by push_cast; omega)
    exact ⟨final, f1, by rw [f3]; exact r1, by rw [f2]; exact r2, by rw [f2]; exact r3,
      f4 _ r4⟩
  · obtain ⟨final, f1, f2, f3, f4, -⟩ :=
      @PartB.run_scenario_B (prog_S3 v) n 4 u (S3_prog v hv u hu) (S3_fine v h0 h1 u) 6
        hkB h0B (by decide) (by rw [(PartB.trace_congr_B (S3_shape v)).2.1]; decide)
        (by push_cast; omega)
    exact ⟨final, f1, by rw [f3]; exact r1, by rw [f2]; exact r2, by rw [f2]; exact r3,
      f4 _ r4⟩
  · have := @PartB.held_exact_B (prog_S3 v) n 4 u (S3_prog v hv u hu) (S3_fine v h0 h1 u)
      (S3_side v).1 (S3_side v).2 .ADD (by decide) 6 hkB h0B
    rw [(PartB.trace_congr_B (S3_shape v)).2.2] at this
    exact this

theorem S3_LOAD_use_witness :
    (∃ final,
      (∀ fuel, PartA.APEX_cpu_run (13 + fuel) (PartA.initial (prog_S3 0) 20 blank) =
        .returned final) ∧
      final.data_memory (0 + 40) = 0 ∧ final.regs 2 = 0 ∧ final.regs 3 = 2 * 0 ∧
      final.z_flag = decide ((0 : Int) = 0)) ∧
    (∃ final,
      (∀ fuel, PartB.APEX_cpu_run (10 + fuel) (PartB.initial (prog_S3 0) 20 blank) =
        .returned final) ∧
      final.data_memory (0 + 40) = 0 ∧ final.regs 2 = 0 ∧ final.regs 3 = 2 * 0 ∧
      final.z_flag = decide ((0 : Int) = 0)) ∧
    PartB.held .ADD 10 (PartB.initial (prog_S3 0) 20 blank) = 1 :=
  S3_LOAD_use 0 20 blank (by decide) (by decide) (by simp [blank, in32]) (by decide)

/-- Claim C20 (scenario S6, both variants). For all C `int` literals `a` and `b`, the
program `MOVC R1,#a; MOVC R2,#b; MUL R3,R1,R2; ADD R4,R3,R3; HALT`, run from the initial state
with a cycle budget of at least 13, returns with `R3 = a*b` and `R4 = 2*a*b`, both with 32-bit
wrap-around. -/
theorem S6_MUL_latency (a b n : Int) (u : Uninit) (ha : in32 a) (hb : in32 b)
    (hu : ∀ x, in32 (u.data_tail x)) (hn : 13 ≤ n) :
    (∃ final,
      (∀ fuel, PartA.APEX_cpu_run (14 + fuel) (PartA.initial (prog_S6 a b) n u) =
        .returned final) ∧
      final.regs 3 = wrap32 (a * b) ∧ final.regs 4 = wrap32 (2 * a * b)) ∧
    (∃ final,
      (∀ fuel, PartB.APEX_cpu_run (10 + fuel) (PartB.initial (prog_S6 a b) n u) =
        .returned final) ∧
      final.regs 3 = wrap32 (a * b) ∧ final.regs 4 = wrap32 (2 * a * b)) := by
  obtain ⟨r1, r2⟩ := S6_ref a b u
  constructor
  · obtain ⟨final, f1, f2, -, -, -⟩ :=
      @PartA.run_scenario (prog_S6 a b) n 4 u (S6_prog a b ha hb u hu) (S6_fine a b u) 10
        (by intro i hi; rw [(PartA.trace_congr (S6_shape a b)).2.1]
            interval_cases i <;> decide)
        (by rw [(PartA.trace_congr (S6_shape a b)).2.1]; decide) (by decide)
        (by rw [(PartA.trace_congr (S6_shape a b)).2.1]; decide) (by push_cast; omega)
    exact ⟨final, f1, by rw [f2]; exact r1, by rw [f2]; exact r2⟩
  · obtain ⟨final, f1, f2, -, -, -⟩ :=
      @PartB.run_scenario_B (prog_S6 a b) n 4 u (S6_prog a b ha hb u hu) (S6_fine a b u) 6
        (by intro i hi; rw [(PartB.trace_congr_B (S6_shape a b)).2.1]
            interval_cases i <;> decide)
        (by rw [(PartB.trace_congr_B (S6_shape a b)).2.1]; decide) (by decide)
        (by rw [(PartB.trace_congr_B (S6_shape a b)).2.1]; decide) (by push_cast; omega)
    exact ⟨final, f1, by rw [f2]; exact r1, by rw [f2]; exact r2⟩

theorem S6_MUL_latency_witness :
    (∃ final,
      (∀ fuel, PartA.APEX_cpu_run (14 + fuel) (PartA.initial (prog_S6 3 4) 20 blank) =
        .returned final) ∧
      final.regs 3 = wrap32 (3 * 4) ∧ final.regs 4 = wrap32 (2 * 3 * 4)) ∧
    (∃ final,
      (∀ fuel, PartB.APEX_cpu_run (10 + fuel) (PartB.initial (prog_S6 3 4) 20 blank) =
        .returned final) ∧
      final.regs 3 = wrap32 (3 * 4) ∧ final.regs 4 = wrap32 (2 * 3 * 4)) :=
  S6_MUL_latency 3 4 20 blank (by simp [in32]) (by simp [in32]) (by simp [blank, in32])
    (by decide)

end APEX

namespace APEX

/-- Claim C21 fails in the code (both variants): the guard of `APEX_cpu_init` returns null
only when the file path, the function selector and the cycle count are missing all three
together.  With a file path and a function selector present and the cycle count 0, the
initialiser returns a simulator (with budget 0) for whatever program the parser yields; with
the function selector alone missing it goes on to `strcmp(function, "simulate")` on the null
pointer, which is no null return. -/
theorem init_guard_wants_all_three_missing :
    (∀ (f g : String) (code : List APEX_Instruction) (u : Uninit),
      PartA.APEX_cpu_init (some f) (some g) 0 (parser_of code) u
        = .simulator (PartA.initial code 0 u) ∧
      PartB.APEX_cpu_init (some f) (some g) 0 (parser_of code) u
        = .simulator (PartB.initial code 0 u)) ∧
    (∀ (f : String) (n : Int) (code : List APEX_Instruction) (u : Uninit),
      PartA.APEX_cpu_init (some f) none n (parser_of code) u = .undefined ∧
      PartB.APEX_cpu_init (some f) none n (parser_of code) u = .undefined) ∧
    (∀ (create_code_memory : Option String → Option (List APEX_Instruction)) (u : Uninit),
      PartA.APEX_cpu_init none none 0 create_code_memory u = .null ∧
      PartB.APEX_cpu_init none none 0 create_code_memory u = .null) ∧
    PartA.APEX_cpu_init (some "input.asm") (some "simulate") 0 (parser_of prog_HALT) blank
      = .simulator (PartA.initial prog_HALT 0 blank) ∧
    PartB.APEX_cpu_init (some "input.asm") (some "simulate") 0 (parser_of prog_HALT) blank
      = .simulator (PartB.initial prog_HALT 0 blank) :=
  ⟨fun _ _ _ _ => ⟨rfl, rfl⟩, fun _ _ _ _ => ⟨rfl, rfl⟩, fun _ _ => ⟨rfl, rfl⟩, rfl, rfl⟩

/-- Claim C22 fails in the code (variant B), program
`MOVC R1,#0; SUB R3,R1,R1; MOVC R4,#1; MOVC R5,#1; BZ #8; MOVC R6,#1; HALT`: Fetch reads the
BZ in cycle 5 and copies the architectural `z_flag`, then `false`, into the latch; in cycle 6
Writeback retires the SUB (result 0) and sets `z_flag`, and when Decode processes the BZ the
EX and WB latches hold the two MOVC, so the BZ keeps the copy taken in Fetch: it enters
Execute with the snapshot `false` while the architectural flag is `true`.  The branch is not
taken and the run ends with `R6 = 1`. -/
theorem BZ_keeps_fetch_time_Z :
    (PartB.cycles 5 (PartB.initial prog_late_Z 100 blank)).map
        (fun c => (c.clock, c.DRF.opcode, c.DRF.busy, c.DRF.stalled, c.DRF.z_flag,
          c.WB.opcode, c.WB.buffer, c.WB.busy, c.WB.stalled, c.z_flag))
      = some (6, .BZ, false, false, false, .SUB, 0, false, false, false) ∧
    (PartB.late_Z_state.DRF.opcode, PartB.late_Z_state.DRF.busy, PartB.late_Z_state.DRF.stalled,
      PartB.late_Z_state.EX.opcode, PartB.late_Z_state.WB.opcode,
      PartB.late_Z_state.DRF.z_flag, PartB.late_Z_state.z_flag)
      = (.BZ, false, false, .MOVC, .MOVC, false, true) ∧
    ((PartB.decode PartB.late_Z_state).EX.opcode, (PartB.decode PartB.late_Z_state).EX.z_flag,
      (PartB.decode PartB.late_Z_state).z_flag) = (.BZ, false, true) ∧
    (PartB.APEX_cpu_run 30 (PartB.initial prog_late_Z 100 blank)).final.map
        (fun c => (c.regs 3, c.regs 6, c.z_flag, c.clock))
      = some (0, 1, true, 12) :=
  ⟨rfl, rfl, rfl, rfl⟩

/-- Claim C23 (variant B). `get_source_values` is the reference resolver of the
specification: for `rs1`, and for `rs2` when `rs2_exist`, the source value becomes
`EX.buffer` if the EX latch is a writer of the source other than a LOAD; if it is a LOAD
writing the source, the DRF latch is marked stalled and the value stays; otherwise the value
becomes `WB.buffer` if the WB latch is a writer of the source, and `regs[s]` if not.  The two
states are equal, so nothing but `rs1_value`, `rs2_value` and `stalled` of the DRF latch
changes: registers, data memory and the other latches are as before. -/
theorem get_source_values_is_reference (cpu : APEX_CPU) (rs2_exist : Bool) :
    PartB.get_source_values cpu rs2_exist = PartB.reference_resolver cpu rs2_exist ∧
    (PartB.get_source_values cpu rs2_exist).regs = cpu.regs ∧
    (PartB.get_source_values cpu rs2_exist).data_memory = cpu.data_memory ∧
    (PartB.get_source_values cpu rs2_exist).F = cpu.F ∧
    (PartB.get_source_values cpu rs2_exist).EX = cpu.EX ∧
    (PartB.get_source_values cpu rs2_exist).MEM = cpu.MEM ∧
    (PartB.get_source_values cpu rs2_exist).WB = cpu.WB := by
  have hw : ∀ s L, PartB.reference_writer s L = PartB.src_in s L := by
    intro s L
    unfold PartB.reference_writer PartB.src_in
    cases L.opcode <;> simp [eq_comm]
  have hsrc : ∀ s, PartB.reference_source cpu s =
      if PartB.load_use cpu s then none else some (PartB.fwd cpu s) := by
    intro s
    unfold PartB.reference_source PartB.load_use PartB.fwd
    rw [hw, hw]
    cases PartB.src_in s cpu.EX <;> cases PartB.src_in s cpu.WB <;>
      by_cases h : cpu.EX.opcode = .LOAD <;> simp [h]
  have e : PartB.get_source_values cpu rs2_exist = PartB.reference_resolver cpu rs2_exist := by
    rw [PartB.get_source_values_eq_B]
    unfold PartB.reference_resolver
    rw [hsrc, hsrc]
    cases PartB.load_use cpu cpu.DRF.rs1 <;> cases PartB.load_use cpu cpu.DRF.rs2 <;>
      cases rs2_exist <;> simp
  refine ⟨e, ?_, ?_, ?_, ?_, ?_, ?_⟩ <;> rw [e] <;> rfl

/-- Claim C24 (variant A). Decode of a non-busy, non-stalled DRF latch stalls exactly when
a source the opcode requires is not valid (`source_invalid`: `regs_valid[rs1]` or
`regs_valid[rs2]` false for ADD, SUB, MUL, AND, OR, EX-OR, STORE; `regs_valid[rs1]` false for
LOAD, JUMP; `z_flag_valid` false for BZ, BNZ; never for MOVC).  When it stalls it sets
`DRF.stalled`, writes BUBBLE and `pc = 0` into the EX latch, keeps every other field of the
DRF latch and leaves `regs_valid` as it is.  When it does not stall, the EX latch becomes
the DRF latch with `regs[rs1]`, `regs[rs2]` copied into the source values the opcode reads,
`regs_valid[rd]` is cleared for the writing opcodes and for no other, and DRF is left
unstalled, except for a HALT, which needs no source, goes to EX and then marks DRF stalled. -/
theorem decode_stalls_iff_source_invalid (cpu : APEX_CPU) (hb : cpu.DRF.busy = false)
    (hs : cpu.DRF.stalled = false) :
    (PartA.source_invalid cpu = true →
      (PartA.decode cpu).DRF = { cpu.DRF with stalled := true } ∧
      (PartA.decode cpu).EX = { cpu.EX with opcode := .BUBBLE, pc := 0 } ∧
      (PartA.decode cpu).regs_valid = cpu.regs_valid) ∧
    (PartA.source_invalid cpu = false →
      (PartA.decode cpu).EX =
        { cpu.DRF with
          rs1_value := if cpu.DRF.opcode.reads_rs1 then cpu.regs cpu.DRF.rs1
                       else cpu.DRF.rs1_value
          rs2_value := if cpu.DRF.opcode.reads_rs2 then cpu.regs cpu.DRF.rs2
                       else cpu.DRF.rs2_value } ∧
      (PartA.decode cpu).regs_valid =
        (if cpu.DRF.opcode.writes_rd then write cpu.regs_valid cpu.DRF.rd false
         else cpu.regs_valid) ∧
      (PartA.decode cpu).DRF.stalled = decide (cpu.DRF.opcode = .HALT)) ∧
    (PartA.source_invalid cpu =
      match cpu.DRF.opcode with
      | .ADD | .SUB | .MUL | .AND | .OR | .EXOR | .STORE =>
          !cpu.regs_valid cpu.DRF.rs1 || !cpu.regs_valid cpu.DRF.rs2
      | .LOAD | .JUMP => !cpu.regs_valid cpu.DRF.rs1
      | .BZ | .BNZ => !cpu.z_flag_valid
      | _ => false) := by
  have hr : PartA.ready cpu = !PartA.source_invalid cpu := by
    unfold PartA.ready PartA.source_invalid
    cases cpu.DRF.opcode <;>
      simp [Opcode.reads_rs1, Opcode.reads_rs2, Opcode.is_cond_branch]
  have hd := PartA.decode_live cpu hb hs
  refine ⟨fun h => ?_, fun h => ?_, rfl⟩
  · rw [h] at hr
    rw [hr] at hd
    simp only [Bool.not_true, Bool.false_eq_true, if_false] at hd
    rw [hd]
    exact ⟨rfl, rfl, rfl⟩
  · rw [h] at hr
    rw [hr] at hd
    simp only [Bool.not_false, if_true] at hd
    rw [hd]
    exact ⟨rfl, rfl, rfl⟩

theorem decode_stalls_iff_source_invalid_witness :
    PartA.add_waits_state.DRF.opcode = .ADD ∧
    PartA.add_waits_state.regs_valid PartA.add_waits_state.DRF.rs1 = false ∧
    (PartA.decode PartA.add_waits_state).DRF = { PartA.add_waits_state.DRF with stalled := true } ∧
    (PartA.decode PartA.add_waits_state).EX
      = { PartA.add_waits_state.EX with opcode := .BUBBLE, pc := 0 } ∧
    (PartA.decode PartA.add_waits_state).regs_valid = PartA.add_waits_state.regs_valid ∧
    (PartA.decode PartA.movc_state).EX.opcode = .HALT ∧
    (PartA.decode PartA.movc_state).DRF.stalled = true :=
  ⟨rfl, rfl, ((decode_stalls_iff_source_invalid PartA.add_waits_state rfl rfl).1 rfl).1,
   ((decode_stalls_iff_source_invalid PartA.add_waits_state rfl rfl).1 rfl).2.1,
   ((decode_stalls_iff_source_invalid PartA.add_waits_state rfl rfl).1 rfl).2.2,
   by rw [((decode_stalls_iff_source_invalid PartA.movc_state rfl rfl).2.1 rfl).1]; rfl,
   by rw [((decode_stalls_iff_source_invalid PartA.movc_state rfl rfl).2.1 rfl).2.2]; rfl⟩

/-- Claim C25 fails in the code (variant A), program `MOVC R0,#1; HALT`: after four cycles
the MOVC is in a live WB latch and the EX and MEM latches hold the HALT, no writer opcode,
with `rd = 0`; Writeback leaves `regs_valid[0]` false, and it is still false when the run
returns. -/
theorem HALT_shadows_retiring_MOVC :
    PartA.cycles 4 (PartA.initial prog_MOVC_R0 10 blank) = some PartA.movc_retires_state ∧
    (PartA.movc_retires_state.WB.opcode, PartA.movc_retires_state.WB.rd,
      PartA.movc_retires_state.WB.busy, PartA.movc_retires_state.WB.stalled)
      = (.MOVC, 0, false, false) ∧
    (PartA.movc_retires_state.EX.opcode, PartA.movc_retires_state.EX.rd,
      PartA.movc_retires_state.MEM.opcode, PartA.movc_retires_state.MEM.rd)
      = (.HALT, 0, .HALT, 0) ∧
    PartA.movc_retires_state.EX.opcode.spec_writer = false ∧
    PartA.movc_retires_state.MEM.opcode.spec_writer = false ∧
    PartA.movc_retires_state.regs_valid 0 = false ∧
    (PartA.writeback PartA.movc_retires_state).regs_valid 0 = false ∧
    (PartA.APEX_cpu_run 20 (PartA.initial prog_MOVC_R0 10 blank)).final.map
        (fun c => (c.regs 0, c.regs_valid 0)) = some (1, false) :=
  ⟨rfl, rfl, rfl, rfl, rfl, rfl, rfl, rfl⟩

/-- Claim C26 (variant A). When Writeback retires an ADD, SUB or MUL and neither the EX
latch nor the MEM latch holds an ADD, SUB or MUL, it sets `z_flag = (buffer == 0)` and
`z_flag_valid = true`; when one of the two latches does hold one, it leaves `z_flag` and
`z_flag_valid` as they are; and for every other opcode in the WB latch (and for a latch that
is busy or stalled) Writeback leaves both as they are. -/
theorem writeback_Z_update (cpu : APEX_CPU) :
    (cpu.WB.busy = false → cpu.WB.stalled = false → cpu.WB.opcode.sets_z = true →
      cpu.EX.opcode.sets_z = false → cpu.MEM.opcode.sets_z = false →
      (PartA.writeback cpu).z_flag = decide (cpu.WB.buffer = 0) ∧
      (PartA.writeback cpu).z_flag_valid = true) ∧
    (cpu.EX.opcode.sets_z = true ∨ cpu.MEM.opcode.sets_z = true →
      (PartA.writeback cpu).z_flag = cpu.z_flag ∧
      (PartA.writeback cpu).z_flag_valid = cpu.z_flag_valid) ∧
    (cpu.WB.opcode.sets_z = false →
      (PartA.writeback cpu).z_flag = cpu.z_flag ∧
      (PartA.writeback cpu).z_flag_valid = cpu.z_flag_valid) ∧
    (cpu.WB.busy = true ∨ cpu.WB.stalled = true →
      (PartA.writeback cpu).z_flag = cpu.z_flag ∧
      (PartA.writeback cpu).z_flag_valid = cpu.z_flag_valid) := by
  have idle : cpu.WB.busy = true ∨ cpu.WB.stalled = true →
      (PartA.writeback cpu).z_flag = cpu.z_flag ∧
      (PartA.writeback cpu).z_flag_valid = cpu.z_flag_valid := by
    intro h
    rw [PartA.writeback_idle cpu h]
    exact ⟨rfl, rfl⟩
  refine ⟨fun hb hs hw he hm => ?_, fun h => ?_, fun hw => ?_, idle⟩
  · rw [PartA.writeback_live cpu hb hs]
    simp [PartA.no_later_arith, hw, he, hm]
  · by_cases hl : cpu.WB.busy = false ∧ cpu.WB.stalled = false
    · rw [PartA.writeback_live cpu hl.1 hl.2]
      rcases h with h | h <;> simp [PartA.no_later_arith, h]
    · apply idle
      by_contra hc
      exact hl ⟨by simpa using fun e => hc (Or.inl e), by simpa using fun e => hc (Or.inr e)⟩
  · by_cases hl : cpu.WB.busy = false ∧ cpu.WB.stalled = false
    · rw [PartA.writeback_live cpu hl.1 hl.2]
      simp [hw]
    · apply idle
      by_contra hc
      exact hl ⟨by simpa using fun e => hc (Or.inl e), by simpa using fun e => hc (Or.inr e)⟩

theorem writeback_Z_update_witness :
    PartA.add_retires_state.WB.opcode = .ADD ∧ PartA.add_retires_state.WB.buffer = 6 ∧
    PartA.add_retires_state.z_flag_valid = false ∧
    (PartA.writeback PartA.add_retires_state).z_flag = decide ((6 : Int) = 0) ∧
    (PartA.writeback PartA.add_retires_state).z_flag_valid = true :=
  ⟨rfl, rfl, rfl, ((writeback_Z_update PartA.add_retires_state).1 rfl rfl rfl rfl rfl).1,
   ((writeback_Z_update PartA.add_retires_state).1 rfl rfl rfl rfl rfl).2⟩

/-- Claim C27 fails in the code (variant B), program
`MOVC R1,#0; MOVC R2,#1; ADD R3,R1,R1; ADD R4,R2,R2; HALT`: after six cycles `ADD R3`, with
result 0, is in a live WB latch while the later `ADD R4` is in the MEM latch, and the
architectural `z_flag` is false; Writeback does not skip the update, it sets `z_flag`. -/
theorem Z_update_not_skipped :
    PartB.cycles 6 (PartB.initial prog_two_ADD 100 blank) = some PartB.two_ADD_state ∧
    (PartB.two_ADD_state.WB.opcode, PartB.two_ADD_state.WB.rd, PartB.two_ADD_state.WB.buffer,
      PartB.two_ADD_state.WB.busy, PartB.two_ADD_state.WB.stalled) = (.ADD, 3, 0, false, false) ∧
    (PartB.two_ADD_state.MEM.opcode, PartB.two_ADD_state.MEM.rd) = (.ADD, 4) ∧
    PartB.two_ADD_state.z_flag = false ∧
    (PartB.writeback PartB.two_ADD_state).z_flag = true :=
  ⟨rfl, rfl, rfl, rfl, rfl⟩

/-- Claim C27, amended (variant B). When Writeback retires an ADD, SUB or MUL it sets
`z_flag = (buffer == 0)`, whether or not a later ADD, SUB or MUL is present in the EX or MEM
latch; for every other opcode it leaves `z_flag` as it is. -/
theorem writeback_Z_always_B (cpu : APEX_CPU) (hb : cpu.WB.busy = false)
    (hs : cpu.WB.stalled = false) :
    (cpu.WB.opcode.sets_z = true → (PartB.writeback cpu).z_flag = decide (cpu.WB.buffer = 0)) ∧
    (cpu.WB.opcode.sets_z = false → (PartB.writeback cpu).z_flag = cpu.z_flag) := by
  rw [PartB.writeback_live_B cpu hb hs]
  constructor <;> intro h <;> simp [h]

theorem writeback_Z_always_B_witness :
    PartB.two_ADD_state.MEM.opcode.sets_z = true ∧
    (PartB.writeback PartB.two_ADD_state).z_flag = decide (PartB.two_ADD_state.WB.buffer = 0) :=
  ⟨rfl, (writeback_Z_always_B PartB.two_ADD_state rfl rfl).1 rfl⟩

/-- Claim C28 (both variants). With counting mode disabled, `control_flow` changes exactly
this: the opcode of the DRF latch becomes BUBBLE and its `pc` 0; the opcode of the Fetch
latch becomes BUBBLE, its `pc` 0 and its stalled bit true; the architectural `pc` becomes
`EX.buffer`.  Registers, validity bits, Z flag, data memory, the cycle budget and the EX,
MEM and WB latches are as before. -/
theorem control_flow_effect (cpu : APEX_CPU) (hc : cpu.ENABLE_COUNTING = false) :
    PartA.control_flow cpu =
      { cpu with
        pc := cpu.EX.buffer
        F := { cpu.F with opcode := .BUBBLE, pc := 0, stalled := true }
        DRF := { cpu.DRF with opcode := .BUBBLE, pc := 0 } } ∧
    PartB.control_flow cpu =
      { cpu with
        pc := cpu.EX.buffer
        F := { cpu.F with opcode := .BUBBLE, pc := 0, stalled := true }
        DRF := { cpu.DRF with opcode := .BUBBLE, pc := 0 } } ∧
    ((PartA.control_flow cpu).regs = cpu.regs ∧
      (PartA.control_flow cpu).regs_valid = cpu.regs_valid ∧
      (PartA.control_flow cpu).z_flag_valid = cpu.z_flag_valid ∧
      (PartA.control_flow cpu).z_flag = cpu.z_flag ∧
      (PartA.control_flow cpu).data_memory = cpu.data_memory ∧
      (PartA.control_flow cpu).code_memory_size = cpu.code_memory_size ∧
      (PartA.control_flow cpu).EX = cpu.EX ∧ (PartA.control_flow cpu).MEM = cpu.MEM ∧
      (PartA.control_flow cpu).WB = cpu.WB) ∧
    ((PartB.control_flow cpu).regs = cpu.regs ∧
      (PartB.control_flow cpu).z_flag = cpu.z_flag ∧
      (PartB.control_flow cpu).data_memory = cpu.data_memory ∧
      (PartB.control_flow cpu).code_memory_size = cpu.code_memory_size ∧
      (PartB.control_flow cpu).EX = cpu.EX ∧ (PartB.control_flow cpu).MEM = cpu.MEM ∧
      (PartB.control_flow cpu).WB = cpu.WB) := by
  have a := PartA.control_flow_eq cpu hc
  have b := PartB.control_flow_eq_B cpu hc
  refine ⟨a, b, ?_, ?_⟩
  · rw [a]
    exact ⟨rfl, rfl, rfl, rfl, rfl, rfl, rfl, rfl, rfl⟩
  · rw [b]
    exact ⟨rfl, rfl, rfl, rfl, rfl, rfl, rfl⟩

theorem control_flow_effect_witness :
    PartA.jump_state.EX.buffer = 0 ∧
    PartA.control_flow PartA.jump_state =
      { PartA.jump_state with
        pc := PartA.jump_state.EX.buffer
        F := { PartA.jump_state.F with opcode := .BUBBLE, pc := 0, stalled := true }
        DRF := { PartA.jump_state.DRF with opcode := .BUBBLE, pc := 0 } } :=
  ⟨rfl, (control_flow_effect PartA.jump_state rfl).1⟩

/-- Claim C29 (both variants). On a live EX latch Execute resolves control flow as
follows.  A JUMP is always taken, with target `rs1_value + imm`.  A BZ is taken iff Z is
true and a BNZ iff Z is false, with target the branch's own `pc + imm`; Z is the
architectural `z_flag` in variant A and the `z_flag` of the EX latch in variant B.  A taken
branch sets `buffer` to the target and invokes `control_flow` (`branch_to`; the sums are C
`int` sums).  A BZ or BNZ that is not taken only has the EX latch copied into MEM: the
architectural `pc` and the DRF and Fetch latches are as before. -/
theorem execute_resolves_control_flow (cpu : APEX_CPU) (hb : cpu.EX.busy = false)
    (hs : cpu.EX.stalled = false) :
    ((cpu.EX.opcode = .JUMP →
        PartA.execute cpu
          = some (PartA.branch_to cpu (wrap32 (cpu.EX.rs1_value + cpu.EX.imm)))) ∧
      (cpu.EX.opcode = .BZ → cpu.z_flag = true →
        PartA.execute cpu = some (PartA.branch_to cpu (wrap32 (cpu.EX.pc + cpu.EX.imm)))) ∧
      (cpu.EX.opcode = .BNZ → cpu.z_flag = false →
        PartA.execute cpu = some (PartA.branch_to cpu (wrap32 (cpu.EX.pc + cpu.EX.imm)))) ∧
      (cpu.EX.opcode = .BZ → cpu.z_flag = false →
        PartA.execute cpu = some { cpu with MEM := cpu.EX }) ∧
      (cpu.EX.opcode = .BNZ → cpu.z_flag = true →
        PartA.execute cpu = some { cpu with MEM := cpu.EX })) ∧
    ((cpu.EX.opcode = .JUMP →
        PartB.execute cpu
          = some (PartB.branch_to cpu (wrap32 (cpu.EX.rs1_value + cpu.EX.imm)))) ∧
      (cpu.EX.opcode = .BZ → cpu.EX.z_flag = true →
        PartB.execute cpu = some (PartB.branch_to cpu (wrap32 (cpu.EX.pc + cpu.EX.imm)))) ∧
      (cpu.EX.opcode = .BNZ → cpu.EX.z_flag = false →
        PartB.execute cpu = some (PartB.branch_to cpu (wrap32 (cpu.EX.pc + cpu.EX.imm)))) ∧
      (cpu.EX.opcode = .BZ → cpu.EX.z_flag = false →
        PartB.execute cpu = some { cpu with MEM := cpu.EX }) ∧
      (cpu.EX.opcode = .BNZ → cpu.EX.z_flag = true →
        PartB.execute cpu = some { cpu with MEM := cpu.EX })) := by
  have idle : ∀ (z : Bool), ex_taken cpu.EX z = false →
      (cpu.EX.opcode = .BZ ∨ cpu.EX.opcode = .BNZ) →
      ex_fault cpu.EX = false ∧
      ({ cpu with
          DRF := { cpu.DRF with stalled := cpu.DRF.stalled || decide (cpu.EX.opcode = .MUL) }
          EX := { ex_done cpu.EX z with
                  stalled := decide (cpu.EX.opcode = .MUL) || decide (cpu.EX.opcode = .HALT) }
          MEM := if cpu.EX.opcode = .MUL then { cpu.MEM with opcode := .BUBBLE, pc := 0 }
                 else ex_done cpu.EX z } : APEX_CPU) = { cpu with MEM := cpu.EX } := by
    intro z ht ho
    rcases cpu with ⟨clock, pc, regs, rv, F, DRF, EX, MEM, WB, cm, cms, dm, ic, zf, zv, ec, out⟩
    rcases EX with ⟨wpc, wop, wrs1, wrs2, wrd, wimm, wv1, wv2, wbuf, wma, wbusy, wst, wz⟩
    simp only at hs ho ht
    subst hs
    rcases ho with ho | ho <;> subst ho <;> cases z <;>
      simp [ex_taken] at ht <;> simp [ex_fault, ex_done, ex_buffer, ex_addr]
  have straightA : (cpu.EX.opcode = .BZ ∨ cpu.EX.opcode = .BNZ) →
      ex_taken cpu.EX cpu.z_flag = false →
      PartA.execute cpu = some { cpu with MEM := cpu.EX } := by
    intro ho ht
    rw [PartA.execute_straight cpu hb hs ht, (idle _ ht ho).1]
    simp only [Bool.false_eq_true, if_false]
    rw [(idle _ ht ho).2]
  have straightB : (cpu.EX.opcode = .BZ ∨ cpu.EX.opcode = .BNZ) →
      ex_taken cpu.EX cpu.EX.z_flag = false →
      PartB.execute cpu = some { cpu with MEM := cpu.EX } := by
    intro ho ht
    rw [PartB.execute_straight_B cpu hb hs ht, (idle _ ht ho).1]
    simp only [Bool.false_eq_true, if_false]
    rw [(idle _ ht ho).2]
  have takenA : ∀ t, ex_taken cpu.EX cpu.z_flag = true → ex_buffer cpu.EX cpu.z_flag = t →
      PartA.execute cpu = some (PartA.branch_to cpu t) := by
    intro t ht hbuf
    rw [PartA.execute_branch cpu hb hs ht, hbuf]
    rfl
  have takenB : ∀ t, ex_taken cpu.EX cpu.EX.z_flag = true →
      ex_buffer cpu.EX cpu.EX.z_flag = t →
      PartB.execute cpu = some (PartB.branch_to cpu t) := by
    intro t ht hbuf
    rw [PartB.execute_branch_B cpu hb hs ht, hbuf]
    rfl
  refine ⟨⟨fun h => ?_, fun h z => ?_, fun h z => ?_, fun h z => ?_, fun h z => ?_⟩,
    ⟨fun h => ?_, fun h z => ?_, fun h z => ?_, fun h z => ?_, fun h z => ?_⟩⟩
  · exact takenA _ (by simp [ex_taken, h]) (by simp [ex_buffer, h])
  · exact takenA _ (by simp [ex_taken, h, z]) (by simp [ex_buffer, h, z])
  · exact takenA _ (by simp [ex_taken, h, z]) (by simp [ex_buffer, h, z])
  · exact straightA (Or.inl h) (by simp [ex_taken, h, z])
  · exact straightA (Or.inr h) (by simp [ex_taken, h, z])
  · exact takenB _ (by simp [ex_taken, h]) (by simp [ex_buffer, h])
  · exact takenB _ (by simp [ex_taken, h, z]) (by simp [ex_buffer, h, z])
  · exact takenB _ (by simp [ex_taken, h, z]) (by simp [ex_buffer, h, z])
  · exact straightB (Or.inl h) (by simp [ex_taken, h, z])
  · exact straightB (Or.inr h) (by simp [ex_taken, h, z])

theorem execute_resolves_control_flow_witness :
    PartA.jump_state.EX.opcode = .JUMP ∧ PartA.jump_state.EX.rs1_value = 0 ∧
    PartA.jump_state.EX.imm = 4008 ∧
    PartA.execute PartA.jump_state
      = some (PartA.branch_to PartA.jump_state
          (wrap32 (PartA.jump_state.EX.rs1_value + PartA.jump_state.EX.imm))) ∧
    (PartA.branch_to PartA.jump_state 4008).pc = 4008 :=
  ⟨rfl, rfl, rfl, (execute_resolves_control_flow PartA.jump_state rfl rfl).1.1 rfl, rfl⟩

/-- Claim C30 (both variants). For a live EX latch whose LOAD or STORE address lies in
`0..4096` (otherwise Execute ends the process), Execute returns a state in which `buffer` is
`imm` for MOVC, `rs1_value + rs2_value` for ADD, `rs1_value - rs2_value` for SUB,
`rs1_value * rs2_value` for MUL (C `int` arithmetic: 32-bit wrap-around), the bitwise
AND / OR / XOR of `rs1_value` and `rs2_value` for AND / OR / EX-OR, and `mem_address` is
`rs1_value + imm` for LOAD and `rs2_value + imm` for STORE; the register file, the Z flag and
data memory are as before, and for every opcode other than MUL the MEM latch is the
resulting EX latch (copied before a HALT marks the EX latch stalled). -/
theorem execute_computes (cpu : APEX_CPU) (hb : cpu.EX.busy = false)
    (hs : cpu.EX.stalled = false)
    (hl : cpu.EX.opcode = .LOAD →
      0 ≤ wrap32 (cpu.EX.rs1_value + cpu.EX.imm) ∧ wrap32 (cpu.EX.rs1_value + cpu.EX.imm) ≤ 4096)
    (hst : cpu.EX.opcode = .STORE →
      0 ≤ wrap32 (cpu.EX.rs2_value + cpu.EX.imm) ∧ wrap32 (cpu.EX.rs2_value + cpu.EX.imm) ≤ 4096) :
    (∃ c, PartA.execute cpu = some c ∧ execute_post cpu c) ∧
    (∃ c, PartB.execute cpu = some c ∧ execute_post cpu c) := by
  have hf : ex_fault cpu.EX = false := by
    unfold ex_fault ex_addr
    by_cases h1 : cpu.EX.opcode = .STORE
    · have := hst h1
      simp [h1]
      omega
    · by_cases h2 : cpu.EX.opcode = .LOAD
      · have := hl h2
        simp [h2]
        omega
      · simp [h1, h2]
  exact ⟨PartA.execute_post_holds cpu hb hs hf, PartB.execute_post_holds_B cpu hb hs hf⟩

theorem execute_computes_witness :
    PartA.movc_state.EX.opcode = .MOVC ∧ PartA.movc_state.EX.imm = 3 ∧
    (∃ c, PartA.execute PartA.movc_state = some c ∧ execute_post PartA.movc_state c) ∧
    (∃ c, PartB.execute PartA.movc_state = some c ∧ execute_post PartA.movc_state c) :=
  ⟨rfl, rfl,
   execute_computes PartA.movc_state rfl rfl
     (fun h => Opcode.noConfusion
       ((show PartA.movc_state.EX.opcode = .MOVC from rfl).symm.trans h))
     (fun h => Opcode.noConfusion
       ((show PartA.movc_state.EX.opcode = .MOVC from rfl).symm.trans h))⟩

end APEX

namespace APEX

/-- Counterexample to claim C31 as stated (both variants), program `HALT`: after three cycles
the HALT is in a live MEM latch; the Memory stage copies it into WB and then sets the stalled
bit of the MEM latch, so for this opcode, which is neither STORE nor LOAD, the MEM latch is
not as it was. -/
theorem memory_marks_HALT_stalled :
    (PartA.halt_state.MEM.opcode, PartA.halt_state.MEM.busy, PartA.halt_state.MEM.stalled)
      = (.HALT, false, false) ∧
    (PartA.memory PartA.halt_state).map (fun m => (m.MEM.opcode, m.MEM.stalled))
      = some (.HALT, true) ∧
    (PartB.halt_state.MEM.opcode, PartB.halt_state.MEM.busy, PartB.halt_state.MEM.stalled)
      = (.HALT, false, false) ∧
    (PartB.memory PartB.halt_state).map (fun m => (m.MEM.opcode, m.MEM.stalled))
      = some (.HALT, true) :=
  ⟨rfl, rfl, rfl, rfl⟩

/-- Claim C31, amended (both variants). For a non-busy, non-stalled MEM latch whose
`mem_address`, if it holds a STORE or a LOAD, lies inside the array `data_memory`
(`0 .. 4095`), the Memory stage of either variant leaves the same state `m`: on STORE it
writes `data_memory[mem_address] = rs1_value` and leaves every other memory word and the
latch as they are; on LOAD it sets `buffer = data_memory[mem_address]` without changing
memory; for every other opcode it changes neither memory nor the latch, except that for HALT
it sets the stalled bit of the MEM latch.  In all cases the MEM latch is copied into WB
(before the stalled bit of a HALT is set), and the register file, the Z flag and `pc` are as
before. -/
theorem memory_effect (cpu : APEX_CPU) (hb : cpu.MEM.busy = false)
    (hs : cpu.MEM.stalled = false) (hin : mem_in_bounds cpu.MEM) :
    ∃ m, PartA.memory cpu = some m ∧ PartB.memory cpu = some m ∧
    (cpu.MEM.opcode = .STORE →
      m.data_memory cpu.MEM.mem_address = cpu.MEM.rs1_value ∧
      (∀ a, a ≠ cpu.MEM.mem_address → m.data_memory a = cpu.data_memory a) ∧
      m.MEM = cpu.MEM) ∧
    (cpu.MEM.opcode = .LOAD →
      m.data_memory = cpu.data_memory ∧
      m.MEM = { cpu.MEM with buffer := cpu.data_memory cpu.MEM.mem_address }) ∧
    (cpu.MEM.opcode ≠ .STORE → cpu.MEM.opcode ≠ .LOAD →
      m.data_memory = cpu.data_memory ∧
      m.MEM = { cpu.MEM with stalled := decide (cpu.MEM.opcode = .HALT) } ∧
      (cpu.MEM.opcode ≠ .HALT → m.MEM = cpu.MEM)) ∧
    m.WB = { m.MEM with stalled := false } ∧
    m.regs = cpu.regs ∧ m.z_flag = cpu.z_flag ∧ m.pc = cpu.pc := by
  have ho := PartA.oob_of_bounds cpu hin
  refine ⟨mem_step cpu, PartA.memory_some cpu ho, PartB.memory_some_B cpu ho, ?_⟩
  rw [PartA.memory_live cpu hb hs]
  rcases cpu with ⟨clock, pc, regs, rv, F, DRF, EX, MEM, WB, cm, cms, dm, ic, z, zv, ec, out⟩
  rcases MEM with ⟨wpc, wop, wrs1, wrs2, wrd, wimm, wv1, wv2, wbuf, wma, wbusy, wst, wz⟩
  simp only at hb hs
  subst hb hs
  refine ⟨fun h => ?_, fun h => ?_, fun h1 h2 => ?_, ?_, rfl, rfl, rfl⟩
  · simp only at h
    subst h
    refine ⟨by simp [write], fun a ha => by simp [write, ha], by simp [mem_done]⟩
  · simp only at h
    subst h
    exact ⟨by simp, by simp [mem_done]⟩
  · simp only at h1 h2
    refine ⟨by simp [h1], by simp [mem_done, h2], fun h3 => ?_⟩
    simp only at h3
    simp [mem_done, h2, h3]
  · simp [mem_done]

theorem memory_effect_witness :
    (PartA.store_8_state.MEM.opcode, PartA.store_8_state.MEM.mem_address,
      PartA.store_8_state.MEM.rs1_value) = (.STORE, 8, 7) ∧
    (PartB.store_8_state.MEM.opcode, PartB.store_8_state.MEM.mem_address,
      PartB.store_8_state.MEM.rs1_value) = (.STORE, 8, 7) ∧
    (∃ m, PartA.memory PartA.store_8_state = some m ∧
      m.data_memory PartA.store_8_state.MEM.mem_address = PartA.store_8_state.MEM.rs1_value ∧
      m.WB = { m.MEM with stalled := false } ∧ m.regs = PartA.store_8_state.regs) ∧
    (∃ m, PartB.memory PartB.store_8_state = some m ∧
      m.data_memory PartB.store_8_state.MEM.mem_address = PartB.store_8_state.MEM.rs1_value ∧
      m.WB = { m.MEM with stalled := false } ∧ m.regs = PartB.store_8_state.regs) :=
  ⟨rfl, rfl,
   (memory_effect PartA.store_8_state rfl rfl (fun _ => ⟨by decide, by decide⟩)).elim
     (fun m h => ⟨m, h.1, (h.2.2.1 rfl).1, h.2.2.2.2.2.1, h.2.2.2.2.2.2.1⟩),
   (memory_effect PartB.store_8_state rfl rfl (fun _ => ⟨by decide, by decide⟩)).elim
     (fun m h => ⟨m, h.2.1, (h.2.2.1 rfl).1, h.2.2.2.2.2.1, h.2.2.2.2.2.2.1⟩)⟩

/-- Claim C33 fails in the code (both variants), program
`MOVC R1,#7; STORE R1,R0,#4096; HALT`: the address `0 + 4096` passes the range test of
Execute, which faults only above 4096, and the STORE reaches a live MEM latch with
`mem_address = 4096` (after six cycles in variant A, four in variant B); the Memory stage
then indexes `data_memory`, an array of 4096 words, with 4096: the access is outside the
array, the stage has no defined outcome, and neither has the run. -/
theorem STORE_reaches_word_4096 :
    PartA.cycles 6 (PartA.initial prog_STORE_4096 100 blank) = some PartA.store_4096_state ∧
    (PartA.store_4096_state.MEM.opcode, PartA.store_4096_state.MEM.busy,
      PartA.store_4096_state.MEM.stalled, PartA.store_4096_state.MEM.mem_address,
      PartA.store_4096_state.MEM.rs1_value) = (.STORE, false, false, 4096, 7) ∧
    ¬ PartA.store_4096_state.MEM.mem_address < DATA_MEMORY_SIZE ∧
    ex_fault PartA.store_4096_state.MEM = false ∧
    PartA.memory (PartA.writeback PartA.store_4096_state) = none ∧
    PartA.APEX_cpu_run 30 (PartA.initial prog_STORE_4096 100 blank) = .undefined ∧
    PartB.cycles 4 (PartB.initial prog_STORE_4096 100 blank) = some PartB.store_4096_state ∧
    (PartB.store_4096_state.MEM.opcode, PartB.store_4096_state.MEM.busy,
      PartB.store_4096_state.MEM.stalled, PartB.store_4096_state.MEM.mem_address,
      PartB.store_4096_state.MEM.rs1_value) = (.STORE, false, false, 4096, 7) ∧
    ¬ PartB.store_4096_state.MEM.mem_address < DATA_MEMORY_SIZE ∧
    ex_fault PartB.store_4096_state.MEM = false ∧
    PartB.memory (PartB.writeback PartB.store_4096_state) = none ∧
    PartB.APEX_cpu_run 30 (PartB.initial prog_STORE_4096 100 blank) = .undefined :=
  ⟨rfl, rfl, by rw [show PartA.store_4096_state.MEM.mem_address = 4096 from rfl]; decide,
   rfl, rfl, rfl, rfl, rfl,
   by rw [show PartB.store_4096_state.MEM.mem_address = 4096 from rfl]; decide, rfl, rfl, rfl⟩

end APEX

